import Mathlib

/-!
# A shallow embedding of the block device, inode and filesystem layers

Sources: `src/block_device.h`, `src/inode.h`, `src/fs.h`.

Conventions of the embedding.

* A C integer is the natural number of its two's complement bit pattern
  (`int64`/`uint64`: below `2^64`, `int`: below `2^32`); narrowing and
  wrap-around are written out with `%`.
* `ASSERT` is the release build: it does nothing, the explicit `if` that
  follows it in the source decides.
* The host file is a regular POSIX file: `lseek` to a negative offset fails
  with `-1` and leaves the position alone, `read` past the end is short,
  `write` past the end extends the file with zero bytes in the gap.
* A caller's buffer is a list of bytes; bytes past the end of the list read
  as `0`. An `int` offset or size that a caller passes is not negative.
* `Except Abort` is used where the C code has no defined result:
  a loop that never exits, or an index outside the inode's direct table.
-/

namespace Fs

/-! ## Bytes and little-endian integers -/

/-- The `n` bytes of `x` in host (little-endian) order. -/
def le_encode (n x : Nat) : List Nat :=
  (List.range n).map (fun i => x / 256 ^ i % 256)

/-- The integer stored in a little-endian byte sequence. -/
def le_decode (bytes : List Nat) : Nat :=
  bytes.foldr (fun b acc => b % 256 + 256 * acc) 0

/-- The `n` bytes at `mem + start` of a caller's buffer. -/
def mem_bytes (mem : List Nat) (start n : Nat) : List Nat :=
  (List.range n).map (fun i => mem.getD (start + i) 0)

/-- Stores `bytes` at `mem + start` in a caller's buffer. -/
def mem_store (mem : List Nat) (start : Nat) (bytes : List Nat) : List Nat :=
  mem.take start ++ bytes ++ mem.drop (start + bytes.length)

/-- Modelled from the spec: `memzero` of `basic.h`, a header that is not among
the sources; `memzero(mem, n)` sets the first `n` bytes of a buffer to zero
(the spec: "zero-fill the skipped-positions span"). -/
def memzero (mem : List Nat) (n : Nat) : List Nat :=
  List.replicate (min n mem.length) 0 ++ mem.drop n

/-! ## The host file -/

/-- The regular file behind `device_id`: length, descriptor position, bytes. -/
structure HostFile where
  size : Nat
  pos : Nat
  data : Nat → Nat

/-- The byte at absolute offset `a`; offsets past the end hold no data. -/
def HostFile.byte (h : HostFile) (a : Nat) : Nat :=
  if a < h.size then h.data a else 0

/-- A new, empty host file. -/
def HostFile.empty : HostFile := { size := 0, pos := 0, data := fun _ => 0 }

/-- The value of `int off = pid*device->block_size + offset`: the 64-bit
sum narrowed to a 32-bit `int` (bit pattern). -/
def int_off (pid block_size offset : Nat) : Nat :=
  (pid * block_size + offset) % 2 ^ 32

/-- Models `succ = lseek(fd, off, SEEK_SET)` with the test `succ != off`:
the new descriptor state and whether the code goes on. A negative `off`
(pattern at least `2^31`) makes `lseek` return `-1` without moving; the test
lets that pass exactly when `off` is `-1` itself. -/
def host_lseek (h : HostFile) (off : Nat) : HostFile × Bool :=
  if off < 2 ^ 31 then ({ h with pos := off }, true)
  else (h, off == 2 ^ 32 - 1)

/-- Models `read(fd, buffer, n)`: the bytes delivered (fewer than `n` at end
of file) and the advanced position. -/
def host_read (h : HostFile) (n : Nat) : HostFile × List Nat :=
  let k := min n (h.size - h.pos)
  ({ h with pos := h.pos + k }, (List.range k).map (fun i => h.data (h.pos + i)))

/-- Models `write(fd, buffer, n)` at the current position. -/
def host_write (h : HostFile) (buf : List Nat) : HostFile :=
  { size := max h.size (h.pos + buf.length)
    pos := h.pos + buf.length
    data := fun a =>
      if h.pos ≤ a ∧ a < h.pos + buf.length then buf.getD (a - h.pos) 0 else h.byte a }

/-- Models `ftruncate(fd, len)` for a length that fits `off_t`. -/
def host_ftruncate (h : HostFile) (len : Nat) : HostFile :=
  { size := len, pos := h.pos, data := fun a => h.byte a }

/-! ## `block_device.h` -/

/-- The struct `MasterBlock`. -/
structure MasterBlock where
  cookie : Nat
  first_unused_block : Nat
  last_block : Nat

/-- The struct `BlockDevice`; `host` is the file that `device_id` names. -/
structure BlockDevice where
  host : HostFile
  master : MasterBlock
  block_size : Nat
  blocks_total : Nat

/-- `sizeof(BlockPid)`. -/
def SIZEOF_BLOCKPID : Nat := 8

/-- `sizeof(device->persistent_data)`: three 8-byte master fields, the 4-byte
`block_size`, 4 bytes of alignment, the 8-byte `blocks_total`. -/
def SIZEOF_PERSISTENT_DATA : Nat := 40

/-- `BLOCK_SIZE_MIN`, that is `sizeof(BlockDevice)`. -/
def BLOCK_SIZE_MIN : Nat := 48

/-- Models `device_create` on the host file that `open(..., O_CREAT)` returned.
`ftruncate` takes the product modulo `2^64` as a signed length and fails on a
negative one. -/
def device_create (host : HostFile) (block_size blocks_total : Nat) : Option BlockDevice :=
  let len := block_size * blocks_total % 2 ^ 64
  if 2 ^ 63 ≤ len then none
  else some
    { host := host_ftruncate { host with pos := 0 } len
      master := { cookie := 1234567890, first_unused_block := 0, last_block := 1 }
      block_size := block_size
      blocks_total := blocks_total }

/-- Models `block_read`: success flag and the bytes delivered. -/
def block_read (device : BlockDevice) (pid : Nat) : BlockDevice × Bool × List Nat :=
  if pid = 0 then (device, false, [])
  else
    let off := int_off pid device.block_size 0
    let s := host_lseek device.host off
    if !s.2 then ({ device with host := s.1 }, false, [])
    else
      let r := host_read s.1 device.block_size
      ({ device with host := r.1 }, r.2.length == device.block_size, r.2)

/-- Models `block_reads_m`. -/
def block_reads_m (device : BlockDevice) (pid offset buffer_size : Nat) :
    BlockDevice × Bool × List Nat :=
  if buffer_size = 0 then (device, true, [])
  else
    let off := int_off pid device.block_size offset
    let s := host_lseek device.host off
    if !s.2 then ({ device with host := s.1 }, false, [])
    else
      let r := host_read s.1 buffer_size
      ({ device with host := r.1 }, r.2.length == buffer_size, r.2)

/-- Models `block_reads`. -/
def block_reads (device : BlockDevice) (pid offset buffer_size : Nat) :
    BlockDevice × Bool × List Nat :=
  if pid ≠ 0 ∧ offset + buffer_size ≤ device.block_size then
    block_reads_m device pid offset buffer_size
  else (device, false, [])

/-- Models `block_write`; `buffer` holds the `block_size` bytes to store. -/
def block_write (device : BlockDevice) (pid : Nat) (buffer : List Nat) : BlockDevice × Bool :=
  if pid = 0 then (device, false)
  else
    let off := int_off pid device.block_size 0
    let s := host_lseek device.host off
    if !s.2 then ({ device with host := s.1 }, false)
    else ({ device with host := host_write s.1 (mem_bytes buffer 0 device.block_size) }, true)

/-- Models `block_writes_m`. -/
def block_writes_m (device : BlockDevice) (pid offset : Nat) (buffer : List Nat)
    (buffer_size : Nat) : BlockDevice × Bool :=
  if buffer_size = 0 then (device, true)
  else
    let off := int_off pid device.block_size offset
    let s := host_lseek device.host off
    if !s.2 then ({ device with host := s.1 }, false)
    else ({ device with host := host_write s.1 (mem_bytes buffer 0 buffer_size) }, true)

/-- Models `block_writes`. -/
def block_writes (device : BlockDevice) (pid offset : Nat) (buffer : List Nat)
    (buffer_size : Nat) : BlockDevice × Bool :=
  if pid ≠ 0 ∧ offset + buffer_size ≤ device.block_size then
    block_writes_m device pid offset buffer buffer_size
  else (device, false)

/-- Models `block_free`. -/
def block_free (device : BlockDevice) (pid : Nat) : BlockDevice × Bool :=
  let w := block_writes device pid 0
    (le_encode 8 device.master.first_unused_block) SIZEOF_BLOCKPID
  if w.2 then
    ({ w.1 with master := { w.1.master with first_unused_block := pid } }, true)
  else (w.1, false)

/-- Models `block_alloc`: the device afterwards and the returned id (`0` on
failure). The comparison with `blocks_total` is unsigned. -/
def block_alloc (device : BlockDevice) : BlockDevice × Nat :=
  let block := device.master.first_unused_block
  if block ≠ 0 then
    let r := block_reads device block 0 SIZEOF_BLOCKPID
    if r.2.1 then
      ({ r.1 with master := { r.1.master with first_unused_block := le_decode r.2.2 } }, block)
    else (r.1, 0)
  else
    let block := device.master.last_block
    if device.blocks_total ≤ block then (device, 0)
    else ({ device with master := { device.master with last_block := block + 1 } }, block)

/-! ## `inode.h`: inode slots -/

/-- The two ways the C code has no result to give. -/
inductive Abort where
  | diverges
  | undefined
  deriving DecidableEq, Repr

/-- Modelled from the spec: the loop macros of `basic.h`, a header that is not
among the sources. `for_each_in_range(i, lo, hi)` visits `lo, lo+1, ..., hi`,
both ends included (the spec: promotion clears the direct table and keeps the
new block in slot 0; the calls pass `BLOCKS_PER_INODE - 1` as the upper end).
The other loop macros are written out where they are used: `for_each_lt(i, n)`
visits `0, ..., n-1`, `for_each_lt_bw(i, n)` visits `n-1, ..., 0`, and
`for_each_in_range_bw(i, lo, hi)` visits `hi, ..., lo` (the spec: the pids are
refreshed "starting from the highest digit that changed"). -/
def for_each_in_range (lo hi : Nat) : List Nat :=
  List.range' lo (hi + 1 - lo)

/-- `INODE_MASK`. -/
def INODE_MASK : Nat := 255

/-- `INODE_SHIFT`. -/
def INODE_SHIFT : Nat := 8

/-- `INODE_INVALID`. -/
def INODE_INVALID : Nat := 0

/-- `INODE_BUFFER`. -/
def INODE_BUFFER : Nat := 1

/-- `INODE_DIR`. -/
def INODE_DIR : Nat := 2

/-- `INODE_FILE`. -/
def INODE_FILE : Nat := 3

/-- `BLOCKS_PER_INODE`. -/
def BLOCKS_PER_INODE : Nat := 13

/-- `sizeof(INode)`: 8 + 2 + 2 + 4 + 8 + 13 * 8. -/
def SIZEOF_INODE : Nat := 128

/-- `sizeof(INodeAllocator)`: 8 + 4 and 4 bytes of alignment. -/
def SIZEOF_INODE_ALLOCATOR : Nat := 16

/-- `INODE_BLOCK_SIZE_MAX`. -/
def INODE_BLOCK_SIZE_MAX : Nat := (INODE_MASK + 1) * SIZEOF_INODE

/-- `INODE_BLOCK_SIZE_MIN`. -/
def INODE_BLOCK_SIZE_MIN : Nat := SIZEOF_INODE

/-- The struct `INode`; `blocks` is the direct table. -/
structure INode where
  pid : Nat
  level : Nat
  status : Nat
  padding : Nat
  mem_size : Nat
  blocks : List Nat

/-- The struct `INodeAllocator`. -/
structure INodeAllocator where
  next_inode : Nat
  inodes_per_block : Nat

/-- `pid >> INODE_SHIFT` on a signed 64-bit value: the shift keeps the sign. -/
def inode_pid_block (pid : Nat) : Nat :=
  if pid < 2 ^ 63 then pid / 2 ^ INODE_SHIFT else pid / 2 ^ INODE_SHIFT + (2 ^ 64 - 2 ^ 56)

/-- `pid & INODE_MASK`. -/
def inode_pid_slot (pid : Nat) : Nat := pid % (INODE_MASK + 1)

/-- The 128 bytes of an `INode` record. -/
def inode_bytes (inode : INode) : List Nat :=
  le_encode 8 inode.pid ++ le_encode 2 inode.level ++ le_encode 2 inode.status ++
    le_encode 4 inode.padding ++ le_encode 8 inode.mem_size ++
    (List.range BLOCKS_PER_INODE).flatMap (fun i => le_encode 8 (inode.blocks.getD i 0))

/-- The `INode` record held in 128 bytes. -/
def inode_of_bytes (b : List Nat) : INode :=
  { pid := le_decode (mem_bytes b 0 8)
    level := le_decode (mem_bytes b 8 2)
    status := le_decode (mem_bytes b 10 2)
    padding := le_decode (mem_bytes b 12 4)
    mem_size := le_decode (mem_bytes b 16 8)
    blocks := (List.range BLOCKS_PER_INODE).map (fun i => le_decode (mem_bytes b (24 + 8 * i) 8)) }

/-- The loop of `inode_alloc` that threads the freelist through the slots of a
fresh block: the device, whether every write succeeded, and the final `i`.
`inodes_per_block` is a signed `int`: a pattern from `2^31` on is negative and
ends the loop at once. -/
def inode_alloc_chain (block base_pid inodes_per_block : Nat) :
    Nat → Nat → BlockDevice → BlockDevice × Bool × Nat
  | 0, i, device => (device, true, i)
  | fuel + 1, i, device =>
    if i + 1 < inodes_per_block ∧ inodes_per_block < 2 ^ 31 then
      let w := block_writes device block (i * SIZEOF_INODE)
        (le_encode 8 (base_pid ||| (i + 1))) 8
      if w.2 then inode_alloc_chain block base_pid inodes_per_block fuel (i + 1) w.1
      else (w.1, false, i)
    else (device, true, i)

/-- Models `inode_alloc`: device, allocator and the returned id (`0` on failure). -/
def inode_alloc (device : BlockDevice) (allocator : INodeAllocator) :
    BlockDevice × INodeAllocator × Nat :=
  let ret_inode := allocator.next_inode
  if ret_inode ≠ 0 then
    let inode_i := inode_pid_slot ret_inode
    let block := inode_pid_block ret_inode
    let r := block_reads device block (inode_i * SIZEOF_INODE) 8
    if r.2.1 then (r.1, { allocator with next_inode := le_decode r.2.2 }, ret_inode)
    else (r.1, allocator, 0)
  else
    let a := block_alloc device
    let block := a.2
    if block = 0 then (a.1, allocator, 0)
    else
      let base_pid := block * 2 ^ INODE_SHIFT % 2 ^ 64
      let c := inode_alloc_chain block base_pid allocator.inodes_per_block
        allocator.inodes_per_block 1 a.1
      if !c.2.1 then ((block_free c.1 block).1, allocator, 0)
      else
        let w := block_writes c.1 block (c.2.2 * SIZEOF_INODE) (le_encode 8 0) 8
        if !w.2 then ((block_free w.1 block).1, allocator, 0)
        else (w.1, { allocator with next_inode := base_pid ||| 1 }, base_pid)

/-- Models `inode_free`. -/
def inode_free (device : BlockDevice) (allocator : INodeAllocator) (pid : Nat) :
    BlockDevice × INodeAllocator × Bool :=
  let inode_i := inode_pid_slot pid
  let block := inode_pid_block pid
  let w := block_writes device block (inode_i * SIZEOF_INODE)
    (le_encode 8 allocator.next_inode) 8
  if w.2 then (w.1, { allocator with next_inode := pid }, true)
  else (w.1, allocator, false)

/-- Models `inode_initfs`. -/
def inode_initfs (block_size : Nat) : INodeAllocator :=
  { next_inode := 0, inodes_per_block := block_size / SIZEOF_INODE }

/-- The 16 bytes of an `INodeAllocator`. -/
def allocator_bytes (allocator : INodeAllocator) : List Nat :=
  le_encode 8 allocator.next_inode ++ le_encode 4 allocator.inodes_per_block ++ le_encode 4 0

/-- Models `inode_mountfs`; a short read leaves the old fields where no byte came. -/
def inode_mountfs (device : BlockDevice) (allocator : INodeAllocator) :
    BlockDevice × Bool × INodeAllocator :=
  let r := block_reads_m device 0 SIZEOF_PERSISTENT_DATA SIZEOF_INODE_ALLOCATOR
  let b := mem_store (allocator_bytes allocator) 0 r.2.2
  (r.1, r.2.1,
    { next_inode := le_decode (mem_bytes b 0 8), inodes_per_block := le_decode (mem_bytes b 8 4) })

/-- Models `inode_unmountfs`. -/
def inode_unmountfs (device : BlockDevice) (allocator : INodeAllocator) : BlockDevice × Bool :=
  block_writes_m device 0 SIZEOF_PERSISTENT_DATA (allocator_bytes allocator)
    SIZEOF_INODE_ALLOCATOR

/-- The loop of `inode_get_required_level`, `capacity` being a `uint64`. -/
def inode_get_required_level_loop (block_base mem_size : Nat) :
    Nat → Nat → Nat → Except Abort Nat
  | 0, _, _ => .error .diverges
  | fuel + 1, capacity, level =>
    if capacity < mem_size then
      inode_get_required_level_loop block_base mem_size fuel
        (capacity * block_base % 2 ^ 64) (level + 1)
    else .ok level

/-- The first value of `capacity` in `inode_get_required_level`:
`uint64 capacity = BLOCKS_PER_INODE*block_size;` multiplies two `int`, so the
product is made in 32 bits (taken to wrap where it overflows) and then widened
to `uint64` with its sign. It is `13 * block_size` for every `block_size`
below 165191050. -/
def required_level_start (block_size : Nat) : Nat :=
  let p := BLOCKS_PER_INODE * block_size % 2 ^ 32
  if p < 2 ^ 31 then p else p + (2 ^ 64 - 2 ^ 32)

/-- Models `inode_get_required_level`. The capacity takes one of `2^64` values
and decides the next one, so a loop that has not left after `2^64` rounds
never leaves: that case is `Abort.diverges`. -/
def inode_get_required_level (mem_size block_size : Nat) : Except Abort Nat :=
  inode_get_required_level_loop (block_size / SIZEOF_BLOCKPID) mem_size (2 ^ 64)
    (required_level_start block_size) 0

/-- Models `inode_save`. -/
def inode_save (device : BlockDevice) (inode : INode) : BlockDevice × Bool :=
  block_writes device (inode_pid_block inode.pid) (inode_pid_slot inode.pid * SIZEOF_INODE)
    (inode_bytes inode) SIZEOF_INODE

/-- Models `inode_restore` into the record `inode`; a short read overwrites
only the bytes that came. -/
def inode_restore (device : BlockDevice) (pid : Nat) (inode : INode) :
    BlockDevice × Bool × INode :=
  let r := block_reads device (inode_pid_block pid) (inode_pid_slot pid * SIZEOF_INODE)
    SIZEOF_INODE
  if r.2.2.length = 0 then (r.1, r.2.1, inode)
  else (r.1, r.2.1, inode_of_bytes (mem_store (inode_bytes inode) 0 r.2.2))

/-- Models `inode_create`; the result of `inode_save` is not looked at. -/
def inode_create (device : BlockDevice) (allocator : INodeAllocator) (mem_size : Nat)
    (inode : INode) : Except Abort (BlockDevice × INodeAllocator × Bool × INode) :=
  let a := inode_alloc device allocator
  if a.2.2 = 0 then .ok (a.1, a.2.1, false, inode)
  else do
    let level ← inode_get_required_level mem_size a.1.block_size
    let inode1 : INode :=
      { inode with
        pid := a.2.2, level := level % 2 ^ 16, status := INODE_BUFFER, mem_size := mem_size
        blocks := List.replicate BLOCKS_PER_INODE 0 }
    pure ((inode_save a.1 inode1).1, a.2.1, true, inode1)

/-- The `for_each_lt(i, block_size/sizeof(BlockPid))` loop of `free_all`, with
the recursive call passed as `rec`. -/
def free_all_children (rec : BlockDevice → Nat → BlockDevice × Bool) (pid : Nat) :
    Nat → Nat → BlockDevice → BlockDevice × Bool
  | 0, _, device => (device, true)
  | n + 1, i, device =>
    let r := block_reads device pid (i * SIZEOF_BLOCKPID) 8
    if !r.2.1 then (r.1, false)
    else
      let g := rec r.1 (le_decode r.2.2)
      if !g.2 then (g.1, false)
      else free_all_children rec pid n (i + 1) g.1

/-- Models `free_all`, by recursion on `level`. -/
def free_all : Nat → BlockDevice → Nat → BlockDevice × Bool
  | 0, device, pid => if pid ≠ 0 then block_free device pid else (device, true)
  | level + 1, device, pid =>
    if pid ≠ 0 then
      let c := free_all_children (free_all level) pid
        (device.block_size / SIZEOF_BLOCKPID) 0 device
      if !c.2 then (c.1, false) else block_free c.1 pid
    else (device, true)

/-- The loop of `inode_destroy` over the direct table, from slot `i` on. -/
def inode_destroy_loop : Nat → Nat → BlockDevice → INode → BlockDevice × INode × Bool
  | 0, _, device, inode => (device, inode, true)
  | n + 1, i, device, inode =>
    let f := free_all inode.level device (inode.blocks.getD i 0)
    if !f.2 then (f.1, inode, false)
    else inode_destroy_loop n (i + 1) f.1 { inode with blocks := inode.blocks.set i 0 }

/-- Models `inode_destroy`. -/
def inode_destroy (device : BlockDevice) (allocator : INodeAllocator) (inode : INode) :
    BlockDevice × INodeAllocator × INode × Bool :=
  let l := inode_destroy_loop BLOCKS_PER_INODE 0 device inode
  if !l.2.2 then (l.1, allocator, l.2.1, false)
  else
    let inode1 := { l.2.1 with level := 0, status := INODE_INVALID, mem_size := 0 }
    let s := inode_save l.1 inode1
    let f := inode_free s.1 allocator inode1.pid
    (f.1, f.2.1, inode1, f.2.2)

/-! ## `inode.h`: the block tree -/

/-- Models `powi`. -/
def powi (base p : Nat) : Nat := base ^ p

/-- Models `alloc_block_pids`: the device and the new block id (`0` on failure). -/
def alloc_block_pids (device : BlockDevice) (above_pid pid_index : Nat) : BlockDevice × Nat :=
  let a := block_alloc device
  if a.2 = 0 then (a.1, 0)
  else
    let w := block_write a.1 a.2 (List.replicate a.1.block_size 0)
    if !w.2 then (w.1, 0)
    else if above_pid ≠ 0 then
      let w2 := block_writes w.1 above_pid (pid_index * SIZEOF_BLOCKPID) (le_encode 8 a.2) 8
      if !w2.2 then (w2.1, 0) else (w2.1, a.2)
    else (w.1, a.2)

/-- Models `get_block_pid`: device, success flag, and the value given to `*ret`. -/
def get_block_pid (device : BlockDevice) (above_pid pid_index : Nat) (alloc_if_missing : Bool) :
    BlockDevice × Bool × Nat :=
  if above_pid ≠ 0 then
    let r := block_reads device above_pid (pid_index * SIZEOF_BLOCKPID) 8
    if !r.2.1 then (r.1, false, 0)
    else
      let ret0 := le_decode r.2.2
      if alloc_if_missing ∧ ret0 = 0 then
        let a := alloc_block_pids r.1 above_pid pid_index
        if a.2 = 0 then (a.1, false, 0) else (a.1, true, a.2)
      else (r.1, true, ret0)
  else (device, true, 0)

/-- The enum `IncrementPathMode`. -/
inductive IncrementPathMode where
  | INC_PATH_WRITE
  | INC_PATH_READ
  | INC_PATH_FREE
  deriving DecidableEq, Repr

open IncrementPathMode

/-- Everything the path functions read and update: the device, the inode and
the two arrays `block_path` and `block_path_pids` (index 0 is the deepest). -/
structure PathState where
  device : BlockDevice
  inode : INode
  block_path : List Nat
  block_path_pids : List Nat

/-- How the digit loop of `increment_block_path` ends: the function returned
from inside it (`steps = 0` is failure), or it reached `break` with
`i = count - 1` and `bottom_most_unchanged_pid = pid`. -/
inductive CarryOutcome where
  | returned (st : PathState) (ret steps : Nat)
  | broke (st : PathState) (count pid blocks_stepped : Nat)

/-- The loop run when the largest path has been reached: for `j` from
`count - 1` down to `0`, free `block_path_pids[j]` in Free mode and zero it. -/
def increment_clear (mode : IncrementPathMode) : Nat → PathState → PathState × Bool
  | 0, st => (st, true)
  | j + 1, st =>
    if mode = INC_PATH_FREE then
      let f := block_free st.device (st.block_path_pids.getD j 0)
      if !f.2 then ({ st with device := f.1 }, false)
      else increment_clear mode j
        { st with device := f.1, block_path_pids := st.block_path_pids.set j 0 }
    else increment_clear mode j { st with block_path_pids := st.block_path_pids.set j 0 }

/-- The digit loop (the inner `while(1)`) of `increment_block_path`, at digit `i`. -/
def increment_carry (mode : IncrementPathMode) (level block_base blocks_stepped_max : Nat) :
    Nat → Nat → PathState → Nat → CarryOutcome
  | 0, _, st, _ => .returned st 0 0
  | fuel + 1, i, st, blocks_stepped =>
    if level ≤ i then
      if BLOCKS_PER_INODE ≤ st.block_path.getD i 0 + 1 then
        let c := increment_clear mode (i + 1) st
        if !c.2 then .returned c.1 0 0 else .returned c.1 0 blocks_stepped_max
      else
        let slot := st.block_path.getD level 0 + 1
        let pid0 := st.inode.blocks.getD slot 0
        let a := if mode = INC_PATH_WRITE ∧ pid0 = 0 then alloc_block_pids st.device 0 0
          else (st.device, pid0)
        let inode1 := if mode = INC_PATH_WRITE ∧ pid0 = 0
          then { st.inode with blocks := st.inode.blocks.set slot a.2 } else st.inode
        let f := if mode = INC_PATH_FREE ∧ st.block_path_pids.getD level 0 ≠ 0
          then block_free a.1 (st.block_path_pids.getD level 0) else (a.1, true)
        let st1 : PathState :=
          { device := f.1, inode := inode1, block_path := st.block_path.set level slot
            block_path_pids := st.block_path_pids }
        if !f.2 then .returned st1 0 0
        else .broke { st1 with block_path_pids := st.block_path_pids.set level a.2 }
          level a.2 blocks_stepped
    else if block_base ≤ st.block_path.getD i 0 + 1 then
      increment_carry mode level block_base blocks_stepped_max fuel (i + 1)
        { st with block_path := st.block_path.set i 0 } blocks_stepped
    else
      let bottom_most_unchanged_pid := st.block_path_pids.getD (i + 1) 0
      let digit := st.block_path.getD i 0 + 1
      let st1 := { st with block_path := st.block_path.set i digit }
      if mode = INC_PATH_WRITE ∨ bottom_most_unchanged_pid ≠ 0 then
        .broke st1 (i + 1) bottom_most_unchanged_pid blocks_stepped
      else
        let stepped := blocks_stepped + (block_base - digit) * powi block_base i
        if blocks_stepped_max < stepped then .returned st1 0 blocks_stepped_max
        else increment_carry mode level block_base blocks_stepped_max fuel (i + 1)
          { st1 with block_path := st1.block_path.set i 0 } stepped

/-- The walk down the path after the digit loop: for `j` from `count - 1` down
to `0`, fetch the child of `pid` at `block_path[j]` and store it in
`block_path_pids[j]` (Free mode frees the id it replaces). -/
def increment_walk (mode : IncrementPathMode) : Nat → PathState → Nat → PathState × Bool
  | 0, st, _ => (st, true)
  | j + 1, st, pid =>
    let g := get_block_pid st.device pid (st.block_path.getD j 0) (mode == INC_PATH_WRITE)
    if !g.2.1 then ({ st with device := g.1 }, false)
    else
      let f := if mode = INC_PATH_FREE ∧ st.block_path_pids.getD j 0 ≠ 0
        then block_free g.1 (st.block_path_pids.getD j 0) else (g.1, true)
      if !f.2 then ({ st with device := f.1 }, false)
      else increment_walk mode j
        { st with device := f.1, block_path_pids := st.block_path_pids.set j g.2.2 } g.2.2

/-- The outer `while(1)` of `increment_block_path`: state, `*ret`, and the
returned step count (`0` is failure). Every further round has raised
`blocks_stepped`, which stays at most `blocks_stepped_max`, so
`blocks_stepped_max` rounds are all there can be. -/
def increment_rounds (mode : IncrementPathMode) (level block_base blocks_stepped_max : Nat) :
    Nat → PathState → Nat → PathState × Nat × Nat
  | 0, st, _ => (st, 0, blocks_stepped_max)
  | fuel + 1, st, blocks_stepped =>
    match increment_carry mode level block_base blocks_stepped_max (level + 1) 0 st
        blocks_stepped with
    | .returned st1 ret steps => (st1, ret, steps)
    | .broke st1 count pid stepped =>
      let w := increment_walk mode count st1 pid
      if !w.2 then (w.1, 0, 0)
      else if mode = INC_PATH_WRITE ∨ w.1.block_path_pids.getD 0 0 ≠ 0 then
        (w.1, w.1.block_path_pids.getD 0 0, stepped)
      else if blocks_stepped_max < stepped + 1 then (w.1, 0, blocks_stepped_max)
      else increment_rounds mode level block_base blocks_stepped_max fuel w.1 (stepped + 1)

/-- Models `increment_block_path`. -/
def increment_block_path (st : PathState) (mode : IncrementPathMode)
    (blocks_stepped_max : Nat) : PathState × Nat × Nat :=
  if blocks_stepped_max < 1 then (st, 0, blocks_stepped_max)
  else increment_rounds mode st.inode.level (st.device.block_size / SIZEOF_BLOCKPID)
    blocks_stepped_max blocks_stepped_max st 1

/-- The first loop of `get_block_path`: the `level` low digits of
`block_offset` in base `block_base`, and what is left of `block_offset`. -/
def get_block_path_digits (block_base : Nat) : Nat → Nat → List Nat × Nat
  | 0, block_offset => ([], block_offset)
  | n + 1, block_offset =>
    let r := get_block_path_digits block_base n (block_offset / block_base)
    (block_offset % block_base :: r.1, r.2)

/-- The last loop of `get_block_path`: for `i` from `count - 1` down to `0`,
fetch the child of `top_pid` at `block_path[i]` into `block_path_pids[i]`. -/
def get_block_path_walk (alloc : Bool) : Nat → PathState → Nat → PathState × Bool
  | 0, st, _ => (st, true)
  | i + 1, st, top_pid =>
    let g := get_block_pid st.device top_pid (st.block_path.getD i 0) alloc
    if !g.2.1 then ({ st with device := g.1 }, false)
    else get_block_path_walk alloc i
      { st with device := g.1, block_path_pids := st.block_path_pids.set i g.2.2 } g.2.2

/-- Models `get_block_path`. Dividing by a zero `block_base` and indexing the
direct table at 13 or beyond have no defined result. -/
def get_block_path (device : BlockDevice) (inode : INode) (block_offset : Nat)
    (mode : IncrementPathMode) : Except Abort (PathState × Bool) :=
  let level := inode.level
  let block_base := device.block_size / SIZEOF_BLOCKPID
  if 0 < level ∧ block_base = 0 then .error .undefined
  else
    let d := get_block_path_digits block_base level block_offset
    if BLOCKS_PER_INODE ≤ d.2 then .error .undefined
    else
      let pid0 := inode.blocks.getD d.2 0
      let a := if mode = INC_PATH_WRITE ∧ pid0 = 0 then alloc_block_pids device 0 0
        else (device, pid0)
      let inode1 := if mode = INC_PATH_WRITE ∧ pid0 = 0
        then { inode with blocks := inode.blocks.set d.2 a.2 } else inode
      let st : PathState :=
        { device := a.1, inode := inode1, block_path := d.1 ++ [d.2]
          block_path_pids := List.replicate level 0 ++ [a.2] }
      .ok (get_block_path_walk (mode == INC_PATH_WRITE) level st a.2)

/-- The `for_each_lt(_, new_level - inode->level - 1)` loop of
`inode_set_size`: device, success flag and the last `bottom_pid`. -/
def inode_set_size_promote : Nat → BlockDevice → Nat → BlockDevice × Bool × Nat
  | 0, device, bottom_pid => (device, true, bottom_pid)
  | n + 1, device, bottom_pid =>
    let a := alloc_block_pids device 0 0
    if a.2 = 0 then (a.1, false, bottom_pid)
    else
      let w := block_writes a.1 a.2 0 (le_encode 8 bottom_pid) 8
      if !w.2 then (w.1, false, bottom_pid)
      else inode_set_size_promote n w.1 a.2

/-- Models `inode_set_size`. -/
def inode_set_size (device : BlockDevice) (inode : INode) (mem_size : Nat) :
    Except Abort (BlockDevice × INode × Bool) :=
  if inode.mem_size < mem_size then do
    let new_level ← inode_get_required_level mem_size device.block_size
    if inode.level < new_level then
      let a := alloc_block_pids device 0 0
      if a.2 = 0 then pure (a.1, inode, false)
      else
        let w := block_writes a.1 a.2 0
          ((List.range BLOCKS_PER_INODE).flatMap (fun i => le_encode 8 (inode.blocks.getD i 0)))
          (BLOCKS_PER_INODE * SIZEOF_BLOCKPID)
        if !w.2 then pure (w.1, inode, false)
        else
          let p := inode_set_size_promote (new_level - inode.level - 1) w.1 a.2
          if !p.2.1 then pure (p.1, inode, false)
          else
            let blocks := (for_each_in_range 1 (BLOCKS_PER_INODE - 1)).foldl
              (fun b i => b.set i 0) (inode.blocks.set 0 p.2.2)
            pure (p.1,
              { inode with blocks := blocks, level := new_level % 2 ^ 16, mem_size := mem_size },
              true)
    else pure (device, { inode with mem_size := mem_size }, true)
  else if mem_size < inode.mem_size then
    pure (device, { inode with mem_size := mem_size }, true)
  else pure (device, inode, true)

/-- The `while(mem_left_size > 0)` loop of `inode_write`; `mem_left` is the
index in `mem` of the next byte to store. -/
def inode_write_loop (mem : List Nat) : Nat → PathState → Nat → Nat → PathState × Bool
  | 0, st, _, _ => (st, true)
  | fuel + 1, st, mem_left, mem_left_size =>
    if mem_left_size = 0 then (st, true)
    else
      let block_size := st.device.block_size
      let r := increment_block_path st INC_PATH_WRITE
        ((mem_left_size + block_size - 1) / block_size)
      if r.2.2 = 0 then (r.1, false)
      else if block_size ≤ mem_left_size then
        let w := block_write r.1.device r.2.1 (mem_bytes mem mem_left block_size)
        if !w.2 then ({ r.1 with device := w.1 }, false)
        else inode_write_loop mem fuel { r.1 with device := w.1 }
          (mem_left + block_size) (mem_left_size - block_size)
      else
        let w := block_writes r.1.device r.2.1 0 (mem_bytes mem mem_left mem_left_size)
          mem_left_size
        ({ r.1 with device := w.1 }, w.2)

/-- Models `inode_write` of `mem_size` bytes of `mem` at `mem_offset`. The
result of the inner `inode_set_size` is not looked at. -/
def inode_write (device : BlockDevice) (inode : INode) (mem_offset : Nat) (mem : List Nat)
    (mem_size : Nat) : Except Abort (BlockDevice × INode × Bool) :=
  let mem_end := (mem_offset + mem_size) % 2 ^ 64
  if mem_end < mem_size then pure (device, inode, false)
  else do
    let g ← if inode.mem_size < mem_end then inode_set_size device inode mem_end
      else pure (device, inode, true)
    if ¬ inode.mem_size < mem_end ∧ mem_size = 0 then pure (device, inode, false)
    else if mem_size = 0 then pure (g.1, g.2.1, true)
    else if g.1.block_size = 0 then throw .undefined
    else
      let block_size := g.1.block_size
      let internal_offset := mem_offset % block_size
      let block_offset := mem_offset / block_size
      let p ← get_block_path g.1 g.2.1 block_offset INC_PATH_WRITE
      if !p.2 then pure (p.1.device, p.1.inode, false)
      else
        let data_pid0 := p.1.block_path_pids.getD 0 0
        let write_size0 := block_size - internal_offset
        if mem_size ≤ write_size0 then
          let w := block_writes p.1.device data_pid0 internal_offset
            (mem_bytes mem 0 mem_size) mem_size
          pure (w.1, p.1.inode, w.2)
        else
          let w := block_writes p.1.device data_pid0 internal_offset
            (mem_bytes mem 0 write_size0) write_size0
          if !w.2 then pure (w.1, p.1.inode, false)
          else
            let l := inode_write_loop mem (mem_size - write_size0)
              { p.1 with device := w.1 } write_size0 (mem_size - write_size0)
            pure (l.1.device, l.1.inode, l.2)

/-- The `while(mem_left_size > 0)` loop of `inode_read` on the caller's buffer
`mem`; `mem_left` is the index in `mem` of the next byte to fill. Both
`memzero` calls start at `mem`, as in the source. -/
def inode_read_loop : Nat → PathState → List Nat → Nat → Nat → PathState × Bool × List Nat
  | 0, st, mem, _, _ => (st, true, mem)
  | fuel + 1, st, mem, mem_left, mem_left_size =>
    if mem_left_size = 0 then (st, true, mem)
    else
      let block_size := st.device.block_size
      let r := increment_block_path st INC_PATH_READ
        ((mem_left_size + block_size - 1) / block_size)
      let steps := r.2.2
      let cur_data_pid := r.2.1
      if steps = 0 then (r.1, false, mem)
      else if cur_data_pid = 0 then (r.1, true, memzero mem mem_left_size)
      else
        let skipped_mem := if 1 < steps then (steps - 1) * block_size else 0
        let mem1 := if 1 < steps then memzero mem skipped_mem else mem
        let mem_left1 := mem_left + skipped_mem
        let mem_left_size1 := mem_left_size - skipped_mem
        if block_size ≤ mem_left_size1 then
          let b := block_read r.1.device cur_data_pid
          let mem2 := mem_store mem1 mem_left1 b.2.2
          if !b.2.1 then ({ r.1 with device := b.1 }, false, mem2)
          else inode_read_loop fuel { r.1 with device := b.1 } mem2
            (mem_left1 + block_size) (mem_left_size1 - block_size)
        else if 0 < mem_left_size1 then
          let b := block_reads r.1.device cur_data_pid 0 mem_left_size1
          ({ r.1 with device := b.1 }, b.2.1, mem_store mem1 mem_left1 b.2.2)
        else (r.1, true, mem1)

/-- Models `inode_read` of `mem_size` bytes at `mem_offset` into the caller's
buffer `mem`: device, success flag and the buffer afterwards. -/
def inode_read (device : BlockDevice) (inode : INode) (mem_offset : Nat) (mem : List Nat)
    (mem_size : Nat) : Except Abort (BlockDevice × Bool × List Nat) :=
  if (mem_offset + mem_size) % 2 ^ 64 < mem_size then pure (device, false, mem)
  else if inode.mem_size < (mem_offset + mem_size) % 2 ^ 64 then pure (device, false, mem)
  else if mem_size = 0 then pure (device, true, mem)
  else if device.block_size = 0 then throw .undefined
  else do
    let block_size := device.block_size
    let internal_offset := mem_offset % block_size
    let block_offset := mem_offset / block_size
    let p ← get_block_path device inode block_offset INC_PATH_READ
    if !p.2 then pure (p.1.device, false, mem)
    else
      let data_pid0 := p.1.block_path_pids.getD 0 0
      let read_size0 := block_size - internal_offset
      if mem_size ≤ read_size0 then
        let b := block_reads p.1.device data_pid0 internal_offset mem_size
        pure (b.1, b.2.1, mem_store mem 0 b.2.2)
      else
        let b := block_reads p.1.device data_pid0 internal_offset read_size0
        let mem1 := mem_store mem 0 b.2.2
        if !b.2.1 then pure (b.1, false, mem1)
        else
          let l := inode_read_loop (mem_size - read_size0) { p.1 with device := b.1 } mem1
            read_size0 (mem_size - read_size0)
          pure (l.1.device, l.2.1, l.2.2)

/-! ## `block_device.h`: persistence of the device header -/

/-- The 40 bytes of `device->persistent_data`; the alignment bytes are taken as 0. -/
def persistent_data_bytes (device : BlockDevice) : List Nat :=
  le_encode 8 device.master.cookie ++ le_encode 8 device.master.first_unused_block ++
    le_encode 8 device.master.last_block ++ le_encode 4 device.block_size ++ le_encode 4 0 ++
    le_encode 8 device.blocks_total

/-- Models `device_open` on the host file that `open` returned: `none` when the
header cannot be read in full. -/
def device_open (host : HostFile) : Option BlockDevice :=
  let r := host_read { host with pos := 0 } SIZEOF_PERSISTENT_DATA
  if r.2.length ≠ SIZEOF_PERSISTENT_DATA then none
  else some
    { host := r.1
      master :=
        { cookie := le_decode (mem_bytes r.2 0 8)
          first_unused_block := le_decode (mem_bytes r.2 8 8)
          last_block := le_decode (mem_bytes r.2 16 8) }
      block_size := le_decode (mem_bytes r.2 24 4)
      blocks_total := le_decode (mem_bytes r.2 32 8) }

/-- Models `device_save`. -/
def device_save (device : BlockDevice) : BlockDevice × Bool :=
  block_writes_m device 0 0 (persistent_data_bytes device) SIZEOF_PERSISTENT_DATA

/-- Models `device_close`; the host file lives on in `host`. -/
def device_close (device : BlockDevice) : BlockDevice × Bool :=
  device_save device

/-! ## `fs.h` -/

/-- `DIR_IS_CACHED`. -/
def DIR_IS_CACHED : Nat := 1

/-- `FILE_IS_DIRTY`. -/
def FILE_IS_DIRTY : Nat := 2

/-- `FILENAME_TEXT_SIZE`: `sizeof(File) - sizeof(struct Filename*)`, 160 - 8. -/
def FILENAME_TEXT_SIZE : Nat := 152

/-- `SIZEOF_HEADER`. -/
def SIZEOF_HEADER : Nat := 10

/-- `FS_BLOCK_SIZE`. -/
def FS_BLOCK_SIZE : Nat := 512

/-- A `File*`: null, `&fs->root`, or the object of the directory cache with
the given index. -/
inductive FilePtr where
  | null
  | root
  | pool (i : Nat)
  deriving DecidableEq, Repr

/-- The struct `File`. `name` is the chain of `Filename` fragments, each given
by the bytes of its `text` that have been written; `[]` is the null chain. -/
structure File where
  name : List (List Nat)
  next : FilePtr
  head_child : FilePtr
  name_size : Nat
  flags : Nat
  inode : INode

/-- Modelled from the spec: `mam_pool_alloc` of `mam_alloc.h`, a header that
is not among the sources. The directory cache is an arena that hands out a
fresh object at every call and frees none; `dir_cache` lists the `File`
objects handed out so far, and a new one starts with these contents. -/
def File.fresh : File :=
  { name := [], next := .null, head_child := .null, name_size := 0, flags := 0
    inode :=
      { pid := 0, level := 0, status := 0, padding := 0, mem_size := 0
        blocks := List.replicate BLOCKS_PER_INODE 0 } }

/-- The struct `FS`. -/
structure FS where
  device : BlockDevice
  inode_a : INodeAllocator
  root : File
  dir_cache : List File

/-- Reads `*p`; a null or dangling pointer has no defined value. -/
def fs_deref (fs : FS) : FilePtr → Except Abort File
  | .null => .error .undefined
  | .root => .ok fs.root
  | .pool i =>
    match fs.dir_cache.get? i with
    | some f => .ok f
    | none => .error .undefined

/-- Stores `f` to `*p`. -/
def fs_assign (fs : FS) (p : FilePtr) (f : File) : FS :=
  match p with
  | .null => fs
  | .root => { fs with root := f }
  | .pool i => { fs with dir_cache := fs.dir_cache.set i f }

/-- Models `mam_pool_alloc(File, fs->dir_cache)`: see `File.fresh`. -/
def mam_pool_alloc (fs : FS) : FS × FilePtr :=
  ({ fs with dir_cache := fs.dir_cache ++ [File.fresh] }, .pool fs.dir_cache.length)

/-- Models `memcmp(a, b, n)`: zero, or the difference at the first byte where
the two differ. -/
def memcmp (a b : List Nat) : Nat → Int
  | 0 => 0
  | n + 1 =>
    if a.getD 0 0 = b.getD 0 0 then memcmp (a.drop 1) (b.drop 1) n
    else (a.getD 0 0 : Int) - (b.getD 0 0 : Int)

/-- Models `fs_is_dir`. -/
def fs_is_dir (file : File) : Bool := file.inode.status == INODE_DIR

/-- Models `fs_filename_size`. -/
def fs_filename_size (file : File) : Nat := file.name_size

/-- The loop of `fs_get_filename` over the fragments `chain`. Where the chain
has ended, `cur_filename` is null and copying bytes from its `text` has no
defined result. -/
def fs_get_filename_loop : Nat → List (List Nat) → Nat → Except Abort (List Nat)
  | 0, _, _ => .ok []
  | fuel + 1, chain, cur_left =>
    match chain with
    | [] => if cur_left = 0 then .ok [] else .error .undefined
    | frag :: rest =>
      if FILENAME_TEXT_SIZE < cur_left then do
        let r ← fs_get_filename_loop fuel rest (cur_left - FILENAME_TEXT_SIZE)
        pure (mem_bytes frag 0 FILENAME_TEXT_SIZE ++ r)
      else .ok (mem_bytes frag 0 cur_left)

/-- Models `fs_get_filename`: the bytes copied to `ret_name`. -/
def fs_get_filename (file : File) : Except Abort (List Nat) :=
  fs_get_filename_loop (file.name_size + 1) file.name file.name_size

/-- The loop of `fs_set_filename`: copies `cur_left` bytes of `name`, from
index `at_`, into the fragments `chain`. Where the chain ends the source
allocates a fragment without storing it in the `next` of the fragment before,
so the bytes copied from there on reach no fragment of the node. -/
def fs_set_filename_loop (name : List Nat) : Nat → List (List Nat) → Nat → Nat → List (List Nat)
  | 0, chain, _, _ => chain
  | fuel + 1, chain, at_, cur_left =>
    match chain with
    | [] => []
    | frag :: rest =>
      if FILENAME_TEXT_SIZE < cur_left then
        mem_store frag 0 (mem_bytes name at_ FILENAME_TEXT_SIZE) ::
          fs_set_filename_loop name fuel rest (at_ + FILENAME_TEXT_SIZE)
            (cur_left - FILENAME_TEXT_SIZE)
      else mem_store frag 0 (mem_bytes name at_ cur_left) :: rest

/-- Models `fs_set_filename`: a null `file->name` gets one new fragment first. -/
def fs_set_filename (file : File) (name : List Nat) (name_size : Nat) : File :=
  if name_size = 0 then file
  else
    { file with
      name := fs_set_filename_loop name (name_size + 1)
        (if file.name = [] then [[]] else file.name) 0 name_size
      name_size := name_size }

/-- The loop of `fs_cmp_filename`: `name` from index `at_` against the
fragments `chain`, `cur_left` bytes to go. Where the chain has ended,
`filename` is null and comparing bytes of its `text` has no defined result. -/
def fs_cmp_filename_loop (name : List Nat) : Nat → List (List Nat) → Nat → Nat → Except Abort Int
  | 0, _, _, _ => .ok 0
  | fuel + 1, chain, at_, cur_left =>
    match chain with
    | [] => if cur_left = 0 then .ok 0 else .error .undefined
    | frag :: rest =>
      if FILENAME_TEXT_SIZE < cur_left then
        let c := memcmp (name.drop at_) frag FILENAME_TEXT_SIZE
        if c ≠ 0 then .ok c
        else fs_cmp_filename_loop name fuel rest (at_ + FILENAME_TEXT_SIZE)
          (cur_left - FILENAME_TEXT_SIZE)
      else .ok (memcmp (name.drop at_) frag cur_left)

/-- Models `fs_cmp_filename`. The parameter `name_size` is not read by the
source. -/
def fs_cmp_filename (file : File) (name : List Nat) (_name_size : Nat) : Except Abort Int :=
  fs_cmp_filename_loop name (file.name_size + 1) file.name 0 file.name_size

/-- Models `fs_get_size`. -/
def fs_get_size (file : File) : Nat := file.inode.mem_size

/-- Models `fs_get_root`. -/
def fs_get_root (_fs : FS) : FilePtr := .root

/-- Models `fs_init_file` on `*file`. -/
def fs_init_file (fs : FS) (file : FilePtr) (name : List Nat) (name_size status : Nat) :
    Except Abort (FS × Bool) := do
  let f0 ← fs_deref fs file
  let f1 : File :=
    { f0 with
      head_child := .null, next := .null
      flags := if status = INODE_DIR then DIR_IS_CACHED else 0 }
  let c ← inode_create fs.device fs.inode_a 0 f1.inode
  let fs1 : FS := { fs with device := c.1, inode_a := c.2.1 }
  if !c.2.2.1 then pure (fs_assign fs1 file { f1 with inode := c.2.2.2 }, false)
  else
    let f2 : File := { f1 with inode := { c.2.2.2 with status := status % 2 ^ 16 }, name := [] }
    pure (fs_assign fs1 file (fs_set_filename f2 name name_size), true)

/-- Models `fs_create_file`: the new child, or null. -/
def fs_create_file (fs : FS) (parent : FilePtr) (name : List Nat) (name_size status : Nat) :
    Except Abort (FS × FilePtr) := do
  if name_size = 0 then pure (fs, .null)
  else
    let p ← fs_deref fs parent
    if p.inode.status ≠ INODE_DIR ∨ name_size = 0 then pure (fs, .null)
    else
      let a := mam_pool_alloc fs
      let i ← fs_init_file a.1 a.2 name name_size status
      if !i.2 then pure (i.1, .null)
      else
        let c ← fs_deref i.1 a.2
        let p1 ← fs_deref i.1 parent
        let fs1 := fs_assign i.1 a.2 { c with next := p1.head_child }
        let p2 ← fs_deref fs1 parent
        pure (fs_assign fs1 parent
          { p2 with head_child := a.2, flags := p2.flags ||| FILE_IS_DIRTY }, a.2)

/-- The inner loop of `fs_save_dir`: writes the name fragments of one child
into the directory inode from `cur_offset` on. Where the chain has ended,
`cur_filename` is null and a write of bytes from its `text` has no defined
result. -/
def fs_save_dir_name : Nat → BlockDevice → INode → Nat → List (List Nat) → Nat →
    Except Abort (BlockDevice × INode × Bool × Nat)
  | 0, _, _, _, _, _ => .error .diverges
  | fuel + 1, device, inode, cur_offset, chain, cur_left =>
    if chain = [] ∧ cur_left ≠ 0 then .error .undefined
    else if FILENAME_TEXT_SIZE < cur_left then do
      let w ← inode_write device inode cur_offset (chain.headD []) FILENAME_TEXT_SIZE
      if !w.2.2 then pure (w.1, w.2.1, false, cur_offset)
      else
        (fs_save_dir_name fuel w.1 w.2.1 (cur_offset + FILENAME_TEXT_SIZE) chain.tail
          (cur_left - FILENAME_TEXT_SIZE))
    else do
      let w ← inode_write device inode cur_offset (chain.headD []) cur_left
      pure (w.1, w.2.1, w.2.2, cur_offset + cur_left)

/-- The `while(cur_child)` loop of `fs_save_dir`: device, directory inode,
success flag and `cur_offset`. The fuel bounds the length of the sibling list;
a list that is longer than the cache is cyclic. -/
def fs_save_dir_loop (fs : FS) : Nat → BlockDevice → INode → Nat → FilePtr →
    Except Abort (BlockDevice × INode × Bool × Nat)
  | 0, _, _, _, _ => .error .diverges
  | fuel + 1, device, inode, cur_offset, cur_child =>
    if cur_child = .null then pure (device, inode, true, cur_offset)
    else do
      let c ← fs_deref fs cur_child
      let w ← inode_write device inode cur_offset
        (le_encode 8 c.inode.pid ++ le_encode 2 c.name_size) SIZEOF_HEADER
      if !w.2.2 then pure (w.1, w.2.1, false, cur_offset)
      else
        let n ← (fs_save_dir_name (c.name_size + 1) w.1 w.2.1 (cur_offset + SIZEOF_HEADER)
          c.name c.name_size)
        if !n.2.2.1 then pure n
        else fs_save_dir_loop fs fuel n.1 n.2.1 n.2.2.2 c.next

/-- Models `fs_save_dir`. -/
def fs_save_dir (fs : FS) (dir : FilePtr) : Except Abort (FS × Bool) := do
  let d ← fs_deref fs dir
  let l ← fs_save_dir_loop fs (fs.dir_cache.length + 2) fs.device d.inode 0 d.head_child
  if !l.2.2.1 then
    pure (fs_assign { fs with device := l.1 } dir { d with inode := l.2.1 }, false)
  else
    let z ← inode_set_size l.1 l.2.1 l.2.2.2
    if !z.2.2 then
      pure (fs_assign { fs with device := z.1 } dir { d with inode := z.2.1 }, false)
    else
      let d1 : File := { d with inode := z.2.1, flags := d.flags &&& (2 ^ 16 - 1 - FILE_IS_DIRTY) }
      let s := inode_save z.1 d1.inode
      pure (fs_assign { fs with device := s.1 } dir d1, s.2)

mutual

/-- Models `fs_save_all_`. The fuel bounds the nesting of directories and the
length of the sibling lists together. -/
def fs_save_all_ : Nat → FS → FilePtr → Except Abort (FS × Bool)
  | 0, _, _ => .error .diverges
  | fuel + 1, fs, dir => do
    let d ← fs_deref fs dir
    let s ← if d.flags &&& FILE_IS_DIRTY ≠ 0 then fs_save_dir fs dir else pure (fs, true)
    if !s.2 then pure s
    else
      let d1 ← fs_deref s.1 dir
      fs_save_all_children fuel s.1 d1.head_child

/-- The `while(cur_child)` loop of `fs_save_all_`. -/
def fs_save_all_children : Nat → FS → FilePtr → Except Abort (FS × Bool)
  | 0, _, _ => .error .diverges
  | fuel + 1, fs, cur_child =>
    if cur_child = .null then pure (fs, true)
    else do
      let c ← fs_deref fs cur_child
      if c.inode.status = INODE_DIR then
        let r ← fs_save_all_ fuel fs cur_child
        if !r.2 then pure r
        else
          let c1 ← fs_deref r.1 cur_child
          fs_save_all_children fuel r.1 c1.next
      else if c.flags &&& FILE_IS_DIRTY ≠ 0 then
        let c1 : File := { c with flags := c.flags &&& (2 ^ 16 - 1 - FILE_IS_DIRTY) }
        let s := inode_save fs.device c1.inode
        let fs1 := fs_assign { fs with device := s.1 } cur_child c1
        if !s.2 then pure (fs1, false)
        else fs_save_all_children fuel fs1 c1.next
      else fs_save_all_children fuel fs c.next

end

/-- The inner loop of `fs_restore_dir`: reads the name of one entry from the
directory inode into a new chain of fragments (each a 152-byte `text`, taken
as zero before it is filled). -/
def fs_restore_dir_name : Nat → BlockDevice → INode → Nat → Nat →
    Except Abort (BlockDevice × Bool × Nat × List (List Nat))
  | 0, _, _, _, _ => .error .diverges
  | fuel + 1, device, inode, cur_offset, cur_text_left =>
    if FILENAME_TEXT_SIZE < cur_text_left then do
      let r ← inode_read device inode cur_offset (List.replicate FILENAME_TEXT_SIZE 0) FILENAME_TEXT_SIZE
      if !r.2.1 then pure (r.1, false, cur_offset, [r.2.2])
      else
        let n ← (fs_restore_dir_name fuel r.1 inode (cur_offset + FILENAME_TEXT_SIZE)
          (cur_text_left - FILENAME_TEXT_SIZE))
        pure (n.1, n.2.1, n.2.2.1, r.2.2 :: n.2.2.2)
    else do
      let r ← inode_read device inode cur_offset (List.replicate FILENAME_TEXT_SIZE 0) cur_text_left
      pure (r.1, r.2.1, cur_offset + cur_text_left, [r.2.2])

/-- The `while(cur_offset < cur_left)` loop of `fs_restore_dir`. Every round
moves `cur_offset` on by at least `SIZEOF_HEADER`. -/
def fs_restore_dir_loop (dir : FilePtr) (cur_left : Nat) : Nat → FS → Nat →
    Except Abort (FS × Bool)
  | 0, fs, _ => pure (fs, true)
  | fuel + 1, fs, cur_offset =>
    if cur_left ≤ cur_offset then pure (fs, true)
    else do
      let d ← fs_deref fs dir
      let h ← inode_read fs.device d.inode cur_offset (List.replicate 16 0) SIZEOF_HEADER
      let fs1 : FS := { fs with device := h.1 }
      if !h.2.1 then pure (fs1, false)
      else
        let header_pid := le_decode (mem_bytes h.2.2 0 8)
        let header_name_size := le_decode (mem_bytes h.2.2 8 2)
        let a := mam_pool_alloc fs1
        let r := inode_restore a.1.device header_pid File.fresh.inode
        let new_file : File := { File.fresh with head_child := .null, flags := 0, inode := r.2.2 }
        let fs2 := fs_assign { a.1 with device := r.1 } a.2 new_file
        if !r.2.1 then pure (fs2, false)
        else
          let n ← (fs_restore_dir_name (header_name_size + 1) fs2.device d.inode
            (cur_offset + SIZEOF_HEADER) header_name_size)
          let named : File := { new_file with name := n.2.2.2, name_size := header_name_size }
          let fs3 := fs_assign { fs2 with device := n.1 } a.2 named
          if !n.2.1 then pure (fs3, false)
          else
            let d1 ← fs_deref fs3 dir
            let fs4 := fs_assign fs3 a.2 { named with next := d1.head_child }
            let d2 ← fs_deref fs4 dir
            (fs_restore_dir_loop dir cur_left fuel
              (fs_assign fs4 dir { d2 with head_child := a.2 }) n.2.2.1)

/-- Models `fs_restore_dir`. -/
def fs_restore_dir (fs : FS) (dir : FilePtr) : Except Abort (FS × Bool) := do
  let d ← fs_deref fs dir
  if d.flags &&& DIR_IS_CACHED ≠ 0 then pure (fs, true)
  else
    let fs1 := fs_assign fs dir { d with head_child := .null }
    let l ← fs_restore_dir_loop dir d.inode.mem_size d.inode.mem_size fs1 0
    if !l.2 then pure l
    else
      let d1 ← fs_deref l.1 dir
      pure (fs_assign l.1 dir { d1 with flags := d1.flags ||| DIR_IS_CACHED }, true)

/-- Models `fs_init` on the host file that `open` returned: `none` is the
result 0. -/
def fs_init (host : HostFile) (device_capacity : Nat) : Except Abort (Option FS) :=
  match device_create host FS_BLOCK_SIZE (device_capacity / FS_BLOCK_SIZE) with
  | none => pure none
  | some device => do
    let fs : FS :=
      { device := device, inode_a := inode_initfs FS_BLOCK_SIZE, root := File.fresh
        dir_cache := [] }
    let i ← fs_init_file fs .root [47] 1 INODE_DIR
    if !i.2 then pure none else pure (some i.1)

/-- Models `fs_mount` on the host file that `open` returned: `none` is the
result 0. -/
def fs_mount (host : HostFile) : Except Abort (Option FS) :=
  match device_open host with
  | none => pure none
  | some device =>
    let m := inode_mountfs device { next_inode := 0, inodes_per_block := 0 }
    if !m.2.1 then pure none
    else
      let r := block_reads_m m.1 0 (SIZEOF_PERSISTENT_DATA + SIZEOF_INODE_ALLOCATOR) 8
      let root_pid := le_decode r.2.2
      if root_pid = 0 then pure none
      else
        let i := inode_restore r.1 root_pid File.fresh.inode
        if !i.2.1 then pure none
        else do
          let root : File :=
            { File.fresh with
              head_child := .null, flags := 0, next := .null
              inode := { i.2.2 with status := INODE_DIR }, name := [] }
          let fs : FS :=
            { device := i.1, inode_a := m.2.2, root := fs_set_filename root [47] 1
              dir_cache := [] }
          let d ← fs_restore_dir fs .root
          if !d.2 then pure none else pure (some d.1)

/-- Writes the root inode id behind the allocator in block 0, as `fs_unmount`
and `fs_save` do first. -/
def fs_write_root_pid (fs : FS) : FS :=
  { fs with
    device := (block_writes_m fs.device 0 (SIZEOF_PERSISTENT_DATA + SIZEOF_INODE_ALLOCATOR)
      (le_encode 8 fs.root.inode.pid) 8).1 }

/-- Models `fs_unmount`; the host file lives on in `device.host`. -/
def fs_unmount (fs : FS) : Except Abort (FS × Bool) := do
  let s ← fs_save_all_ (2 * fs.dir_cache.length + 3) (fs_write_root_pid fs) .root
  if !s.2 then pure s
  else
    let u := inode_unmountfs s.1.device s.1.inode_a
    if !u.2 then pure ({ s.1 with device := u.1 }, false)
    else
      let c := device_close u.1
      pure ({ s.1 with device := c.1 }, c.2)

/-- Models `fs_save`. -/
def fs_save (fs : FS) : Except Abort (FS × Bool) := do
  let s ← fs_save_all_ (2 * fs.dir_cache.length + 3) (fs_write_root_pid fs) .root
  if !s.2 then pure s
  else
    let u := inode_unmountfs s.1.device s.1.inode_a
    if !u.2 then pure ({ s.1 with device := u.1 }, false)
    else
      let c := device_save u.1
      pure ({ s.1 with device := c.1 }, c.2)

/-- The `while(cur_child)` loop of `fs_get_any`. -/
def fs_get_any_loop (fs : FS) (name : List Nat) (name_size : Nat) :
    Nat → FilePtr → Except Abort FilePtr
  | 0, _ => .error .diverges
  | fuel + 1, cur_child =>
    if cur_child = .null then pure .null
    else do
      let c ← fs_deref fs cur_child
      let cmp ← fs_cmp_filename c name name_size
      if cmp = 0 then pure cur_child
      else fs_get_any_loop fs name name_size fuel c.next

/-- Models `fs_get_any`: state, success flag and `*ret_file`. -/
def fs_get_any (fs : FS) (dir : FilePtr) (name : List Nat) (name_size : Nat) :
    Except Abort (FS × Bool × FilePtr) := do
  let r ← fs_restore_dir fs dir
  if !r.2 then pure (r.1, false, .null)
  else
    let d ← fs_deref r.1 dir
    let f ← fs_get_any_loop r.1 name name_size (r.1.dir_cache.length + 2) d.head_child
    pure (r.1, true, f)

/-- Models `fs_get_file`. -/
def fs_get_file (fs : FS) (dir : FilePtr) (name : List Nat) (name_size : Nat) :
    Except Abort (FS × Bool × FilePtr) := do
  let g ← fs_get_any fs dir name name_size
  if !g.2.1 then pure g
  else if g.2.2 = .null then pure g
  else
    let f ← fs_deref g.1 g.2.2
    if fs_is_dir f then pure (g.1, true, .null) else pure g

/-- Models `fs_open_file`. -/
def fs_open_file (fs : FS) (dir : FilePtr) (name : List Nat) (name_size : Nat) :
    Except Abort (FS × Bool × FilePtr) := do
  let g ← fs_get_any fs dir name name_size
  if !g.2.1 then pure g
  else if g.2.2 ≠ .null then
    let f ← fs_deref g.1 g.2.2
    if fs_is_dir f then pure (g.1, true, .null) else pure g
  else
    let c ← fs_create_file g.1 dir name name_size INODE_FILE
    pure (c.1, c.2 != .null, c.2)

/-- Models `fs_get_dir`. -/
def fs_get_dir (fs : FS) (dir : FilePtr) (name : List Nat) (name_size : Nat) :
    Except Abort (FS × Bool × FilePtr) := do
  let g ← fs_get_any fs dir name name_size
  if !g.2.1 then pure g
  else if g.2.2 = .null then pure g
  else
    let f ← fs_deref g.1 g.2.2
    if !fs_is_dir f then pure (g.1, true, .null) else pure g

/-- Models `fs_open_dir`. -/
def fs_open_dir (fs : FS) (dir : FilePtr) (name : List Nat) (name_size : Nat) :
    Except Abort (FS × Bool × FilePtr) := do
  let g ← fs_get_any fs dir name name_size
  if !g.2.1 then pure g
  else if g.2.2 ≠ .null then
    let f ← fs_deref g.1 g.2.2
    if !fs_is_dir f then pure (g.1, true, .null) else pure g
  else
    let c ← fs_create_file g.1 dir name name_size INODE_DIR
    pure (c.1, c.2 != .null, c.2)

/-- Models `fs_get_first_child`. -/
def fs_get_first_child (fs : FS) (dir : FilePtr) : Except Abort (FS × Bool × FilePtr) := do
  let d ← fs_deref fs dir
  if d.inode.status = INODE_DIR then
    let r ← fs_restore_dir fs dir
    if !r.2 then pure (r.1, false, .null)
    else
      let d1 ← fs_deref r.1 dir
      pure (r.1, true, d1.head_child)
  else pure (fs, true, .null)

/-- Models `fs_get_next_child`. -/
def fs_get_next_child (fs : FS) (_dir child : FilePtr) : Except Abort FilePtr := do
  let c ← fs_deref fs child
  pure c.next

/-- Models `fs_set_size`. -/
def fs_set_size (fs : FS) (file : FilePtr) (mem_size : Nat) : Except Abort (FS × Bool) := do
  let f ← fs_deref fs file
  let z ← inode_set_size fs.device f.inode mem_size
  pure (fs_assign { fs with device := z.1 } file
    { f with flags := f.flags ||| FILE_IS_DIRTY, inode := z.2.1 }, z.2.2)

/-- Models `fs_read` into the caller's buffer `mem`. -/
def fs_read (fs : FS) (file : FilePtr) (mem_offset : Nat) (mem : List Nat) (mem_size : Nat) :
    Except Abort (FS × Bool × List Nat) := do
  let f ← fs_deref fs file
  let r ← inode_read fs.device f.inode mem_offset mem mem_size
  pure ({ fs with device := r.1 }, r.2.1, r.2.2)

/-- Models `fs_write`. -/
def fs_write (fs : FS) (file : FilePtr) (mem_offset : Nat) (mem : List Nat) (mem_size : Nat) :
    Except Abort (FS × Bool) := do
  let f ← fs_deref fs file
  let w ← inode_write fs.device f.inode mem_offset mem mem_size
  pure (fs_assign { fs with device := w.1 } file
    { f with flags := f.flags ||| FILE_IS_DIRTY, inode := w.2.1 }, w.2.2)

/-! ## Runs of the code used by the theorems -/

/-- Equality of two results of type `Except` can be decided. -/
instance instDecidableEqExcept {ε α : Type} [DecidableEq ε] [DecidableEq α] :
    DecidableEq (Except ε α)
  | .ok a, .ok b =>
    if h : a = b then isTrue (by rw [h]) else isFalse (fun h1 => h (by cases h1; rfl))
  | .error a, .error b =>
    if h : a = b then isTrue (by rw [h]) else isFalse (fun h1 => h (by cases h1; rfl))
  | .ok _, .error _ => isFalse (fun h => by cases h)
  | .error _, .ok _ => isFalse (fun h => by cases h)

/-- The device after `n` successive calls of `block_alloc`, and the ids those
calls returned, in order. -/
def block_alloc_n : Nat → BlockDevice → BlockDevice × List Nat
  | 0, device => (device, [])
  | n + 1, device =>
    let a := block_alloc device
    let r := block_alloc_n n a.1
    (r.1, a.2 :: r.2)

/-- The device `device` with its bump pointer `last_block` moved on by `n`. -/
def bumped (device : BlockDevice) (n : Nat) : BlockDevice :=
  { device with master := { device.master with last_block := device.master.last_block + n } }

/-! ## Views of the state used by the theorems -/

/-- The `n` bytes of the host file from byte `a` on. -/
def host_bytes (h : HostFile) (a n : Nat) : List Nat :=
  (List.range n).map (fun i => h.data (a + i))

/-- Block `pid` is not block 0 and lies below byte `2^31` of the host file,
where the `int` byte offsets of `block_device.h` are exact, and inside the file. -/
def block_in_range (d : BlockDevice) (pid : Nat) : Prop :=
  pid ≠ 0 ∧ (pid + 1) * d.block_size ≤ 2 ^ 31 ∧ (pid + 1) * d.block_size ≤ d.host.size

/-- A call of the block allocator. -/
inductive BlockOp where
  | alloc
  | free (pid : Nat)

/-- The next pointer of a free block: the 8 bytes at the start of block `pid`. -/
def block_next (d : BlockDevice) (pid : Nat) : Nat :=
  le_decode (host_bytes d.host (pid * d.block_size) 8)

/-- The blocks `fl` are the freelist that starts at `start`: each is non-zero
and stores the id of the next one, the last stores 0. -/
def is_freelist (d : BlockDevice) : Nat → List Nat → Prop
  | start, [] => start = 0
  | start, x :: xs => start = x ∧ x ≠ 0 ∧ is_freelist d (block_next d x) xs

/-- One allocator call on a device and the list of the ids that are
allocated at the moment. `block_free` of an id that is not allocated is not
part of the runs considered (`none`). -/
def block_op_step (s : BlockDevice × List Nat) : BlockOp → Option (BlockDevice × List Nat)
  | .alloc =>
    let a := block_alloc s.1
    some (a.1, if a.2 = 0 then s.2 else a.2 :: s.2)
  | .free pid =>
    if pid ∈ s.2 then
      let f := block_free s.1 pid
      some (f.1, if f.2 then s.2.erase pid else s.2)
    else none

/-- A sequence of allocator calls. -/
def block_ops_run : List BlockOp → BlockDevice × List Nat → Option (BlockDevice × List Nat)
  | [], s => some s
  | op :: ops, s =>
    match block_op_step s op with
    | some s1 => block_ops_run ops s1
    | none => none

/-- The state of the allocator of a device whose blocks all lie below byte
`2^31`: `fl` is the freelist, `al` the allocated ids, and the two split the ids
from 1 up to `last_block`. -/
structure AllocInv (d : BlockDevice) (al fl : List Nat) : Prop where
  bs8 : 8 ≤ d.block_size
  fits : d.blocks_total * d.block_size ≤ 2 ^ 31
  size_ok : d.blocks_total * d.block_size ≤ d.host.size
  chain : is_freelist d d.master.first_unused_block fl
  nodup_fl : fl.Nodup
  nodup_al : al.Nodup
  disj : ∀ x, x ∈ fl → x ∉ al
  part : ∀ x, (x ∈ fl ∨ x ∈ al) ↔ (1 ≤ x ∧ x < d.master.last_block)
  last_pos : 1 ≤ d.master.last_block
  last_le : d.master.last_block ≤ max d.blocks_total 1

/-- The device that `device_create` makes of an empty host file. -/
def fresh_device (block_size blocks_total : Nat) : BlockDevice :=
  { host := host_ftruncate { HostFile.empty with pos := 0 } (block_size * blocks_total % 2 ^ 64)
    master := { cookie := 1234567890, first_unused_block := 0, last_block := 1 }
    block_size := block_size
    blocks_total := blocks_total }

/-- The run behind C7 on a device of 6 blocks of `2^30` bytes: five
allocations (ids 1 to 5), `block_free(1)`, `block_free(5)`; the two success
flags and the device afterwards. -/
def C7_run : Bool × Bool × BlockDevice :=
  let d := (block_alloc_n 5 (fresh_device (2 ^ 30) 6)).1
  let f1 := block_free d 1
  let f5 := block_free f1.1 5
  (f1.2, f5.2, f5.1)

/-- The run behind C9 on a device of 65536 blocks of 65537 bytes: 65535
allocations (ids 1 to 65535), which only move the bump pointer, and
`block_free(1)`; the device afterwards. -/
def C9_run : BlockDevice :=
  (block_free (bumped (fresh_device 65537 65536) 65535) 1).1

/-- The run behind C10 with `block_size = 200`: two calls of `inode_alloc`
after `inode_initfs`; `inodes_per_block` and the two returned ids. -/
def C10_run : Nat × Nat × Nat :=
  let allocator := inode_initfs 200
  let a1 := inode_alloc (fresh_device 200 8) allocator
  let a2 := inode_alloc a1.1 a1.2.1
  (allocator.inodes_per_block, a1.2.2, a2.2.2)

/-- The start of the runs behind C1 and C3, on a device of `2^23 + 8` blocks of
512 bytes: `inode_initfs`, `inode_create` with size 0, and an `inode_write` of
the byte 7 at offset 0. Gives the device, the inode and the flag of the write. -/
def C1_start : BlockDevice × INode × Bool :=
  match (do
    let c ← inode_create (fresh_device 512 (2 ^ 23 + 8)) (inode_initfs 512) 0 File.fresh.inode
    inode_write c.1 c.2.2.2 0 [7] 1) with
  | .ok w => w
  | .error _ => (fresh_device 512 0, File.fresh.inode, false)

/-- The run behind C1: after `C1_start` and `2^23 - 1` calls of `block_alloc`
(which only move the bump pointer), an `inode_write` of the bytes 1, 2 at offset
511 and an `inode_read` of 2 bytes at offset 511 into a zeroed buffer. Gives the
flag of the write, the inode's direct table after it, the flag of the read and
the bytes read. -/
def C1_run : Except Abort (Bool × List Nat × Bool × List Nat) := do
  let w ← inode_write (bumped C1_start.1 (2 ^ 23 - 1)) C1_start.2.1 511 [1, 2] 2
  let r ← inode_read w.1 w.2.1 511 [0, 0] 2
  pure (w.2.2, w.2.1.blocks, r.2.1, r.2.2)

/-- The run behind C2 on a device of 64 blocks of 512 bytes: `inode_create`
with size 0, `inode_set_size(100000)`, and an `inode_read` of 100 bytes at offset
50000 into a buffer of ones. Gives the flag of `inode_create`, the flag of
`inode_set_size`, the inode's `mem_size`, the flag of the read and the buffer. -/
def C2_run : Except Abort (Bool × Bool × Nat × Bool × List Nat) := do
  let c ← inode_create (fresh_device 512 64) (inode_initfs 512) 0 File.fresh.inode
  let z ← inode_set_size c.1 c.2.2.2 100000
  let r ← inode_read z.1 z.2.1 50000 (List.replicate 100 1) 100
  pure (c.2.2.1, z.2.2, z.2.1.mem_size, r.2.1, r.2.2)

/-- The run behind C3: after `C1_start` and `2^23 - 1` calls of `block_alloc`,
an `inode_read` of 1 byte at offset 0, `inode_set_size(7000)`, and the same read
again. Gives the old `mem_size`, flag and byte of the first read, the flag of
`inode_set_size`, the new level, and flag and byte of the second read. -/
def C3_run : Except Abort (Nat × Bool × List Nat × Bool × Nat × Bool × List Nat) := do
  let r0 ← inode_read (bumped C1_start.1 (2 ^ 23 - 1)) C1_start.2.1 0 [0] 1
  let z ← inode_set_size r0.1 C1_start.2.1 7000
  let r ← inode_read z.1 z.2.1 0 [0] 1
  pure (C1_start.2.1.mem_size, r0.2.1, r0.2.2, z.2.2, z.2.1.level, r.2.1, r.2.2)

/-- The listing loop of `shell.c` (`ls`): the names of the children from
`file` on, through `fs_get_filename` and `fs_get_next_child`. -/
def ls_loop (fs : FS) : Nat → FilePtr → Except Abort (List (List Nat))
  | 0, _ => .ok []
  | fuel + 1, file =>
    match fs_deref fs file with
    | .error _ => .ok []
    | .ok f => do
      let n ← fs_get_filename f
      let r ← ls_loop fs fuel f.next
      pure (n :: r)

/-- The names of the children of the root, in `head_child` order. -/
def ls_root (fs : FS) : Except Abort (List (List Nat)) :=
  ls_loop fs (fs.dir_cache.length + 1) fs.root.head_child

/-- The run behind C4 on a new 1 MiB device: `fs_open_file` and `fs_write` for
the names "a" (contents "hello"), "ab" (contents "world!") and "c" (contents
"xyz"), then `fs_unmount` and `fs_mount`. Gives: the three pointers returned
by `fs_open_file`, the flag of `fs_unmount`, the names of the root's children
after the remount, and for `fs_get_file(root, "ab", 2)` after the remount the
name and size of the file found and the 6 bytes `fs_read` gets from it. -/
def C4_run : Except Abort
    (FilePtr × FilePtr × FilePtr × Bool × List (List Nat) × List Nat × Nat × List Nat) := do
  let some fs ← fs_init HostFile.empty (1024 * 1024) | throw .undefined
  let a ← fs_open_file fs .root [97] 1
  let wa ← fs_write a.1 a.2.2 0 [104, 101, 108, 108, 111] 5
  let b ← fs_open_file wa.1 .root [97, 98] 2
  let wb ← fs_write b.1 b.2.2 0 [119, 111, 114, 108, 100, 33] 6
  let c ← fs_open_file wb.1 .root [99] 1
  let wc ← fs_write c.1 c.2.2 0 [120, 121, 122] 3
  let u ← fs_unmount wc.1
  let some fs2 ← fs_mount u.1.device.host | throw .undefined
  let g ← fs_get_file fs2 .root [97, 98] 2
  let f ← fs_deref g.1 g.2.2
  let r ← fs_read g.1 g.2.2 0 (List.replicate 6 0) 6
  let l ← ls_root fs2
  let n ← fs_get_filename f
  pure (a.2.2, b.2.2, c.2.2, u.2, l, n, fs_get_size f, r.2.2)

/-- The run behind C5 on a new 1 MiB device: `fs_open_dir(root, "x", 1)`,
`fs_unmount`, `fs_mount`. Gives: whether the new node was a directory before
the unmount, the flag of `fs_unmount`, the names of the root's children after
the remount, the pointer `fs_get_dir(root, "x", 1)` returns after the remount,
and `fs_is_dir` and the inode status of the child that `fs_get_any` finds. -/
def C5_run : Except Abort (Bool × Bool × List (List Nat) × FilePtr × Bool × Nat) := do
  let some fs ← fs_init HostFile.empty (1024 * 1024) | throw .undefined
  let d ← fs_open_dir fs .root [120] 1
  let x ← fs_deref d.1 d.2.2
  let u ← fs_unmount d.1
  let some fs2 ← fs_mount u.1.device.host | throw .undefined
  let g ← fs_get_dir fs2 .root [120] 1
  let a ← fs_get_any fs2 .root [120] 1
  let f ← fs_deref a.1 a.2.2
  let l ← ls_root fs2
  pure (fs_is_dir x, u.2, l, g.2.2, fs_is_dir f, f.inode.status)

/-- The run behind C6 on a new 1 MiB device: `fs_open_file(root, "a", 1)` makes
the only child of the (cached) root, then `fs_get_any(root, "ab", 2)`. Gives:
the names of the root's children, the flag and the pointer that `fs_get_any`
returns, and the name size and name of the node it points to. -/
def C6_run : Except Abort (List (List Nat) × Bool × FilePtr × Nat × List Nat) := do
  let some fs ← fs_init HostFile.empty (1024 * 1024) | throw .undefined
  let a ← fs_open_file fs .root [97] 1
  let g ← fs_get_any a.1 .root [97, 98] 2
  let f ← fs_deref g.1 g.2.2
  let l ← ls_root a.1
  let n ← fs_get_filename f
  pure (l, g.2.1, g.2.2, fs_filename_size f, n)

/-- The value of a run that has one, and `d` for a run without a result. -/
def result_or {α : Type} (x : Except Abort α) (d : α) : α :=
  match x with
  | .ok a => a
  | .error _ => d

/-- Whether a run has a result. -/
def has_result {α : Type} (x : Except Abort α) : Bool :=
  match x with
  | .ok _ => true
  | .error _ => false

/-- A file system state that stands for "no state". -/
def FS.none : FS :=
  { device := fresh_device 512 0, inode_a := inode_initfs 512, root := File.fresh
    dir_cache := [] }

/-- The state behind the instance of C18: on a new 1 MiB device,
`fs_open_file(root, "a", 1)` and `fs_open_dir(root, "d", 1)`. The root is
cached and has the file "a" and the directory "d" as its children. -/
def C18_state : FS :=
  result_or (do
    let some fs ← fs_init HostFile.empty (1024 * 1024) | throw .undefined
    let a ← fs_open_file fs .root [97] 1
    let b ← fs_open_dir a.1 .root [100] 1
    pure b.1) FS.none

/-- The capacity after `k` more rounds of the loop of
`inode_get_required_level` that all find it positive and below `mem_size`,
and `none` if one of them does not; `modulus` is the range of `uint64`. The
matches make each capacity a numeral before the next round starts. -/
def cap_run (block_base mem_size modulus : Nat) : Nat → Nat → Option Nat
  | 0, capacity => some capacity
  | k + 1, capacity =>
    match capacity with
    | 0 => none
    | c + 1 =>
      match Nat.ble mem_size (c + 1) with
      | true => none
      | false =>
        cap_run block_base mem_size modulus k (Nat.mod (Nat.mul (c + 1) block_base) modulus)

/-- The run behind C13 on a device of 8 blocks of 21004 bytes: `inode_initfs`
and `inode_create` with `mem_size = 18445823644127521180`. -/
def C13_run : Except Abort (BlockDevice × INodeAllocator × Bool × INode) :=
  inode_create (fresh_device 21004 8) (inode_initfs 21004) 18445823644127521180
    File.fresh.inode

/-- The run behind C14 on a device of 1082408 blocks of 3968 bytes, after
1082400 calls of `block_alloc` (which only move the bump pointer):
`inode_create` with size 0, then `inode_save` and `inode_restore` of the inode
made. Gives: the flag of `inode_create`, the inode's id with its block and
slot, and the flags of `inode_save` and `inode_restore`. -/
def C14_run : Except Abort (Bool × Nat × Nat × Nat × Bool × Bool) := do
  let c ← inode_create (bumped (fresh_device 3968 1082408) 1082400) (inode_initfs 3968) 0
    File.fresh.inode
  let s := inode_save c.1 c.2.2.2
  let r := inode_restore s.1 c.2.2.2.pid File.fresh.inode
  pure (c.2.2.1, c.2.2.2.pid, inode_pid_block c.2.2.2.pid, inode_pid_slot c.2.2.2.pid, s.2,
    r.2.1)

/-- The run behind C16 on a device of 21 blocks of 520 bytes: `inode_create`
with size 0, an `inode_write` of one byte at offset 10885322268173763687, and
an `inode_write` of two bytes at the same offset. Gives: flag, level and
`mem_size` after the first write, `last_block` of the device after it, and
flag and `mem_size` after the second write. -/
def C16_run : Except Abort (Bool × Nat × Nat × Nat × Bool × Nat) := do
  let c ← inode_create (fresh_device 520 21) (inode_initfs 520) 0 File.fresh.inode
  let w1 ← inode_write c.1 c.2.2.2 10885322268173763687 [5] 1
  let w2 ← inode_write w1.1 w1.2.1 10885322268173763687 [6, 7] 2
  pure (w1.2.2, w1.2.1.level, w1.2.1.mem_size, w1.1.master.last_block, w2.2.2, w2.2.1.mem_size)

/-- The run behind the counterexample to C17, on a new device of 1024 bytes
(the header block and one block of 4 inodes): `fs_open_file` for the names
"a", "b" and "c", then `fs_get_any` and `fs_open_file` for "d". Gives: the
flags of the first three calls, the names of the root's children after them,
the root's `DIR_IS_CACHED` bit, the pointer `fs_get_any` finds for "d", and the
flag and pointer that `fs_open_file` returns for "d". -/
def C17_full_run :
    Except Abort (Bool × Bool × Bool × List (List Nat) × Nat × FilePtr × Bool × FilePtr) := do
  let some fs ← fs_init HostFile.empty 1024 | throw .undefined
  let a ← fs_open_file fs .root [97] 1
  let b ← fs_open_file a.1 .root [98] 1
  let c ← fs_open_file b.1 .root [99] 1
  let l ← ls_root c.1
  let g ← fs_get_any c.1 .root [100] 1
  let d ← fs_open_file g.1 .root [100] 1
  pure (a.2.1, b.2.1, c.2.1, l, g.1.root.flags &&& DIR_IS_CACHED, g.2.2, d.2.1, d.2.2)

/-- The result of `inode_create` with size 0 in `C18_state`. -/
def C17_created : BlockDevice × INodeAllocator × Bool × INode :=
  result_or (inode_create C18_state.device C18_state.inode_a 0 File.fresh.inode)
    (FS.none.device, FS.none.inode_a, false, File.fresh.inode)

/-- The node that `fs_init_file` makes from a new cache object. -/
def created_file (name : List Nat) (name_size status : Nat) (ino : INode) (next : FilePtr) : File :=
  { fs_set_filename
      { File.fresh with
        flags := if status = INODE_DIR then DIR_IS_CACHED else 0
        inode := { ino with status := status % 2 ^ 16 } } name name_size with
    next := next }

/-- The entries of the index block `pid`, as `free_all` reads them. -/
def block_entries (device : BlockDevice) (pid : Nat) : List Nat :=
  (List.range (device.block_size / SIZEOF_BLOCKPID)).map
    (fun i => le_decode (block_reads device pid (i * SIZEOF_BLOCKPID) 8).2.2)

/-- The start of the run behind C20, on a device of `2^24 + 64` blocks of 256
bytes: `inode_initfs`, `inode_create` with size 0, and `inode_write` of one
byte at offset 0 and of one byte at offset 8192. Gives the device, the
allocator, the inode and the flags of the two writes. -/
def C20_grown : BlockDevice × INodeAllocator × INode × Bool × Bool :=
  match (do
    let c ← inode_create (fresh_device 256 (2 ^ 24 + 64)) (inode_initfs 256) 0 File.fresh.inode
    let w1 ← inode_write c.1 c.2.2.2 0 [1] 1
    let w2 ← inode_write w1.1 w1.2.1 8192 [2] 1
    pure (w2.1, c.2.1, w2.2.1, w1.2.2, w2.2.2)) with
  | .ok r => r
  | .error _ => (fresh_device 256 0, inode_initfs 256, File.fresh.inode, false, false)

/-- The run behind C20: after `C20_grown` and `2^24 - 2` calls of
`block_alloc` (which only move the bump pointer), an `inode_write` of the byte
0 at offset 256, then `inode_destroy` and five calls of `block_alloc`. Gives:
the flag of the write; level, direct table and the entries of the index blocks
3 and 4 before `inode_destroy`; the flag of `inode_destroy`, the direct table
and status after it, `next_inode` and `first_unused_block` after it; and the
ids the five calls of `block_alloc` return. -/
def C20_run : Except Abort
    (Bool × Nat × List Nat × List Nat × List Nat × Bool × List Nat × Nat × Nat × Nat ×
      List Nat) := do
  let w ← inode_write (bumped C20_grown.1 (2 ^ 24 - 2)) C20_grown.2.2.1 256 [0] 1
  let d := inode_destroy w.1 C20_grown.2.1 w.2.1
  pure (w.2.2, w.2.1.level, w.2.1.blocks, block_entries w.1 3, block_entries w.1 4, d.2.2.2,
    d.2.2.1.blocks, d.2.2.1.status, d.2.1.next_inode, d.1.master.first_unused_block,
    (block_alloc_n 5 d.1).2)

/-! ## The inode allocator: runs and invariant -/

/-- A call of the inode allocator. -/
inductive InodeOp where
  | alloc
  | free (pid : Nat)

/-- The next pointer of a free inode: the 8 bytes at the start of its slot. -/
def inode_next (d : BlockDevice) (x : Nat) : Nat :=
  le_decode (host_bytes d.host
    (inode_pid_block x * d.block_size + inode_pid_slot x * SIZEOF_INODE) 8)

/-- The ids `fl` are the inode freelist that starts at `start`: each is
non-zero and its slot stores the id of the next one, the last stores 0. -/
def is_inode_freelist (d : BlockDevice) : Nat → List Nat → Prop
  | start, [] => start = 0
  | start, x :: xs => start = x ∧ x ≠ 0 ∧ is_inode_freelist d (inode_next d x) xs

/-- One call of the inode allocator on a device, an allocator and the list of
the inode ids that are allocated at the moment. `inode_free` of an id that is
not allocated is not part of the runs considered (`none`). -/
def inode_op_step (s : BlockDevice × INodeAllocator × List Nat) :
    InodeOp → Option (BlockDevice × INodeAllocator × List Nat)
  | .alloc =>
    let r := inode_alloc s.1 s.2.1
    some (r.1, r.2.1, if r.2.2 = 0 then s.2.2 else r.2.2 :: s.2.2)
  | .free pid =>
    if pid ∈ s.2.2 then
      let f := inode_free s.1 s.2.1 pid
      some (f.1, f.2.1, if f.2.2 then s.2.2.erase pid else s.2.2)
    else none

/-- A sequence of calls of the inode allocator. -/
def inode_ops_run : List InodeOp → BlockDevice × INodeAllocator × List Nat →
    Option (BlockDevice × INodeAllocator × List Nat)
  | [], s => some s
  | op :: ops, s =>
    match inode_op_step s op with
    | some s1 => inode_ops_run ops s1
    | none => none

/-- The id `x` names a slot of a block that the inode allocator has claimed:
a block from 1 up to `last_block` and a slot below `inodes_per_block`. -/
def inode_id_ok (d : BlockDevice) (a : INodeAllocator) (x : Nat) : Prop :=
  1 ≤ x / 256 ∧ x / 256 < d.master.last_block ∧ x % 256 < a.inodes_per_block

/-- The state of the inode allocator on a device whose blocks all lie below
byte `2^31` and of which only `inode_alloc` has taken blocks: `fl` is the inode
freelist, `al` the allocated ids, and the two split the slots of the blocks
from 1 up to `last_block`. -/
structure InodeInv (d : BlockDevice) (a : INodeAllocator) (al fl : List Nat) : Prop where
  ipb2 : 2 ≤ a.inodes_per_block
  ipb256 : a.inodes_per_block ≤ 256
  ipb_fit : a.inodes_per_block * SIZEOF_INODE ≤ d.block_size
  fits : d.blocks_total * d.block_size ≤ 2 ^ 31
  size_ok : d.blocks_total * d.block_size ≤ d.host.size
  no_free_block : d.master.first_unused_block = 0
  last_pos : 1 ≤ d.master.last_block
  last_le : d.master.last_block ≤ max d.blocks_total 1
  chain : is_inode_freelist d a.next_inode fl
  nodup_fl : fl.Nodup
  nodup_al : al.Nodup
  disj : ∀ x, x ∈ fl → x ∉ al
  part : ∀ x, (x ∈ fl ∨ x ∈ al) ↔ inode_id_ok d a x

/-- The run of `n` calls of `inode_alloc`: the device, the allocator and the
ids returned, in order. -/
def inode_alloc_n : Nat → BlockDevice → INodeAllocator → BlockDevice × INodeAllocator × List Nat
  | 0, device, allocator => (device, allocator, [])
  | n + 1, device, allocator =>
    let a := inode_alloc device allocator
    let r := inode_alloc_n n a.1 a.2.1
    (r.1, r.2.1, a.2.2 :: r.2.2)

/-- The state behind the in-range instance of C11, on a new device of 8 blocks of 512
bytes after `inode_initfs`: two calls of `inode_alloc`, `inode_free` of the id
256, and a third `inode_alloc`. -/
def C11_state : BlockDevice × INodeAllocator × List Nat :=
  (inode_ops_run [.alloc, .alloc, .free 256, .alloc]
    (fresh_device 512 8, inode_initfs 512, [])).getD (fresh_device 512 8, inode_initfs 512, [])

/-- The run behind C22 on a new device of `2^26 + 8` blocks of 64 bytes:
`block_write` of 64 ones to block `2^26` and `block_read` of that block, and
`block_write` and `block_read` of block `2^25` on the new device. Gives: the
flag of the write to block `2^26`, the 64 bytes of the host file from byte 0
and from byte `2^26 * 64` after it, flag and bytes of the read of block
`2^26`, and the flags of the write and the read of block `2^25`. -/
def C22_run : Bool × List Nat × List Nat × Bool × List Nat × Bool × Bool :=
  let d := fresh_device 64 (2 ^ 26 + 8)
  let w := block_write d (2 ^ 26) (List.replicate 64 1)
  let r := block_read w.1 (2 ^ 26)
  (w.2, host_bytes w.1.host 0 64, host_bytes w.1.host (2 ^ 26 * 64) 64, r.2.1, r.2.2,
    (block_write d (2 ^ 25) (List.replicate 64 1)).2, (block_read d (2 ^ 25)).2.1)

/-- The run behind C23 on a new device of 2 blocks of 512 bytes, which is full
once `inode_create` (with size 0) has taken block 1 for the inodes. On the
device and inode after `inode_create`: `block_alloc`, `inode_set_size(7000)`,
`inode_write` of 0 bytes at offset 7000, and `inode_write` of 1 byte at offset
6999. Gives: the flag of `inode_create`, the id `block_alloc` returns, flag,
`mem_size` and level of `inode_set_size`, flag, `mem_size` and level of the
write of 0 bytes, and whether the write of 1 byte has a result. -/
def C23_run : Except Abort (Bool × Nat × Bool × Nat × Nat × Bool × Nat × Nat × Bool) := do
  let c ← inode_create (fresh_device 512 2) (inode_initfs 512) 0 File.fresh.inode
  let z ← inode_set_size c.1 c.2.2.2 7000
  let w ← inode_write c.1 c.2.2.2 7000 [] 0
  pure (c.2.2.1, (block_alloc c.1).2, z.2.2, z.2.1.mem_size, z.2.1.level, w.2.2, w.2.1.mem_size,
    w.2.1.level, has_result (inode_write c.1 c.2.2.2 6999 [1] 1))

/-- The run behind C30 on a new device of 16 blocks of 256 bytes:
`inode_create` with size 0, `inode_write` of the byte 9 at offset 255 and of
the byte 8 at offset 512, so that the data blocks 0 and 2 of the file are live
and data block 1 is a hole. Then `inode_read` of 1 byte at 255, of 1 byte at
512, of 3 bytes at 255 and of 258 bytes at 255, each into a buffer of ones.
Gives: the flags of the two writes, the direct table, and flag and buffer of
each of the four reads. -/
def C30_run : Except Abort
    (Bool × Bool × List Nat × Bool × List Nat × Bool × List Nat × Bool × List Nat × Bool ×
      List Nat) := do
  let c ← inode_create (fresh_device 256 16) (inode_initfs 256) 0 File.fresh.inode
  let w1 ← inode_write c.1 c.2.2.2 255 [9] 1
  let w2 ← inode_write w1.1 w1.2.1 512 [8] 1
  let a ← inode_read w2.1 w2.2.1 255 [1] 1
  let b ← inode_read a.1 w2.2.1 512 [1] 1
  let r1 ← inode_read b.1 w2.2.1 255 [1, 1, 1] 3
  let r2 ← inode_read r1.1 w2.2.1 255 (List.replicate 258 1) 258
  pure (w1.2.2, w2.2.2, w2.2.1.blocks, a.2.1, a.2.2, b.2.1, b.2.2, r1.2.1, r1.2.2, r2.2.1, r2.2.2)

/-- The start of the run behind C21, on a new device of `2^32 + 4096` bytes
(`2^23 + 8` blocks of 512 bytes): `fs_init`, `fs_open_file(root, "b", 1)` and
`fs_open_file` for a name of 46 bytes. The root is dirty and has the two
files as children; no data block is in use yet. -/
def C21_start : FS :=
  result_or (do
    let some fs ← fs_init HostFile.empty (2 ^ 32 + 8 * 512) | throw .undefined
    let a ← fs_open_file fs .root [98] 1
    let b ← fs_open_file a.1 .root (List.replicate 46 97) 46
    pure b.1) FS.none

/-- The state `C21_start` after `2^23 - 2` calls of `block_alloc` on its
device (which only move the bump pointer). -/
def C21_state : FS :=
  { C21_start with device := bumped C21_start.device (2 ^ 23 - 2) }

/-- The fields of block 0 that `fs_unmount` saves, but for the root inode id:
`block_size`, `blocks_total`, `first_unused_block`, `last_block`, `next_inode`
and `inodes_per_block`. -/
def fs_header (fs : FS) : Nat × Nat × Nat × Nat × Nat × Nat :=
  (fs.device.block_size, fs.device.blocks_total, fs.device.master.first_unused_block,
    fs.device.master.last_block, fs.inode_a.next_inode, fs.inode_a.inodes_per_block)

/-- The run behind C21: `fs_unmount` of `C21_state` and `fs_mount` of the
host file it leaves. Gives: the flag of `fs_unmount`, the root inode id, the
first entry of the root's direct table and the names of the root's children
at unmount; the header fields at unmount; whether `fs_mount` succeeds and the
header fields after it; and the root inode id and the names of the root's
children after it. -/
def C21_run : Except Abort
    ((Bool × Nat × Nat × List (List Nat)) × (Nat × Nat × Nat × Nat × Nat × Nat) ×
      (Bool × Nat × Nat × Nat × Nat × Nat × Nat) × (Nat × List (List Nat))) := do
  let u ← fs_unmount C21_state
  let m ← fs_mount u.1.device.host
  let fs2 := m.getD FS.none
  let l0 ← ls_root u.1
  let l ← ls_root fs2
  pure ((u.2, u.1.root.inode.pid, u.1.root.inode.blocks.getD 0 0, l0), fs_header u.1,
    (m.isSome, fs_header fs2), (fs2.root.inode.pid, l))

/-- Modelled from the spec: the capacity in bytes of a tree of level `k`,
`13 * block_size * B^k` with `B = block_size / 8` ("the smallest `k` such
that `13 · block_size · B^k ≥ mem_size`"). -/
def level_capacity (block_size k : Nat) : Nat :=
  BLOCKS_PER_INODE * block_size * (block_size / SIZEOF_BLOCKPID) ^ k

/-- Modelled from the spec: `k` is the smallest level whose capacity is at
least `mem_size`. -/
def is_smallest_level (block_size mem_size k : Nat) : Prop :=
  mem_size ≤ level_capacity block_size k ∧ ∀ j, j < k → level_capacity block_size j < mem_size

/-- The two fields of an inode that say how large the file and its tree are. -/
def inode_shape (inode : INode) : Nat × Nat := (inode.level, inode.mem_size)

/-- The state that the digit loop of `increment_block_path` leaves. -/
def CarryOutcome.state : CarryOutcome → PathState
  | .returned st _ _ => st
  | .broke st _ _ _ => st

/-- The run behind the counterexample to C24 on a new device of 8 blocks of
512 bytes: `inode_create` with size 0, `inode_set_size(7000)` and
`inode_set_size(10)`. Gives the flag, level and `mem_size` after each of the
three calls. -/
def C24_run : Except Abort (Bool × Nat × Nat × Bool × Nat × Nat × Bool × Nat × Nat) := do
  let c ← inode_create (fresh_device 512 8) (inode_initfs 512) 0 File.fresh.inode
  let z1 ← inode_set_size c.1 c.2.2.2 7000
  let z2 ← inode_set_size z1.1 z1.2.1 10
  pure (c.2.2.1, c.2.2.2.level, c.2.2.2.mem_size, z1.2.2, z1.2.1.level, z1.2.1.mem_size,
    z2.2.2, z2.2.1.level, z2.2.1.mem_size)

/-- The state behind the instance of C24: the device and the inode after
`inode_create` with size 0 on a new device of 8 blocks of 512 bytes. -/
def C24_state : BlockDevice × INode :=
  result_or
    ((inode_create (fresh_device 512 8) (inode_initfs 512) 0 File.fresh.inode).map
      (fun c => (c.1, c.2.2.2)))
    (fresh_device 512 8, File.fresh.inode)

/-- The data block that `get_block_path` finds in Read mode for the data-block
index `block_offset`: the success flag and `block_path_pids[0]`, the id that
`inode_read` goes on to read from. -/
def block_path_pid (device : BlockDevice) (inode : INode) (block_offset : Nat) :
    Except Abort (Bool × Nat) := do
  let p ← get_block_path device inode block_offset INC_PATH_READ
  pure (p.2, p.1.block_path_pids.getD 0 0)

/-- The run behind C26, on the device and inode of `C20_grown` (blocks of 256
bytes, `B = 32`; level 1, direct table 3, 4, 0, ...; data block 2 at index 0
and data block 5 at index 32) after `2^24 - 3` calls of `block_alloc` (which
only move the bump pointer): `inode_set_size(200000)`. Gives: level and direct
table before; the data blocks at the indices 0, 1 and 32 before;
the flag of `inode_set_size`, level and direct table after; `last_block`
before and after; and the data blocks at the indices 0, 1 and 32 after. -/
def C26_run : Except Abort
    (Nat × List Nat × List (Bool × Nat) × Bool × Nat × List Nat × Nat × Nat ×
      List (Bool × Nat)) := do
  let d := bumped C20_grown.1 (2 ^ 24 - 3)
  let ino := C20_grown.2.2.1
  let a0 ← block_path_pid d ino 0
  let a1 ← block_path_pid d ino 1
  let a32 ← block_path_pid d ino 32
  let z ← inode_set_size d ino 200000
  let b0 ← block_path_pid z.1 z.2.1 0
  let b1 ← block_path_pid z.1 z.2.1 1
  let b32 ← block_path_pid z.1 z.2.1 32
  pure (ino.level, ino.blocks, [a0, a1, a32], z.2.2, z.2.1.level, z.2.1.blocks,
    d.master.last_block, z.1.master.last_block, [b0, b1, b32])

/-- The start of the run behind C28, on a new device of `2^24 + 64` blocks of
256 bytes (`B = 32`): `inode_create` with size 300000 (level 2) and an
`inode_write` of one byte at offset `781 * 256`, which makes the index blocks
2 and 3 and the data block 4. Gives the device, the inode, the flag of
`inode_create`, and the flag of the write. -/
def C28_start : BlockDevice × INode × Bool × Bool :=
  result_or (do
    let c ← inode_create (fresh_device 256 (2 ^ 24 + 64)) (inode_initfs 256) 300000
      File.fresh.inode
    let w ← inode_write c.1 c.2.2.2 199936 [1] 1
    pure (w.1, w.2.1, c.2.2.1, w.2.2)) (fresh_device 256 0, File.fresh.inode, false, false)

/-- The run behind C28: after `C28_start` and `2^24 - 3` calls of
`block_alloc` (which only move the bump pointer), `get_block_path` in Write
mode for the data-block index 781, `increment_block_path` in Write mode with
`blocks_stepped_max = 1`, and `get_block_path` in Read mode for the index 782
on the state that is left. Gives: level and direct table of the inode; flag,
`block_path`, `block_path_pids` and `last_block` after the first
`get_block_path`; `*ret`, the step count, `block_path`, `block_path_pids` and
`last_block` after `increment_block_path`; and flag, `block_path` and
`block_path_pids` of the second `get_block_path`. -/
def C28_run : Except Abort
    ((Nat × List Nat × Bool × List Nat × List Nat × Nat) ×
      (Nat × Nat × List Nat × List Nat × Nat) × (Bool × List Nat × List Nat)) := do
  let d := bumped C28_start.1 (2 ^ 24 - 3)
  let p ← get_block_path d C28_start.2.1 781 INC_PATH_WRITE
  let r := increment_block_path p.1 INC_PATH_WRITE 1
  let q ← get_block_path r.1.device r.1.inode 782 INC_PATH_READ
  pure ((C28_start.2.1.level, C28_start.2.1.blocks, p.2, p.1.block_path, p.1.block_path_pids,
      p.1.device.master.last_block),
    (r.2.1, r.2.2, r.1.block_path, r.1.block_path_pids, r.1.device.master.last_block),
    (q.2, q.1.block_path, q.1.block_path_pids))

/-- A run of `increment_block_path` in Write mode from a cursor over a hole,
on a new device of 64 blocks of 256 bytes: `inode_create` with size 100000
(level 1, no blocks), `get_block_path` in Read mode for the data-block index
0, and `increment_block_path` in Write mode with `blocks_stepped_max = 1`.
Gives: flag, `block_path` and `block_path_pids` of `get_block_path`; `*ret`,
the step count, `block_path` and `block_path_pids` after
`increment_block_path`; and `last_block` before and after it. -/
def hole_cursor_run : Except Abort
    ((Bool × List Nat × List Nat) × (Nat × Nat × List Nat × List Nat) × Nat × Nat) := do
  let c ← inode_create (fresh_device 256 64) (inode_initfs 256) 100000 File.fresh.inode
  let p ← get_block_path c.1 c.2.2.2 0 INC_PATH_READ
  let r := increment_block_path p.1 INC_PATH_WRITE 1
  pure ((p.2, p.1.block_path, p.1.block_path_pids),
    (r.2.1, r.2.2, r.1.block_path, r.1.block_path_pids),
    c.1.master.last_block, r.1.device.master.last_block)

/-- The start of the run behind C29, on a new device of 16711943 blocks of 257
bytes (`B = 32`, 2 inodes per block): `inode_create` with size 100000 (inode
256, level 1) and `inode_create` with size 0 (inode 257). Gives the device,
the two inodes and the two flags. -/
def C29_start : BlockDevice × INode × INode × Bool × Bool :=
  result_or (do
    let ca ← inode_create (fresh_device 257 16711943) (inode_initfs 257) 100000 File.fresh.inode
    let cb ← inode_create ca.1 ca.2.1 0 File.fresh.inode
    pure (cb.1, ca.2.2.2, cb.2.2.2, ca.2.2.1, cb.2.2.1))
    (fresh_device 257 0, File.fresh.inode, File.fresh.inode, false, false)

/-- The run behind C29: after `C29_start` and 16711933 calls of `block_alloc`
(which only move the bump pointer), an `inode_write` of one byte to inode 256
at offset `32 * 257`, `inode_save` of inode 257 and of inode 256, then
`get_block_path` in Read mode for the data-block index 31,
`increment_block_path` in Read mode with `blocks_stepped_max = 1`, and
`get_block_path` in Read mode for the index 32 on the state that is left.
Gives: the flag of the write, the direct table and `last_block` after it; the
flags of the two `inode_save`; flag, `block_path` and `block_path_pids` of the
first `get_block_path`; `*ret`, the step count, `block_path` and
`block_path_pids` after `increment_block_path`; and flag, `block_path` and
`block_path_pids` of the second `get_block_path`. -/
def C29_run : Except Abort
    ((Bool × List Nat × Nat × Bool × Bool) × (Bool × List Nat × List Nat) ×
      (Nat × Nat × List Nat × List Nat) × (Bool × List Nat × List Nat)) := do
  let d1 := bumped C29_start.1 16711933
  let w ← inode_write d1 C29_start.2.1 8224 [5] 1
  let sb := inode_save w.1 C29_start.2.2.1
  let sa := inode_save sb.1 w.2.1
  let p ← get_block_path sa.1 w.2.1 31 INC_PATH_READ
  let r := increment_block_path p.1 INC_PATH_READ 1
  let q ← get_block_path r.1.device r.1.inode 32 INC_PATH_READ
  pure ((w.2.2, w.2.1.blocks, w.1.master.last_block, sb.2, sa.2),
    (p.2, p.1.block_path, p.1.block_path_pids),
    (r.2.1, r.2.2, r.1.block_path, r.1.block_path_pids),
    (q.2, q.1.block_path, q.1.block_path_pids))

/-- The run behind C32 on a new device of 2 blocks of 512 bytes, which is full
once `inode_create` (with size 0) has taken block 1 for the inodes. Writes of
0 bytes: at offset 0 and at offset 5 to the new inode; then, to the inode the
write at offset 5 leaves, at offset 3 and at offset 7000; and on that same
inode `inode_set_size(7000)` and an `inode_read` of 0 bytes at offset 3.
Gives: the flag of `inode_create`; flag, `mem_size` and level after each of
the four writes; the flag of `inode_set_size(7000)`; the flag of the read. -/
def C32_run : Except Abort
    (Bool × (Bool × Nat × Nat) × (Bool × Nat × Nat) × (Bool × Nat × Nat) × (Bool × Nat × Nat) ×
      Bool × Bool) := do
  let c ← inode_create (fresh_device 512 2) (inode_initfs 512) 0 File.fresh.inode
  let w0 ← inode_write c.1 c.2.2.2 0 [] 0
  let w1 ← inode_write c.1 c.2.2.2 5 [] 0
  let w2 ← inode_write w1.1 w1.2.1 3 [] 0
  let w3 ← inode_write w1.1 w1.2.1 7000 [] 0
  let z ← inode_set_size w1.1 w1.2.1 7000
  let r ← inode_read w1.1 w1.2.1 3 [] 0
  pure (c.2.2.1, (w0.2.2, w0.2.1.mem_size, w0.2.1.level), (w1.2.2, w1.2.1.mem_size, w1.2.1.level),
    (w2.2.2, w2.2.1.mem_size, w2.2.1.level), (w3.2.2, w3.2.1.mem_size, w3.2.1.level), z.2.2,
    r.2.1)

/-- The value of `capacity` in `inode_get_required_level` when the loop
condition is tested for the `k`-th time after the first: the `int` product
`13 * block_size` at the start (`required_level_start`), multiplied by
`block_base` in every round, as a `uint64`. -/
def required_level_capacity (block_size : Nat) : Nat → Nat
  | 0 => required_level_start block_size
  | k + 1 => required_level_capacity block_size k * (block_size / SIZEOF_BLOCKPID) % 2 ^ 64

/-- Entry `i` of the index block `pid`: the 8 bytes at byte `8 * i` of the
block, which lies at byte `pid * block_size` of the host file. -/
def index_entry (device : BlockDevice) (pid i : Nat) : Nat :=
  le_decode (host_bytes device.host (pid * device.block_size + i * SIZEOF_BLOCKPID) 8)

/-- The start of the run behind C36, on a new device of `2^24 + 64` blocks of
256 bytes (`B = 32`): `inode_create` with size 0 and `inode_set_size(200000)`,
which makes the inode a tree of level 2 with the index blocks 2 and 3. Gives
the device, the inode and the flags of the two calls. -/
def C36_start : BlockDevice × INode × Bool × Bool :=
  result_or (do
    let c ← inode_create (fresh_device 256 (2 ^ 24 + 64)) (inode_initfs 256) 0 File.fresh.inode
    let z ← inode_set_size c.1 c.2.2.2 200000
    pure (z.1, z.2.1, c.2.2.1, z.2.2)) (fresh_device 256 0, File.fresh.inode, false, false)

/-- The run behind C36: after `C36_start` and `2^24 - 2` calls of
`block_alloc` (which only move the bump pointer), `get_block_path` in Write
mode for the data-block index 33, and `get_block_path` in Read mode for the
same index on the state that is left. Gives: level, direct table and
`last_block` before; flag, `block_path`, `block_path_pids` and `last_block`
of the call in Write mode; entry 1 of the index block `block_path_pids[2]`
after it, as `block_reads` delivers it and as it stands in the host file, and
the same for entry 1 of the index block `block_path_pids[1]`; and flag,
`block_path` and `block_path_pids` of the call in Read mode. -/
def C36_run : Except Abort
    ((Nat × List Nat × Nat) × (Bool × List Nat × List Nat × Nat) ×
      ((Bool × Nat) × Nat × (Bool × Nat) × Nat) × (Bool × List Nat × List Nat)) := do
  let d := bumped C36_start.1 (2 ^ 24 - 2)
  let p ← get_block_path d C36_start.2.1 33 INC_PATH_WRITE
  let top := p.1.block_path_pids.getD 2 0
  let mid := p.1.block_path_pids.getD 1 0
  let r2 := block_reads p.1.device top (1 * SIZEOF_BLOCKPID) 8
  let r1 := block_reads p.1.device mid (1 * SIZEOF_BLOCKPID) 8
  let q ← get_block_path p.1.device p.1.inode 33 INC_PATH_READ
  pure ((C36_start.2.1.level, C36_start.2.1.blocks, d.master.last_block),
    (p.2, p.1.block_path, p.1.block_path_pids, p.1.device.master.last_block),
    ((r2.2.1, le_decode r2.2.2), index_entry p.1.device top 1,
      (r1.2.1, le_decode r1.2.2), index_entry p.1.device mid 1),
    (q.2, q.1.block_path, q.1.block_path_pids))

/-- The block freelist of `d` is empty, the bump pointer has `n` blocks left,
and every block of the device lies below byte `2^31` and inside the host file. -/
def bump_room (d : BlockDevice) (n : Nat) : Prop :=
  d.master.first_unused_block = 0 ∧ 1 ≤ d.master.last_block ∧
    d.master.last_block + n ≤ d.blocks_total ∧ d.blocks_total * d.block_size ≤ 2 ^ 31 ∧
    d.blocks_total * d.block_size ≤ d.host.size

/-- The start of the run behind C35, on a new device of 65540 blocks of 21004
bytes: `inode_initfs` and `inode_create` with size 0. Gives the device, the
inode and the flag. -/
def C35_start : BlockDevice × INode × Bool :=
  result_or
    ((inode_create (fresh_device 21004 65540) (inode_initfs 21004) 0 File.fresh.inode).map
      (fun c => (c.1, c.2.2.2, c.2.2.1)))
    (fresh_device 21004 0, File.fresh.inode, false)

/-- The children of a directory from `cur_child` on, in list order: inode id,
`name_size` and the bytes that `fs_get_filename` gives, for each. The fuel
bounds the length of the list. -/
def dir_children (fs : FS) : Nat → FilePtr → Except Abort (List (Nat × Nat × List Nat))
  | 0, _ => .error .diverges
  | fuel + 1, cur_child =>
    if cur_child = .null then pure []
    else do
      let c ← fs_deref fs cur_child
      let name ← fs_get_filename c
      let rest ← dir_children fs fuel c.next
      pure ((c.inode.pid, c.name_size, name) :: rest)

/-- The directory entry of a child as the spec lays it out: 8 bytes of inode
id, 2 bytes of `name_size`, and the name. -/
def dir_entry_bytes (e : Nat × Nat × List Nat) : List Nat :=
  le_encode 8 e.1 ++ le_encode 2 e.2.1 ++ e.2.2

/-- The start of the runs behind C31 and C33, on a new device of `2^23 + 8`
blocks of 512 bytes: `fs_init`, `fs_open_file` for a name of 152 bytes `a`,
`fs_save_dir` of the root (which takes block 2 as the first data block of the
root directory), and `fs_open_file` for three more names of 152 bytes (`b`,
`c`, `d`). The root is dirty and has four files as children. -/
def C31_start : FS :=
  result_or (do
    let some fs ← fs_init HostFile.empty ((2 ^ 23 + 8) * 512) | throw .undefined
    let a ← fs_open_file fs .root (List.replicate 152 97) 152
    let s ← fs_save_dir a.1 .root
    let b ← fs_open_file s.1 .root (List.replicate 152 98) 152
    let c ← fs_open_file b.1 .root (List.replicate 152 99) 152
    let d ← fs_open_file c.1 .root (List.replicate 152 100) 152
    pure d.1) FS.none

/-- The state `C31_start` after `2^23 - 2` calls of `block_alloc` on its
device (which only move the bump pointer). -/
def C31_state : FS :=
  { C31_start with device := bumped C31_start.device (2 ^ 23 - 2) }

/-- The run behind C31: `fs_save_dir` of the root of `C31_state`, and an
`inode_read` of the first 10 bytes of the root directory's inode. Gives: the
inode id and `name_size` of the root's children in `head_child` order; the
flag of `fs_save_dir`, `mem_size` of the directory inode, the `FILE_IS_DIRTY`
bit of the root and the directory's direct table after it; the flag of the
read and the bytes read; and the first 10 bytes of the entry of the first
child. -/
def C31_run : Except Abort
    (List (Nat × Nat) × (Bool × Nat × Nat × List Nat) × (Bool × List Nat) × List Nat) := do
  let ks ← dir_children C31_state (C31_state.dir_cache.length + 1) C31_state.root.head_child
  let s ← fs_save_dir C31_state .root
  let r ← inode_read s.1.device s.1.root.inode 0 (List.replicate 10 0) 10
  pure (ks.map (fun e => (e.1, e.2.1)),
    (s.2, s.1.root.inode.mem_size, s.1.root.flags &&& FILE_IS_DIRTY, s.1.root.inode.blocks),
    (r.2.1, r.2.2), ((ks.map dir_entry_bytes).flatten).take 10)

/-- The run behind C33: `fs_save_dir` of the root of `C31_state`, then
`fs_restore_dir` on the root node with the same inode, `DIR_IS_CACHED` not
set. Gives: the inode id and `name_size` of the root's children before; the
flag of `fs_save_dir`; the flag of `fs_restore_dir`; and inode id and
`name_size` of the root's children after it. -/
def C33_run : Except Abort (List (Nat × Nat) × Bool × Bool × List (Nat × Nat)) := do
  let ks ← dir_children C31_state (C31_state.dir_cache.length + 1) C31_state.root.head_child
  let s ← fs_save_dir C31_state .root
  let fs2 : FS := { s.1 with root := { s.1.root with flags := 0 } }
  let t ← fs_restore_dir fs2 .root
  let ks2 ← dir_children t.1 (t.1.dir_cache.length + 1) t.1.root.head_child
  pure (ks.map (fun e => (e.1, e.2.1)), s.2, t.2, ks2.map (fun e => (e.1, e.2.1)))

/-- The data-block index that a block path stands for: digit `i` counts
`block_base ^ i`. -/
def path_value (block_base : Nat) : List Nat → Nat
  | [] => 0
  | d :: ds => d + block_base * path_value block_base ds

/-- The two devices differ at most in the position of the host file's
descriptor: header fields, length and bytes of the host file are the same. -/
def same_storage (d d1 : BlockDevice) : Prop :=
  d1.master = d.master ∧ d1.block_size = d.block_size ∧ d1.blocks_total = d.blocks_total ∧
    d1.host.size = d.host.size ∧ d1.host.data = d.host.data

/-- The bytes that the entries of the children from `cur_child` on take in a
directory: `SIZEOF_HEADER + name_size` for each child. The fuel bounds the
length of the list. -/
def dir_entries_size (fs : FS) : Nat → FilePtr → Except Abort Nat
  | 0, _ => .error .diverges
  | fuel + 1, cur_child =>
    if cur_child = .null then pure 0
    else do
      let c ← fs_deref fs cur_child
      let rest ← dir_entries_size fs fuel c.next
      pure (SIZEOF_HEADER + c.name_size + rest)

/-- The start of the run behind C11, on a new device of `2^24 + 8` blocks of
256 bytes (2 inodes per block) after `inode_initfs`: two calls of
`inode_alloc`, which claim block 1 and use both of its slots. Gives the
device, the allocator and the two ids. -/
def C11_start : BlockDevice × INodeAllocator × List Nat :=
  let r1 := inode_alloc (fresh_device 256 (2 ^ 24 + 8)) (inode_initfs 256)
  let r2 := inode_alloc r1.1 r1.2.1
  (r2.1, r2.2.1, [r1.2.2, r2.2.2])

/-- The run behind C11, from `C11_start` with the bump pointer moved on by
`2^24 - 1` (to block `2^24 + 1`): a third `inode_alloc`, `inode_free` of the
id 256 and `inode_free` of the third id, and three more calls of
`inode_alloc`. Gives: the third id, the flags of the two calls of
`inode_free`, and the three ids allocated after them. -/
def C11_run : Nat × Bool × Bool × List Nat :=
  let r3 := inode_alloc (bumped C11_start.1 (2 ^ 24 - 1)) C11_start.2.1
  let f1 := inode_free r3.1 r3.2.1 256
  let f2 := inode_free f1.1 f1.2.1 r3.2.2
  let a := inode_alloc_n 3 f2.1 f2.2.1
  (r3.2.2, f1.2.2, f2.2.2, a.2.2)

/-- The run behind C25, on a new device of 1330130 blocks of 3229 bytes (25
inodes per block) with the bump pointer moved on by 1330122 (to block
1330123), after `inode_initfs`: `inode_alloc` with the empty inode freelist,
and three more calls of `inode_alloc`. Gives: `inodes_per_block`; the id the
first call returns and `next_inode` after it; the first 8 bytes of the slots 1
and 2 of block 1330123 in the host file, as numbers; the ids the three calls
return; and `next_inode` after the first of them. -/
def C25_run : Nat × Nat × Nat × Nat × Nat × List Nat × Nat :=
  let a := inode_initfs 3229
  let r := inode_alloc (bumped (fresh_device 3229 1330130) 1330122) a
  let n := inode_alloc_n 3 r.1 r.2.1
  (a.inodes_per_block, r.2.2, r.2.1.next_inode, inode_next r.1 (r.2.2 ||| 1),
    inode_next r.1 (r.2.2 ||| 2), n.2.2, (inode_alloc r.1 r.2.1).2.1.next_inode)

/-- The state behind the failure instance of C17, on a new device of 1024
bytes (the header block and one block of 4 inodes): `fs_open_file` for the
names "a", "b" and "c". The root is cached, has these three children, and no
inode and no block is left. -/
def C17_full_state : FS :=
  result_or (do
    let some fs ← fs_init HostFile.empty 1024 | throw .undefined
    let a ← fs_open_file fs .root [97] 1
    let b ← fs_open_file a.1 .root [98] 1
    let c ← fs_open_file b.1 .root [99] 1
    pure c.1) FS.none

/-- The device and inode behind the instance of C32: a new device of 2 blocks
of 512 bytes after `inode_initfs` and `inode_create` with size 0. -/
def C32_start : BlockDevice × INode :=
  result_or
    ((inode_create (fresh_device 512 2) (inode_initfs 512) 0 File.fresh.inode).map
      (fun c => (c.1, c.2.2.2)))
    (fresh_device 512 2, File.fresh.inode)

end Fs

/-! # Theorems -/

namespace Fs

/-! ## The block allocator -/

theorem block_alloc_bump (d : BlockDevice) (h0 : d.master.first_unused_block = 0)
    (h : d.master.last_block < d.blocks_total) :
    block_alloc d = (bumped d 1, d.master.last_block) := by
  simp [block_alloc, bumped, h0, Nat.not_le.mpr h]

theorem block_alloc_full (d : BlockDevice) (h0 : d.master.first_unused_block = 0)
    (h : d.blocks_total ≤ d.master.last_block) : block_alloc d = (d, 0) := by
  simp [block_alloc, h0, h]

theorem bumped_bumped (d : BlockDevice) (m n : Nat) : bumped (bumped d m) n = bumped d (m + n) := by
  simp [bumped, Nat.add_assoc]

theorem bumped_zero (d : BlockDevice) : bumped d 0 = d := by
  simp [bumped]

/-- While the freelist is empty and the bump pointer has room, `n` calls of
`block_alloc` return `last_block, last_block + 1, ...` and only move the bump
pointer. -/
theorem block_alloc_n_bump (n : Nat) (d : BlockDevice) (h0 : d.master.first_unused_block = 0)
    (h : d.master.last_block + n ≤ d.blocks_total) :
    block_alloc_n n d = (bumped d n, List.range' d.master.last_block n) := by
  induction n generalizing d with
  | zero => simp [block_alloc_n, bumped_zero]
  | succ n ih =>
    have h1 : d.master.last_block < d.blocks_total := by omega
    have h2 : (bumped d 1).master.first_unused_block = 0 := by simpa [bumped] using h0
    have h3 : (bumped d 1).master.last_block + n ≤ (bumped d 1).blocks_total := by
      simp only [bumped]; omega
    simp only [block_alloc_n, block_alloc_bump d h0 h1, ih (bumped d 1) h2 h3, bumped_bumped]
    simp [bumped, List.range'_succ, Nat.add_comm]

/-- Once the bump pointer has reached `blocks_total` and the freelist is
empty, every call of `block_alloc` fails and changes nothing. -/
theorem block_alloc_n_full (n : Nat) (d : BlockDevice) (h0 : d.master.first_unused_block = 0)
    (h : d.blocks_total ≤ d.master.last_block) :
    block_alloc_n n d = (d, List.replicate n 0) := by
  induction n with
  | zero => simp [block_alloc_n]
  | succ n ih => simp [block_alloc_n, block_alloc_full d h0 h, ih, List.replicate_succ]

theorem block_alloc_n_add (m n : Nat) (d : BlockDevice) :
    block_alloc_n (m + n) d =
      ((block_alloc_n n (block_alloc_n m d).1).1,
        (block_alloc_n m d).2 ++ (block_alloc_n n (block_alloc_n m d).1).2) := by
  induction m generalizing d with
  | zero => simp [block_alloc_n]
  | succ m ih =>
    have e : m + 1 + n = (m + n) + 1 := by omega
    rw [e]
    simp [block_alloc_n, ih]

theorem device_create_eq (host : HostFile) (block_size blocks_total : Nat) (d : BlockDevice)
    (h : device_create host block_size blocks_total = some d) :
    d.master.first_unused_block = 0 ∧ d.master.last_block = 1 ∧
      d.blocks_total = blocks_total ∧ d.block_size = block_size := by
  unfold device_create at h
  simp only at h
  split at h
  · cases h
  · cases h
    simp

/-- C8, as the code has it: on a freshly created device with
`blocks_total = 64` and no frees, the calls of `block_alloc` return
1, 2, ..., 63 (the 63rd call returns 63) and then 0 on the 64th and the 65th
call: block 0 is the master block, so 63 blocks can be handed out. -/
theorem C8_block_alloc_64_blocks (host : HostFile) (block_size : Nat) (d : BlockDevice)
    (h : device_create host block_size 64 = some d) :
    (block_alloc_n 65 d).2 = List.range' 1 63 ++ [0, 0] := by
  obtain ⟨h0, h1, h2, _⟩ := device_create_eq host block_size 64 d h
  have e : (65 : Nat) = 63 + 2 := rfl
  rw [e, block_alloc_n_add]
  have hb := block_alloc_n_bump 63 d h0 (by rw [h1, h2])
  rw [hb]
  have hf := block_alloc_n_full 2 (bumped d 63) (by simpa [bumped] using h0)
    (by simp only [bumped]; rw [h1, h2])
  rw [hf, h1]
  rfl

/-- Witness for C8: the device of 64 blocks of 512 bytes on an empty host file. -/
theorem C8_block_alloc_64_blocks_witness :
    device_create HostFile.empty 512 64 = some (fresh_device 512 64) ∧
      (block_alloc_n 65 (fresh_device 512 64)).2 = List.range' 1 63 ++ [0, 0] :=
  ⟨rfl, C8_block_alloc_64_blocks HostFile.empty 512 (fresh_device 512 64) rfl⟩

/-- C8 as stated fails: on the device of 64 blocks of 512 bytes the 64th call
of `block_alloc` does not return 63 (it returns 0, like the 65th). -/
theorem C8_counterexample :
    device_create HostFile.empty 512 64 = some (fresh_device 512 64) ∧
      (block_alloc_n 65 (fresh_device 512 64)).2.get? 0 = some 1 ∧
      (block_alloc_n 65 (fresh_device 512 64)).2.get? 63 = some 0 ∧
      (block_alloc_n 65 (fresh_device 512 64)).2.get? 63 ≠ some 63 ∧
      (block_alloc_n 65 (fresh_device 512 64)).2.get? 64 = some 0 := by
  refine ⟨rfl, ?_⟩
  decide!

/-! ## Bytes -/

theorem le_encode_succ (n x : Nat) : le_encode (n + 1) x = x % 256 :: le_encode n (x / 256) := by
  unfold le_encode
  rw [List.range_succ_eq_map, List.map_cons, List.map_map]
  simp only [pow_zero, Nat.div_one, List.cons.injEq, true_and]
  apply List.map_congr_left
  intro i _
  simp only [Function.comp, pow_succ, Nat.div_div_eq_div_mul]
  rw [Nat.mul_comm]

theorem le_encode_length (n x : Nat) : (le_encode n x).length = n := by
  simp [le_encode]

theorem le_decode_cons (b : Nat) (bs : List Nat) :
    le_decode (b :: bs) = b % 256 + 256 * le_decode bs := by
  simp [le_decode]

theorem le_decode_encode (n x : Nat) : le_decode (le_encode n x) = x % 256 ^ n := by
  induction n generalizing x with
  | zero => simp [le_encode, le_decode, Nat.mod_one]
  | succ n ih =>
    rw [le_encode_succ, le_decode_cons, ih, Nat.mod_mod, pow_succ, Nat.mul_comm (256 ^ n) 256,
      Nat.mod_mul]

theorem le_decode_encode_8 (x : Nat) (h : x < 2 ^ 64) : le_decode (le_encode 8 x) = x := by
  rw [le_decode_encode]
  apply Nat.mod_eq_of_lt
  have : (256 : Nat) ^ 8 = 2 ^ 64 := by norm_num
  omega

theorem mem_bytes_length (mem : List Nat) (s n : Nat) : (mem_bytes mem s n).length = n := by
  simp [mem_bytes]

theorem mem_bytes_getD (mem : List Nat) (s n i : Nat) (h : i < n) :
    (mem_bytes mem s n).getD i 0 = mem.getD (s + i) 0 := by
  simp [mem_bytes, List.getD_eq_getElem?_getD, List.getElem?_map, List.getElem?_range h]

theorem mem_bytes_self (mem : List Nat) : mem_bytes mem 0 mem.length = mem := by
  apply List.ext_getElem
  · simp [mem_bytes]
  · intro i h1 h2
    simp [mem_bytes, List.getD_eq_getElem?_getD, List.getElem?_eq_getElem h2]

theorem host_bytes_length (h : HostFile) (a n : Nat) : (host_bytes h a n).length = n := by
  simp [host_bytes]

theorem host_bytes_eq_of (h : HostFile) (a : Nat) (l : List Nat)
    (hl : ∀ i, i < l.length → h.data (a + i) = l.getD i 0) : host_bytes h a l.length = l := by
  apply List.ext_getElem
  · simp [host_bytes]
  · intro i h1 h2
    simp only [host_bytes, List.getElem_map, List.getElem_range]
    rw [hl i h2]
    simp [List.getD_eq_getElem?_getD, List.getElem?_eq_getElem h2]

theorem host_bytes_congr (h h1 : HostFile) (a n : Nat)
    (hl : ∀ i, i < n → h.data (a + i) = h1.data (a + i)) : host_bytes h a n = host_bytes h1 a n := by
  unfold host_bytes
  apply List.map_congr_left
  intro i hi
  exact hl i (List.mem_range.mp hi)

/-! ## Block operations below byte `2^31` -/

theorem host_lseek_ok (h : HostFile) (off : Nat) (hlt : off < 2 ^ 31) :
    host_lseek h off = ({ h with pos := off }, true) := by
  unfold host_lseek
  rw [if_pos hlt]

theorem host_read_full (h : HostFile) (n : Nat) (hle : h.pos + n ≤ h.size) :
    host_read h n = ({ h with pos := h.pos + n }, host_bytes h h.pos n) := by
  unfold host_read host_bytes
  have hmin : min n (h.size - h.pos) = n := Nat.min_eq_left (by omega)
  simp only [hmin]

theorem int_off_in_range (d : BlockDevice) (pid off : Nat) (h : block_in_range d pid)
    (ho : off ≤ d.block_size) : int_off pid d.block_size off = pid * d.block_size + off ∧
      pid * d.block_size + off ≤ 2 ^ 31 ∧ pid * d.block_size + off ≤ d.host.size := by
  obtain ⟨_, h1, h2⟩ := h
  have e : (pid + 1) * d.block_size = pid * d.block_size + d.block_size := by ring
  rw [e] at h1 h2
  refine ⟨?_, by omega, by omega⟩
  unfold int_off
  apply Nat.mod_eq_of_lt
  have : (2:Nat) ^ 31 < 2 ^ 32 := by norm_num
  omega

theorem block_reads_m_in_range (d : BlockDevice) (pid off n : Nat) (h : block_in_range d pid)
    (hn : off + n ≤ d.block_size) (h0 : n ≠ 0) :
    block_reads_m d pid off n =
      ({ d with host := { d.host with pos := pid * d.block_size + off + n } }, true,
        host_bytes d.host (pid * d.block_size + off) n) := by
  obtain ⟨e1, e2, e3⟩ := int_off_in_range d pid (off + n) h hn
  obtain ⟨f1, f2, f3⟩ := int_off_in_range d pid off h (by omega)
  have hlt : pid * d.block_size + off < 2 ^ 31 := by omega
  unfold block_reads_m
  rw [if_neg h0]
  simp only [f1, host_lseek_ok _ _ hlt]
  rw [host_read_full _ _ (by simp only; omega)]
  simp [host_bytes]

/-- What `block_reads` does to a block below byte `2^31`: it succeeds, gives
the bytes of the host file, and changes nothing but the descriptor position. -/
theorem block_reads_in_range (d : BlockDevice) (pid off n : Nat) (h : block_in_range d pid)
    (hn : off + n ≤ d.block_size) :
    (block_reads d pid off n).2 = (true, host_bytes d.host (pid * d.block_size + off) n) ∧
      (block_reads d pid off n).1.master = d.master ∧
      (block_reads d pid off n).1.block_size = d.block_size ∧
      (block_reads d pid off n).1.blocks_total = d.blocks_total ∧
      (block_reads d pid off n).1.host.size = d.host.size ∧
      (block_reads d pid off n).1.host.data = d.host.data := by
  have hp : pid ≠ 0 := h.1
  unfold block_reads
  rw [if_pos ⟨hp, hn⟩]
  by_cases h0 : n = 0
  · subst h0
    simp [block_reads_m, host_bytes]
  · rw [block_reads_m_in_range d pid off n h hn h0]
    simp

theorem host_write_spec (h : HostFile) (buf : List Nat) (hle : h.pos + buf.length ≤ h.size) :
    (host_write h buf).size = h.size ∧
      ∀ a, a < h.size → (host_write h buf).data a =
        if h.pos ≤ a ∧ a < h.pos + buf.length then buf.getD (a - h.pos) 0 else h.data a := by
  constructor
  · simp only [host_write]
    exact Nat.max_eq_left hle
  · intro a ha
    simp only [host_write, HostFile.byte, if_pos ha]

/-- What `block_writes` does to a block below byte `2^31`: it succeeds and
changes the `n` bytes at `pid * block_size + off` of the host file and the
descriptor position, nothing else. -/
theorem block_writes_in_range (d : BlockDevice) (pid off : Nat) (buf : List Nat) (n : Nat)
    (h : block_in_range d pid) (hn : off + n ≤ d.block_size) :
    (block_writes d pid off buf n).2 = true ∧
      (block_writes d pid off buf n).1.master = d.master ∧
      (block_writes d pid off buf n).1.block_size = d.block_size ∧
      (block_writes d pid off buf n).1.blocks_total = d.blocks_total ∧
      (block_writes d pid off buf n).1.host.size = d.host.size ∧
      ∀ a, a < d.host.size → (block_writes d pid off buf n).1.host.data a =
        if pid * d.block_size + off ≤ a ∧ a < pid * d.block_size + off + n
        then buf.getD (a - (pid * d.block_size + off)) 0 else d.host.data a := by
  have hp : pid ≠ 0 := h.1
  obtain ⟨e1, e2, e3⟩ := int_off_in_range d pid (off + n) h hn
  obtain ⟨f1, f2, f3⟩ := int_off_in_range d pid off h (by omega)
  unfold block_writes
  rw [if_pos ⟨hp, hn⟩]
  by_cases h0 : n = 0
  · subst h0
    simp only [block_writes_m, if_true, true_and]
    intro a _
    rw [if_neg (by omega)]
  · have hlt : pid * d.block_size + off < 2 ^ 31 := by omega
    unfold block_writes_m
    rw [if_neg h0]
    simp only [f1, host_lseek_ok _ _ hlt, Bool.not_true, Bool.false_eq_true, if_false, true_and]
    have hw := host_write_spec { d.host with pos := pid * d.block_size + off } (mem_bytes buf 0 n)
      (by simp only [mem_bytes_length]; omega)
    refine ⟨hw.1, ?_⟩
    intro a ha
    rw [hw.2 a ha]
    simp only [mem_bytes_length]
    split
    · rename_i hr
      rw [mem_bytes_getD _ _ _ _ (by omega)]
      simp
    · rfl

theorem block_in_range_congr (d d1 : BlockDevice) (pid : Nat) (hb : d1.block_size = d.block_size)
    (hs : d1.host.size = d.host.size) : block_in_range d1 pid ↔ block_in_range d pid := by
  unfold block_in_range
  rw [hb, hs]

/-- Free and allocate again below byte `2^31`: for every device state and every
block `pid` that lies below byte `2^31` of the host file (block size at least
8, the freelist head a 64-bit value), `block_free(pid)` succeeds, the next
`block_alloc` returns `pid`, and `first_unused_block` and `last_block` are
back at their values before the free. -/
theorem block_free_alloc_in_range (d : BlockDevice) (pid : Nat) (h : block_in_range d pid)
    (h8 : 8 ≤ d.block_size) (hh : d.master.first_unused_block < 2 ^ 64) :
    (block_free d pid).2 = true ∧ (block_alloc (block_free d pid).1).2 = pid ∧
      (block_alloc (block_free d pid).1).1.master.first_unused_block =
        d.master.first_unused_block ∧
      (block_alloc (block_free d pid).1).1.master.last_block = d.master.last_block := by
  have hp : pid ≠ 0 := h.1
  obtain ⟨w1, w2, w3, w4, w5, w6⟩ := block_writes_in_range d pid 0
    (le_encode 8 d.master.first_unused_block) SIZEOF_BLOCKPID h (by simpa [SIZEOF_BLOCKPID] using h8)
  have hf : block_free d pid =
      ({ (block_writes d pid 0 (le_encode 8 d.master.first_unused_block) SIZEOF_BLOCKPID).1 with
          master := { (block_writes d pid 0 (le_encode 8 d.master.first_unused_block)
            SIZEOF_BLOCKPID).1.master with first_unused_block := pid } }, true) := by
    unfold block_free
    simp only [w1, if_true]
  rw [hf]
  refine ⟨rfl, ?_⟩
  set d1 : BlockDevice :=
    { (block_writes d pid 0 (le_encode 8 d.master.first_unused_block) SIZEOF_BLOCKPID).1 with
      master := { (block_writes d pid 0 (le_encode 8 d.master.first_unused_block)
        SIZEOF_BLOCKPID).1.master with first_unused_block := pid } } with hd1
  have hr1 : block_in_range d1 pid :=
    (block_in_range_congr d d1 pid w3 w5).mpr h
  obtain ⟨r1, r2, r3, r4, r5, r6⟩ := block_reads_in_range d1 pid 0 SIZEOF_BLOCKPID hr1
    (by rw [show d1.block_size = d.block_size from w3]; simpa [SIZEOF_BLOCKPID] using h8)
  have hbytes : host_bytes d1.host (pid * d1.block_size + 0) SIZEOF_BLOCKPID =
      le_encode 8 d.master.first_unused_block := by
    have hl : (le_encode 8 d.master.first_unused_block).length = SIZEOF_BLOCKPID := by
      rw [le_encode_length]; rfl
    rw [← hl]
    apply host_bytes_eq_of
    intro i hi
    rw [hl] at hi
    obtain ⟨_, _, e3⟩ := int_off_in_range d pid (0 + SIZEOF_BLOCKPID) h
      (by simpa [SIZEOF_BLOCKPID] using h8)
    have hb : d1.block_size = d.block_size := w3
    have hdata : d1.host.data = (block_writes d pid 0 (le_encode 8 d.master.first_unused_block)
      SIZEOF_BLOCKPID).1.host.data := rfl
    rw [hdata, hb, w6 _ (by omega), if_pos (by omega)]
    congr 1
    omega
  have ha : block_alloc d1 =
      ({ (block_reads d1 pid 0 SIZEOF_BLOCKPID).1 with
          master := { (block_reads d1 pid 0 SIZEOF_BLOCKPID).1.master with
            first_unused_block := le_decode (block_reads d1 pid 0 SIZEOF_BLOCKPID).2.2 } }, pid) := by
    unfold block_alloc
    have e : d1.master.first_unused_block = pid := rfl
    simp only [e, ne_eq, hp, not_false_eq_true, if_true, r1]
  rw [ha]
  refine ⟨rfl, ?_, ?_⟩
  · simp only [r1, hbytes]
    exact le_decode_encode_8 _ hh
  · simp only [r2]
    show (block_writes d pid 0 (le_encode 8 d.master.first_unused_block)
      SIZEOF_BLOCKPID).1.master.last_block = d.master.last_block
    rw [w2]

/-! ## The block allocator below byte `2^31` -/

theorem is_freelist_congr (d d1 : BlockDevice) (fl : List Nat) (start : Nat)
    (h : ∀ x, x ∈ fl → block_next d1 x = block_next d x) :
    is_freelist d1 start fl ↔ is_freelist d start fl := by
  induction fl generalizing start with
  | nil => simp [is_freelist]
  | cons x xs ih =>
    simp only [is_freelist]
    rw [h x (List.mem_cons_self _ _), ih _ (fun y hy => h y (List.mem_cons_of_mem _ hy))]

theorem AllocInv.in_range {d : BlockDevice} {al fl : List Nat} (inv : AllocInv d al fl) (x : Nat)
    (h1 : 1 ≤ x) (h2 : x < d.master.last_block) : block_in_range d x := by
  have hl := inv.last_le
  have hx : x + 1 ≤ d.blocks_total := by
    rcases Nat.le_total d.blocks_total 1 with h | h
    · rw [Nat.max_eq_right h] at hl; omega
    · rw [Nat.max_eq_left h] at hl; omega
  have hm : (x + 1) * d.block_size ≤ d.blocks_total * d.block_size :=
    Nat.mul_le_mul_right _ hx
  exact ⟨by omega, le_trans hm inv.fits, le_trans hm inv.size_ok⟩

theorem block_next_congr (d d1 : BlockDevice) (x : Nat) (hb : d1.block_size = d.block_size)
    (hd : ∀ i, i < 8 → d1.host.data (x * d.block_size + i) = d.host.data (x * d.block_size + i)) :
    block_next d1 x = block_next d x := by
  unfold block_next
  rw [hb, host_bytes_congr d1.host d.host _ 8 hd]

theorem AllocInv.alloc {d : BlockDevice} {al fl : List Nat} (inv : AllocInv d al fl) :
    ((block_alloc d).2 = 0 ∧ AllocInv (block_alloc d).1 al fl) ∨
      ((block_alloc d).2 ≠ 0 ∧ (block_alloc d).2 ∉ al ∧
        ∃ fl1, AllocInv (block_alloc d).1 ((block_alloc d).2 :: al) fl1) := by
  cases fl with
  | nil =>
    have h0 : d.master.first_unused_block = 0 := inv.chain
    by_cases hl : d.master.last_block < d.blocks_total
    · right
      rw [block_alloc_bump d h0 hl]
      have hlp := inv.last_pos
      have hnot : d.master.last_block ∉ al := by
        intro hm
        have := (inv.part d.master.last_block).mp (Or.inr hm)
        omega
      refine ⟨by simp only; omega, hnot, [], ?_⟩
      exact
        { bs8 := inv.bs8
          fits := inv.fits
          size_ok := inv.size_ok
          chain := h0
          nodup_fl := List.nodup_nil
          nodup_al := List.nodup_cons.mpr ⟨hnot, inv.nodup_al⟩
          disj := fun x hx => by cases hx
          part := fun x => by
            have hp := inv.part x
            simp only [List.not_mem_nil, false_or, List.mem_cons, bumped] at hp ⊢
            constructor
            · rintro (rfl | hx)
              · omega
              · have := hp.mp hx; omega
            · intro hx
              by_cases e : x = d.master.last_block
              · exact Or.inl e
              · exact Or.inr (hp.mpr (by omega))
          last_pos := by simp only [bumped]; omega
          last_le := by
            simp only [bumped]
            exact le_trans (by omega : d.master.last_block + 1 ≤ d.blocks_total)
              (Nat.le_max_left _ _) }
    · left
      rw [block_alloc_full d h0 (by omega)]
      exact ⟨rfl, inv⟩
  | cons x xs =>
    right
    obtain ⟨hx0, hxne, hch⟩ : d.master.first_unused_block = x ∧ x ≠ 0 ∧
      is_freelist d (block_next d x) xs := inv.chain
    have hxin := (inv.part x).mp (Or.inl (List.mem_cons_self _ _))
    have hr := inv.in_range x hxin.1 hxin.2
    obtain ⟨r1, r2, r3, r4, r5, r6⟩ := block_reads_in_range d x 0 SIZEOF_BLOCKPID hr
      (by have := inv.bs8; simp only [SIZEOF_BLOCKPID]; omega)
    have ha : block_alloc d =
        ({ (block_reads d x 0 SIZEOF_BLOCKPID).1 with
            master := { (block_reads d x 0 SIZEOF_BLOCKPID).1.master with
              first_unused_block := block_next d x } }, x) := by
      unfold block_alloc
      simp only [hx0, ne_eq, hxne, not_false_eq_true, if_true, r1]
      rfl
    rw [ha]
    dsimp only
    have hnot : x ∉ al := inv.disj x (List.mem_cons_self _ _)
    have hnd := List.nodup_cons.mp inv.nodup_fl
    refine ⟨hxne, hnot, xs, ?_⟩
    exact
      { bs8 := by show (block_reads d x 0 SIZEOF_BLOCKPID).1.block_size ≥ 8; rw [r3]; exact inv.bs8
        fits := by
          show (block_reads d x 0 SIZEOF_BLOCKPID).1.blocks_total *
            (block_reads d x 0 SIZEOF_BLOCKPID).1.block_size ≤ 2 ^ 31
          rw [r3, r4]; exact inv.fits
        size_ok := by
          show (block_reads d x 0 SIZEOF_BLOCKPID).1.blocks_total *
            (block_reads d x 0 SIZEOF_BLOCKPID).1.block_size ≤
              (block_reads d x 0 SIZEOF_BLOCKPID).1.host.size
          rw [r3, r4, r5]; exact inv.size_ok
        chain := by
          show is_freelist _ (block_next d x) xs
          refine (is_freelist_congr d _ xs _ ?_).mpr hch
          intro y _
          apply block_next_congr
          · exact r3
          · intro i _
            show (block_reads d x 0 SIZEOF_BLOCKPID).1.host.data _ = _
            rw [r6]
        nodup_fl := hnd.2
        nodup_al := List.nodup_cons.mpr ⟨hnot, inv.nodup_al⟩
        disj := fun y hy => by
          intro hm
          rcases List.mem_cons.mp hm with e | e
          · exact hnd.1 (e ▸ hy)
          · exact inv.disj y (List.mem_cons_of_mem _ hy) e
        part := fun y => by
          have hp := inv.part y
          show _ ↔ 1 ≤ y ∧ y < (block_reads d x 0 SIZEOF_BLOCKPID).1.master.last_block
          rw [r2, ← hp]
          simp only [List.mem_cons]
          tauto
        last_pos := by
          show 1 ≤ (block_reads d x 0 SIZEOF_BLOCKPID).1.master.last_block
          rw [r2]; exact inv.last_pos
        last_le := by
          show (block_reads d x 0 SIZEOF_BLOCKPID).1.master.last_block ≤
            max (block_reads d x 0 SIZEOF_BLOCKPID).1.blocks_total 1
          rw [r2, r4]; exact inv.last_le }

theorem block_disjoint_bytes (bs x pid i a : Nat) (h8 : 8 ≤ bs) (hne : x ≠ pid) (hi : i < 8)
    (ha : a = x * bs + i) : ¬ (pid * bs + 0 ≤ a ∧ a < pid * bs + 0 + 8) := by
  subst ha
  rcases Nat.lt_or_gt_of_ne hne with h | h
  · have hm : (x + 1) * bs ≤ pid * bs := Nat.mul_le_mul_right _ h
    have e : (x + 1) * bs = x * bs + bs := by ring
    omega
  · have hm : (pid + 1) * bs ≤ x * bs := Nat.mul_le_mul_right _ h
    have e : (pid + 1) * bs = pid * bs + bs := by ring
    omega

theorem AllocInv.head_lt {d : BlockDevice} {al fl : List Nat} (inv : AllocInv d al fl) :
    d.master.first_unused_block < 2 ^ 64 := by
  cases fl with
  | nil =>
    have h0 : d.master.first_unused_block = 0 := inv.chain
    rw [h0]; norm_num
  | cons x xs =>
    have hx0 : d.master.first_unused_block = x := inv.chain.1
    have hxin := (inv.part x).mp (Or.inl (List.mem_cons_self _ _))
    have hr := inv.in_range x hxin.1 hxin.2
    have hb := inv.bs8
    have h1 : (x + 1) * 8 ≤ (x + 1) * d.block_size := Nat.mul_le_mul_left _ hb
    have h2 := hr.2.1
    have : (2 : Nat) ^ 31 < 2 ^ 64 := by norm_num
    rw [hx0]
    omega

theorem AllocInv.free {d : BlockDevice} {al fl : List Nat} (inv : AllocInv d al fl) (pid : Nat)
    (hp : pid ∈ al) :
    (block_free d pid).2 = true ∧ AllocInv (block_free d pid).1 (al.erase pid) (pid :: fl) := by
  have hpin := (inv.part pid).mp (Or.inr hp)
  have hr := inv.in_range pid hpin.1 hpin.2
  have h8 := inv.bs8
  obtain ⟨w1, w2, w3, w4, w5, w6⟩ := block_writes_in_range d pid 0
    (le_encode 8 d.master.first_unused_block) SIZEOF_BLOCKPID hr
    (by simp only [SIZEOF_BLOCKPID]; omega)
  have hf : block_free d pid =
      ({ (block_writes d pid 0 (le_encode 8 d.master.first_unused_block) SIZEOF_BLOCKPID).1 with
          master := { (block_writes d pid 0 (le_encode 8 d.master.first_unused_block)
            SIZEOF_BLOCKPID).1.master with first_unused_block := pid } }, true) := by
    unfold block_free
    simp only [w1, if_true]
  rw [hf]
  dsimp only
  refine ⟨rfl, ?_⟩
  have hpfl : pid ∉ fl := fun hm => inv.disj pid hm hp
  have hnext : ∀ x, 1 ≤ x → x < d.master.last_block → x ≠ pid →
      block_next { (block_writes d pid 0 (le_encode 8 d.master.first_unused_block)
          SIZEOF_BLOCKPID).1 with
        master := { (block_writes d pid 0 (le_encode 8 d.master.first_unused_block)
          SIZEOF_BLOCKPID).1.master with first_unused_block := pid } } x = block_next d x := by
    intro x hx1 hx2 hxne
    apply block_next_congr
    · exact w3
    · intro i hi
      have hxr := inv.in_range x hx1 hx2
      obtain ⟨_, _, e3⟩ := int_off_in_range d x 8 hxr (by omega)
      show (block_writes d pid 0 (le_encode 8 d.master.first_unused_block)
        SIZEOF_BLOCKPID).1.host.data _ = _
      rw [w6 _ (by omega), if_neg]
      exact block_disjoint_bytes d.block_size x pid i _ h8 hxne hi rfl
  have hself : block_next { (block_writes d pid 0 (le_encode 8 d.master.first_unused_block)
          SIZEOF_BLOCKPID).1 with
        master := { (block_writes d pid 0 (le_encode 8 d.master.first_unused_block)
          SIZEOF_BLOCKPID).1.master with first_unused_block := pid } } pid =
      d.master.first_unused_block := by
    unfold block_next
    have hl : (le_encode 8 d.master.first_unused_block).length = 8 := le_encode_length _ _
    have hb := host_bytes_eq_of (block_writes d pid 0 (le_encode 8 d.master.first_unused_block)
        SIZEOF_BLOCKPID).1.host (pid * d.block_size) (le_encode 8 d.master.first_unused_block)
      (by
        intro i hi
        rw [hl] at hi
        obtain ⟨_, _, e3⟩ := int_off_in_range d pid 8 hr (by omega)
        rw [w6 _ (by omega), if_pos (by simp only [SIZEOF_BLOCKPID]; omega)]
        congr 1
        omega)
    rw [hl] at hb
    show le_decode (host_bytes _ (pid * (block_writes d pid 0
      (le_encode 8 d.master.first_unused_block) SIZEOF_BLOCKPID).1.block_size) 8) = _
    rw [w3, hb]
    exact le_decode_encode_8 _ inv.head_lt
  exact
    { bs8 := by
        show 8 ≤ (block_writes d pid 0 (le_encode 8 d.master.first_unused_block)
          SIZEOF_BLOCKPID).1.block_size
        rw [w3]; exact h8
      fits := by
        show (block_writes d pid 0 (le_encode 8 d.master.first_unused_block)
          SIZEOF_BLOCKPID).1.blocks_total * (block_writes d pid 0
          (le_encode 8 d.master.first_unused_block) SIZEOF_BLOCKPID).1.block_size ≤ 2 ^ 31
        rw [w3, w4]; exact inv.fits
      size_ok := by
        show (block_writes d pid 0 (le_encode 8 d.master.first_unused_block)
          SIZEOF_BLOCKPID).1.blocks_total * (block_writes d pid 0
          (le_encode 8 d.master.first_unused_block) SIZEOF_BLOCKPID).1.block_size ≤
          (block_writes d pid 0 (le_encode 8 d.master.first_unused_block)
          SIZEOF_BLOCKPID).1.host.size
        rw [w3, w4, w5]; exact inv.size_ok
      chain := by
        show is_freelist _ pid (pid :: fl)
        refine ⟨rfl, by omega, ?_⟩
        rw [hself]
        refine (is_freelist_congr d _ fl _ ?_).mpr inv.chain
        intro x hx
        have hxin := (inv.part x).mp (Or.inl hx)
        exact hnext x hxin.1 hxin.2 (fun e => hpfl (e ▸ hx))
      nodup_fl := List.nodup_cons.mpr ⟨hpfl, inv.nodup_fl⟩
      nodup_al := inv.nodup_al.erase pid
      disj := fun x hx hm => by
        rcases List.mem_cons.mp hx with e | e
        · subst e
          exact (List.Nodup.not_mem_erase inv.nodup_al) hm
        · exact inv.disj x e (List.mem_of_mem_erase hm)
      part := fun x => by
        have hpx := inv.part x
        show _ ↔ 1 ≤ x ∧ x < (block_writes d pid 0 (le_encode 8 d.master.first_unused_block)
          SIZEOF_BLOCKPID).1.master.last_block
        rw [w2, ← hpx, List.mem_cons, inv.nodup_al.mem_erase_iff]
        constructor
        · rintro ((rfl | h) | h)
          · exact Or.inr hp
          · exact Or.inl h
          · exact Or.inr h.2
        · rintro (h | h)
          · exact Or.inl (Or.inr h)
          · by_cases e : x = pid
            · exact Or.inl (Or.inl e)
            · exact Or.inr ⟨e, h⟩
      last_pos := by
        show 1 ≤ (block_writes d pid 0 (le_encode 8 d.master.first_unused_block)
          SIZEOF_BLOCKPID).1.master.last_block
        rw [w2]; exact inv.last_pos
      last_le := by
        show (block_writes d pid 0 (le_encode 8 d.master.first_unused_block)
          SIZEOF_BLOCKPID).1.master.last_block ≤ max (block_writes d pid 0
          (le_encode 8 d.master.first_unused_block) SIZEOF_BLOCKPID).1.blocks_total 1
        rw [w2, w4]; exact inv.last_le }

theorem AllocInv.create (host : HostFile) (block_size blocks_total : Nat) (d : BlockDevice)
    (hc : device_create host block_size blocks_total = some d) (h8 : 8 ≤ block_size)
    (hfit : blocks_total * block_size ≤ 2 ^ 31) : AllocInv d [] [] := by
  unfold device_create at hc
  simp only at hc
  have hlt : block_size * blocks_total < 2 ^ 63 := by
    have : (2 : Nat) ^ 31 < 2 ^ 63 := by norm_num
    rw [Nat.mul_comm]; omega
  have hmod : block_size * blocks_total % 2 ^ 64 = block_size * blocks_total := by
    apply Nat.mod_eq_of_lt
    have : (2 : Nat) ^ 63 < 2 ^ 64 := by norm_num
    omega
  rw [hmod, if_neg (by omega)] at hc
  cases hc
  exact
    { bs8 := h8
      fits := hfit
      size_ok := by simp only [host_ftruncate]; rw [Nat.mul_comm]
      chain := rfl
      nodup_fl := List.nodup_nil
      nodup_al := List.nodup_nil
      disj := fun x hx => by cases hx
      part := fun x => by simp; omega
      last_pos := le_refl _
      last_le := Nat.le_max_right _ _ }

theorem AllocInv.run (ops : List BlockOp) (s s1 : BlockDevice × List Nat)
    (hs : ∃ fl, AllocInv s.1 s.2 fl) (hrun : block_ops_run ops s = some s1) :
    ∃ fl, AllocInv s1.1 s1.2 fl := by
  induction ops generalizing s with
  | nil =>
    simp only [block_ops_run, Option.some.injEq] at hrun
    rw [← hrun]; exact hs
  | cons op ops ih =>
    obtain ⟨fl, inv⟩ := hs
    cases op with
    | alloc =>
      simp only [block_ops_run, block_op_step] at hrun
      apply ih _ _ hrun
      rcases inv.alloc with ⟨h0, hinv⟩ | ⟨hne, _, fl1, hinv⟩
      · exact ⟨fl, by simpa [h0] using hinv⟩
      · exact ⟨fl1, by simpa [hne] using hinv⟩
    | free pid =>
      simp only [block_ops_run, block_op_step] at hrun
      by_cases hp : pid ∈ s.2
      · rw [if_pos hp] at hrun
        apply ih _ _ hrun
        obtain ⟨hok, hinv⟩ := inv.free pid hp
        exact ⟨pid :: fl, by simpa [hok] using hinv⟩
      · rw [if_neg hp] at hrun
        cases hrun

/-- The block allocator on a device whose blocks all lie below byte `2^31`
(block size at least 8): after every sequence of `block_alloc` and
`block_free` calls in which `block_free` is only called on allocated ids, the
next `block_alloc` fails or returns an id that is not allocated, and the
freelist is a chain of ids none of which is allocated. -/
theorem block_alloc_fresh_in_range (host : HostFile) (block_size blocks_total : Nat)
    (d : BlockDevice) (hc : device_create host block_size blocks_total = some d)
    (h8 : 8 ≤ block_size) (hfit : blocks_total * block_size ≤ 2 ^ 31) (ops : List BlockOp)
    (s : BlockDevice × List Nat) (hrun : block_ops_run ops (d, []) = some s) :
    ((block_alloc s.1).2 = 0 ∨ (block_alloc s.1).2 ∉ s.2) ∧
      ∃ fl, is_freelist s.1 s.1.master.first_unused_block fl ∧ ∀ x, x ∈ fl → x ∉ s.2 := by
  obtain ⟨fl, inv⟩ := AllocInv.run ops (d, []) s
    ⟨[], AllocInv.create host block_size blocks_total d hc h8 hfit⟩ hrun
  constructor
  · rcases inv.alloc with ⟨h0, _⟩ | ⟨_, hn, _⟩
    · exact Or.inl h0
    · exact Or.inr hn
  · exact ⟨fl, inv.chain, inv.disj⟩

/-! ## Claims C1 to C6 -/

/-- C1 fails on a device of `2^23 + 8` blocks of 512 bytes. The inode holds the
byte 7 at offset 0 in data block 2; `2^23 - 1` further calls of `block_alloc`
move the bump pointer to `2^23 + 2`. Then `inode_write` of the bytes 1, 2 at
offset 511 returns success (the direct table becomes 2, `2^23 + 2`, 0, ...) and
the `inode_read` of 2 bytes at offset 511 that follows returns success with
the bytes 0, 2 and not 1, 2: block `2^23 + 2` has the same narrowed byte
offset as block 2, so its zero-fill wipes the byte written a moment before. -/
theorem C1_read_after_write_differs :
    C1_start.2.2 = true ∧ C1_start.1.master.first_unused_block = 0 ∧
      block_alloc_n (2 ^ 23 - 1) C1_start.1 =
        (bumped C1_start.1 (2 ^ 23 - 1), List.range' C1_start.1.master.last_block (2 ^ 23 - 1)) ∧
      int_off (2 ^ 23 + 2) 512 0 = int_off 2 512 0 ∧
      C1_run = .ok (true, [2, 2 ^ 23 + 2, 0, 0, 0, 0, 0, 0, 0, 0, 0, 0, 0], true, [0, 2]) := by
  refine ⟨by decide!, by decide!,
    block_alloc_n_bump (2 ^ 23 - 1) C1_start.1 (by decide!) (by decide!), by decide!, ?_⟩
  decide!

/-- C2 fails on its own example. On a new device of 512-byte blocks, after
`inode_create` and a successful `inode_set_size(100000)`, `inode_read` of 100
bytes at offset 50000 returns failure and leaves the buffer as it was: the
first block of the range is a hole, its id 0 is passed to `block_reads`,
which refuses block 0. -/
theorem C2_sparse_read_fails :
    C2_run = .ok (true, true, 100000, false, List.replicate 100 1) := by
  decide!

set_option synthInstance.maxSize 4096 in
/-- C3 fails on a device of `2^23 + 8` blocks of 512 bytes. The inode holds the
byte 7 at offset 0 (`mem_size` 1), and `inode_read` of that byte succeeds.
With the bump pointer at `2^23 + 2`, `inode_set_size(7000)` succeeds and
promotes the tree to level 1; the same read then succeeds with the byte 2: the
new index block `2^23 + 2` has the narrowed byte offset of data block 2 and
overwrites it. -/
theorem C3_grow_changes_bytes :
    block_alloc_n (2 ^ 23 - 1) C1_start.1 =
        (bumped C1_start.1 (2 ^ 23 - 1), List.range' C1_start.1.master.last_block (2 ^ 23 - 1)) ∧
      C3_run = .ok (1, true, [7], true, 1, true, [2]) := by
  refine ⟨block_alloc_n_bump (2 ^ 23 - 1) C1_start.1 (by decide!) (by decide!), ?_⟩
  decide!

set_option synthInstance.maxSize 4096 in
/-- C4 fails for the distinct names "a", "ab", "c". `fs_open_file(root, "ab", 2)`
returns the node of "a" instead of creating a file, so both writes land in one
file. After `fs_unmount` and `fs_mount` the root has two children, "a" and "c";
`fs_get_file(root, "ab", 2)` finds the file named "a", of size 6, and
`fs_read` gets "world!" from it. -/
theorem C4_prefix_name_shares_file :
    C4_run = .ok (.pool 0, .pool 0, .pool 1, true, [[97], [99]], [97], 6,
      [119, 111, 114, 108, 100, 33]) := by
  decide!

set_option synthInstance.maxSize 4096 in
/-- C5 fails for a directory that never received children. The node that
`fs_open_dir(root, "x", 1)` creates is a directory; after `fs_unmount` and
`fs_mount` the root still has the child "x", but `fs_get_dir(root, "x", 1)`
returns no node and `fs_is_dir` is false for the child: its inode was saved by
`inode_create` with status `INODE_BUFFER` and never again. -/
theorem C5_empty_dir_loses_kind :
    C5_run = .ok (true, true, [[120]], .null, false, INODE_BUFFER) := by
  decide!

/-- C6 fails: in a cached directory whose only child is named "a",
`fs_get_any(root, "ab", 2)` returns that child (name size 1), though no child
is named "ab". `fs_cmp_filename` compares `file->name_size` bytes and never
reads its parameter `name_size`. -/
theorem C6_get_any_matches_prefix :
    C6_run = .ok ([[97]], true, .pool 0, 1, [97]) := by
  decide!

/-! ## Claims C7 to C10 -/

/-- C7 fails on a device of 6 blocks of `2^30` bytes. After five allocations
(ids 1 to 5), `block_free(1)` and `block_free(5)` both succeed, and the next
three calls of `block_alloc` return 5, 1 and 1: id 1 is handed out twice with
no `block_free` in between, and after the second of these calls id 1 is
allocated while it is still the head of the freelist. Blocks 1 and 5 share
the byte offset `2^30` of the host file, because `5 * 2^30` is narrowed to a
32-bit `int`. -/
theorem C7_block_alloc_returns_id_twice :
    device_create HostFile.empty (2 ^ 30) 6 = some (fresh_device (2 ^ 30) 6) ∧
      (block_alloc_n 5 (fresh_device (2 ^ 30) 6)).2 = [1, 2, 3, 4, 5] ∧
      C7_run.1 = true ∧ C7_run.2.1 = true ∧
      int_off 5 (2 ^ 30) 0 = int_off 1 (2 ^ 30) 0 ∧
      (block_alloc_n 3 C7_run.2.2).2 = [5, 1, 1] ∧
      (block_alloc_n 2 C7_run.2.2).1.master.first_unused_block = 1 := by
  refine ⟨rfl, ?_⟩
  decide!

/-- C9 fails on a device of 65536 blocks of 65537 bytes. With ids 1 to 65535
allocated and id 1 freed again, `first_unused_block` is 1 and `last_block` is
65536. `block_free(65535)` succeeds and the next `block_alloc` returns 65535,
but it leaves `first_unused_block = 0`, not 1, so block 1 is lost. The byte
offset `65535 * 65537` narrowed to `int` is `-1`, which the test
`succ != off` cannot tell from the error value of `lseek`: the write and the
read happen wherever the descriptor stands. -/
theorem C9_free_then_alloc_loses_head :
    device_create HostFile.empty 65537 65536 = some (fresh_device 65537 65536) ∧
      block_alloc_n 65535 (fresh_device 65537 65536) =
        (bumped (fresh_device 65537 65536) 65535, List.range' 1 65535) ∧
      C9_run.master.first_unused_block = 1 ∧ C9_run.master.last_block = 65536 ∧
      int_off 65535 65537 0 = 2 ^ 32 - 1 ∧
      (block_free C9_run 65535).2 = true ∧
      (block_alloc (block_free C9_run 65535).1).2 = 65535 ∧
      (block_alloc (block_free C9_run 65535).1).1.master.first_unused_block = 0 ∧
      (block_alloc (block_free C9_run 65535).1).1.master.last_block = 65536 := by
  refine ⟨rfl, block_alloc_n_bump 65535 (fresh_device 65537 65536) rfl (by decide), ?_⟩
  decide!

/-- C10 fails for `block_size = 200`, which lies between `sizeof(INode)` and
`256 * sizeof(INode)`: `inodes_per_block` is 1, the first `inode_alloc` returns
256 (block 1, slot 0) and the second returns 257, whose slot 1 is not below
`inodes_per_block`. -/
theorem C10_inode_alloc_slot_out_of_range :
    INODE_BLOCK_SIZE_MIN ≤ 200 ∧ 200 ≤ INODE_BLOCK_SIZE_MAX ∧
      device_create HostFile.empty 200 8 = some (fresh_device 200 8) ∧
      C10_run = (1, 256, 257) ∧ inode_pid_block 257 = 1 ∧
      ¬ inode_pid_slot 257 < (inode_initfs 200).inodes_per_block := by
  refine ⟨by decide, by decide, rfl, ?_⟩
  decide!

/-! ## Claim C15 -/

/-- C15. For every device, inode, buffer and 64-bit `mem_offset` and
`mem_size`: if `mem_offset + mem_size` overflows 64 bits or exceeds the
inode's `mem_size`, `inode_read` returns failure and leaves the buffer and the
device as they were; if `mem_size = 0` and `mem_offset` is within the inode's
size, it returns success (and also changes nothing). -/
theorem C15_inode_read_rejects_out_of_range (device : BlockDevice) (inode : INode)
    (mem_offset : Nat) (mem : List Nat) (mem_size : Nat)
    (ho : mem_offset < 2 ^ 64) (hn : mem_size < 2 ^ 64) :
    ((2 ^ 64 ≤ mem_offset + mem_size ∨ inode.mem_size < mem_offset + mem_size) →
      inode_read device inode mem_offset mem mem_size = .ok (device, false, mem)) ∧
    (mem_size = 0 → mem_offset ≤ inode.mem_size →
      inode_read device inode mem_offset mem mem_size = .ok (device, true, mem)) := by
  constructor
  · intro h
    unfold inode_read
    by_cases hov : 2 ^ 64 ≤ mem_offset + mem_size
    · have h1 : (mem_offset + mem_size) % 2 ^ 64 < mem_size := by omega
      rw [if_pos h1]; rfl
    · have h2 : inode.mem_size < mem_offset + mem_size := by
        rcases h with h | h
        · exact absurd h hov
        · exact h
      have h3 : (mem_offset + mem_size) % 2 ^ 64 = mem_offset + mem_size :=
        Nat.mod_eq_of_lt (by omega)
      rw [h3, if_neg (by omega), if_pos h2]; rfl
  · intro h0 hle
    subst h0
    unfold inode_read
    have h3 : (mem_offset + 0) % 2 ^ 64 = mem_offset := by
      rw [Nat.add_zero]; exact Nat.mod_eq_of_lt ho
    rw [h3, if_neg (by omega), if_neg (by omega), if_pos rfl]; rfl

/-- Instances of C15 on an empty inode: an overflowing range, a range past
the end, and a read of 0 bytes at offset 0. -/
theorem C15_inode_read_rejects_out_of_range_witness :
    inode_read (fresh_device 512 8) File.fresh.inode (2 ^ 64 - 1) [9] 1 =
        .ok (fresh_device 512 8, false, [9]) ∧
      inode_read (fresh_device 512 8) File.fresh.inode 3 [9] 1 =
        .ok (fresh_device 512 8, false, [9]) ∧
      inode_read (fresh_device 512 8) File.fresh.inode 0 [9] 0 =
        .ok (fresh_device 512 8, true, [9]) :=
  ⟨(C15_inode_read_rejects_out_of_range (fresh_device 512 8) File.fresh.inode (2 ^ 64 - 1) [9] 1
      (by decide) (by decide)).1 (Or.inl (by decide)),
    (C15_inode_read_rejects_out_of_range (fresh_device 512 8) File.fresh.inode 3 [9] 1
      (by decide) (by decide)).1 (Or.inr (by decide)),
    (C15_inode_read_rejects_out_of_range (fresh_device 512 8) File.fresh.inode 0 [9] 0
      (by decide) (by decide)).2 rfl (by decide)⟩

/-! ## Claim C18 -/

/-- A run that has a result equals that result. -/
theorem eq_ok_result_or {α : Type} (x : Except Abort α) (d : α) (h : has_result x = true) :
    x = .ok (result_or x d) := by
  cases x with
  | ok a => rfl
  | error e => cases h

theorem getD_drop_one (a : List Nat) (i : Nat) : (a.drop 1).getD i 0 = a.getD (i + 1) 0 := by
  cases a with
  | nil => simp
  | cons x xs => simp

theorem memcmp_eq_zero (n : Nat) : ∀ (a b : List Nat),
    (∀ i, i < n → a.getD i 0 = b.getD i 0) → memcmp a b n = 0 := by
  induction n with
  | zero => intro a b _; rfl
  | succ n ih =>
    intro a b h
    unfold memcmp
    rw [if_pos (h 0 (Nat.succ_pos n))]
    apply ih
    intro i hi
    rw [getD_drop_one, getD_drop_one]
    exact h (i + 1) (Nat.succ_lt_succ hi)

theorem mem_store_zero_getD (old bytes : List Nat) (i : Nat) (h : i < bytes.length) :
    (mem_store old 0 bytes).getD i 0 = bytes.getD i 0 := by
  unfold mem_store
  simp only [List.take_zero, List.nil_append, Nat.zero_add]
  rw [List.getD_append _ _ _ _ h]

theorem mem_bytes_mem_store_zero (old name : List Nat) (n : Nat) :
    mem_bytes (mem_store old 0 (mem_bytes name 0 n)) 0 n = mem_bytes name 0 n := by
  apply List.ext_getElem
  · simp [mem_bytes_length]
  · intro i h1 h2
    have hi : i < n := by simpa [mem_bytes_length] using h1
    rw [← List.getD_eq_getElem _ 0 h1, ← List.getD_eq_getElem _ 0 h2,
      mem_bytes_getD _ _ _ _ hi, Nat.zero_add,
      mem_store_zero_getD old (mem_bytes name 0 n) i (by rw [mem_bytes_length]; exact hi)]

/-- Names of one fragment: for every node and every name of 1 to
`FILENAME_TEXT_SIZE` bytes, after `fs_set_filename` the size is `name_size`,
`fs_get_filename` gives the name's bytes and `fs_cmp_filename` against the
same name gives 0. -/
theorem fs_set_filename_short (file : File) (name : List Nat) (n : Nat) (h0 : 0 < n)
    (hn : n ≤ FILENAME_TEXT_SIZE) :
    fs_filename_size (fs_set_filename file name n) = n ∧
      fs_get_filename (fs_set_filename file name n) = .ok (mem_bytes name 0 n) ∧
      fs_cmp_filename (fs_set_filename file name n) name n = .ok 0 := by
  have hne : n ≠ 0 := Nat.pos_iff_ne_zero.mp h0
  have hlt : ¬ FILENAME_TEXT_SIZE < n := Nat.not_lt.mpr hn
  obtain ⟨frag, rest, hc⟩ : ∃ frag rest,
      (if file.name = [] then [[]] else file.name) = frag :: rest := by
    cases hfn : file.name with
    | nil => exact ⟨[], [], rfl⟩
    | cons a b => exact ⟨a, b, by simp⟩
  have hname : (fs_set_filename file name n).name =
      mem_store frag 0 (mem_bytes name 0 n) :: rest := by
    unfold fs_set_filename
    rw [if_neg hne]
    show fs_set_filename_loop name (n + 1) _ 0 n = _
    rw [hc]
    unfold fs_set_filename_loop
    simp only [if_neg hlt]
  have hsize : (fs_set_filename file name n).name_size = n := by
    unfold fs_set_filename
    rw [if_neg hne]
  refine ⟨hsize, ?_, ?_⟩
  · unfold fs_get_filename
    rw [hname, hsize]
    unfold fs_get_filename_loop
    simp only [if_neg hlt]
    rw [mem_bytes_mem_store_zero]
  · unfold fs_cmp_filename
    rw [hname, hsize]
    unfold fs_cmp_filename_loop
    simp only [if_neg hlt, List.drop_zero]
    congr 1
    apply memcmp_eq_zero
    intro i hi
    rw [mem_store_zero_getD _ _ _ (by rw [mem_bytes_length]; exact hi),
      mem_bytes_getD _ _ _ _ hi, Nat.zero_add]

/-- C19 fails for a name of 153 bytes (153 times "a") set on a new node:
`fs_set_filename` fills the first fragment and copies byte 153 into a fragment
that it allocates but never stores in `next` of the first one. The node then
has `name_size = 153` and a chain of one fragment, so `fs_get_filename` and
`fs_cmp_filename` follow a null `next` and have no defined result. -/
theorem C19_long_name_loses_fragment :
    fs_filename_size (fs_set_filename File.fresh (List.replicate 153 97) 153) = 153 ∧
      (fs_set_filename File.fresh (List.replicate 153 97) 153).name = [List.replicate 152 97] ∧
      fs_get_filename (fs_set_filename File.fresh (List.replicate 153 97) 153) =
        .error .undefined ∧
      fs_cmp_filename (fs_set_filename File.fresh (List.replicate 153 97) 153)
        (List.replicate 153 97) 153 = .error .undefined := by
  decide!

/-! ## Claim C12 -/

theorem cap_run_succ (B m M k c : Nat) :
    cap_run B m M (k + 1) c =
      if 0 < c ∧ c < m then cap_run B m M k (c * B % M) else none := by
  cases c with
  | zero => simp [cap_run]
  | succ c =>
    by_cases h : c + 1 < m
    · have hb : Nat.ble m (c + 1) = false := by
        cases hq : Nat.ble m (c + 1) with
        | false => rfl
        | true => exact absurd (Nat.le_of_ble_eq_true hq) (by omega)
      rw [cap_run, if_pos ⟨Nat.succ_pos c, h⟩]
      simp only [hb]
      rfl
    · have hb : Nat.ble m (c + 1) = true := Nat.ble_eq_true_of_le (by omega)
      rw [cap_run, if_neg (fun hh => h hh.2)]
      simp only [hb]

/-- Where `13 * block_size` fits an `int`, the first capacity of
`inode_get_required_level` is that product. -/
theorem required_level_start_eq (block_size : Nat)
    (h : BLOCKS_PER_INODE * block_size < 2 ^ 31) :
    required_level_start block_size = BLOCKS_PER_INODE * block_size := by
  have h32 : BLOCKS_PER_INODE * block_size % 2 ^ 32 = BLOCKS_PER_INODE * block_size :=
    Nat.mod_eq_of_lt (Nat.lt_trans h (by decide))
  unfold required_level_start
  simp only [h32, if_pos h]

theorem required_level_loop_step (B m f c l : Nat) (h : c < m) :
    inode_get_required_level_loop B m (f + 1) c l =
      inode_get_required_level_loop B m f (c * B % 2 ^ 64) (l + 1) := by
  conv_lhs => rw [inode_get_required_level_loop]
  rw [if_pos h]

theorem required_level_loop_stop (B m f c l : Nat) (h : ¬ c < m) :
    inode_get_required_level_loop B m (f + 1) c l = .ok l := by
  conv_lhs => rw [inode_get_required_level_loop]
  rw [if_neg h]

/-- Rounds of the loop that find the capacity below `mem_size` can be taken
together: `k` of them use `k` units of fuel and add `k` to the level. -/
theorem required_level_loop_skip (B m : Nat) : ∀ (k f c l c1 : Nat),
    cap_run B m (2 ^ 64) k c = some c1 →
    inode_get_required_level_loop B m (f + k) c l =
      inode_get_required_level_loop B m f c1 (l + k) := by
  intro k
  induction k with
  | zero =>
    intro f c l c1 h
    simp only [cap_run, Option.some.injEq] at h
    subst h
    rfl
  | succ k ih =>
    intro f c l c1 h
    rw [cap_run_succ] at h
    by_cases hc : 0 < c ∧ c < m
    · rw [if_pos hc] at h
      show inode_get_required_level_loop B m ((f + k) + 1) c l = _
      rw [required_level_loop_step B m _ c l hc.2, ih f _ (l + 1) c1 h,
        show l + 1 + k = l + (k + 1) by omega]
    · rw [if_neg hc] at h
      cases h

/-- With the capacity at 0 and `mem_size` positive the loop never leaves. -/
theorem required_level_loop_zero (B m : Nat) (hm : 0 < m) : ∀ (f l : Nat),
    inode_get_required_level_loop B m f 0 l = .error .diverges := by
  intro f
  induction f with
  | zero => intro l; rfl
  | succ f ih =>
    intro l
    rw [required_level_loop_step B m f 0 l hm]
    simp only [Nat.zero_mul, Nat.zero_mod]
    exact ih (l + 1)

/-- As long as the capacities `c0 * B^i` do not reach `2^64`, the loop from
round `j` on stops at the first round whose capacity reaches `m`. -/
theorem required_level_loop_exact (B m c0 : Nat) : ∀ (k j f : Nat),
    (∀ i, j ≤ i → i < j + k → c0 * B ^ i < m) → (∀ i, i ≤ j + k → c0 * B ^ i < 2 ^ 64) →
    m ≤ c0 * B ^ (j + k) →
    inode_get_required_level_loop B m (f + k + 1) (c0 * B ^ j) j = .ok (j + k) := by
  intro k
  induction k with
  | zero =>
    intro j f _ _ hm
    exact required_level_loop_stop B m _ _ j (by simpa using hm)
  | succ k ih =>
    intro j f hlt hb hm
    have h1 : c0 * B ^ j < m := hlt j (Nat.le_refl j) (by omega)
    have h2 : c0 * B ^ (j + 1) < 2 ^ 64 := hb (j + 1) (by omega)
    show inode_get_required_level_loop B m ((f + k + 1) + 1) (c0 * B ^ j) j = _
    rw [required_level_loop_step B m _ _ j h1]
    have h3 : c0 * B ^ j * B % 2 ^ 64 = c0 * B ^ (j + 1) := by
      rw [Nat.mul_assoc, ← Nat.pow_succ]
      exact Nat.mod_eq_of_lt h2
    rw [h3, ih (j + 1) f (fun i hi1 hi2 => hlt i (by omega) (by omega))
      (fun i hi => hb i (by omega)) (by rw [show j + 1 + k = j + (k + 1) by omega]; exact hm),
      show j + 1 + k = j + (k + 1) by omega]

/-- Where the answer is in reach of the arithmetic of the code: for every
`block_size` whose product `13 * block_size` fits an `int` and every `n`, if
`k` is the smallest number with `13 * block_size * B^k >= n`, where
`B = block_size / 8`, and this capacity is below `2^64`, then
`inode_get_required_level(n, block_size)` returns `k`. -/
theorem required_level_is_smallest (n block_size k : Nat)
    (hint : BLOCKS_PER_INODE * block_size < 2 ^ 31)
    (hk : n ≤ BLOCKS_PER_INODE * block_size * (block_size / SIZEOF_BLOCKPID) ^ k)
    (hlt : BLOCKS_PER_INODE * block_size * (block_size / SIZEOF_BLOCKPID) ^ k < 2 ^ 64)
    (hmin : ∀ j, j < k → BLOCKS_PER_INODE * block_size * (block_size / SIZEOF_BLOCKPID) ^ j < n) :
    inode_get_required_level n block_size = .ok k := by
  generalize hB : block_size / SIZEOF_BLOCKPID = B at hk hlt hmin
  generalize hc : BLOCKS_PER_INODE * block_size = c0 at hk hlt hmin
  have hb : ∀ i, i ≤ k → c0 * B ^ i < 2 ^ 64 := by
    intro i hi
    rcases Nat.lt_or_ge i k with h | h
    · exact Nat.lt_of_lt_of_le (hmin i h) (Nat.le_trans hk (Nat.le_of_lt hlt))
    · have : i = k := Nat.le_antisymm hi h
      rw [this]; exact hlt
  have hk64 : k < 2 ^ 64 := by
    rcases Nat.eq_zero_or_pos k with h | h
    · rw [h]; decide
    · have h0 : c0 * B ^ 0 < n := hmin 0 h
      rw [Nat.pow_zero, Nat.mul_one] at h0
      have hc0 : 0 < c0 := by
        rcases Nat.eq_zero_or_pos c0 with hz | hz
        · rw [hz, Nat.zero_mul] at hk; omega
        · exact hz
      have hB2 : 2 ≤ B := by
        rcases Nat.lt_or_ge B 2 with hB1 | hB1
        · exfalso
          have : B = 0 ∨ B = 1 := by omega
          rcases this with hz | hz
          · rw [hz, Nat.zero_pow h, Nat.mul_zero] at hk; omega
          · rw [hz, Nat.one_pow, Nat.mul_one] at hk; omega
        · exact hB1
      have h2k : 2 ^ k < 2 ^ 64 :=
        calc 2 ^ k ≤ B ^ k := Nat.pow_le_pow_left hB2 k
          _ ≤ c0 * B ^ k := Nat.le_mul_of_pos_left _ hc0
          _ < 2 ^ 64 := hlt
      have : k < 64 := (Nat.pow_lt_pow_iff_right (by decide)).mp h2k
      exact Nat.lt_trans this (by decide)
  unfold inode_get_required_level
  rw [required_level_start_eq block_size hint, hB, hc]
  have hf : 2 ^ 64 = (2 ^ 64 - k - 1) + k + 1 := by omega
  have h := required_level_loop_exact B n c0 k 0 (2 ^ 64 - k - 1)
    (fun i _ hi => hmin i (by omega)) (fun i hi => hb i (by omega)) (by simpa using hk)
  rw [Nat.pow_zero, Nat.mul_one, Nat.zero_add] at h
  rw [hf]
  exact h

/-- The instance for `block_size = 512` and `n` = 1 MiB: the level is 2. -/
theorem required_level_is_smallest_witness :
    inode_get_required_level (1024 * 1024) 512 = .ok 2 :=
  required_level_is_smallest (1024 * 1024) 512 2 (by decide) (by decide) (by decide)
    (by decide)

/-- C12 at `block_size = 512` and `n = 2^63 + 1`: the smallest `k` with
`13 * 512 * 64^k >= n` is 9 (the capacity of level 9 is at least `n`, that of
every level below 9 is below `n`), but `inode_get_required_level` returns
nothing: the 64-bit capacity is `2^63` in round 9 and 0 from round 10 on, so
the loop never leaves. -/
theorem C12_required_level_not_smallest :
    2 ^ 63 + 1 ≤ BLOCKS_PER_INODE * 512 * (512 / SIZEOF_BLOCKPID) ^ 9 ∧
      (∀ j, j < 9 → BLOCKS_PER_INODE * 512 * (512 / SIZEOF_BLOCKPID) ^ j < 2 ^ 63 + 1) ∧
      inode_get_required_level (2 ^ 63 + 1) 512 = .error .diverges := by
  refine ⟨by decide, by decide, ?_⟩
  have h := required_level_loop_skip 64 (2 ^ 63 + 1) 10 (2 ^ 64 - 10) 6656 0 0 (by decide!)
  rw [required_level_loop_zero 64 (2 ^ 63 + 1) (by decide)] at h
  exact h

/-! ## Claims C13, C14 and C16 -/

/-- The fields of the inode that `inode_create` makes when `inode_alloc`
succeeds: the level is the required level narrowed to 16 bits. -/
theorem inode_create_fields (device : BlockDevice) (allocator : INodeAllocator)
    (mem_size : Nat) (inode : INode) (L bs : Nat) (ha : (inode_alloc device allocator).2.2 ≠ 0)
    (hb : (inode_alloc device allocator).1.block_size = bs)
    (hl : inode_get_required_level mem_size bs = .ok L) :
    (inode_create device allocator mem_size inode).map
      (fun c => (c.2.2.1, c.2.2.2.level, c.2.2.2.mem_size)) =
        .ok (true, L % 2 ^ 16, mem_size) := by
  unfold inode_create
  simp only [if_neg ha, hb, hl]
  rfl

/-- With `block_size = 21004` the 64-bit capacity wraps around from round 6
on and first reaches 18445823644127521180 in round 65537. -/
theorem C13_required_level_65537 :
    inode_get_required_level 18445823644127521180 21004 = .ok 65537 := by
  have h := required_level_loop_skip 2625 18445823644127521180 65537 (2 ^ 64 - 65537)
    (13 * 21004) 0 18445823644127521180 (by decide!)
  have h2 := required_level_loop_stop 2625 18445823644127521180 (2 ^ 64 - 65538)
    18445823644127521180 (0 + 65537) (by decide)
  exact h.trans h2

/-- C13 fails for `block_size = 21004` (between `sizeof(INode)` and
`256 * sizeof(INode)`) and `inode_create` with
`mem_size = 18445823644127521180`: `inode_get_required_level` returns 65537,
the 16-bit field `level` keeps 1, and `inode_create` succeeds. The inode's
level 1 is below the level the code requires (65537) and below the smallest
`k` with `13 * block_size * B^k >= mem_size` (which is 5), and the capacity
`13 * block_size * B^1` is below `mem_size`. -/
theorem C13_level_below_required :
    INODE_BLOCK_SIZE_MIN ≤ 21004 ∧ 21004 ≤ INODE_BLOCK_SIZE_MAX ∧
      inode_get_required_level 18445823644127521180 21004 = .ok 65537 ∧
      C13_run.map (fun c => (c.2.2.1, c.2.2.2.level, c.2.2.2.mem_size)) =
        .ok (true, 1, 18445823644127521180) ∧
      BLOCKS_PER_INODE * 21004 * (21004 / SIZEOF_BLOCKPID) ^ 1 < 18445823644127521180 ∧
      BLOCKS_PER_INODE * 21004 * (21004 / SIZEOF_BLOCKPID) ^ 4 < 18445823644127521180 ∧
      18445823644127521180 ≤ BLOCKS_PER_INODE * 21004 * (21004 / SIZEOF_BLOCKPID) ^ 5 := by
  refine ⟨by decide, by decide, C13_required_level_65537, ?_, by decide, by decide, by decide⟩
  exact inode_create_fields (fresh_device 21004 8) (inode_initfs 21004) 18445823644127521180
    File.fresh.inode 65537 21004 (by decide!) (by decide!) C13_required_level_65537

/-- C14 fails on a device of 1082408 blocks of 3968 bytes (31 inodes per
block) once 1082400 blocks are allocated: `inode_create` succeeds and makes an
inode in slot 0 of block 1082401, and `inode_save` of that inode and
`inode_restore` of its id return failure. The byte offset `1082401 * 3968` of
the slot is `2^32 - 128`, which narrowed to `int` is negative, so `lseek`
fails; the slots 1 to 30 that `inode_alloc` wrote lie at the `int` offsets 0
to 3712, inside block 0. -/
theorem C14_save_of_created_inode_fails :
    device_create HostFile.empty 3968 1082408 = some (fresh_device 3968 1082408) ∧
      block_alloc_n 1082400 (fresh_device 3968 1082408) =
        (bumped (fresh_device 3968 1082408) 1082400, List.range' 1 1082400) ∧
      (inode_initfs 3968).inodes_per_block = 31 ∧
      int_off 1082401 3968 0 = 2 ^ 32 - 128 ∧
      C14_run = .ok (true, 1082401 * 256, 1082401, 0, false, false) := by
  refine ⟨rfl, block_alloc_n_bump 1082400 (fresh_device 3968 1082408) rfl (by decide), ?_⟩
  decide!

/-- C16 fails on a full device of 21 blocks of 520 bytes. The first
`inode_write`, of one byte at offset `o = 10885322268173763687`, succeeds: it
sets `mem_size = o + 1` and level 9 and uses the last free block. The second
`inode_write`, of two bytes at `o`, calls `inode_set_size(o + 2)`, which needs
level 12 and fails for want of blocks; `inode_write` does not look at that
result, writes the two bytes into the data block that is already there and
returns success. `mem_size` is still `o + 1`, not `max(o + 1, o + 2)`. -/
theorem C16_write_succeeds_without_growing :
    device_create HostFile.empty 520 21 = some (fresh_device 520 21) ∧
      inode_get_required_level (10885322268173763687 + 2) 520 = .ok 12 ∧
      C16_run = .ok (true, 9, 10885322268173763687 + 1, 21, true, 10885322268173763687 + 1) ∧
      max (10885322268173763687 + 1) (10885322268173763687 + 2) ≠
        10885322268173763687 + 1 := by
  refine ⟨rfl, ?_⟩
  decide!

/-! ## Claim C17 -/

/-- A pointer that can be read is the root or a valid index of the cache. -/
theorem fs_deref_eq_ok (fs : FS) (p : FilePtr) (f : File) (h : fs_deref fs p = .ok f) :
    (p = .root ∧ f = fs.root) ∨ (∃ i, p = .pool i ∧ i < fs.dir_cache.length ∧
      fs.dir_cache[i]? = some f) := by
  cases p with
  | null => simp [fs_deref] at h
  | root =>
    left
    simp only [fs_deref, Except.ok.injEq] at h
    exact ⟨rfl, h.symm⟩
  | pool i =>
    right
    refine ⟨i, rfl, ?_⟩
    unfold fs_deref at h
    simp only [List.get?_eq_getElem?] at h
    cases hg : fs.dir_cache[i]? with
    | none => simp [hg] at h
    | some x =>
      simp only [hg, Except.ok.injEq] at h
      subst h
      exact ⟨(List.getElem?_eq_some_iff.mp hg).1, rfl⟩

/-- When the parent is a directory, the name is not empty and `inode_create`
succeeds, `fs_create_file` appends the new node to the cache, links it in
front of the parent's children and sets the parent's `FILE_IS_DIRTY`. -/
theorem fs_create_file_ok (fs : FS) (dir : FilePtr) (name : List Nat) (name_size status : Nat)
    (d : File) (dev1 : BlockDevice) (a1 : INodeAllocator) (ino : INode)
    (hd : fs_deref fs dir = .ok d) (hdir : d.inode.status = INODE_DIR) (hn0 : name_size ≠ 0)
    (hcreate : inode_create fs.device fs.inode_a 0 File.fresh.inode = .ok (dev1, a1, true, ino)) :
    fs_create_file fs dir name name_size status =
      .ok (fs_assign
        { fs with
          device := dev1, inode_a := a1
          dir_cache := fs.dir_cache ++ [created_file name name_size status ino d.head_child] }
        dir { d with head_child := .pool fs.dir_cache.length, flags := d.flags ||| FILE_IS_DIRTY },
        .pool fs.dir_cache.length) := by
  have hfresh : (fs.dir_cache ++ [File.fresh])[fs.dir_cache.length]? = some File.fresh := by
    simp
  rcases fs_deref_eq_ok fs dir d hd with ⟨hp, hf⟩ | ⟨i, hp, hi, hf⟩
  · subst hp
    subst hf
    unfold fs_create_file fs_init_file mam_pool_alloc
    simp only [if_neg hn0, bind, Except.bind, pure, Except.pure, fs_deref, hdir, hfresh,
      List.get?_eq_getElem?, hcreate]
    simp [fs_assign, fs_deref, created_file, File.fresh, hn0]
  · subst hp
    have hne : i ≠ fs.dir_cache.length := Nat.ne_of_lt hi
    have hget : (fs.dir_cache ++ [File.fresh])[i]? = some d := by
      rw [List.getElem?_append_left hi]
      exact hf
    have hdi : fs.dir_cache[i] = d := by
      have := List.getElem?_eq_getElem hi
      rw [hf] at this
      exact (Option.some.inj this).symm
    unfold fs_create_file fs_init_file mam_pool_alloc
    simp only [if_neg hn0, bind, Except.bind, pure, Except.pure, fs_deref, hdir, hfresh, hf,
      List.get?_eq_getElem?, hcreate, hget]
    simp [fs_assign, fs_deref, created_file, File.fresh, hn0, hget, hne, hi,
      List.getElem?_set, List.getElem?_append_left hi, hdi]

/-- On a cached directory whose children the scan runs through without a
match, `fs_get_any` returns success, no node and the state as it was. -/
theorem fs_get_any_none (fs : FS) (dir : FilePtr) (name : List Nat) (name_size : Nat) (d : File)
    (hd : fs_deref fs dir = .ok d) (hc : d.flags &&& DIR_IS_CACHED ≠ 0)
    (hnone : fs_get_any_loop fs name name_size (fs.dir_cache.length + 2) d.head_child =
      .ok .null) :
    fs_get_any fs dir name name_size = .ok (fs, true, .null) := by
  unfold fs_get_any fs_restore_dir
  simp only [hd, bind, Except.bind, pure, Except.pure, if_pos hc]
  simp [hd, hnone]

/-- A successful `inode_create` gives the inode the id that `inode_alloc` returned. -/
theorem inode_create_pid (device : BlockDevice) (allocator : INodeAllocator) (mem_size : Nat)
    (inode ino : INode) (dev1 : BlockDevice) (a1 : INodeAllocator)
    (h : inode_create device allocator mem_size inode = .ok (dev1, a1, true, ino)) :
    ino.pid = (inode_alloc device allocator).2.2 ∧ ino.pid ≠ 0 := by
  unfold inode_create at h
  by_cases ha : (inode_alloc device allocator).2.2 = 0
  · simp [ha] at h
  · simp only [if_neg ha, bind, Except.bind, pure, Except.pure] at h
    cases hl : inode_get_required_level mem_size (inode_alloc device allocator).1.block_size with
    | error e => simp [hl] at h
    | ok L =>
      simp only [hl, Except.ok.injEq, Prod.mk.injEq, true_and] at h
      obtain ⟨_, _, h3⟩ := h
      subst h3
      exact ⟨rfl, ha⟩

/-- What the state after `fs_create_file` holds. -/
theorem created_state_spec (fs : FS) (dir : FilePtr) (name : List Nat) (name_size status : Nat)
    (d : File) (dev1 : BlockDevice) (a1 : INodeAllocator) (ino : INode)
    (hd : fs_deref fs dir = .ok d) (hn0 : 0 < name_size) (hn : name_size ≤ FILENAME_TEXT_SIZE)
    (hs : status < 2 ^ 16) (fs1 : FS)
    (h1 : fs1 = fs_assign
        { fs with
          device := dev1, inode_a := a1
          dir_cache := fs.dir_cache ++ [created_file name name_size status ino d.head_child] }
        dir { d with head_child := .pool fs.dir_cache.length, flags := d.flags ||| FILE_IS_DIRTY }) :
    ∃ node, fs_deref fs1 (.pool fs.dir_cache.length) = .ok node ∧
      node.inode = { ino with status := status } ∧
      fs_filename_size node = name_size ∧
      fs_get_filename node = .ok (mem_bytes name 0 name_size) ∧
      node.next = d.head_child ∧ node.head_child = .null ∧
      fs_deref fs1 dir = .ok
        { d with head_child := .pool fs.dir_cache.length, flags := d.flags ||| FILE_IS_DIRTY } ∧
      (∀ i, i < fs.dir_cache.length → dir ≠ .pool i → fs1.dir_cache[i]? = fs.dir_cache[i]?) ∧
      (dir ≠ .root → fs1.root = fs.root) ∧ fs1.device = dev1 ∧ fs1.inode_a = a1 := by
  have hne : name_size ≠ 0 := Nat.pos_iff_ne_zero.mp hn0
  have hshort := fs_set_filename_short
    { File.fresh with
      flags := if status = INODE_DIR then DIR_IS_CACHED else 0
      inode := { ino with status := status % 2 ^ 16 } } name name_size hn0 hn
  have hmod : status % 2 ^ 16 = status := Nat.mod_eq_of_lt hs
  have hi1 : ∀ i, i < fs.dir_cache.length →
      i < (fs.dir_cache ++ [created_file name name_size status ino d.head_child]).length := by
    intro i hi
    rw [List.length_append]
    exact Nat.lt_add_right _ hi
  refine ⟨created_file name name_size status ino d.head_child, ?_, ?_, hshort.1, hshort.2.1, rfl,
    ?_, ?_, ?_, ?_, ?_, ?_⟩
  · subst h1
    rcases fs_deref_eq_ok fs dir d hd with ⟨hp, _⟩ | ⟨i, hp, hi, _⟩
    · subst hp
      simp [fs_assign, fs_deref]
    · subst hp
      simp [fs_assign, fs_deref, List.getElem?_set, Nat.ne_of_lt hi]
  · unfold created_file fs_set_filename
    simp only [if_neg hne, hmod]
  · unfold created_file fs_set_filename
    simp only [if_neg hne]
    rfl
  · subst h1
    rcases fs_deref_eq_ok fs dir d hd with ⟨hp, _⟩ | ⟨i, hp, hi, _⟩
    · subst hp
      simp [fs_assign, fs_deref]
    · subst hp
      simp only [fs_assign, fs_deref, List.get?_eq_getElem?, List.getElem?_set, if_pos (hi1 i hi)]
      simp
  · subst h1
    intro i hi hne2
    cases dir with
    | null => simp [fs_assign, List.getElem?_append_left hi]
    | root => simp [fs_assign, List.getElem?_append_left hi]
    | pool j =>
      have : j ≠ i := fun h => hne2 (by rw [h])
      simp [fs_assign, List.getElem?_set, this, List.getElem?_append_left hi]
  · subst h1
    intro hr
    cases dir with
    | null => rfl
    | root => exact absurd rfl hr
    | pool j => rfl
  · subst h1
    cases dir <;> rfl
  · subst h1
    cases dir <;> rfl

/-- With size 0 the loop of `inode_get_required_level` leaves at once. -/
theorem required_level_zero (block_size : Nat) :
    inode_get_required_level 0 block_size = .ok 0 := by
  unfold inode_get_required_level
  rw [show (2 : Nat) ^ 64 = (2 ^ 64 - 1) + 1 by decide]
  exact required_level_loop_stop _ 0 _ _ 0 (Nat.not_lt_zero _)

/-- `inode_create` with size 0 always returns: failure with the inode as it
was when `inode_alloc` returns 0, and success otherwise. -/
theorem inode_create_zero_returns (device : BlockDevice) (allocator : INodeAllocator)
    (inode : INode) :
    ∃ dev1 a1 ok ino, inode_create device allocator 0 inode = .ok (dev1, a1, ok, ino) ∧
      (ok = false → (inode_alloc device allocator).2.2 = 0) := by
  unfold inode_create
  by_cases ha : (inode_alloc device allocator).2.2 = 0
  · refine ⟨(inode_alloc device allocator).1, (inode_alloc device allocator).2.1, false, inode,
      ?_, fun _ => ha⟩
    simp only [if_pos ha]
  · refine ⟨(inode_save (inode_alloc device allocator).1
        { inode with
          pid := (inode_alloc device allocator).2.2, level := 0 % 2 ^ 16
          status := INODE_BUFFER, mem_size := 0
          blocks := List.replicate BLOCKS_PER_INODE 0 }).1,
      (inode_alloc device allocator).2.1, true,
      { inode with
        pid := (inode_alloc device allocator).2.2, level := 0 % 2 ^ 16
        status := INODE_BUFFER, mem_size := 0
        blocks := List.replicate BLOCKS_PER_INODE 0 }, ?_, fun h => by cases h⟩
    simp only [if_neg ha, required_level_zero, bind, Except.bind, pure, Except.pure]

/-- When the parent is a directory, the name is not empty and `inode_create`
fails, `fs_create_file` returns no node; the parent and every node that was
in the cache are as before. -/
theorem fs_create_file_fails (fs : FS) (dir : FilePtr) (name : List Nat)
    (name_size status : Nat) (d : File) (dev1 : BlockDevice) (a1 : INodeAllocator) (ino : INode)
    (hd : fs_deref fs dir = .ok d) (hdir : d.inode.status = INODE_DIR) (hn0 : name_size ≠ 0)
    (hcreate : inode_create fs.device fs.inode_a 0 File.fresh.inode =
      .ok (dev1, a1, false, ino)) :
    ∃ fs1, fs_create_file fs dir name name_size status = .ok (fs1, .null) ∧
      fs_deref fs1 dir = .ok d ∧
      (∀ i, i < fs.dir_cache.length → fs1.dir_cache[i]? = fs.dir_cache[i]?) ∧
      fs1.root = fs.root ∧ fs1.device = dev1 ∧ fs1.inode_a = a1 := by
  have hfresh : (fs.dir_cache ++ [File.fresh])[fs.dir_cache.length]? = some File.fresh := by
    simp
  refine ⟨fs_assign
    { fs with device := dev1, inode_a := a1, dir_cache := fs.dir_cache ++ [File.fresh] }
    (.pool fs.dir_cache.length)
    { File.fresh with
      head_child := .null, next := .null
      flags := if status = INODE_DIR then DIR_IS_CACHED else 0, inode := ino }, ?_, ?_, ?_,
    rfl, rfl, rfl⟩
  · rcases fs_deref_eq_ok fs dir d hd with ⟨hp, hf⟩ | ⟨i, hp, hi, hf⟩
    · subst hp
      subst hf
      unfold fs_create_file fs_init_file mam_pool_alloc
      simp only [if_neg hn0, bind, Except.bind, pure, Except.pure, fs_deref, hdir, hfresh,
        List.get?_eq_getElem?, hcreate]
      simp [hn0]
    · subst hp
      unfold fs_create_file fs_init_file mam_pool_alloc
      simp only [if_neg hn0, bind, Except.bind, pure, Except.pure, fs_deref, hdir, hfresh, hf,
        List.get?_eq_getElem?, hcreate]
      simp [hn0]
  · rcases fs_deref_eq_ok fs dir d hd with ⟨hp, hf⟩ | ⟨i, hp, hi, hf⟩
    · subst hp
      subst hf
      rfl
    · subst hp
      simp [fs_assign, fs_deref, List.getElem?_set, Nat.ne_of_gt hi,
        List.getElem?_append_left hi, hf]
  · intro i hi
    simp [fs_assign, List.getElem?_set, Nat.ne_of_gt hi, List.getElem?_append_left hi]

/-- C17, amended. For every cached directory `dir` and every name of 1 to
`FILENAME_TEXT_SIZE` bytes for which the scan of the children finds no match,
the `inode_create` that `fs_open_file` and `fs_open_dir` make returns, and:
if it succeeds with the inode `ino`, then `fs_open_file` (resp.
`fs_open_dir`) returns success with a new node: the next object of the cache,
of kind file (resp. directory), with the inode `ino` (whose id is the one
`inode_alloc` returned), the given name and `next` equal to the old
`head_child`; the directory gets the new node as `head_child` and
`FILE_IS_DIRTY`, and the other nodes are unchanged. If it fails (`inode_alloc`
returned 0), then `fs_open_file` and `fs_open_dir` both return failure and no
node, and the directory and every node that was in the cache are as
before. -/
theorem C17_open_creates_head_child (fs : FS) (dir : FilePtr) (name : List Nat)
    (name_size : Nat) (d : File)
    (hd : fs_deref fs dir = .ok d) (hdir : d.inode.status = INODE_DIR)
    (hc : d.flags &&& DIR_IS_CACHED ≠ 0)
    (hn0 : 0 < name_size) (hn : name_size ≤ FILENAME_TEXT_SIZE)
    (hnone : fs_get_any_loop fs name name_size (fs.dir_cache.length + 2) d.head_child =
      .ok .null) :
    ∃ dev1 a1 ok ino,
      inode_create fs.device fs.inode_a 0 File.fresh.inode = .ok (dev1, a1, ok, ino) ∧
      (ok = true →
        (∃ fs1 node,
          fs_open_file fs dir name name_size = .ok (fs1, true, .pool fs.dir_cache.length) ∧
          fs_deref fs1 (.pool fs.dir_cache.length) = .ok node ∧
          node.inode = { ino with status := INODE_FILE } ∧
          fs_filename_size node = name_size ∧
          fs_get_filename node = .ok (mem_bytes name 0 name_size) ∧
          node.next = d.head_child ∧ node.head_child = .null ∧
          fs_deref fs1 dir = .ok
            { d with
              head_child := .pool fs.dir_cache.length, flags := d.flags ||| FILE_IS_DIRTY } ∧
          (∀ i, i < fs.dir_cache.length → dir ≠ .pool i →
            fs1.dir_cache[i]? = fs.dir_cache[i]?) ∧
          (dir ≠ .root → fs1.root = fs.root) ∧ fs1.device = dev1 ∧ fs1.inode_a = a1) ∧
        (∃ fs1 node,
          fs_open_dir fs dir name name_size = .ok (fs1, true, .pool fs.dir_cache.length) ∧
          fs_deref fs1 (.pool fs.dir_cache.length) = .ok node ∧
          node.inode = { ino with status := INODE_DIR } ∧
          fs_filename_size node = name_size ∧
          fs_get_filename node = .ok (mem_bytes name 0 name_size) ∧
          node.next = d.head_child ∧ node.head_child = .null ∧
          fs_deref fs1 dir = .ok
            { d with
              head_child := .pool fs.dir_cache.length, flags := d.flags ||| FILE_IS_DIRTY } ∧
          (∀ i, i < fs.dir_cache.length → dir ≠ .pool i →
            fs1.dir_cache[i]? = fs.dir_cache[i]?) ∧
          (dir ≠ .root → fs1.root = fs.root) ∧ fs1.device = dev1 ∧ fs1.inode_a = a1) ∧
        ino.pid = (inode_alloc fs.device fs.inode_a).2.2 ∧ ino.pid ≠ 0) ∧
      (ok = false →
        (inode_alloc fs.device fs.inode_a).2.2 = 0 ∧
        (∃ fs1, fs_open_file fs dir name name_size = .ok (fs1, false, .null) ∧
          fs_deref fs1 dir = .ok d ∧
          (∀ i, i < fs.dir_cache.length → fs1.dir_cache[i]? = fs.dir_cache[i]?) ∧
          fs1.root = fs.root) ∧
        (∃ fs1, fs_open_dir fs dir name name_size = .ok (fs1, false, .null) ∧
          fs_deref fs1 dir = .ok d ∧
          (∀ i, i < fs.dir_cache.length → fs1.dir_cache[i]? = fs.dir_cache[i]?) ∧
          fs1.root = fs.root)) := by
  have hne : name_size ≠ 0 := Nat.pos_iff_ne_zero.mp hn0
  have hg := fs_get_any_none fs dir name name_size d hd hc hnone
  obtain ⟨dev1, a1, ok, ino, hcreate, hfail⟩ :=
    inode_create_zero_returns fs.device fs.inode_a File.fresh.inode
  refine ⟨dev1, a1, ok, ino, hcreate, ?_, ?_⟩
  · intro hok
    subst hok
    refine ⟨?_, ?_, inode_create_pid _ _ _ _ _ _ _ hcreate⟩
    · have hcf := fs_create_file_ok fs dir name name_size INODE_FILE d dev1 a1 ino hd hdir hne
        hcreate
      obtain ⟨node, h⟩ := created_state_spec fs dir name name_size INODE_FILE d dev1 a1 ino hd
        hn0 hn (by decide) _ rfl
      refine ⟨_, node, ?_, h⟩
      unfold fs_open_file
      simp only [hg, bind, Except.bind, pure, Except.pure, hcf]
      simp
    · have hcf := fs_create_file_ok fs dir name name_size INODE_DIR d dev1 a1 ino hd hdir hne
        hcreate
      obtain ⟨node, h⟩ := created_state_spec fs dir name name_size INODE_DIR d dev1 a1 ino hd
        hn0 hn (by decide) _ rfl
      refine ⟨_, node, ?_, h⟩
      unfold fs_open_dir
      simp only [hg, bind, Except.bind, pure, Except.pure, hcf]
      simp
  · intro hok
    subst hok
    refine ⟨hfail rfl, ?_, ?_⟩
    · obtain ⟨fs1, hcf, h1, h2, h3, _⟩ := fs_create_file_fails fs dir name name_size INODE_FILE
        d dev1 a1 ino hd hdir hne hcreate
      refine ⟨fs1, ?_, h1, h2, h3⟩
      unfold fs_open_file
      simp only [hg, bind, Except.bind, pure, Except.pure, hcf]
      simp
    · obtain ⟨fs1, hcf, h1, h2, h3, _⟩ := fs_create_file_fails fs dir name name_size INODE_DIR
        d dev1 a1 ino hd hdir hne hcreate
      refine ⟨fs1, ?_, h1, h2, h3⟩
      unfold fs_open_dir
      simp only [hg, bind, Except.bind, pure, Except.pure, hcf]
      simp

/-- A run of four results that has a result with the flag set equals it. -/
theorem eq_ok_of_flag {α β γ : Type} (x : Except Abort (α × β × Bool × γ))
    (d : α × β × Bool × γ) (h1 : has_result x = true) (h2 : (result_or x d).2.2.1 = true) :
    x = .ok ((result_or x d).1, (result_or x d).2.1, true, (result_or x d).2.2.2) := by
  cases x with
  | error e => cases h1
  | ok a =>
    obtain ⟨a1, a2, a3, a4⟩ := a
    simp only [result_or] at h2 ⊢
    rw [h2]

/-- Reading the root pointer gives the root. -/
theorem fs_deref_root (fs : FS) : fs_deref fs .root = .ok fs.root := rfl

/-- `inode_create` succeeds in `C18_state`. -/
theorem C17_created_eq :
    inode_create C18_state.device C18_state.inode_a 0 File.fresh.inode =
      .ok (C17_created.1, C17_created.2.1, true, C17_created.2.2.2) := by
  unfold C17_created
  exact eq_ok_of_flag _ _ (by decide!) (by decide!)

/-- Two instances of C17. In `C18_state`, whose root has the children "d" and
"a", `fs_open_file(root, "z", 1)` makes the cache object 2 with the inode 259,
in front of the old head (cache object 1). In `C17_full_state`, where
`inode_alloc` returns 0, `fs_open_file(root, "d", 1)` and
`fs_open_dir(root, "d", 1)` return failure and no node, and the root is as
before. -/
theorem C17_open_creates_head_child_witness :
    ((∃ fs1 node,
      fs_open_file C18_state .root [122] 1 = .ok (fs1, true, .pool 2) ∧
      fs_deref fs1 (.pool 2) = .ok node ∧
      node.inode = { C17_created.2.2.2 with status := INODE_FILE } ∧
      fs_get_filename node = .ok [122] ∧ node.next = .pool 1 ∧
      fs_deref fs1 .root = .ok
        { C18_state.root with
          head_child := .pool 2, flags := C18_state.root.flags ||| FILE_IS_DIRTY }) ∧
    C17_created.2.2.2.pid = 259) ∧
    (inode_alloc C17_full_state.device C17_full_state.inode_a).2.2 = 0 ∧
    (∃ fs1, fs_open_file C17_full_state .root [100] 1 = .ok (fs1, false, .null) ∧
      fs_deref fs1 .root = .ok C17_full_state.root) ∧
    (∃ fs1, fs_open_dir C17_full_state .root [100] 1 = .ok (fs1, false, .null) ∧
      fs_deref fs1 .root = .ok C17_full_state.root) := by
  constructor
  · obtain ⟨dev1, a1, ok, ino, hcr, hs, _⟩ :=
      C17_open_creates_head_child C18_state .root [122] 1 C18_state.root (fs_deref_root _)
        (by decide!) (by decide!) (by decide) (by decide) (by decide!)
    rw [C17_created_eq] at hcr
    simp only [Except.ok.injEq, Prod.mk.injEq] at hcr
    obtain ⟨_, _, hok, hino⟩ := hcr
    have h := hs hok.symm
    have hlen : C18_state.dir_cache.length = 2 := by decide!
    have hhead : C18_state.root.head_child = .pool 1 := by decide!
    rw [hlen, hhead, ← hino] at h
    obtain ⟨⟨fs1, node, h1, h2, h3, _, h5, h6, _, h8, _⟩, _, _⟩ := h
    exact ⟨⟨fs1, node, h1, h2, h3, h5, h6, h8⟩, by decide!⟩
  · have hz : (inode_alloc C17_full_state.device C17_full_state.inode_a).2.2 = 0 := by decide!
    obtain ⟨dev1, a1, ok, ino, _, hs, hf⟩ :=
      C17_open_creates_head_child C17_full_state .root [100] 1 C17_full_state.root
        (fs_deref_root _) (by decide!) (by decide!) (by decide) (by decide) (by decide!)
    cases ok with
    | true =>
      obtain ⟨_, _, hp, hp0⟩ := hs rfl
      exact absurd (hp.trans hz) hp0
    | false =>
      obtain ⟨_, ⟨fs1, h1, h2, _⟩, ⟨fs2, k1, k2, _⟩⟩ := hf rfl
      exact ⟨hz, ⟨fs1, h1, h2⟩, ⟨fs2, k1, k2⟩⟩

set_option synthInstance.maxSize 4096 in
/-- C17 as stated fails on a device of 1024 bytes: after the files "a", "b"
and "c" the only inode block is used up and no block is left, so for the name
"d", which no child of the cached root has, `fs_open_file` returns failure and
no node. -/
theorem C17_counterexample :
    C17_full_run = .ok (true, true, true, [[99], [98], [97]], 1, .null, false, .null) := by
  decide!

/-! ## Claim C20 -/

/-- The state of the device in `C20_grown`. -/
theorem C20_grown_facts :
    C20_grown.2.2.2 = (true, true) ∧ C20_grown.1.master.first_unused_block = 0 ∧
      C20_grown.1.master.last_block = 6 ∧ C20_grown.1.blocks_total = 2 ^ 24 + 64 := by
  decide!

set_option synthInstance.maxSize 4096 in
/-- C20 fails on a device of `2^24 + 64` blocks of 256 bytes. The inode has
level 1 and the direct table 3, 4, 0, ...: index block 3 holds the data blocks
2 and `2^24 + 4`, index block 4 holds nothing, so the blocks reachable are 3,
2, `2^24 + 4` and 4, none of them shared. `inode_destroy` returns success,
clears the direct table, sets the status to Invalid and makes the inode's id
256 the head of the inode freelist, but it frees block 2 twice: block
`2^24 + 4` has the same narrowed byte offset as block 4, so freeing it writes
the freelist head, 2, over entry 0 of index block 4, which `free_all` reads
next. The block freelist then runs 4, 2, 3, `2^24 + 4`, 2, ... and
`block_alloc` hands out block 2 twice. -/
theorem C20_destroy_frees_block_twice :
    C20_grown.2.2.2 = (true, true) ∧ C20_grown.1.master.first_unused_block = 0 ∧
      C20_grown.1.master.last_block = 6 ∧
      block_alloc_n (2 ^ 24 - 2) C20_grown.1 =
        (bumped C20_grown.1 (2 ^ 24 - 2), List.range' C20_grown.1.master.last_block (2 ^ 24 - 2)) ∧
      int_off (2 ^ 24 + 4) 256 0 = int_off 4 256 0 ∧
      C20_run = .ok (true, 1, [3, 4, 0, 0, 0, 0, 0, 0, 0, 0, 0, 0, 0],
        [2, 2 ^ 24 + 4] ++ List.replicate 30 0, List.replicate 32 0, true,
        List.replicate 13 0, INODE_INVALID, 256, 4, [4, 2, 3, 2 ^ 24 + 4, 2]) := by
  refine ⟨C20_grown_facts.1, C20_grown_facts.2.1, C20_grown_facts.2.2.1,
    block_alloc_n_bump (2 ^ 24 - 2) C20_grown.1 C20_grown_facts.2.1 ?_, by decide, ?_⟩
  · rw [C20_grown_facts.2.2.1, C20_grown_facts.2.2.2]
    decide
  · decide!

/-! ## Claim C11: the inode allocator below byte `2^31` -/

theorem inode_next_congr (d d1 : BlockDevice) (x : Nat) (hb : d1.block_size = d.block_size)
    (hd : ∀ i, i < 8 →
      d1.host.data (inode_pid_block x * d.block_size + inode_pid_slot x * SIZEOF_INODE + i) =
        d.host.data (inode_pid_block x * d.block_size + inode_pid_slot x * SIZEOF_INODE + i)) :
    inode_next d1 x = inode_next d x := by
  unfold inode_next
  rw [hb, host_bytes_congr d1.host d.host _ 8 hd]

/-- The inode freelist depends on the next pointers of its ids only. -/
theorem is_inode_freelist_congr (d d1 : BlockDevice) (fl : List Nat) (start : Nat)
    (h : ∀ x, x ∈ fl → inode_next d1 x = inode_next d x) :
    is_inode_freelist d1 start fl ↔ is_inode_freelist d start fl := by
  induction fl generalizing start with
  | nil => simp [is_inode_freelist]
  | cons x xs ih =>
    simp only [is_inode_freelist]
    rw [h x (List.mem_cons_self _ _), ih _ (fun y hy => h y (List.mem_cons_of_mem _ hy))]

/-- Facts about an id that names a claimed slot. -/
theorem InodeInv.id_facts {d : BlockDevice} {a : INodeAllocator} {al fl : List Nat}
    (inv : InodeInv d a al fl) (x : Nat) (hx : inode_id_ok d a x) :
    x < 2 ^ 32 ∧ x ≠ 0 ∧ inode_pid_block x = x / 256 ∧ inode_pid_slot x = x % 256 ∧
      block_in_range d (x / 256) ∧ x % 256 * SIZEOF_INODE + 8 ≤ d.block_size := by
  obtain ⟨h1, h2, h3⟩ := hx
  have hl := inv.last_le
  have hb : x / 256 + 1 ≤ d.blocks_total := by
    rcases Nat.le_total d.blocks_total 1 with h | h
    · rw [Nat.max_eq_right h] at hl; omega
    · rw [Nat.max_eq_left h] at hl; omega
  have hm : (x / 256 + 1) * d.block_size ≤ d.blocks_total * d.block_size :=
    Nat.mul_le_mul_right _ hb
  have hfit := inv.ipb_fit
  have h256 : 256 ≤ d.block_size := by
    have := inv.ipb2
    simp only [SIZEOF_INODE] at hfit
    omega
  have hm2 : (x / 256 + 1) * 256 ≤ (x / 256 + 1) * d.block_size := Nat.mul_le_mul_left _ h256
  have hf := inv.fits
  have hx32 : x < 2 ^ 32 := by omega
  have h63 : x < 2 ^ 63 := Nat.lt_trans hx32 (by norm_num)
  refine ⟨hx32, by omega, ?_, rfl, ⟨by omega, le_trans hm inv.fits, le_trans hm inv.size_ok⟩, ?_⟩
  · unfold inode_pid_block
    rw [if_pos h63]
    rfl
  · simp only [SIZEOF_INODE] at hfit ⊢
    omega

/-- The byte ranges of the next pointers of two different slots do not meet. -/
theorem inode_slots_disjoint (bs ipb x y i a : Nat) (hfit : ipb * 128 ≤ bs)
    (hx : x % 256 < ipb) (hy : y % 256 < ipb) (hne : x ≠ y) (hi : i < 8)
    (ha : a = x / 256 * bs + x % 256 * 128 + i) :
    ¬ (y / 256 * bs + y % 256 * 128 ≤ a ∧ a < y / 256 * bs + y % 256 * 128 + 8) := by
  subst ha
  rcases Nat.lt_trichotomy (x / 256) (y / 256) with h | h | h
  · have hm : (x / 256 + 1) * bs ≤ y / 256 * bs := Nat.mul_le_mul_right _ h
    have e : (x / 256 + 1) * bs = x / 256 * bs + bs := by ring
    omega
  · rw [h]
    have : x % 256 ≠ y % 256 := by omega
    omega
  · have hm : (y / 256 + 1) * bs ≤ x / 256 * bs := Nat.mul_le_mul_right _ h
    have e : (y / 256 + 1) * bs = y / 256 * bs + bs := by ring
    omega

/-- The head of the inode freelist is a 64-bit value. -/
theorem InodeInv.next_lt {d : BlockDevice} {a : INodeAllocator} {al fl : List Nat}
    (inv : InodeInv d a al fl) : a.next_inode < 2 ^ 64 := by
  cases fl with
  | nil =>
    have h0 : a.next_inode = 0 := inv.chain
    rw [h0]; norm_num
  | cons x xs =>
    have hx0 : a.next_inode = x := inv.chain.1
    have hx := (inv.part x).mp (Or.inl (List.mem_cons_self _ _))
    have := (inv.id_facts x hx).1
    rw [hx0]
    exact Nat.lt_trans this (by norm_num)

/-- `inode_alloc` with a non-empty inode freelist keeps the invariant. -/
theorem InodeInv.alloc_pop {d : BlockDevice} {a : INodeAllocator} {al xs : List Nat} {x : Nat}
    (inv : InodeInv d a al (x :: xs)) :
    (inode_alloc d a).2.2 ≠ 0 ∧ (inode_alloc d a).2.2 ∉ al ∧
      InodeInv (inode_alloc d a).1 (inode_alloc d a).2.1 ((inode_alloc d a).2.2 :: al) xs := by
  obtain ⟨hx0, hxne, hch⟩ : a.next_inode = x ∧ x ≠ 0 ∧
    is_inode_freelist d (inode_next d x) xs := inv.chain
  have hx := (inv.part x).mp (Or.inl (List.mem_cons_self _ _))
  obtain ⟨_, _, hblk, hslot, hr, hoff⟩ := inv.id_facts x hx
  obtain ⟨r1, r2, r3, r4, r5, r6⟩ := block_reads_in_range d (x / 256) (x % 256 * SIZEOF_INODE) 8
    hr hoff
  have ha : inode_alloc d a =
      ((block_reads d (x / 256) (x % 256 * SIZEOF_INODE) 8).1,
        { a with next_inode := inode_next d x }, x) := by
    unfold inode_alloc
    simp only [hx0, ne_eq, hxne, not_false_eq_true, if_true, hblk, hslot, r1]
    unfold inode_next
    rw [hblk, hslot]
  rw [ha]
  dsimp only
  have hnot : x ∉ al := inv.disj x (List.mem_cons_self _ _)
  have hnd := List.nodup_cons.mp inv.nodup_fl
  refine ⟨hxne, hnot, ?_⟩
  exact
    { ipb2 := inv.ipb2
      ipb256 := inv.ipb256
      ipb_fit := by rw [r3]; exact inv.ipb_fit
      fits := by rw [r3, r4]; exact inv.fits
      size_ok := by rw [r3, r4, r5]; exact inv.size_ok
      no_free_block := by rw [r2]; exact inv.no_free_block
      last_pos := by rw [r2]; exact inv.last_pos
      last_le := by rw [r2, r4]; exact inv.last_le
      chain := by
        show is_inode_freelist _ (inode_next d x) xs
        refine (is_inode_freelist_congr d _ xs _ ?_).mpr hch
        intro y _
        apply inode_next_congr
        · exact r3
        · intro i _
          rw [r6]
      nodup_fl := hnd.2
      nodup_al := List.nodup_cons.mpr ⟨hnot, inv.nodup_al⟩
      disj := fun y hy => by
        intro hm
        rcases List.mem_cons.mp hm with e | e
        · exact hnd.1 (e ▸ hy)
        · exact inv.disj y (List.mem_cons_of_mem _ hy) e
      part := fun y => by
        have hp := inv.part y
        unfold inode_id_ok at hp ⊢
        rw [r2]
        show _ ↔ 1 ≤ y / 256 ∧ y / 256 < d.master.last_block ∧ y % 256 < a.inodes_per_block
        rw [← hp]
        simp only [List.mem_cons]
        constructor
        · rintro (h | h | h)
          · exact Or.inl (Or.inr h)
          · exact Or.inl (Or.inl h)
          · exact Or.inr h
        · rintro ((h | h) | h)
          · exact Or.inr (Or.inl h)
          · exact Or.inl h
          · exact Or.inr (Or.inr h) }

/-- `inode_free` of an allocated id succeeds and keeps the invariant. -/
theorem InodeInv.inode_free_inv {d : BlockDevice} {a : INodeAllocator} {al fl : List Nat}
    (inv : InodeInv d a al fl) (pid : Nat) (hp : pid ∈ al) :
    (inode_free d a pid).2.2 = true ∧
      InodeInv (inode_free d a pid).1 (inode_free d a pid).2.1 (al.erase pid) (pid :: fl) := by
  have hx := (inv.part pid).mp (Or.inr hp)
  obtain ⟨_, hne0, hblk, hslot, hr, hoff⟩ := inv.id_facts pid hx
  obtain ⟨w1, w2, w3, w4, w5, w6⟩ := block_writes_in_range d (pid / 256)
    (pid % 256 * SIZEOF_INODE) (le_encode 8 a.next_inode) 8 hr hoff
  have hf : inode_free d a pid =
      ((block_writes d (pid / 256) (pid % 256 * SIZEOF_INODE) (le_encode 8 a.next_inode) 8).1,
        { a with next_inode := pid }, true) := by
    unfold inode_free
    simp only [hblk, hslot, w1, if_true]
  rw [hf]
  dsimp only
  have hpfl : pid ∉ fl := fun h => inv.disj pid h hp
  have hsize : ∀ i, i < 8 →
      pid / 256 * d.block_size + pid % 256 * SIZEOF_INODE + i < d.host.size := by
    intro i hi
    have h1 := hr.2.2
    have e : (pid / 256 + 1) * d.block_size = pid / 256 * d.block_size + d.block_size := by ring
    omega
  refine ⟨rfl, ?_⟩
  exact
    { ipb2 := inv.ipb2
      ipb256 := inv.ipb256
      ipb_fit := by rw [w3]; exact inv.ipb_fit
      fits := by rw [w3, w4]; exact inv.fits
      size_ok := by rw [w3, w4, w5]; exact inv.size_ok
      no_free_block := by rw [w2]; exact inv.no_free_block
      last_pos := by rw [w2]; exact inv.last_pos
      last_le := by rw [w2, w4]; exact inv.last_le
      chain := by
        show is_inode_freelist _ pid (pid :: fl)
        refine ⟨rfl, hne0, ?_⟩
        have hnext : inode_next
            (block_writes d (pid / 256) (pid % 256 * SIZEOF_INODE)
              (le_encode 8 a.next_inode) 8).1 pid = a.next_inode := by
          unfold inode_next
          rw [hblk, hslot, w3]
          have hb := host_bytes_eq_of
            (block_writes d (pid / 256) (pid % 256 * SIZEOF_INODE)
              (le_encode 8 a.next_inode) 8).1.host
            (pid / 256 * d.block_size + pid % 256 * SIZEOF_INODE) (le_encode 8 a.next_inode)
            (by
              intro i hi
              rw [le_encode_length] at hi
              rw [w6 _ (hsize i hi), if_pos (by omega)]
              congr 1
              omega)
          rw [le_encode_length] at hb
          rw [hb]
          exact le_decode_encode_8 _ inv.next_lt
        rw [hnext]
        refine (is_inode_freelist_congr d _ fl _ ?_).mpr inv.chain
        intro y hy
        have hyok := (inv.part y).mp (Or.inl hy)
        obtain ⟨_, _, hyb, hys, hyr, hyoff⟩ := inv.id_facts y hyok
        have hne : y ≠ pid := fun e => hpfl (e ▸ hy)
        apply inode_next_congr
        · exact w3
        · intro i hi
          rw [hyb, hys]
          have hlt : y / 256 * d.block_size + y % 256 * SIZEOF_INODE + i < d.host.size := by
            have h1 := hyr.2.2
            have e : (y / 256 + 1) * d.block_size = y / 256 * d.block_size + d.block_size := by
              ring
            omega
          rw [w6 _ hlt, if_neg]
          exact inode_slots_disjoint d.block_size a.inodes_per_block y pid i _ inv.ipb_fit
            hyok.2.2 hx.2.2 hne hi rfl
      nodup_fl := List.nodup_cons.mpr ⟨hpfl, inv.nodup_fl⟩
      nodup_al := inv.nodup_al.erase pid
      disj := fun y hy => by
        intro hm
        have hmem := List.mem_of_mem_erase hm
        rcases List.mem_cons.mp hy with e | e
        · subst e
          exact (List.Nodup.not_mem_erase inv.nodup_al) hm
        · exact inv.disj y e hmem
      part := fun y => by
        have hpy := inv.part y
        unfold inode_id_ok at hpy ⊢
        rw [w2]
        show _ ↔ 1 ≤ y / 256 ∧ y / 256 < d.master.last_block ∧ y % 256 < a.inodes_per_block
        rw [← hpy]
        simp only [List.mem_cons]
        constructor
        · rintro ((e | h) | h)
          · subst e; exact Or.inr hp
          · exact Or.inl h
          · exact Or.inr (List.mem_of_mem_erase h)
        · rintro (h | h)
          · exact Or.inl (Or.inr h)
          · by_cases e : y = pid
            · exact Or.inl (Or.inl e)
            · exact Or.inr ((List.mem_erase_of_ne e).mpr h) }

/-- The loop of `inode_alloc` on a block below byte `2^31`: every write
succeeds, the loop ends at the last slot, slot `s` holds `base ||| (s + 1)`,
and the bytes before slot `i` and from the last slot on stay as they are. -/
theorem inode_alloc_chain_spec (b base ipb : Nat) (hipb : ipb < 2 ^ 31) :
    ∀ (fuel i : Nat) (dv : BlockDevice), block_in_range dv b →
      ipb * SIZEOF_INODE ≤ dv.block_size → 1 ≤ i → i + 1 ≤ ipb → ipb ≤ i + 1 + fuel →
      (inode_alloc_chain b base ipb fuel i dv).2 = (true, ipb - 1) ∧
      (inode_alloc_chain b base ipb fuel i dv).1.master = dv.master ∧
      (inode_alloc_chain b base ipb fuel i dv).1.block_size = dv.block_size ∧
      (inode_alloc_chain b base ipb fuel i dv).1.blocks_total = dv.blocks_total ∧
      (inode_alloc_chain b base ipb fuel i dv).1.host.size = dv.host.size ∧
      (∀ a, a < dv.host.size →
        (a < b * dv.block_size + i * SIZEOF_INODE ∨
          b * dv.block_size + (ipb - 1) * SIZEOF_INODE ≤ a) →
        (inode_alloc_chain b base ipb fuel i dv).1.host.data a = dv.host.data a) ∧
      (∀ s, i ≤ s → s + 1 < ipb →
        host_bytes (inode_alloc_chain b base ipb fuel i dv).1.host
          (b * dv.block_size + s * SIZEOF_INODE) 8 = le_encode 8 (base ||| (s + 1))) := by
  intro fuel
  induction fuel with
  | zero =>
    intro i dv _ _ _ h1 h2
    have hi : i = ipb - 1 := by omega
    refine ⟨?_, rfl, rfl, rfl, rfl, fun _ _ _ => rfl, ?_⟩
    · simp only [inode_alloc_chain, hi]
    · intro s hs1 hs2
      omega
  | succ fuel ih =>
    intro i dv hr hfit hi1 hi2 hfuel
    by_cases hc : i + 1 < ipb
    · have hcond : i + 1 < ipb ∧ ipb < 2 ^ 31 :=
        ⟨hc, hipb⟩
      have hoff : i * SIZEOF_INODE + 8 ≤ dv.block_size := by
        simp only [SIZEOF_INODE] at hfit ⊢
        omega
      obtain ⟨w1, w2, w3, w4, w5, w6⟩ := block_writes_in_range dv b (i * SIZEOF_INODE)
        (le_encode 8 (base ||| (i + 1))) 8 hr hoff
      have hstep : inode_alloc_chain b base ipb (fuel + 1) i dv =
          inode_alloc_chain b base ipb fuel (i + 1)
            (block_writes dv b (i * SIZEOF_INODE) (le_encode 8 (base ||| (i + 1))) 8).1 := by
        conv_lhs => rw [inode_alloc_chain]
        simp only [if_pos hcond, w1, if_true]
      rw [hstep]
      have hr1 : block_in_range
          (block_writes dv b (i * SIZEOF_INODE) (le_encode 8 (base ||| (i + 1))) 8).1 b :=
        (block_in_range_congr dv _ b w3 w5).mpr hr
      obtain ⟨c1, c2, c3, c4, c5, c6, c7⟩ := ih (i + 1) _ hr1 (by rw [w3]; exact hfit)
        (by omega) (by omega) (by omega)
      rw [w3] at c6 c7
      rw [w5] at c6
      have hsz : (b + 1) * dv.block_size ≤ dv.host.size := hr.2.2
      have e : (b + 1) * dv.block_size = b * dv.block_size + dv.block_size := by ring
      refine ⟨c1, c2.trans w2, c3.trans w3, c4.trans w4, c5.trans w5, ?_, ?_⟩
      · intro a ha hout
        have h1 : a < b * dv.block_size + (i + 1) * SIZEOF_INODE ∨
            b * dv.block_size + (ipb - 1) * SIZEOF_INODE ≤ a := by
          simp only [SIZEOF_INODE] at hout ⊢
          omega
        rw [c6 a ha h1, w6 a ha, if_neg]
        simp only [SIZEOF_INODE] at hout ⊢
        omega
      · intro s hs1 hs2
        rcases Nat.eq_or_lt_of_le hs1 with h | h
        · subst h
          have hb := host_bytes_eq_of
            (inode_alloc_chain b base ipb fuel (i + 1)
              (block_writes dv b (i * SIZEOF_INODE) (le_encode 8 (base ||| (i + 1))) 8).1).1.host
            (b * dv.block_size + i * SIZEOF_INODE) (le_encode 8 (base ||| (i + 1)))
            (by
              intro j hj
              rw [le_encode_length] at hj
              have hlt : b * dv.block_size + i * SIZEOF_INODE + j < dv.host.size := by
                simp only [SIZEOF_INODE] at hfit ⊢
                omega
              rw [c6 _ hlt (by simp only [SIZEOF_INODE]; omega), w6 _ hlt, if_pos (by omega)]
              congr 1
              omega)
          rw [le_encode_length] at hb
          exact hb
        · exact c7 s h hs2
    · have hi : i = ipb - 1 := by omega
      have hstep : inode_alloc_chain b base ipb (fuel + 1) i dv = (dv, true, i) := by
        conv_lhs => rw [inode_alloc_chain]
        rw [if_neg (fun h => hc h.1)]
      rw [hstep]
      refine ⟨by simp only [hi], rfl, rfl, rfl, rfl, fun _ _ _ => rfl, ?_⟩
      intro s hs1 hs2
      omega

/-- The id of slot `t` of block `b`. -/
theorem inode_base_or (b t : Nat) (h : t < 256) : (b * 256) ||| t = b * 256 + t := by
  have := Nat.mul_add_lt_is_or (i := 8) h b
  rw [Nat.mul_comm]
  simpa using this.symm

/-- The device after `inode_alloc` has claimed the fresh block `b`: the chain
through the slots 1 to `ipb - 1` of that block is the inode freelist. -/
theorem inode_fresh_chain (dw : BlockDevice) (b ipb : Nat) (hb1 : 1 ≤ b) (hb : b < 2 ^ 23)
    (hipb : ipb ≤ 256)
    (hmid : ∀ s, 1 ≤ s → s + 1 < ipb →
      host_bytes dw.host (b * dw.block_size + s * SIZEOF_INODE) 8 =
        le_encode 8 (b * 256 + (s + 1)))
    (hlast : host_bytes dw.host (b * dw.block_size + (ipb - 1) * SIZEOF_INODE) 8 =
      le_encode 8 0) :
    ∀ (n s : Nat), 1 ≤ s → s + n = ipb →
      is_inode_freelist dw (if n = 0 then 0 else b * 256 + s)
        ((List.range' s n).map (fun t => b * 256 + t)) := by
  intro n
  induction n with
  | zero =>
    intro s _ _
    simp [is_inode_freelist]
  | succ n ih =>
    intro s hs1 hsn
    have hs : s < 256 := by omega
    have hlt : b * 256 + s < 2 ^ 63 := by
      have : (2 : Nat) ^ 23 * 256 + 256 < 2 ^ 63 := by norm_num
      omega
    have hblk : inode_pid_block (b * 256 + s) = b := by
      unfold inode_pid_block
      rw [if_pos hlt]
      simp only [INODE_SHIFT]
      omega
    have hslot : inode_pid_slot (b * 256 + s) = s := by
      unfold inode_pid_slot
      simp only [INODE_MASK]
      omega
    simp only [List.range'_succ, List.map_cons, is_inode_freelist, Nat.succ_ne_zero, if_false,
      true_and]
    refine ⟨by omega, ?_⟩
    have hnext : inode_next dw (b * 256 + s) = if n = 0 then 0 else b * 256 + (s + 1) := by
      unfold inode_next
      rw [hblk, hslot]
      by_cases hn : n = 0
      · rw [if_pos hn]
        have : s = ipb - 1 := by omega
        rw [this, hlast]
        exact le_decode_encode_8 0 (by norm_num)
      · rw [if_neg hn, hmid s hs1 (by omega)]
        exact le_decode_encode_8 _ (by
          have : (2 : Nat) ^ 23 * 256 + 257 < 2 ^ 64 := by norm_num
          omega)
    rw [hnext]
    exact ih (s + 1) (by omega) (by omega)

/-- What `inode_alloc` does when the inode freelist is empty and the block
allocator hands out the next unused block `b` of a device below byte `2^31`:
it returns slot 0 of `b`, makes slot 1 the head of the inode freelist, writes
into slot `s` the id `b * 256 ||| (s + 1)` and into the last slot 0, and
leaves all other bytes as they were. -/
theorem inode_alloc_fresh_eq (d : BlockDevice) (a : INodeAllocator)
    (h0 : a.next_inode = 0) (hf0 : d.master.first_unused_block = 0)
    (hb1 : 1 ≤ d.master.last_block) (hl : d.master.last_block < d.blocks_total)
    (hfits : d.blocks_total * d.block_size ≤ 2 ^ 31)
    (hsize : d.blocks_total * d.block_size ≤ d.host.size)
    (hipb2 : 2 ≤ a.inodes_per_block) (hfit : a.inodes_per_block * SIZEOF_INODE ≤ d.block_size) :
    (inode_alloc d a).2.1 = { a with next_inode := d.master.last_block * 256 ||| 1 } ∧
      (inode_alloc d a).2.2 = d.master.last_block * 256 ∧
      (inode_alloc d a).1.master = (bumped d 1).master ∧
      (inode_alloc d a).1.block_size = d.block_size ∧
      (inode_alloc d a).1.blocks_total = d.blocks_total ∧
      (inode_alloc d a).1.host.size = d.host.size ∧
      (∀ x, x < d.host.size →
        (x < d.master.last_block * d.block_size + SIZEOF_INODE ∨
          d.master.last_block * d.block_size + (a.inodes_per_block - 1) * SIZEOF_INODE + 8 ≤ x) →
        (inode_alloc d a).1.host.data x = d.host.data x) ∧
      (∀ s, 1 ≤ s → s + 1 < a.inodes_per_block →
        host_bytes (inode_alloc d a).1.host
          (d.master.last_block * d.block_size + s * SIZEOF_INODE) 8 =
          le_encode 8 (d.master.last_block * 256 ||| (s + 1))) ∧
      host_bytes (inode_alloc d a).1.host
        (d.master.last_block * d.block_size + (a.inodes_per_block - 1) * SIZEOF_INODE) 8 =
        le_encode 8 0 := by
  have h256 : 256 ≤ d.block_size := by
    simp only [SIZEOF_INODE] at hfit
    omega
  have hm : (d.master.last_block + 1) * d.block_size ≤ d.blocks_total * d.block_size :=
    Nat.mul_le_mul_right _ hl
  have hm2 : (d.master.last_block + 1) * 256 ≤ (d.master.last_block + 1) * d.block_size :=
    Nat.mul_le_mul_left _ h256
  have hipb : a.inodes_per_block < 2 ^ 31 := by
    have h3 : a.inodes_per_block * SIZEOF_INODE ≤ (d.master.last_block + 1) * d.block_size := by
      have e : (d.master.last_block + 1) * d.block_size =
          d.master.last_block * d.block_size + d.block_size := by ring
      omega
    simp only [SIZEOF_INODE] at h3
    omega
  have hb23 : d.master.last_block < 2 ^ 23 := by omega
  have hbase : d.master.last_block * 2 ^ INODE_SHIFT % 2 ^ 64 = d.master.last_block * 256 := by
    simp only [INODE_SHIFT]
    have : (2 : Nat) ^ 23 * 256 < 2 ^ 64 := by norm_num
    omega
  have hrv : block_in_range (bumped d 1) d.master.last_block :=
    ⟨by omega, le_trans hm hfits, le_trans hm hsize⟩
  obtain ⟨c1, c2, c3, c4, c5, c6, c7⟩ := inode_alloc_chain_spec d.master.last_block
    (d.master.last_block * 256) a.inodes_per_block hipb a.inodes_per_block 1 (bumped d 1) hrv
    hfit (le_refl 1) (by omega) (by omega)
  have hbs : (bumped d 1).block_size = d.block_size := rfl
  have hsz : (bumped d 1).host.size = d.host.size := rfl
  have hdt : (bumped d 1).host.data = d.host.data := rfl
  have htot : (bumped d 1).blocks_total = d.blocks_total := rfl
  rw [hbs] at c3 c6 c7
  rw [hsz] at c5 c6
  rw [hdt] at c6
  rw [htot] at c4
  have hrc : block_in_range
      (inode_alloc_chain d.master.last_block (d.master.last_block * 256) a.inodes_per_block
        a.inodes_per_block 1 (bumped d 1)).1 d.master.last_block :=
    (block_in_range_congr (bumped d 1) _ _ c3 c5).mpr hrv
  have hoff : (a.inodes_per_block - 1) * SIZEOF_INODE + 8 ≤
      (inode_alloc_chain d.master.last_block (d.master.last_block * 256) a.inodes_per_block
        a.inodes_per_block 1 (bumped d 1)).1.block_size := by
    rw [c3]
    simp only [SIZEOF_INODE] at hfit ⊢
    omega
  obtain ⟨w1, w2, w3, w4, w5, w6⟩ := block_writes_in_range _ d.master.last_block
    ((a.inodes_per_block - 1) * SIZEOF_INODE) (le_encode 8 0) 8 hrc hoff
  rw [c3] at w3 w6
  rw [c5] at w5 w6
  rw [c4] at w4
  rw [c2] at w2
  have ha : inode_alloc d a =
      ((block_writes
          (inode_alloc_chain d.master.last_block (d.master.last_block * 256)
            a.inodes_per_block a.inodes_per_block 1 (bumped d 1)).1
          d.master.last_block ((a.inodes_per_block - 1) * SIZEOF_INODE) (le_encode 8 0) 8).1,
        { a with next_inode := d.master.last_block * 256 ||| 1 },
        d.master.last_block * 256) := by
    unfold inode_alloc
    have hne : d.master.last_block ≠ 0 := by omega
    simp only [h0, ne_eq, not_true_eq_false, if_false, block_alloc_bump d hf0 hl,
      hne, hbase, c1, Bool.not_true, Bool.false_eq_true, w1]
  rw [ha]
  dsimp only
  have hsize1 : (d.master.last_block + 1) * d.block_size ≤ d.host.size := le_trans hm hsize
  have e : (d.master.last_block + 1) * d.block_size =
      d.master.last_block * d.block_size + d.block_size := by ring
  refine ⟨rfl, rfl, w2, w3, w4, w5, ?_, ?_, ?_⟩
  · intro x hx hout
    rw [w6 x hx, if_neg (by simp only [SIZEOF_INODE] at hout ⊢; omega)]
    apply c6 x hx
    simp only [SIZEOF_INODE] at hout ⊢
    omega
  · intro s hs1 hs2
    rw [← c7 s hs1 hs2]
    apply host_bytes_congr
    intro i hi
    have hlt : d.master.last_block * d.block_size + s * SIZEOF_INODE + i < d.host.size := by
      simp only [SIZEOF_INODE] at hfit ⊢
      omega
    rw [w6 _ hlt, if_neg]
    simp only [SIZEOF_INODE]
    omega
  · have hb := host_bytes_eq_of (block_writes
          (inode_alloc_chain d.master.last_block (d.master.last_block * 256)
            a.inodes_per_block a.inodes_per_block 1 (bumped d 1)).1
          d.master.last_block ((a.inodes_per_block - 1) * SIZEOF_INODE) (le_encode 8 0) 8).1.host
      (d.master.last_block * d.block_size + (a.inodes_per_block - 1) * SIZEOF_INODE)
      (le_encode 8 0) (by
        intro i hi
        rw [le_encode_length] at hi
        have hlt : d.master.last_block * d.block_size +
            (a.inodes_per_block - 1) * SIZEOF_INODE + i < d.host.size := by
          simp only [SIZEOF_INODE] at hfit ⊢
          omega
        rw [w6 _ hlt, if_pos (by omega)]
        congr 1
        omega)
    rw [le_encode_length] at hb
    exact hb

/-- `inode_alloc` with an empty inode freelist and a block left keeps the invariant. -/
theorem InodeInv.alloc_fresh {d : BlockDevice} {a : INodeAllocator} {al : List Nat}
    (inv : InodeInv d a al []) (hl : d.master.last_block < d.blocks_total) :
    (inode_alloc d a).2.2 ≠ 0 ∧ (inode_alloc d a).2.2 ∉ al ∧
      ∃ fl1, InodeInv (inode_alloc d a).1 (inode_alloc d a).2.1
        ((inode_alloc d a).2.2 :: al) fl1 := by
  have h0 : a.next_inode = 0 := inv.chain
  have hb1 := inv.last_pos
  have hfit := inv.ipb_fit
  have hipb2 := inv.ipb2
  have hipb := inv.ipb256
  have h256 : 256 ≤ d.block_size := by
    simp only [SIZEOF_INODE] at hfit
    omega
  have hm : (d.master.last_block + 1) * d.block_size ≤ d.blocks_total * d.block_size :=
    Nat.mul_le_mul_right _ hl
  have hm2 : (d.master.last_block + 1) * 256 ≤ (d.master.last_block + 1) * d.block_size :=
    Nat.mul_le_mul_left _ h256
  have hfits := inv.fits
  have hb23 : d.master.last_block < 2 ^ 23 := by omega
  obtain ⟨e21, e22, w2, w3, w4, w5, _, hmid, hlast⟩ := inode_alloc_fresh_eq d a h0
    inv.no_free_block hb1 hl inv.fits inv.size_ok hipb2 hfit
  rw [e21, e22]
  have hold : ∀ y, y ∈ al → y / 256 < d.master.last_block := fun y hy =>
    ((inv.part y).mp (Or.inr hy)).2.1
  have hnot : d.master.last_block * 256 ∉ al := by
    intro h
    have := hold _ h
    omega
  have hchain := inode_fresh_chain (inode_alloc d a).1 d.master.last_block a.inodes_per_block
    hb1 hb23 hipb
    (by
      intro s hs1 hs2
      rw [w3, hmid s hs1 hs2, inode_base_or _ _ (by omega : s + 1 < 256)])
    (by rw [w3]; exact hlast) (a.inodes_per_block - 1) 1 (le_refl 1) (by omega)
  rw [if_neg (by omega)] at hchain
  have hmemfl : ∀ y, y ∈ (List.range' 1 (a.inodes_per_block - 1)).map
      (fun t => d.master.last_block * 256 + t) ↔
      (y / 256 = d.master.last_block ∧ 1 ≤ y % 256 ∧ y % 256 < a.inodes_per_block) := by
    intro y
    simp only [List.mem_map, List.mem_range'_1]
    constructor
    · rintro ⟨t, ⟨ht1, ht2⟩, rfl⟩
      omega
    · rintro ⟨h1, h2, h3⟩
      exact ⟨y % 256, ⟨h2, by omega⟩, by omega⟩
  refine ⟨by omega, hnot, (List.range' 1 (a.inodes_per_block - 1)).map
    (fun t => d.master.last_block * 256 + t), ?_⟩
  exact
    { ipb2 := inv.ipb2
      ipb256 := inv.ipb256
      ipb_fit := by rw [w3]; exact inv.ipb_fit
      fits := by rw [w3, w4]; exact inv.fits
      size_ok := by rw [w3, w4, w5]; exact inv.size_ok
      no_free_block := by rw [w2]; exact inv.no_free_block
      last_pos := by rw [w2]; show 1 ≤ d.master.last_block + 1; omega
      last_le := by
        rw [w2, w4]
        show d.master.last_block + 1 ≤ max d.blocks_total 1
        exact le_trans (by omega : d.master.last_block + 1 ≤ d.blocks_total)
          (Nat.le_max_left _ _)
      chain := by
        show is_inode_freelist _ (d.master.last_block * 256 ||| 1) _
        rw [inode_base_or _ _ (by norm_num)]
        exact hchain
      nodup_fl := by
        apply List.Nodup.map
        · intro x y hxy
          simp only at hxy
          omega
        · exact List.nodup_range' 1 _
      nodup_al := List.nodup_cons.mpr ⟨hnot, inv.nodup_al⟩
      disj := fun y hy => by
        have hy1 := (hmemfl y).mp hy
        intro hm
        rcases List.mem_cons.mp hm with e | e
        · omega
        · have := hold y e
          omega
      part := fun y => by
        have hp := inv.part y
        unfold inode_id_ok at hp ⊢
        rw [w2]
        show _ ↔ 1 ≤ y / 256 ∧ y / 256 < d.master.last_block + 1 ∧ y % 256 < a.inodes_per_block
        rw [hmemfl y]
        simp only [List.mem_cons, List.not_mem_nil, false_or] at hp ⊢
        constructor
        · rintro (h | h | h)
          · omega
          · omega
          · have := hp.mp h
            omega
        · intro h
          by_cases hy : y / 256 = d.master.last_block
          · by_cases hs : y % 256 = 0
            · right; left; omega
            · left; omega
          · right; right
            exact hp.mpr (by omega) }

/-- `inode_alloc` with a non-empty inode freelist whose head lies below byte
`2^31`: it returns the head and makes the id stored in the head's slot the new
head; the bytes of the device stay as they are. -/
theorem inode_alloc_pop_eq (d : BlockDevice) (a : INodeAllocator) (x : Nat)
    (hx0 : a.next_inode = x) (hxne : x ≠ 0) (h63 : x < 2 ^ 63)
    (hr : block_in_range d (x / 256)) (hoff : x % 256 * SIZEOF_INODE + 8 ≤ d.block_size) :
    (inode_alloc d a).2.1 = { a with next_inode := inode_next d x } ∧
      (inode_alloc d a).2.2 = x ∧
      (inode_alloc d a).1.block_size = d.block_size ∧
      (inode_alloc d a).1.host.size = d.host.size ∧
      (inode_alloc d a).1.host.data = d.host.data := by
  have hblk : inode_pid_block x = x / 256 := by
    unfold inode_pid_block
    rw [if_pos h63]
    rfl
  have hslot : inode_pid_slot x = x % 256 := rfl
  obtain ⟨r1, _, r3, _, r5, r6⟩ := block_reads_in_range d (x / 256) (x % 256 * SIZEOF_INODE) 8
    hr hoff
  have ha : inode_alloc d a =
      ((block_reads d (x / 256) (x % 256 * SIZEOF_INODE) 8).1,
        { a with next_inode := inode_next d x }, x) := by
    unfold inode_alloc
    simp only [hx0, ne_eq, hxne, not_false_eq_true, if_true, hblk, hslot, r1]
    unfold inode_next
    rw [hblk, hslot]
  rw [ha]
  exact ⟨rfl, rfl, r3, r5, r6⟩

/-- The ids of `n + 1` calls: the first id, then those of the `n` calls that follow. -/
theorem inode_alloc_n_succ (n : Nat) (d : BlockDevice) (a : INodeAllocator) :
    (inode_alloc_n (n + 1) d a).2.2 =
      (inode_alloc d a).2.2 :: (inode_alloc_n n (inode_alloc d a).1 (inode_alloc d a).2.1).2.2 :=
  rfl

/-- Calls of `inode_alloc` return the ids of the inode freelist in order. -/
theorem inode_alloc_n_pops (fl : List Nat) : ∀ (d : BlockDevice) (a : INodeAllocator),
    is_inode_freelist d a.next_inode fl →
    (∀ x, x ∈ fl → x < 2 ^ 63 ∧ block_in_range d (x / 256) ∧
      x % 256 * SIZEOF_INODE + 8 ≤ d.block_size) →
    (inode_alloc_n fl.length d a).2.2 = fl := by
  induction fl with
  | nil => intro d a _ _; rfl
  | cons x xs ih =>
    intro d a hch hok
    obtain ⟨hx0, hxne, hrest⟩ := hch
    obtain ⟨h63, hr, hoff⟩ := hok x (List.mem_cons_self _ _)
    obtain ⟨e21, e22, e3, e5, e6⟩ := inode_alloc_pop_eq d a x hx0 hxne h63 hr hoff
    have hcg := is_inode_freelist_congr d (inode_alloc d a).1 xs (inode_next d x)
      (fun y _ => inode_next_congr d (inode_alloc d a).1 y e3 (fun i _ => congrFun e6 _))
    have hch1 : is_inode_freelist (inode_alloc d a).1 (inode_alloc d a).2.1.next_inode xs := by
      rw [e21]
      exact hcg.mpr hrest
    have hok1 : ∀ y, y ∈ xs → y < 2 ^ 63 ∧ block_in_range (inode_alloc d a).1 (y / 256) ∧
        y % 256 * SIZEOF_INODE + 8 ≤ (inode_alloc d a).1.block_size := by
      intro y hy
      obtain ⟨h1, h2, h3⟩ := hok y (List.mem_cons_of_mem _ hy)
      exact ⟨h1, (block_in_range_congr d _ _ e3 e5).mpr h2, by rw [e3]; exact h3⟩
    have h1 := ih (inode_alloc d a).1 (inode_alloc d a).2.1 hch1 hok1
    rw [List.length_cons, inode_alloc_n_succ, e22, h1]

set_option synthInstance.maxSize 4096 in
/-- C11 fails on a device of `2^24 + 8` blocks of 256 bytes (2 inodes per
block). `inode_alloc` returns the ids 256 and 257 (the two slots of block 1)
and, once `2^24 - 1` calls of `block_alloc` have moved the bump pointer to
block `2^24 + 1`, the id 4294967552 (slot 0 of that block). The two calls of
`inode_free`, of the allocated ids 256 and 4294967552, return success. The
three calls of `inode_alloc` that follow return 4294967552, 256 and 256: the
id 256 is returned twice with no `inode_free` in between. The byte offset of
block `2^24 + 1` is `2^32 + 256`, which as an `int` is 256, the offset of
block 1: the second `inode_free` stored its next pointer (256) in the slot of
the id 256. -/
theorem C11_inode_id_returned_twice :
    device_create HostFile.empty 256 (2 ^ 24 + 8) = some (fresh_device 256 (2 ^ 24 + 8)) ∧
      C11_start.2.2 = [256, 257] ∧
      block_alloc_n (2 ^ 24 - 1) C11_start.1 =
        (bumped C11_start.1 (2 ^ 24 - 1), List.range' 2 (2 ^ 24 - 1)) ∧
      C11_run = (4294967552, true, true, [4294967552, 256, 256]) ∧
      int_off (2 ^ 24 + 1) 256 0 = int_off 1 256 0 := by
  have hl : C11_start.1.master.last_block = 2 := by decide!
  have hb := block_alloc_n_bump (2 ^ 24 - 1) C11_start.1 (by decide!) (by decide!)
  rw [hl] at hb
  exact ⟨rfl, by decide!, hb, by decide!, by decide⟩

/-- `inode_alloc` fails, or returns an id that is not allocated; it keeps the invariant. -/
theorem InodeInv.inode_alloc_inv {d : BlockDevice} {a : INodeAllocator} {al fl : List Nat}
    (inv : InodeInv d a al fl) :
    ((inode_alloc d a).2.2 = 0 ∧ InodeInv (inode_alloc d a).1 (inode_alloc d a).2.1 al fl) ∨
      ((inode_alloc d a).2.2 ≠ 0 ∧ (inode_alloc d a).2.2 ∉ al ∧
        ∃ fl1, InodeInv (inode_alloc d a).1 (inode_alloc d a).2.1
          ((inode_alloc d a).2.2 :: al) fl1) := by
  cases fl with
  | nil =>
    by_cases hl : d.master.last_block < d.blocks_total
    · exact Or.inr (inv.alloc_fresh hl)
    · left
      have h0 : a.next_inode = 0 := inv.chain
      have ha : inode_alloc d a = (d, a, 0) := by
        unfold inode_alloc
        simp [h0, block_alloc_full d inv.no_free_block (by omega)]
      rw [ha]
      exact ⟨rfl, inv⟩
  | cons x xs =>
    obtain ⟨h1, h2, h3⟩ := inv.alloc_pop
    exact Or.inr ⟨h1, h2, xs, h3⟩

/-- The invariant holds after `device_create` and `inode_initfs` for a block
size from `2 * sizeof(INode)` to `256 * sizeof(INode)`. -/
theorem InodeInv.initfs_inv (host : HostFile) (block_size blocks_total : Nat) (d : BlockDevice)
    (hc : device_create host block_size blocks_total = some d)
    (h1 : 2 * SIZEOF_INODE ≤ block_size) (h2 : block_size ≤ INODE_BLOCK_SIZE_MAX)
    (hfit : blocks_total * block_size ≤ 2 ^ 31) : InodeInv d (inode_initfs block_size) [] [] := by
  have hb := AllocInv.create host block_size blocks_total d hc
    (by simp only [SIZEOF_INODE] at h1; omega) hfit
  have hbs : d.block_size = block_size := by
    unfold device_create at hc
    simp only at hc
    split at hc
    · cases hc
    · cases hc; rfl
  have hl : d.master.last_block = 1 := by
    unfold device_create at hc
    simp only at hc
    split at hc
    · cases hc
    · cases hc; rfl
  simp only [SIZEOF_INODE, INODE_BLOCK_SIZE_MAX, INODE_MASK] at h1 h2
  exact
    { ipb2 := by simp only [inode_initfs, SIZEOF_INODE]; omega
      ipb256 := by simp only [inode_initfs, SIZEOF_INODE]; omega
      ipb_fit := by
        simp only [inode_initfs, SIZEOF_INODE]
        rw [hbs]
        exact Nat.div_mul_le_self _ _
      fits := hb.fits
      size_ok := hb.size_ok
      no_free_block := hb.chain
      last_pos := hb.last_pos
      last_le := hb.last_le
      chain := rfl
      nodup_fl := List.nodup_nil
      nodup_al := List.nodup_nil
      disj := fun x hx => by cases hx
      part := fun x => by
        unfold inode_id_ok
        rw [hl]
        simp only [List.not_mem_nil, or_self, false_iff]
        omega }

/-- Every run of the inode allocator keeps the invariant. -/
theorem InodeInv.ops_run_inv (ops : List InodeOp) (s s1 : BlockDevice × INodeAllocator × List Nat)
    (hs : ∃ fl, InodeInv s.1 s.2.1 s.2.2 fl) (hrun : inode_ops_run ops s = some s1) :
    ∃ fl, InodeInv s1.1 s1.2.1 s1.2.2 fl := by
  induction ops generalizing s with
  | nil =>
    simp only [inode_ops_run, Option.some.injEq] at hrun
    rw [← hrun]; exact hs
  | cons op ops ih =>
    obtain ⟨fl, inv⟩ := hs
    cases op with
    | alloc =>
      simp only [inode_ops_run, inode_op_step] at hrun
      apply ih _ _ hrun
      rcases inv.inode_alloc_inv with ⟨h0, hinv⟩ | ⟨hne, _, fl1, hinv⟩
      · exact ⟨fl, by simpa [h0] using hinv⟩
      · exact ⟨fl1, by simpa [hne] using hinv⟩
    | free pid =>
      simp only [inode_ops_run, inode_op_step] at hrun
      by_cases hp : pid ∈ s.2.2
      · rw [if_pos hp] at hrun
        apply ih _ _ hrun
        obtain ⟨hok, hinv⟩ := inv.inode_free_inv pid hp
        exact ⟨pid :: fl, by simpa [hok] using hinv⟩
      · rw [if_neg hp] at hrun
        cases hrun

/-- Where the byte offsets fit an `int`, C11 holds. On a device that
`device_create` made with a block size from `2 * sizeof(INode)` to
`256 * sizeof(INode)` and all blocks below byte `2^31`, after `inode_initfs` and every sequence of `inode_alloc` and
`inode_free` calls in which `inode_free` is only called on allocated ids: the
next `inode_alloc` fails or returns an id that is not allocated, and there is
an inode freelist `fl` from `next_inode` on, none of whose ids is allocated,
such that every slot below `inodes_per_block` of every block from 1 up to
`last_block` is on `fl` or allocated. -/
theorem inode_ids_unique_in_range (host : HostFile) (block_size blocks_total : Nat)
    (d : BlockDevice) (hc : device_create host block_size blocks_total = some d)
    (h1 : 2 * SIZEOF_INODE ≤ block_size) (h2 : block_size ≤ INODE_BLOCK_SIZE_MAX)
    (hfit : blocks_total * block_size ≤ 2 ^ 31) (ops : List InodeOp)
    (s : BlockDevice × INodeAllocator × List Nat)
    (hrun : inode_ops_run ops (d, inode_initfs block_size, []) = some s) :
    ((inode_alloc s.1 s.2.1).2.2 = 0 ∨ (inode_alloc s.1 s.2.1).2.2 ∉ s.2.2) ∧
      ∃ fl, is_inode_freelist s.1 s.2.1.next_inode fl ∧ (∀ x, x ∈ fl → x ∉ s.2.2) ∧
        ∀ block slot, 1 ≤ block → block < s.1.master.last_block →
          slot < s.2.1.inodes_per_block →
          (block * 256 + slot ∈ fl ∨ block * 256 + slot ∈ s.2.2) := by
  obtain ⟨fl, inv⟩ := InodeInv.ops_run_inv ops (d, inode_initfs block_size, []) s
    ⟨[], InodeInv.initfs_inv host block_size blocks_total d hc h1 h2 hfit⟩ hrun
  constructor
  · rcases inv.inode_alloc_inv with ⟨h0, _⟩ | ⟨_, hn, _⟩
    · exact Or.inl h0
    · exact Or.inr hn
  · refine ⟨fl, inv.chain, inv.disj, ?_⟩
    intro block slot hb1 hb2 hs
    have h256 := inv.ipb256
    apply (inv.part _).mpr
    unfold inode_id_ok
    omega

/-- An option that has a value equals that value. -/
theorem eq_some_getD {α : Type} (x : Option α) (d : α) (h : x.isSome = true) :
    x = some (x.getD d) := by
  cases x with
  | none => cases h
  | some a => rfl

/-- The instance for a new device of 8 blocks of 512 bytes and the run
`inode_alloc`, `inode_alloc`, `inode_free(256)`, `inode_alloc`. -/
theorem inode_ids_unique_in_range_witness :
    ((inode_alloc C11_state.1 C11_state.2.1).2.2 = 0 ∨
        (inode_alloc C11_state.1 C11_state.2.1).2.2 ∉ C11_state.2.2) ∧
      ∃ fl, is_inode_freelist C11_state.1 C11_state.2.1.next_inode fl ∧
        (∀ x, x ∈ fl → x ∉ C11_state.2.2) ∧
        ∀ block slot, 1 ≤ block → block < C11_state.1.master.last_block →
          slot < C11_state.2.1.inodes_per_block →
          (block * 256 + slot ∈ fl ∨ block * 256 + slot ∈ C11_state.2.2) :=
  inode_ids_unique_in_range HostFile.empty 512 8 (fresh_device 512 8) rfl (by decide)
    (by decide) (by decide) [.alloc, .alloc, .free 256, .alloc] C11_state
    (eq_some_getD _ _ (by decide!))

/-! ## Claims C22, C23, C27 and C30 -/

/-- What `block_read` does to a block below byte `2^31`: it succeeds, gives
the `block_size` bytes of the host file from byte `pid * block_size` on, and
changes nothing but the descriptor position. -/
theorem block_read_in_range (d : BlockDevice) (pid : Nat) (h : block_in_range d pid) :
    (block_read d pid).2 = (true, host_bytes d.host (pid * d.block_size) d.block_size) ∧
      (block_read d pid).1.master = d.master ∧
      (block_read d pid).1.block_size = d.block_size ∧
      (block_read d pid).1.blocks_total = d.blocks_total ∧
      (block_read d pid).1.host.size = d.host.size ∧
      (block_read d pid).1.host.data = d.host.data := by
  have hp : pid ≠ 0 := h.1
  obtain ⟨f1, f2, f3⟩ := int_off_in_range d pid 0 h (Nat.zero_le _)
  obtain ⟨e1, e2, e3⟩ := int_off_in_range d pid d.block_size h (Nat.le_refl _)
  rw [Nat.add_zero] at f1 f2 f3
  by_cases hb : d.block_size = 0
  · unfold block_read
    rw [if_neg hp]
    have hlt : pid * d.block_size < 2 ^ 31 := by rw [hb]; simp
    simp only [f1, host_lseek_ok _ _ hlt]
    rw [host_read_full _ _ (by simp only; omega)]
    simp [host_bytes, hb]
  · have hlt : pid * d.block_size < 2 ^ 31 := by omega
    unfold block_read
    rw [if_neg hp]
    simp only [f1, host_lseek_ok _ _ hlt]
    rw [host_read_full _ _ (by simp only; omega)]
    simp [host_bytes]

/-- What `block_write` does to a block below byte `2^31`: it succeeds and
changes the `block_size` bytes from byte `pid * block_size` on of the host
file and the descriptor position, nothing else. -/
theorem block_write_in_range (d : BlockDevice) (pid : Nat) (buf : List Nat)
    (h : block_in_range d pid) :
    (block_write d pid buf).2 = true ∧
      (block_write d pid buf).1.master = d.master ∧
      (block_write d pid buf).1.block_size = d.block_size ∧
      (block_write d pid buf).1.blocks_total = d.blocks_total ∧
      (block_write d pid buf).1.host.size = d.host.size ∧
      ∀ a, a < d.host.size → (block_write d pid buf).1.host.data a =
        if pid * d.block_size ≤ a ∧ a < pid * d.block_size + d.block_size
        then buf.getD (a - pid * d.block_size) 0 else d.host.data a := by
  have hp : pid ≠ 0 := h.1
  obtain ⟨f1, f2, f3⟩ := int_off_in_range d pid 0 h (Nat.zero_le _)
  obtain ⟨e1, e2, e3⟩ := int_off_in_range d pid d.block_size h (Nat.le_refl _)
  rw [Nat.add_zero] at f1 f2 f3
  have hw := host_write_spec { d.host with pos := pid * d.block_size }
    (mem_bytes buf 0 d.block_size) (by simp only [mem_bytes_length]; omega)
  by_cases hb : d.block_size = 0
  · have hlt : pid * d.block_size < 2 ^ 31 := by rw [hb]; simp
    unfold block_write
    rw [if_neg hp]
    simp only [f1, host_lseek_ok _ _ hlt, Bool.not_true, Bool.false_eq_true, if_false, true_and]
    refine ⟨hw.1, ?_⟩
    intro a ha
    rw [hw.2 a ha]
    simp only [mem_bytes_length]
    rw [if_neg (by omega), if_neg (by omega)]
  · have hlt : pid * d.block_size < 2 ^ 31 := by omega
    unfold block_write
    rw [if_neg hp]
    simp only [f1, host_lseek_ok _ _ hlt, Bool.not_true, Bool.false_eq_true, if_false, true_and]
    refine ⟨hw.1, ?_⟩
    intro a ha
    rw [hw.2 a ha]
    simp only [mem_bytes_length]
    split
    · rename_i hr
      rw [mem_bytes_getD _ _ _ _ (by omega)]
      simp
    · rfl

set_option synthInstance.maxSize 4096 in
/-- C22 fails on a new device of `2^26 + 8` blocks of 64 bytes. For
`pid = 2^26` the byte offset `pid * block_size` is `2^32`, which narrowed to
the `int off` is 0: `block_write` returns success and stores its 64 bytes
from byte 0 of the host file on, over block 0, while the bytes from `2^32` on
stay zero; `block_read` of the same block returns the bytes of block 0. For
`pid = 2^25` the offset `2^31` is negative as an `int`: `lseek` fails, and
`block_write` and `block_read` return failure. Both ids are above 0 and below
`blocks_total`, and the block size is at least `BLOCK_SIZE_MIN`. -/
theorem C22_block_offset_wraps :
    device_create HostFile.empty 64 (2 ^ 26 + 8) = some (fresh_device 64 (2 ^ 26 + 8)) ∧
      BLOCK_SIZE_MIN ≤ 64 ∧
      2 ^ 25 < (fresh_device 64 (2 ^ 26 + 8)).blocks_total ∧
      2 ^ 26 < (fresh_device 64 (2 ^ 26 + 8)).blocks_total ∧
      int_off (2 ^ 26) 64 0 = 0 ∧ int_off (2 ^ 25) 64 0 = 2 ^ 31 ∧
      C22_run = (true, List.replicate 64 1, List.replicate 64 0, true, List.replicate 64 1,
        false, false) := by
  refine ⟨rfl, by decide, by decide, by decide, by decide, by decide, ?_⟩
  decide!

/-- With nothing to write, `inode_write` at an offset beyond `mem_size`
returns success whatever the result of its `inode_set_size` is. -/
theorem inode_write_zero_size (device : BlockDevice) (inode : INode) (mem_offset : Nat)
    (mem : List Nat) (g : BlockDevice × INode × Bool) (h1 : inode.mem_size < mem_offset)
    (h2 : mem_offset < 2 ^ 64) (hg : inode_set_size device inode mem_offset = .ok g) :
    inode_write device inode mem_offset mem 0 = .ok (g.1, g.2.1, true) := by
  unfold inode_write
  simp only [Nat.add_zero, Nat.mod_eq_of_lt h2, Nat.not_lt_zero, if_false, if_pos h1, hg]
  simp [bind, Except.bind, pure, Except.pure, h1]

set_option synthInstance.maxSize 4096 in
/-- C23 fails on a full device (2 blocks of 512 bytes, block 1 taken by the
inodes). For the new inode (size 0, level 0) `block_alloc` returns 0 and
`inode_set_size(7000)`, which needs level 1, returns failure and leaves
`mem_size` and level at 0. `inode_write` of 0 bytes at offset 7000 makes that
same call of `inode_set_size`, does not look at its result, and returns
success; `mem_size` and level are still 0. `inode_write` of 1 byte at offset
6999 makes the same failing call and goes on to index the direct table at
`6999 / 512 = 13`, outside its 13 entries, instead of returning failure. -/
theorem C23_write_ignores_failed_grow :
    device_create HostFile.empty 512 2 = some (fresh_device 512 2) ∧
      C23_run = .ok (true, 0, false, 0, 0, true, 0, 0, false) ∧
      inode_get_required_level 7000 512 = .ok 1 := by
  refine ⟨rfl, ?_, ?_⟩ <;> decide!

/-- C27. For every device, every inode and every new size that is at most
`mem_size`, `inode_set_size` returns success; the device (contents, bump
pointer and block freelist) is the one passed in, and the inode is the one
passed in with `mem_size` set to the new size: level and direct table are
unchanged, and nothing is changed when the new size equals `mem_size`. -/
theorem C27_set_size_shrink_is_frame (device : BlockDevice) (inode : INode) (mem_size : Nat)
    (h : mem_size ≤ inode.mem_size) :
    inode_set_size device inode mem_size =
        .ok (device, { inode with mem_size := mem_size }, true) ∧
      (mem_size = inode.mem_size →
        inode_set_size device inode mem_size = .ok (device, inode, true)) := by
  unfold inode_set_size
  rw [if_neg (Nat.not_lt.mpr h)]
  constructor
  · by_cases h1 : mem_size < inode.mem_size
    · rw [if_pos h1]; rfl
    · rw [if_neg h1]
      have e : mem_size = inode.mem_size := Nat.le_antisymm h (Nat.not_lt.mp h1)
      rw [e]
      rfl
  · intro e
    rw [if_neg (by omega)]
    rfl

/-- An instance of C27: the inode of size 100 and level 1 with the direct
table 5, 0, ..., on a new device of 8 blocks of 512 bytes, set to size 10. -/
theorem C27_set_size_shrink_is_frame_witness :
    inode_set_size (fresh_device 512 8)
        { File.fresh.inode with mem_size := 100, level := 1, blocks := [5] } 10 =
        .ok (fresh_device 512 8,
          { File.fresh.inode with mem_size := 10, level := 1, blocks := [5] }, true) ∧
      ((10 : Nat) = ({ File.fresh.inode with mem_size := 100, level := 1, blocks := [5] } :
          INode).mem_size →
        inode_set_size (fresh_device 512 8)
          { File.fresh.inode with mem_size := 100, level := 1, blocks := [5] } 10 =
          .ok (fresh_device 512 8,
            { File.fresh.inode with mem_size := 100, level := 1, blocks := [5] }, true)) :=
  C27_set_size_shrink_is_frame (fresh_device 512 8)
    { File.fresh.inode with mem_size := 100, level := 1, blocks := [5] } 10 (by decide)

set_option synthInstance.maxSize 16384 in
/-- C30 fails on a device of 16 blocks of 256 bytes for a file whose data
blocks 0 and 2 are live (byte 9 at offset 255, byte 8 at offset 512) and whose
data block 1 is a hole. Reads of one byte give 9 at offset 255 and 8 at offset
512. The read of 3 bytes at offset 255 starts in the live block 0 and goes on
into the hole; it returns success with the buffer 0, 0, 1 where the logical
content is 9, 0, 0: `memzero(mem, mem_left_size)` clears the first two bytes
of the buffer, among them the byte already read, and leaves the last byte as
the caller had it. The read of 258 bytes at offset 255 returns success with
256 zeros, then 1, then 8 where the logical content is 9, then 256 zeros, then
8: `memzero(mem, skipped_mem)` clears the start of the buffer, not the span
of the hole. -/
theorem C30_zero_fill_at_buffer_start :
    C30_run = .ok (true, true, [2, 0, 3, 0, 0, 0, 0, 0, 0, 0, 0, 0, 0], true, [9], true, [8],
      true, [0, 0, 1], true, List.replicate 256 0 ++ [1, 8]) := by
  decide!

/-! ## Claim C21 -/

/-- The device of `C21_start`. -/
theorem C21_start_facts :
    C21_start.device.master.first_unused_block = 0 ∧ C21_start.device.master.last_block = 2 ∧
      C21_start.device.blocks_total = 2 ^ 23 + 8 ∧ C21_start.device.block_size = 512 ∧
      C21_start.root.inode.pid = 256 := by
  decide!

set_option synthInstance.maxSize 16384 in
/-- C21 fails on a device of `2^23 + 8` blocks of 512 bytes whose bump pointer
stands at block `2^23`. `fs_unmount` first writes the root inode id 256 at
byte 56 of block 0; saving the dirty root then takes block `2^23` for the
directory data, whose `int` byte offset `2^23 * 512 mod 2^32` is 0, so the two
entries of the directory go over block 0: the second entry, with the inode id
257 of the file "b", starts at byte 56. `fs_unmount` returns success.
`fs_mount` of the same host file returns success too and restores the six
header fields, but with the root inode id 257 and no children, where the
state at unmount had the root inode id 256 and two children. -/
theorem C21_remount_loses_root_id :
    block_alloc_n (2 ^ 23 - 2) C21_start.device =
        (C21_state.device, List.range' C21_start.device.master.last_block (2 ^ 23 - 2)) ∧
      int_off (2 ^ 23) 512 56 = 56 ∧
      C21_run = .ok ((true, 256, 2 ^ 23, [List.replicate 46 97, [98]]),
        (512, 2 ^ 23 + 8, 0, 2 ^ 23 + 1, 259, 4),
        (true, 512, 2 ^ 23 + 8, 0, 2 ^ 23 + 1, 259, 4), (257, [])) := by
  refine ⟨block_alloc_n_bump (2 ^ 23 - 2) C21_start.device C21_start_facts.1 ?_, by decide, ?_⟩
  · rw [C21_start_facts.2.1, C21_start_facts.2.2.1]
    decide
  · decide!

/-! ## Claim C25 -/

/-- A call of `block_alloc` that returns a block below byte `2^31` leaves the
block size and the bytes of the host file as they are. -/
theorem block_alloc_frame (d : BlockDevice) (hr : block_in_range d (block_alloc d).2)
    (h8 : 8 ≤ d.block_size) :
    (block_alloc d).1.block_size = d.block_size ∧
      (block_alloc d).1.blocks_total = d.blocks_total ∧
      (block_alloc d).1.host.size = d.host.size ∧
      (block_alloc d).1.host.data = d.host.data := by
  by_cases hf : d.master.first_unused_block ≠ 0
  · have hread : (block_reads d d.master.first_unused_block 0 SIZEOF_BLOCKPID).2.1 = true := by
      by_contra hc
      have h0 : (block_alloc d).2 = 0 := by
        unfold block_alloc
        simp only [hf, ne_eq, not_false_eq_true, if_true, hc, Bool.false_eq_true, if_false]
      exact hr.1 h0
    have hb : (block_alloc d).2 = d.master.first_unused_block := by
      unfold block_alloc
      simp only [hf, ne_eq, not_false_eq_true, if_true, hread]
    rw [hb] at hr
    obtain ⟨_, _, r3, r4, r5, r6⟩ := block_reads_in_range d d.master.first_unused_block 0
      SIZEOF_BLOCKPID hr (by simpa [SIZEOF_BLOCKPID] using h8)
    have ha : block_alloc d =
        ({ (block_reads d d.master.first_unused_block 0 SIZEOF_BLOCKPID).1 with
            master := { (block_reads d d.master.first_unused_block 0 SIZEOF_BLOCKPID).1.master with
              first_unused_block :=
                le_decode (block_reads d d.master.first_unused_block 0 SIZEOF_BLOCKPID).2.2 } },
          d.master.first_unused_block) := by
      unfold block_alloc
      simp only [hf, ne_eq, not_false_eq_true, if_true, hread]
    rw [ha]
    exact ⟨r3, r4, r5, r6⟩
  · have hf0 : d.master.first_unused_block = 0 := by
      by_contra hc
      exact hf hc
    by_cases hl : d.blocks_total ≤ d.master.last_block
    · rw [block_alloc_full d hf0 hl]
      exact ⟨rfl, rfl, rfl, rfl⟩
    · rw [block_alloc_bump d hf0 (by omega)]
      exact ⟨rfl, rfl, rfl, rfl⟩

/-- What `inode_alloc` does when the inode freelist is empty and
`block_alloc` hands out a block `b` below byte `2^31`: it returns slot 0 of
`b`, makes slot 1 the head of the inode freelist, writes into slot `s` the id
`b * 256 ||| (s + 1)` and into the last slot 0, and does no more to the bump
pointer and the block freelist than that one `block_alloc`. -/
theorem inode_alloc_claims_block (d : BlockDevice) (a : INodeAllocator)
    (h0 : a.next_inode = 0) (hr : block_in_range d (block_alloc d).2)
    (hipb2 : 2 ≤ a.inodes_per_block) (hfit : a.inodes_per_block * SIZEOF_INODE ≤ d.block_size) :
    (inode_alloc d a).2.1 = { a with next_inode := (block_alloc d).2 * 256 ||| 1 } ∧
      (inode_alloc d a).2.2 = (block_alloc d).2 * 256 ∧
      (inode_alloc d a).1.master = (block_alloc d).1.master ∧
      (inode_alloc d a).1.block_size = d.block_size ∧
      (inode_alloc d a).1.host.size = d.host.size ∧
      (∀ s, 1 ≤ s → s + 1 < a.inodes_per_block →
        host_bytes (inode_alloc d a).1.host
          ((block_alloc d).2 * d.block_size + s * SIZEOF_INODE) 8 =
          le_encode 8 ((block_alloc d).2 * 256 ||| (s + 1))) ∧
      host_bytes (inode_alloc d a).1.host
        ((block_alloc d).2 * d.block_size + (a.inodes_per_block - 1) * SIZEOF_INODE) 8 =
        le_encode 8 0 := by
  have h256 : 256 ≤ d.block_size := by
    simp only [SIZEOF_INODE] at hfit
    omega
  obtain ⟨b3, b4, b5, b6⟩ := block_alloc_frame d hr (by omega)
  have hne : (block_alloc d).2 ≠ 0 := hr.1
  have hr1 := hr.2.1
  have hr2 := hr.2.2
  have e : ((block_alloc d).2 + 1) * d.block_size =
      (block_alloc d).2 * d.block_size + d.block_size := by ring
  have hm2 : ((block_alloc d).2 + 1) * 256 ≤ ((block_alloc d).2 + 1) * d.block_size :=
    Nat.mul_le_mul_left _ h256
  have hb23 : (block_alloc d).2 < 2 ^ 23 := by omega
  have hipb : a.inodes_per_block < 2 ^ 31 := by
    simp only [SIZEOF_INODE] at hfit
    omega
  have hbase : (block_alloc d).2 * 2 ^ INODE_SHIFT % 2 ^ 64 = (block_alloc d).2 * 256 := by
    simp only [INODE_SHIFT]
    have : (2 : Nat) ^ 23 * 256 < 2 ^ 64 := by norm_num
    omega
  have hrv : block_in_range (block_alloc d).1 (block_alloc d).2 :=
    (block_in_range_congr d _ _ b3 b5).mpr hr
  obtain ⟨c1, c2, c3, c4, c5, c6, c7⟩ := inode_alloc_chain_spec (block_alloc d).2
    ((block_alloc d).2 * 256) a.inodes_per_block hipb a.inodes_per_block 1 (block_alloc d).1 hrv
    (by rw [b3]; exact hfit) (le_refl 1) (by omega) (by omega)
  rw [b3] at c3 c6 c7
  rw [b5] at c5 c6
  have hrc : block_in_range
      (inode_alloc_chain (block_alloc d).2 ((block_alloc d).2 * 256) a.inodes_per_block
        a.inodes_per_block 1 (block_alloc d).1).1 (block_alloc d).2 :=
    (block_in_range_congr d _ _ c3 c5).mpr hr
  have hoff : (a.inodes_per_block - 1) * SIZEOF_INODE + 8 ≤
      (inode_alloc_chain (block_alloc d).2 ((block_alloc d).2 * 256) a.inodes_per_block
        a.inodes_per_block 1 (block_alloc d).1).1.block_size := by
    rw [c3]
    simp only [SIZEOF_INODE] at hfit ⊢
    omega
  obtain ⟨w1, w2, w3, w4, w5, w6⟩ := block_writes_in_range _ (block_alloc d).2
    ((a.inodes_per_block - 1) * SIZEOF_INODE) (le_encode 8 0) 8 hrc hoff
  rw [c3] at w3 w6
  rw [c5] at w5 w6
  rw [c2] at w2
  have ha : inode_alloc d a =
      ((block_writes
          (inode_alloc_chain (block_alloc d).2 ((block_alloc d).2 * 256)
            a.inodes_per_block a.inodes_per_block 1 (block_alloc d).1).1
          (block_alloc d).2 ((a.inodes_per_block - 1) * SIZEOF_INODE) (le_encode 8 0) 8).1,
        { a with next_inode := (block_alloc d).2 * 256 ||| 1 },
        (block_alloc d).2 * 256) := by
    unfold inode_alloc
    simp only [h0, ne_eq, not_true_eq_false, if_false, hne, hbase, c1, Bool.not_true,
      Bool.false_eq_true, w1]
  rw [ha]
  dsimp only
  refine ⟨rfl, rfl, w2, w3, w5, ?_, ?_⟩
  · intro s hs1 hs2
    rw [← c7 s hs1 hs2]
    apply host_bytes_congr
    intro i hi
    have hlt : (block_alloc d).2 * d.block_size + s * SIZEOF_INODE + i < d.host.size := by
      simp only [SIZEOF_INODE] at hfit ⊢
      omega
    rw [w6 _ hlt, if_neg]
    simp only [SIZEOF_INODE]
    omega
  · have hb := host_bytes_eq_of (block_writes
          (inode_alloc_chain (block_alloc d).2 ((block_alloc d).2 * 256)
            a.inodes_per_block a.inodes_per_block 1 (block_alloc d).1).1
          (block_alloc d).2 ((a.inodes_per_block - 1) * SIZEOF_INODE) (le_encode 8 0) 8).1.host
      ((block_alloc d).2 * d.block_size + (a.inodes_per_block - 1) * SIZEOF_INODE)
      (le_encode 8 0) (by
        intro i hi
        rw [le_encode_length] at hi
        have hlt : (block_alloc d).2 * d.block_size +
            (a.inodes_per_block - 1) * SIZEOF_INODE + i < d.host.size := by
          simp only [SIZEOF_INODE] at hfit ⊢
          omega
        rw [w6 _ hlt, if_pos (by omega)]
        congr 1
        omega)
    rw [le_encode_length] at hb
    exact hb

/-- Calls of `inode_alloc` return the ids of the inode freelist in order and
leave the freelist empty. -/
theorem inode_alloc_n_drains (fl : List Nat) : ∀ (d : BlockDevice) (a : INodeAllocator),
    is_inode_freelist d a.next_inode fl →
    (∀ x, x ∈ fl → x < 2 ^ 63 ∧ block_in_range d (x / 256) ∧
      x % 256 * SIZEOF_INODE + 8 ≤ d.block_size) →
    (inode_alloc_n fl.length d a).2.2 = fl ∧
      (inode_alloc_n fl.length d a).2.1.next_inode = 0 := by
  induction fl with
  | nil => intro d a h _; exact ⟨rfl, h⟩
  | cons x xs ih =>
    intro d a hch hok
    obtain ⟨hx0, hxne, hrest⟩ := hch
    obtain ⟨h63, hr, hoff⟩ := hok x (List.mem_cons_self _ _)
    obtain ⟨e21, e22, e3, e5, e6⟩ := inode_alloc_pop_eq d a x hx0 hxne h63 hr hoff
    have hcg := is_inode_freelist_congr d (inode_alloc d a).1 xs (inode_next d x)
      (fun y _ => inode_next_congr d (inode_alloc d a).1 y e3 (fun i _ => congrFun e6 _))
    have hch1 : is_inode_freelist (inode_alloc d a).1 (inode_alloc d a).2.1.next_inode xs := by
      rw [e21]
      exact hcg.mpr hrest
    have hok1 : ∀ y, y ∈ xs → y < 2 ^ 63 ∧ block_in_range (inode_alloc d a).1 (y / 256) ∧
        y % 256 * SIZEOF_INODE + 8 ≤ (inode_alloc d a).1.block_size := by
      intro y hy
      obtain ⟨h1, h2, h3⟩ := hok y (List.mem_cons_of_mem _ hy)
      exact ⟨h1, (block_in_range_congr d _ _ e3 e5).mpr h2, by rw [e3]; exact h3⟩
    obtain ⟨h1, h2⟩ := ih (inode_alloc d a).1 (inode_alloc d a).2.1 hch1 hok1
    refine ⟨?_, h2⟩
    rw [List.length_cons, inode_alloc_n_succ, e22, h1]

/-- Two ids that follow one another on the inode freelist: the slot of the
first stores the second. -/
theorem inode_freelist_next (d : BlockDevice) : ∀ (l1 : List Nat) (start x y : Nat)
    (l2 : List Nat), is_inode_freelist d start (l1 ++ x :: y :: l2) →
    inode_next d x = y ∧ y ≠ 0 := by
  intro l1
  induction l1 with
  | nil =>
    intro start x y l2 h
    simp only [List.nil_append, is_inode_freelist] at h
    exact ⟨h.2.2.1, h.2.2.2.1⟩
  | cons z zs ih =>
    intro start x y l2 h
    simp only [List.cons_append, is_inode_freelist] at h
    exact ih _ x y l2 h.2.2

/-- Where the byte offsets fit an `int`, C25 holds. When the inode freelist is
empty, `inodes_per_block = n` with `2 <= n <= 256` fits the block size, and
`block_alloc` hands out a block `b` below byte `2^31` of the host file, `inode_alloc` makes that one call of
`block_alloc`, returns the id `b * 256` of slot 0 of `b` and installs the id
`b * 256 + 1` of slot 1 as `next_inode`. On disk the first 8 bytes of slot `s`
(`1 <= s < n - 1`) hold the id `b * 256 + s + 1` and those of slot `n - 1` hold
0. The `n - 1` calls of `inode_alloc` that follow return the ids
`b * 256 + 1, ..., b * 256 + n - 1` in this order, and after them `next_inode`
is 0. -/
theorem fresh_block_slot_chain (d : BlockDevice) (a : INodeAllocator)
    (h0 : a.next_inode = 0) (hr : block_in_range d (block_alloc d).2)
    (hipb2 : 2 ≤ a.inodes_per_block) (hipb : a.inodes_per_block ≤ 256)
    (hfit : a.inodes_per_block * SIZEOF_INODE ≤ d.block_size) :
    (inode_alloc d a).2.2 = (block_alloc d).2 * 256 ∧
      (inode_alloc d a).2.1.next_inode = (block_alloc d).2 * 256 + 1 ∧
      (inode_alloc d a).2.1.inodes_per_block = a.inodes_per_block ∧
      (inode_alloc d a).1.master = (block_alloc d).1.master ∧
      (∀ s, 1 ≤ s → s + 1 < a.inodes_per_block →
        host_bytes (inode_alloc d a).1.host
          ((block_alloc d).2 * d.block_size + s * SIZEOF_INODE) 8 =
          le_encode 8 ((block_alloc d).2 * 256 + (s + 1))) ∧
      host_bytes (inode_alloc d a).1.host
        ((block_alloc d).2 * d.block_size + (a.inodes_per_block - 1) * SIZEOF_INODE) 8 =
        le_encode 8 0 ∧
      (inode_alloc_n (a.inodes_per_block - 1) (inode_alloc d a).1 (inode_alloc d a).2.1).2.2 =
        (List.range' 1 (a.inodes_per_block - 1)).map (fun s => (block_alloc d).2 * 256 + s) ∧
      (inode_alloc_n (a.inodes_per_block - 1) (inode_alloc d a).1
        (inode_alloc d a).2.1).2.1.next_inode = 0 := by
  obtain ⟨e21, e22, w2, w3, w5, hmid, hlast⟩ := inode_alloc_claims_block d a h0 hr hipb2 hfit
  have h256 : 256 ≤ d.block_size := by
    simp only [SIZEOF_INODE] at hfit
    omega
  have hr1 := hr.2.1
  have hb1 : 1 ≤ (block_alloc d).2 := Nat.one_le_iff_ne_zero.mpr hr.1
  have e : ((block_alloc d).2 + 1) * d.block_size =
      (block_alloc d).2 * d.block_size + d.block_size := by ring
  have hm2 : ((block_alloc d).2 + 1) * 256 ≤ ((block_alloc d).2 + 1) * d.block_size :=
    Nat.mul_le_mul_left _ h256
  have hb23 : (block_alloc d).2 < 2 ^ 23 := by omega
  have hmid1 : ∀ s, 1 ≤ s → s + 1 < a.inodes_per_block →
      host_bytes (inode_alloc d a).1.host
        ((block_alloc d).2 * d.block_size + s * SIZEOF_INODE) 8 =
        le_encode 8 ((block_alloc d).2 * 256 + (s + 1)) := by
    intro s hs1 hs2
    rw [hmid s hs1 hs2, inode_base_or _ _ (by omega)]
  have hnext : (inode_alloc d a).2.1.next_inode = (block_alloc d).2 * 256 + 1 := by
    rw [e21]
    exact inode_base_or _ 1 (by norm_num)
  refine ⟨e22, hnext, by rw [e21], w2, hmid1, hlast, ?_⟩
  have hchain := inode_fresh_chain (inode_alloc d a).1 (block_alloc d).2 a.inodes_per_block hb1
    hb23 hipb (by rw [w3]; exact hmid1) (by rw [w3]; exact hlast) (a.inodes_per_block - 1) 1
    (le_refl 1) (by omega)
  rw [if_neg (by omega)] at hchain
  have hlen : ((List.range' 1 (a.inodes_per_block - 1)).map
      (fun s => (block_alloc d).2 * 256 + s)).length = a.inodes_per_block - 1 := by simp
  have hd := inode_alloc_n_drains _ (inode_alloc d a).1 (inode_alloc d a).2.1
    (by rw [hnext]; exact hchain) (by
      intro x hx
      obtain ⟨s, hs, rfl⟩ := List.mem_map.mp hx
      have hs1 := List.mem_range'_1.mp hs
      have hdiv : ((block_alloc d).2 * 256 + s) / 256 = (block_alloc d).2 := by omega
      have hmod : ((block_alloc d).2 * 256 + s) % 256 = s := by omega
      refine ⟨?_, ?_, ?_⟩
      · have : (2 : Nat) ^ 23 * 256 + 256 < 2 ^ 63 := by norm_num
        omega
      · rw [hdiv]
        exact (block_in_range_congr d _ _ w3 w5).mpr hr
      · rw [hmod, w3]
        simp only [SIZEOF_INODE] at hfit ⊢
        omega)
  rw [hlen] at hd
  exact hd

/-- The instance for a new device of 8 blocks of 512 bytes after
`inode_initfs`: `n = 4`, the block claimed is block 1. -/
theorem fresh_block_slot_chain_witness :
    (inode_alloc (fresh_device 512 8) (inode_initfs 512)).2.2 =
        (block_alloc (fresh_device 512 8)).2 * 256 ∧
      (inode_alloc (fresh_device 512 8) (inode_initfs 512)).2.1.next_inode =
        (block_alloc (fresh_device 512 8)).2 * 256 + 1 ∧
      (inode_alloc (fresh_device 512 8) (inode_initfs 512)).2.1.inodes_per_block =
        (inode_initfs 512).inodes_per_block ∧
      (inode_alloc (fresh_device 512 8) (inode_initfs 512)).1.master =
        (block_alloc (fresh_device 512 8)).1.master ∧
      (∀ s, 1 ≤ s → s + 1 < (inode_initfs 512).inodes_per_block →
        host_bytes (inode_alloc (fresh_device 512 8) (inode_initfs 512)).1.host
          ((block_alloc (fresh_device 512 8)).2 * (fresh_device 512 8).block_size +
            s * SIZEOF_INODE) 8 =
          le_encode 8 ((block_alloc (fresh_device 512 8)).2 * 256 + (s + 1))) ∧
      host_bytes (inode_alloc (fresh_device 512 8) (inode_initfs 512)).1.host
        ((block_alloc (fresh_device 512 8)).2 * (fresh_device 512 8).block_size +
          ((inode_initfs 512).inodes_per_block - 1) * SIZEOF_INODE) 8 =
        le_encode 8 0 ∧
      (inode_alloc_n ((inode_initfs 512).inodes_per_block - 1)
        (inode_alloc (fresh_device 512 8) (inode_initfs 512)).1
        (inode_alloc (fresh_device 512 8) (inode_initfs 512)).2.1).2.2 =
        (List.range' 1 ((inode_initfs 512).inodes_per_block - 1)).map
          (fun s => (block_alloc (fresh_device 512 8)).2 * 256 + s) ∧
      (inode_alloc_n ((inode_initfs 512).inodes_per_block - 1)
        (inode_alloc (fresh_device 512 8) (inode_initfs 512)).1
        (inode_alloc (fresh_device 512 8) (inode_initfs 512)).2.1).2.1.next_inode = 0 :=
  fresh_block_slot_chain (fresh_device 512 8) (inode_initfs 512) rfl
    ⟨by decide, by decide, by decide⟩ (by decide) (by decide) (by decide)

set_option synthInstance.maxSize 4096 in
/-- C25 fails on a device of 1330130 blocks of 3229 bytes (25 inodes per
block) whose bump pointer has reached block 1330123. With the inode freelist
empty, `inode_alloc` claims that block, returns the id `1330123 * 256` of its
slot 0 and installs slot 1 as `next_inode`, as claimed. But in the host file
slot 1 of the block holds 0 and not the id of slot 2, and slot 2 holds 0 and
not the id of slot 3; the call of `inode_alloc` that follows returns slot 1
and leaves `next_inode = 0`, and the next two calls return the slots 0 and 1
of block 1330124 instead of the slots 2 and 3. The byte offset of slot 1 is
`2^32 - 1`, which as an `int` is -1: `lseek` fails with the result -1, the
test `succ != off` lets it pass, and the write goes to where the descriptor
stands; the offsets of the slots 2 to 24 wrap to 127, 255, ... -/
theorem C25_fresh_block_chain_broken :
    device_create HostFile.empty 3229 1330130 = some (fresh_device 3229 1330130) ∧
      block_alloc_n 1330122 (fresh_device 3229 1330130) =
        (bumped (fresh_device 3229 1330130) 1330122, List.range' 1 1330122) ∧
      C25_run = (25, 1330123 * 256, 1330123 * 256 + 1, 0, 0,
        [1330123 * 256 + 1, 1330124 * 256, 1330124 * 256 + 1], 0) ∧
      int_off 1330123 3229 SIZEOF_INODE = 2 ^ 32 - 1 ∧
      int_off 1330123 3229 (2 * SIZEOF_INODE) = 127 := by
  refine ⟨rfl, block_alloc_n_bump 1330122 (fresh_device 3229 1330130) rfl (by decide), ?_,
    by decide, by decide⟩
  decide!

/-! ## Claim C24: the level after `inode_create`, `inode_set_size` and `inode_write` -/

theorem block_reads_m_block_size (d : BlockDevice) (pid off n : Nat) :
    (block_reads_m d pid off n).1.block_size = d.block_size := by
  unfold block_reads_m
  split
  · rfl
  · dsimp only
    split <;> rfl

theorem block_reads_block_size (d : BlockDevice) (pid off n : Nat) :
    (block_reads d pid off n).1.block_size = d.block_size := by
  unfold block_reads
  split
  · exact block_reads_m_block_size d pid off n
  · rfl

theorem block_writes_m_block_size (d : BlockDevice) (pid off : Nat) (buf : List Nat) (n : Nat) :
    (block_writes_m d pid off buf n).1.block_size = d.block_size := by
  unfold block_writes_m
  split
  · rfl
  · dsimp only
    split <;> rfl

theorem block_writes_block_size (d : BlockDevice) (pid off : Nat) (buf : List Nat) (n : Nat) :
    (block_writes d pid off buf n).1.block_size = d.block_size := by
  unfold block_writes
  split
  · exact block_writes_m_block_size d pid off buf n
  · rfl

theorem block_free_block_size (d : BlockDevice) (pid : Nat) :
    (block_free d pid).1.block_size = d.block_size := by
  unfold block_free
  dsimp only
  split
  · exact block_writes_block_size d pid 0 _ _
  · exact block_writes_block_size d pid 0 _ _

theorem block_alloc_block_size (d : BlockDevice) :
    (block_alloc d).1.block_size = d.block_size := by
  unfold block_alloc
  dsimp only
  split
  · split
    · exact block_reads_block_size d _ 0 _
    · exact block_reads_block_size d _ 0 _
  · split <;> rfl

theorem inode_alloc_chain_block_size (b base ipb : Nat) : ∀ (fuel i : Nat) (d : BlockDevice),
    (inode_alloc_chain b base ipb fuel i d).1.block_size = d.block_size := by
  intro fuel
  induction fuel with
  | zero => intro i d; rfl
  | succ fuel ih =>
    intro i d
    rw [inode_alloc_chain]
    split
    · dsimp only
      split
      · rw [ih]
        exact block_writes_block_size d b _ _ _
      · exact block_writes_block_size d b _ _ _
    · rfl

theorem inode_alloc_block_size (d : BlockDevice) (a : INodeAllocator) :
    (inode_alloc d a).1.block_size = d.block_size := by
  unfold inode_alloc
  dsimp only
  split
  · split
    · exact block_reads_block_size d _ _ _
    · exact block_reads_block_size d _ _ _
  · split
    · exact block_alloc_block_size d
    · split
      · rw [block_free_block_size, inode_alloc_chain_block_size, block_alloc_block_size]
      · split
        · rw [block_free_block_size, block_writes_block_size, inode_alloc_chain_block_size,
            block_alloc_block_size]
        · rw [block_writes_block_size, inode_alloc_chain_block_size, block_alloc_block_size]

/-- The level and size that a successful `inode_create` stores. -/
theorem inode_create_shape (device : BlockDevice) (allocator : INodeAllocator)
    (mem_size : Nat) (inode : INode) (K : Nat)
    (r : BlockDevice × INodeAllocator × Bool × INode)
    (hK : inode_get_required_level mem_size device.block_size = .ok K)
    (h : inode_create device allocator mem_size inode = .ok r) (hs : r.2.2.1 = true) :
    inode_shape r.2.2.2 = (K % 2 ^ 16, mem_size) := by
  unfold inode_create at h
  dsimp only at h
  split at h
  · cases h
    cases hs
  · rw [inode_alloc_block_size, hK] at h
    cases h
    rfl

/-- The level and size that a successful `inode_set_size` stores. -/
theorem inode_set_size_shape (device : BlockDevice) (inode : INode) (mem_size K : Nat)
    (r : BlockDevice × INode × Bool)
    (hK : inode_get_required_level mem_size device.block_size = .ok K)
    (h : inode_set_size device inode mem_size = .ok r) (hs : r.2.2 = true) :
    inode_shape r.2.1 =
      (if inode.mem_size < mem_size ∧ inode.level < K then K % 2 ^ 16 else inode.level,
        mem_size) := by
  unfold inode_set_size at h
  by_cases h1 : inode.mem_size < mem_size
  · rw [if_pos h1, hK] at h
    by_cases h2 : inode.level < K
    · rw [if_pos ⟨h1, h2⟩]
      simp only [bind, Except.bind, if_pos h2] at h
      split at h
      · cases h; cases hs
      · split at h
        · cases h; cases hs
        · split at h
          · cases h; cases hs
          · cases h
            rfl
    · rw [if_neg (fun hh => h2 hh.2)]
      simp only [bind, Except.bind, if_neg h2] at h
      cases h
      rfl
  · rw [if_neg h1] at h
    rw [if_neg (fun hh => h1 hh.1)]
    by_cases h3 : mem_size < inode.mem_size
    · rw [if_pos h3] at h
      cases h
      rfl
    · rw [if_neg h3] at h
      cases h
      have e : mem_size = inode.mem_size := by omega
      rw [e]
      rfl

theorem increment_clear_inode (mode : IncrementPathMode) : ∀ (j : Nat) (st : PathState),
    (increment_clear mode j st).1.inode = st.inode := by
  intro j
  induction j with
  | zero => intro st; rfl
  | succ j ih =>
    intro st
    rw [increment_clear]
    try dsimp only
    split_ifs <;> first | rfl | rw [ih]

theorem increment_walk_inode (mode : IncrementPathMode) : ∀ (j : Nat) (st : PathState)
    (pid : Nat), (increment_walk mode j st pid).1.inode = st.inode := by
  intro j
  induction j with
  | zero => intro st pid; rfl
  | succ j ih =>
    intro st pid
    rw [increment_walk]
    dsimp only
    split_ifs <;> first | rfl | rw [ih]

theorem get_block_path_walk_inode (alloc : Bool) : ∀ (i : Nat) (st : PathState) (pid : Nat),
    (get_block_path_walk alloc i st pid).1.inode = st.inode := by
  intro i
  induction i with
  | zero => intro st pid; rfl
  | succ i ih =>
    intro st pid
    rw [get_block_path_walk]
    try dsimp only
    split_ifs <;> first | rfl | rw [ih]

/-- The digit loop of `increment_block_path` changes neither the level nor
the size of the inode. -/
theorem increment_carry_shape (mode : IncrementPathMode) (level block_base max : Nat) :
    ∀ (fuel i : Nat) (st : PathState) (stepped : Nat),
      inode_shape (increment_carry mode level block_base max fuel i st stepped).state.inode =
        inode_shape st.inode := by
  intro fuel
  induction fuel with
  | zero => intro i st stepped; rfl
  | succ fuel ih =>
    intro i st stepped
    rw [increment_carry]
    dsimp only
    split_ifs <;>
      first
      | rfl
      | rw [ih]
      | (simp only [CarryOutcome.state, increment_clear_inode])

/-- `increment_block_path` changes neither the level nor the size of the inode. -/
theorem increment_rounds_shape (mode : IncrementPathMode) (level block_base max : Nat) :
    ∀ (fuel : Nat) (st : PathState) (stepped : Nat),
      inode_shape (increment_rounds mode level block_base max fuel st stepped).1.inode =
        inode_shape st.inode := by
  intro fuel
  induction fuel with
  | zero => intro st stepped; rfl
  | succ fuel ih =>
    intro st stepped
    have hc := increment_carry_shape mode level block_base max (level + 1) 0 st stepped
    rw [increment_rounds]
    split
    · rename_i st1 ret steps heq
      rw [heq] at hc
      exact hc
    · rename_i st1 count pid stepped1 heq
      rw [heq] at hc
      dsimp only
      split_ifs <;> first | (rw [increment_walk_inode]; exact hc) |
        (rw [ih, increment_walk_inode]; exact hc)

theorem increment_block_path_shape (st : PathState) (mode : IncrementPathMode) (max : Nat) :
    inode_shape (increment_block_path st mode max).1.inode = inode_shape st.inode := by
  unfold increment_block_path
  split
  · rfl
  · exact increment_rounds_shape _ _ _ _ _ _ _

theorem inode_write_loop_shape (mem : List Nat) : ∀ (fuel : Nat) (st : PathState)
    (mem_left mem_left_size : Nat),
    inode_shape (inode_write_loop mem fuel st mem_left mem_left_size).1.inode =
      inode_shape st.inode := by
  intro fuel
  induction fuel with
  | zero => intro st _ _; rfl
  | succ fuel ih =>
    intro st mem_left mem_left_size
    rw [inode_write_loop]
    dsimp only
    split_ifs <;> first | rfl | exact increment_block_path_shape _ _ _ |
      (rw [ih]; exact increment_block_path_shape _ _ _)

theorem get_block_path_shape (device : BlockDevice) (inode : INode) (block_offset : Nat)
    (mode : IncrementPathMode) (p : PathState × Bool)
    (h : get_block_path device inode block_offset mode = .ok p) :
    inode_shape p.1.inode = inode_shape inode := by
  unfold get_block_path at h
  dsimp only at h
  split_ifs at h <;> first | (cases h; done) |
    (cases h; rw [get_block_path_walk_inode]; rfl) | (cases h; rw [get_block_path_walk_inode])

/-- The level and size of the inode after `inode_write` are those its
`inode_set_size` left, or those of the inode passed in when that call was not
made or the write is refused. -/
theorem inode_write_shape (device : BlockDevice) (inode : INode) (mem_offset : Nat)
    (mem : List Nat) (mem_size : Nat) (r : BlockDevice × INode × Bool)
    (h : inode_write device inode mem_offset mem mem_size = .ok r) :
    (inode_shape r.2.1 = inode_shape inode ∧
        (r.2.2 = false ∨ ¬ inode.mem_size < (mem_offset + mem_size) % 2 ^ 64)) ∨
      (inode.mem_size < (mem_offset + mem_size) % 2 ^ 64 ∧
        ∃ g, inode_set_size device inode ((mem_offset + mem_size) % 2 ^ 64) = .ok g ∧
          inode_shape r.2.1 = inode_shape g.2.1) := by
  unfold inode_write at h
  dsimp only at h
  by_cases h0 : (mem_offset + mem_size) % 2 ^ 64 < mem_size
  · rw [if_pos h0] at h
    cases h
    exact Or.inl ⟨rfl, Or.inl rfl⟩
  · rw [if_neg h0] at h
    have key : ∀ g : BlockDevice × INode × Bool,
        (if ¬ inode.mem_size < (mem_offset + mem_size) % 2 ^ 64 ∧ mem_size = 0 then
            (pure (device, inode, false) : Except Abort (BlockDevice × INode × Bool))
          else if mem_size = 0 then pure (g.1, g.2.1, true)
          else if g.1.block_size = 0 then throw .undefined
          else do
            let p ← get_block_path g.1 g.2.1 (mem_offset / g.1.block_size)
              IncrementPathMode.INC_PATH_WRITE
            if !p.2 then pure (p.1.device, p.1.inode, false)
            else
              if mem_size ≤ g.1.block_size - mem_offset % g.1.block_size then
                pure ((block_writes p.1.device (p.1.block_path_pids.getD 0 0)
                    (mem_offset % g.1.block_size) (mem_bytes mem 0 mem_size) mem_size).1,
                  p.1.inode,
                  (block_writes p.1.device (p.1.block_path_pids.getD 0 0)
                    (mem_offset % g.1.block_size) (mem_bytes mem 0 mem_size) mem_size).2)
              else
                if !(block_writes p.1.device (p.1.block_path_pids.getD 0 0)
                    (mem_offset % g.1.block_size)
                    (mem_bytes mem 0 (g.1.block_size - mem_offset % g.1.block_size))
                    (g.1.block_size - mem_offset % g.1.block_size)).2 then
                  pure ((block_writes p.1.device (p.1.block_path_pids.getD 0 0)
                      (mem_offset % g.1.block_size)
                      (mem_bytes mem 0 (g.1.block_size - mem_offset % g.1.block_size))
                      (g.1.block_size - mem_offset % g.1.block_size)).1, p.1.inode, false)
                else
                  pure ((inode_write_loop mem
                      (mem_size - (g.1.block_size - mem_offset % g.1.block_size))
                      { p.1 with device := (block_writes p.1.device (p.1.block_path_pids.getD 0 0)
                        (mem_offset % g.1.block_size)
                        (mem_bytes mem 0 (g.1.block_size - mem_offset % g.1.block_size))
                        (g.1.block_size - mem_offset % g.1.block_size)).1 }
                      (g.1.block_size - mem_offset % g.1.block_size)
                      (mem_size - (g.1.block_size - mem_offset % g.1.block_size))).1.device,
                    (inode_write_loop mem
                      (mem_size - (g.1.block_size - mem_offset % g.1.block_size))
                      { p.1 with device := (block_writes p.1.device (p.1.block_path_pids.getD 0 0)
                        (mem_offset % g.1.block_size)
                        (mem_bytes mem 0 (g.1.block_size - mem_offset % g.1.block_size))
                        (g.1.block_size - mem_offset % g.1.block_size)).1 }
                      (g.1.block_size - mem_offset % g.1.block_size)
                      (mem_size - (g.1.block_size - mem_offset % g.1.block_size))).1.inode,
                    (inode_write_loop mem
                      (mem_size - (g.1.block_size - mem_offset % g.1.block_size))
                      { p.1 with device := (block_writes p.1.device (p.1.block_path_pids.getD 0 0)
                        (mem_offset % g.1.block_size)
                        (mem_bytes mem 0 (g.1.block_size - mem_offset % g.1.block_size))
                        (g.1.block_size - mem_offset % g.1.block_size)).1 }
                      (g.1.block_size - mem_offset % g.1.block_size)
                      (mem_size - (g.1.block_size - mem_offset % g.1.block_size))).2)) = .ok r →
        (inode_shape r.2.1 = inode_shape inode ∧ r.2.2 = false) ∨
          inode_shape r.2.1 = inode_shape g.2.1 := by
      intro g hg
      by_cases c1 : ¬ inode.mem_size < (mem_offset + mem_size) % 2 ^ 64 ∧ mem_size = 0
      · rw [if_pos c1] at hg
        cases hg
        exact Or.inl ⟨rfl, rfl⟩
      · rw [if_neg c1] at hg
        by_cases c2 : mem_size = 0
        · rw [if_pos c2] at hg
          cases hg
          exact Or.inr rfl
        · rw [if_neg c2] at hg
          by_cases c3 : g.1.block_size = 0
          · rw [if_pos c3] at hg
            cases hg
          · rw [if_neg c3] at hg
            cases hp : get_block_path g.1 g.2.1 (mem_offset / g.1.block_size)
              IncrementPathMode.INC_PATH_WRITE with
            | error e =>
              rw [hp] at hg
              cases hg
            | ok p =>
              rw [hp] at hg
              have hps := get_block_path_shape _ _ _ _ p hp
              simp only [bind, Except.bind] at hg
              right
              rw [← hps]
              split_ifs at hg <;> first
                | (cases hg; rfl)
                | (cases hg; exact inode_write_loop_shape _ _ _ _ _)
    by_cases h1 : inode.mem_size < (mem_offset + mem_size) % 2 ^ 64
    · rw [if_pos h1] at h
      cases hz : inode_set_size device inode ((mem_offset + mem_size) % 2 ^ 64) with
      | error e =>
        rw [hz] at h
        cases h
      | ok g =>
        rw [hz] at h
        rcases key g h with ⟨k1, k2⟩ | k
        · exact Or.inl ⟨k1, Or.inl k2⟩
        · exact Or.inr ⟨h1, g, rfl, k⟩
    · rw [if_neg h1] at h
      rcases key (device, inode, true) h with ⟨k1, k2⟩ | k
      · exact Or.inl ⟨k1, Or.inl k2⟩
      · exact Or.inl ⟨k, Or.inr h1⟩

/-- A smallest level whose capacity fits 64 bits is below 64. -/
theorem smallest_level_lt_64 (block_size mem_size k : Nat)
    (hk : is_smallest_level block_size mem_size k)
    (hlt : level_capacity block_size k < 2 ^ 64) : k < 64 := by
  obtain ⟨hk1, hmin⟩ := hk
  unfold level_capacity at hk1 hlt hmin
  generalize hB : block_size / SIZEOF_BLOCKPID = B at hk1 hlt hmin
  generalize hc : BLOCKS_PER_INODE * block_size = c0 at hk1 hlt hmin
  rcases Nat.eq_zero_or_pos k with h | h
  · rw [h]; decide
  · have h0 : c0 * B ^ 0 < mem_size := hmin 0 h
    rw [Nat.pow_zero, Nat.mul_one] at h0
    have hc0 : 0 < c0 := by
      rcases Nat.eq_zero_or_pos c0 with hz | hz
      · rw [hz, Nat.zero_mul] at hk1; omega
      · exact hz
    have hB2 : 2 ≤ B := by
      rcases Nat.lt_or_ge B 2 with hB1 | hB1
      · exfalso
        have : B = 0 ∨ B = 1 := by omega
        rcases this with hz | hz
        · rw [hz, Nat.zero_pow h, Nat.mul_zero] at hk1; omega
        · rw [hz, Nat.one_pow, Nat.mul_one] at hk1; omega
      · exact hB1
    have h2k : 2 ^ k < 2 ^ 64 :=
      calc 2 ^ k ≤ B ^ k := Nat.pow_le_pow_left hB2 k
        _ ≤ c0 * B ^ k := Nat.le_mul_of_pos_left _ hc0
        _ < 2 ^ 64 := hlt
    exact (Nat.pow_lt_pow_iff_right (by decide)).mp h2k

/-- Where `13 * block_size` fits an `int` and the capacity of the smallest
sufficient level fits 64 bits, `inode_get_required_level` returns that
level. -/
theorem required_level_of_smallest (block_size mem_size k : Nat)
    (hint : BLOCKS_PER_INODE * block_size < 2 ^ 31)
    (hk : is_smallest_level block_size mem_size k)
    (hlt : level_capacity block_size k < 2 ^ 64) :
    inode_get_required_level mem_size block_size = .ok k := by
  have hk64 := smallest_level_lt_64 block_size mem_size k hk hlt
  obtain ⟨hk1, hmin⟩ := hk
  unfold level_capacity at hk1 hlt hmin
  generalize hB : block_size / SIZEOF_BLOCKPID = B at hk1 hlt hmin
  generalize hc : BLOCKS_PER_INODE * block_size = c0 at hk1 hlt hmin
  have hb : ∀ i, i ≤ k → c0 * B ^ i < 2 ^ 64 := by
    intro i hi
    rcases Nat.lt_or_ge i k with h | h
    · exact Nat.lt_of_lt_of_le (hmin i h) (Nat.le_trans hk1 (Nat.le_of_lt hlt))
    · have : i = k := Nat.le_antisymm hi h
      rw [this]; exact hlt
  unfold inode_get_required_level
  rw [required_level_start_eq block_size hint, hB, hc]
  have hf : 2 ^ 64 = (2 ^ 64 - k - 1) + k + 1 := by omega
  have h := required_level_loop_exact B mem_size c0 k 0 (2 ^ 64 - k - 1)
    (fun i _ hi => hmin i (by omega)) (fun i hi => hb i (by omega)) (by simpa using hk1)
  rw [Nat.pow_zero, Nat.mul_one, Nat.zero_add] at h
  rw [hf]
  exact h

/-- C24, amended. Let the product `13 * block_size` fit an `int` (be below
`2^31`), let `K` be the smallest level whose capacity
`13 * block_size * B^K` is at least `m`, and let that capacity be below
`2^64`. After a successful `inode_create` with size `m` the inode has
`mem_size = m` and level `K`. After a successful `inode_set_size(m)` the inode
has `mem_size = m`; its level is the larger of its old level and `K` when `m`
is above the old `mem_size`, and its old level otherwise. After a successful
`inode_write` with `offset + n = m`: when `m` is at most the old `mem_size`,
`mem_size` and level are the old ones; when `m` is above the old `mem_size`
and the `inode_set_size(m)` that the write makes succeeds, `mem_size = m` and
the level is the larger of the old level and `K`. -/
theorem C24_level_after_create_set_size_write (device : BlockDevice) (m K : Nat)
    (hint : BLOCKS_PER_INODE * device.block_size < 2 ^ 31)
    (hK : is_smallest_level device.block_size m K)
    (hlt : level_capacity device.block_size K < 2 ^ 64) :
    (∀ (allocator : INodeAllocator) (inode : INode)
        (r : BlockDevice × INodeAllocator × Bool × INode),
        inode_create device allocator m inode = .ok r → r.2.2.1 = true →
        r.2.2.2.mem_size = m ∧ r.2.2.2.level = K) ∧
      (∀ (inode : INode) (r : BlockDevice × INode × Bool),
        inode_set_size device inode m = .ok r → r.2.2 = true →
        r.2.1.mem_size = m ∧
          r.2.1.level = if inode.mem_size < m then max inode.level K else inode.level) ∧
      (∀ (inode : INode) (mem_offset : Nat) (mem : List Nat) (n : Nat)
        (r : BlockDevice × INode × Bool), mem_offset < 2 ^ 64 → n < 2 ^ 64 →
        mem_offset + n = m → inode_write device inode mem_offset mem n = .ok r → r.2.2 = true →
        (m ≤ inode.mem_size → r.2.1.mem_size = inode.mem_size ∧ r.2.1.level = inode.level) ∧
          (inode.mem_size < m → ∀ g, inode_set_size device inode m = .ok g → g.2.2 = true →
            r.2.1.mem_size = m ∧ r.2.1.level = max inode.level K)) := by
  have hreq := required_level_of_smallest device.block_size m K hint hK hlt
  have hK64 := smallest_level_lt_64 device.block_size m K hK hlt
  have hmod : K % 2 ^ 16 = K := Nat.mod_eq_of_lt (Nat.lt_trans hK64 (by decide))
  have hset : ∀ (inode : INode) (r : BlockDevice × INode × Bool),
      inode_set_size device inode m = .ok r → r.2.2 = true →
      r.2.1.mem_size = m ∧
        r.2.1.level = if inode.mem_size < m then max inode.level K else inode.level := by
    intro inode r h hs
    have hsh := inode_set_size_shape device inode m K r hreq h hs
    rw [hmod] at hsh
    have h1 : r.2.1.level =
        if inode.mem_size < m ∧ inode.level < K then K else inode.level :=
      congrArg Prod.fst hsh
    have h2 : r.2.1.mem_size = m := congrArg Prod.snd hsh
    refine ⟨h2, ?_⟩
    rw [h1]
    by_cases c1 : inode.mem_size < m
    · by_cases c2 : inode.level < K
      · rw [if_pos ⟨c1, c2⟩, if_pos c1, Nat.max_eq_right (Nat.le_of_lt c2)]
      · rw [if_neg (fun hh => c2 hh.2), if_pos c1, Nat.max_eq_left (Nat.not_lt.mp c2)]
    · rw [if_neg (fun hh => c1 hh.1), if_neg c1]
  refine ⟨?_, hset, ?_⟩
  · intro allocator inode r h hs
    have hsh := inode_create_shape device allocator m inode K r hreq h hs
    rw [hmod] at hsh
    exact ⟨congrArg Prod.snd hsh, congrArg Prod.fst hsh⟩
  · intro inode mem_offset mem n r ho hn hm h hs
    have hlt64 : mem_offset + n < 2 ^ 64 := by
      by_contra hc
      have hwrap : (mem_offset + n) % 2 ^ 64 < n := by
        have e : (mem_offset + n) % 2 ^ 64 = mem_offset + n - 2 ^ 64 := by
          rw [Nat.mod_eq_sub_mod (Nat.not_lt.mp hc)]
          exact Nat.mod_eq_of_lt (by omega)
        omega
      unfold inode_write at h
      dsimp only at h
      rw [if_pos hwrap] at h
      cases h
      cases hs
    have hend : (mem_offset + n) % 2 ^ 64 = m := by
      rw [Nat.mod_eq_of_lt hlt64, hm]
    have hw := inode_write_shape device inode mem_offset mem n r h
    rw [hend] at hw
    constructor
    · intro hle
      rcases hw with ⟨k1, _⟩ | ⟨k1, _⟩
      · exact ⟨congrArg Prod.snd k1, congrArg Prod.fst k1⟩
      · omega
    · intro hgt g hg hgs
      rcases hw with ⟨_, k2 | k2⟩ | ⟨_, g1, hg1, k⟩
      · rw [hs] at k2
        cases k2
      · exact absurd hgt k2
      · rw [hg] at hg1
        cases hg1
        obtain ⟨e1, e2⟩ := hset inode g hg hgs
        rw [if_pos hgt] at e2
        exact ⟨(congrArg Prod.snd k).trans e1, (congrArg Prod.fst k).trans e2⟩

/-- The instance of C24 for a device of 8 blocks of 512 bytes and `m = 7000`:
the smallest level is 1. -/
theorem C24_level_after_create_set_size_write_witness :
    BLOCKS_PER_INODE * (fresh_device 512 8).block_size < 2 ^ 31 ∧
      is_smallest_level (fresh_device 512 8).block_size 7000 1 ∧
      level_capacity (fresh_device 512 8).block_size 1 < 2 ^ 64 ∧
      ((∀ (allocator : INodeAllocator) (inode : INode)
        (r : BlockDevice × INodeAllocator × Bool × INode),
        inode_create (fresh_device 512 8) allocator 7000 inode = .ok r → r.2.2.1 = true →
        r.2.2.2.mem_size = 7000 ∧ r.2.2.2.level = 1) ∧
      (∀ (inode : INode) (r : BlockDevice × INode × Bool),
        inode_set_size (fresh_device 512 8) inode 7000 = .ok r → r.2.2 = true →
        r.2.1.mem_size = 7000 ∧
          r.2.1.level = if inode.mem_size < 7000 then max inode.level 1 else inode.level) ∧
      (∀ (inode : INode) (mem_offset : Nat) (mem : List Nat) (n : Nat)
        (r : BlockDevice × INode × Bool), mem_offset < 2 ^ 64 → n < 2 ^ 64 →
        mem_offset + n = 7000 →
        inode_write (fresh_device 512 8) inode mem_offset mem n = .ok r → r.2.2 = true →
        (7000 ≤ inode.mem_size → r.2.1.mem_size = inode.mem_size ∧ r.2.1.level = inode.level) ∧
          (inode.mem_size < 7000 →
            ∀ g, inode_set_size (fresh_device 512 8) inode 7000 = .ok g → g.2.2 = true →
            r.2.1.mem_size = 7000 ∧ r.2.1.level = max inode.level 1))) :=
  ⟨by decide, ⟨by decide, by decide⟩, by decide,
    C24_level_after_create_set_size_write (fresh_device 512 8) 7000 1 (by decide)
      ⟨by decide, by decide⟩ (by decide)⟩

set_option synthInstance.maxSize 4096 in
/-- C24 as stated fails on a device of 8 blocks of 512 bytes: after
`inode_create` with size 0 (level 0) and `inode_set_size(7000)` (level 1), the
call `inode_set_size(10)` returns success and leaves `mem_size = 10` with
level 1, while the smallest `k` with `13 * 512 * 64^k >= 10` is 0. -/
theorem C24_counterexample :
    C24_run = .ok (true, 0, 0, true, 1, 7000, true, 1, 10) ∧
      is_smallest_level 512 10 0 := by
  refine ⟨by decide!, by decide, ?_⟩
  intro j hj
  omega

/-! ## Claims C26, C28 and C29 -/

set_option synthInstance.maxSize 8192 in
/-- C26 fails on a device of `2^24 + 64` blocks of 256 bytes whose bump
pointer stands at block `2^24 + 3`. The inode has level 1 and the direct table
3, 4, 0, ...: the data-block indices 0, 1 and 32 map to block 2, to no block
and to block 5. `inode_set_size(200000)` returns success, raises the level to
2, takes the one block `2^24 + 3` as index block and puts it in slot 0 of the
direct table, the other slots being 0. The `int` byte offset of that block is
`(2^24 + 3) * 256 mod 2^32 = 768`, the offset of block 3: clearing the new
block and storing the old direct table in it overwrite the old index block 3,
and in the new tree the indices 0 and 1 map to the blocks 3 and 4, not to
block 2 and to no block. -/
theorem C26_promotion_changes_block_map :
    C20_grown.2.2.2 = (true, true) ∧ C20_grown.1.master.first_unused_block = 0 ∧
      C20_grown.1.master.last_block = 6 ∧
      block_alloc_n (2 ^ 24 - 3) C20_grown.1 =
        (bumped C20_grown.1 (2 ^ 24 - 3), List.range' C20_grown.1.master.last_block (2 ^ 24 - 3)) ∧
      int_off (2 ^ 24 + 3) 256 0 = int_off 3 256 0 ∧
      C26_run = .ok (1, [3, 4, 0, 0, 0, 0, 0, 0, 0, 0, 0, 0, 0],
        [(true, 2), (true, 0), (true, 5)], true, 2,
        [2 ^ 24 + 3, 0, 0, 0, 0, 0, 0, 0, 0, 0, 0, 0, 0], 2 ^ 24 + 3, 2 ^ 24 + 4,
        [(true, 3), (true, 4), (true, 5)]) := by
  refine ⟨C20_grown_facts.1, C20_grown_facts.2.1, C20_grown_facts.2.2.1,
    block_alloc_n_bump (2 ^ 24 - 3) C20_grown.1 C20_grown_facts.2.1 ?_, by decide, ?_⟩
  · rw [C20_grown_facts.2.2.1, C20_grown_facts.2.2.2]
    decide
  · decide!

/-- The device and inode of `C28_start`. -/
theorem C28_start_facts :
    C28_start.2.2 = (true, true) ∧ C28_start.1.master.first_unused_block = 0 ∧
      C28_start.1.master.last_block = 5 ∧ C28_start.1.blocks_total = 2 ^ 24 + 64 := by
  decide!

set_option synthInstance.maxSize 16384 in
/-- C28 fails on a device of `2^24 + 64` blocks of 256 bytes whose bump
pointer stands at block `2^24 + 2`. The inode has level 2; the cursor that
`get_block_path` makes in Write mode for the data-block index 781 is the path
13, 24, 0 with the data block 4, the index block 3 and the top index block 2,
all of them there already (nothing is allocated). `increment_block_path` in
Write mode returns 1 step and the new data block `2^24 + 2`, with the path 14,
24, 0 and the ids `2^24 + 2`, 3, 2 in `block_path_pids`. Clearing the new block
goes to the `int` byte offset `(2^24 + 2) * 256 mod 2^32 = 512`, the offset of
the top index block 2, and wipes its entries: on disk the index 782 now leads
from block 2 to no index block and no data block, so the id returned is not
the block stored at the new position and `block_path_pids` does not agree with
the tree on disk. -/
theorem C28_write_step_loses_path :
    C28_start.2.2 = (true, true) ∧
      block_alloc_n (2 ^ 24 - 3) C28_start.1 =
        (bumped C28_start.1 (2 ^ 24 - 3), List.range' C28_start.1.master.last_block (2 ^ 24 - 3)) ∧
      int_off (2 ^ 24 + 2) 256 0 = int_off 2 256 0 ∧
      C28_run = .ok
        ((2, [2, 0, 0, 0, 0, 0, 0, 0, 0, 0, 0, 0, 0], true, [13, 24, 0], [4, 3, 2], 2 ^ 24 + 2),
          (2 ^ 24 + 2, 1, [14, 24, 0], [2 ^ 24 + 2, 3, 2], 2 ^ 24 + 3),
          (true, [14, 24, 0], [0, 0, 2])) := by
  refine ⟨C28_start_facts.1,
    block_alloc_n_bump (2 ^ 24 - 3) C28_start.1 C28_start_facts.2.1 ?_, by decide, ?_⟩
  · rw [C28_start_facts.2.2.1, C28_start_facts.2.2.2]
    decide
  · decide!

set_option synthInstance.maxSize 8192 in
/-- Write mode does not allocate the block above the digit it changes: from
the cursor 0, 0 without blocks, which Read mode makes over a hole,
`increment_block_path` in Write mode moves to 1, 0, allocates nothing and
returns the id 0 with 1 step. The cursors of `inode_write` come from
`get_block_path` in Write mode, which has allocated every block of the path. -/
theorem increment_write_over_hole :
    hole_cursor_run = .ok ((true, [0, 0], [0, 0]), (0, 1, [1, 0], [0, 0]), 2, 2) := by
  decide!

/-- The device and inodes of `C29_start`. -/
theorem C29_start_facts :
    C29_start.2.2.2 = (true, true) ∧ C29_start.1.master.first_unused_block = 0 ∧
      C29_start.1.master.last_block = 2 ∧ C29_start.1.blocks_total = 16711943 ∧
      C29_start.2.1.pid = 256 ∧ C29_start.2.1.level = 1 ∧ C29_start.2.2.1.pid = 257 := by
  decide!

set_option synthInstance.maxSize 16384 in
/-- C29 fails on a device of 16711943 blocks of 257 bytes whose bump pointer
stands at block 16711935. The byte offset `16711935 * 257` is `2^32 - 1`, as an
`int` the value -1: `lseek` fails with -1, the test `succ != off` lets that
pass, and reads and writes of entry 0 of that block go to wherever the
descriptor stands. The `inode_write` at offset `32 * 257` returns success and
puts block 16711935 in slot 1 of the direct table as index block. After the
two inodes have been saved, the cursor for the data-block index 31 is the path
31, 0 with no blocks (a hole), made without any read. `increment_block_path`
in Read mode returns 1 step and the id 257 for the index 32: the 8 bytes it
read as entry 0 of block 16711935 are the first bytes of the record of inode
257, where the descriptor stood. `get_block_path` in Read mode for the index
32 on that same state finds the id 65536: the id returned is not the block
stored at the new position. -/
theorem C29_read_step_reads_elsewhere :
    C29_start.2.2.2 = (true, true) ∧
      block_alloc_n 16711933 C29_start.1 =
        (bumped C29_start.1 16711933, List.range' C29_start.1.master.last_block 16711933) ∧
      int_off 16711935 257 0 = 2 ^ 32 - 1 ∧
      C29_run = .ok
        ((true, [0, 16711935, 0, 0, 0, 0, 0, 0, 0, 0, 0, 0, 0], 16711937, true, true),
          (true, [31, 0], [0, 0]), (257, 1, [0, 1], [257, 16711935]),
          (true, [0, 1], [65536, 16711935])) := by
  refine ⟨C29_start_facts.1,
    block_alloc_n_bump 16711933 C29_start.1 C29_start_facts.2.1 ?_, by decide, ?_⟩
  · rw [C29_start_facts.2.2.1, C29_start_facts.2.2.2.1]
    decide
  · decide!

/-! ## Claim C32 -/

/-- With nothing to write, `inode_write` at an offset that is at most
`mem_size` returns failure and leaves the device and the inode as they are. -/
theorem inode_write_zero_within (device : BlockDevice) (inode : INode) (mem_offset : Nat)
    (mem : List Nat) (h1 : mem_offset ≤ inode.mem_size) (h2 : mem_offset < 2 ^ 64) :
    inode_write device inode mem_offset mem 0 = .ok (device, inode, false) := by
  unfold inode_write
  have h3 : ¬ inode.mem_size < mem_offset := by omega
  simp only [Nat.add_zero, Nat.mod_eq_of_lt h2, Nat.not_lt_zero, if_false, if_neg h3]
  simp [bind, Except.bind, pure, Except.pure, h3]

set_option synthInstance.maxSize 4096 in
/-- C32 as stated fails on a full device (2 blocks of 512 bytes, block 1
taken by the inodes). On the new inode (size 0, level 0) the write of 0 bytes at offset 0
returns failure and the one at offset 5 returns success with `mem_size = 5`,
as claimed; on the inode with `mem_size = 5` the write of 0 bytes at offset 3
returns failure, as claimed, and the `inode_read` of 0 bytes at offset 3
returns success. The write of 0 bytes at offset 7000 returns success, but
`mem_size` is still 5 and not 7000: its `inode_set_size(7000)` needs level 1
and a block for it, fails, and `inode_write` does not look at the result. -/
theorem C32_zero_write_reports_growth :
    device_create HostFile.empty 512 2 = some (fresh_device 512 2) ∧
      C32_run = .ok (true, (false, 0, 0), (true, 5, 0), (false, 5, 0), (true, 5, 0), false,
        true) := by
  refine ⟨rfl, ?_⟩
  decide!

/-! ## Claim C34 -/

/-- When the capacity of every round is below `mem_size`, the loop of
`inode_get_required_level` has not returned when its rounds are used up,
however many rounds it is given and from whichever round it starts. -/
theorem required_level_loop_never (block_size m : Nat)
    (h : ∀ k, required_level_capacity block_size k < m) : ∀ (fuel j l : Nat),
    inode_get_required_level_loop (block_size / SIZEOF_BLOCKPID) m fuel
      (required_level_capacity block_size j) l = .error .diverges := by
  intro fuel
  induction fuel with
  | zero => intro j l; rfl
  | succ f ih =>
    intro j l
    rw [required_level_loop_step _ m f _ l (h j)]
    exact ih (j + 1) (l + 1)

/-- The capacities of the rounds for `block_size = 512`: no wrap up to round
8, `2^63` in round 9, and 0 from round 10 on. -/
theorem required_level_capacity_512 :
    (∀ k, k ≤ 8 → required_level_capacity 512 k = 6656 * 64 ^ k ∧
      required_level_capacity 512 k < 2 ^ 63) ∧
    required_level_capacity 512 9 = 2 ^ 63 ∧
    6656 * 64 ^ 9 % 2 ^ 64 = 2 ^ 63 ∧
    ∀ k, 10 ≤ k → required_level_capacity 512 k = 0 := by
  refine ⟨?_, by decide, by decide, ?_⟩
  · intro k hk
    interval_cases k <;> exact ⟨by decide, by decide⟩
  · intro k hk
    obtain ⟨n, rfl⟩ : ∃ n, k = 10 + n := ⟨k - 10, by omega⟩
    induction n with
    | zero => decide
    | succ n ih =>
      show required_level_capacity 512 (10 + n) * (512 / SIZEOF_BLOCKPID) % 2 ^ 64 = 0
      rw [ih (by omega), Nat.zero_mul, Nat.zero_mod]

/-- C34. For `block_size = 512` and every `mem_size` above `2^63` (as an
unsigned 64-bit value) `inode_get_required_level` does not return: the 64-bit
capacity is `6656 * 64^k`, below `2^63`, up to round 8, it is `2^63` in round
9 and 0 from round 10 on, so it is below `mem_size` in every round, and the
loop has not returned after any number of rounds. -/
theorem C34_required_level_never_returns (mem_size : Nat) (h : 2 ^ 63 < mem_size) :
    (∀ k, k ≤ 8 → required_level_capacity 512 k = 6656 * 64 ^ k) ∧
      required_level_capacity 512 9 = 2 ^ 63 ∧
      (∀ k, 10 ≤ k → required_level_capacity 512 k = 0) ∧
      (∀ k, required_level_capacity 512 k < mem_size) ∧
      (∀ fuel, inode_get_required_level_loop (512 / SIZEOF_BLOCKPID) mem_size fuel
        (BLOCKS_PER_INODE * 512 % 2 ^ 64) 0 = .error .diverges) ∧
      inode_get_required_level mem_size 512 = .error .diverges := by
  obtain ⟨c1, c2, _, c3⟩ := required_level_capacity_512
  have hall : ∀ k, required_level_capacity 512 k < mem_size := by
    intro k
    rcases Nat.lt_or_ge k 9 with h8 | h9
    · exact Nat.lt_trans (c1 k (by omega)).2 h
    · rcases Nat.eq_or_lt_of_le h9 with e | h10
      · rw [← e, c2]; exact h
      · rw [c3 k h10]; omega
  refine ⟨fun k hk => (c1 k hk).1, c2, c3, hall, ?_, ?_⟩
  · intro fuel
    exact required_level_loop_never 512 mem_size hall fuel 0 0
  · exact required_level_loop_never 512 mem_size hall (2 ^ 64) 0 0

/-- The instance of C34 for the largest 64-bit `mem_size`, `2^64 - 1`. -/
theorem C34_required_level_never_returns_witness :
    2 ^ 63 < 2 ^ 64 - 1 ∧ inode_get_required_level (2 ^ 64 - 1) 512 = .error .diverges :=
  ⟨by decide, (C34_required_level_never_returns (2 ^ 64 - 1) (by decide)).2.2.2.2.2⟩

/-! ## Claim C36 -/

/-- The device and inode of `C36_start`. -/
theorem C36_start_facts :
    C36_start.2.2 = (true, true) ∧ C36_start.1.master.first_unused_block = 0 ∧
      C36_start.1.master.last_block = 4 ∧ C36_start.1.blocks_total = 2 ^ 24 + 64 := by
  decide!

set_option synthInstance.maxSize 16384 in
/-- C36 fails on a device of `2^24 + 64` blocks of 256 bytes whose bump
pointer stands at block `2^24 + 2`. The inode has level 2 and the top index
block 3 in slot 0 of its direct table. `get_block_path` in Write mode for the
data-block index 33 (below `13 * 32^2`) returns success with the path 1, 1, 0
and the ids `2^24 + 3`, `2^24 + 2`, 3 in `block_path_pids`: it allocates the
index block `2^24 + 2` and stores it as entry 1 of block 3, then allocates the
data block `2^24 + 3`. Clearing that block goes to the `int` byte offset
`(2^24 + 3) * 256 mod 2^32 = 768`, the offset of block 3, and wipes the entry
just stored. Afterwards entry 1 of the index block `block_path_pids[2] = 3` is
0 and not `block_path_pids[1]`, read through `block_reads` or taken from the
host file; entry 1 of the index block `block_path_pids[1] = 2^24 + 2` is
`block_path_pids[0]` when read through `block_reads`, which goes to block 2,
and 0 in that block's own bytes. `get_block_path` in Read mode for the same
index finds no block. -/
theorem C36_path_entry_wiped :
    C36_start.2.2 = (true, true) ∧
      block_alloc_n (2 ^ 24 - 2) C36_start.1 =
        (bumped C36_start.1 (2 ^ 24 - 2), List.range' C36_start.1.master.last_block (2 ^ 24 - 2)) ∧
      33 < BLOCKS_PER_INODE * (256 / SIZEOF_BLOCKPID) ^ 2 ∧
      int_off (2 ^ 24 + 3) 256 0 = int_off 3 256 0 ∧
      C36_run = .ok
        ((2, [3, 0, 0, 0, 0, 0, 0, 0, 0, 0, 0, 0, 0], 2 ^ 24 + 2),
          (true, [1, 1, 0], [2 ^ 24 + 3, 2 ^ 24 + 2, 3], 2 ^ 24 + 4),
          ((true, 0), 0, (true, 2 ^ 24 + 3), 0), (true, [1, 1, 0], [0, 0, 3])) := by
  refine ⟨C36_start_facts.1,
    block_alloc_n_bump (2 ^ 24 - 2) C36_start.1 C36_start_facts.2.1 ?_, by decide, by decide, ?_⟩
  · rw [C36_start_facts.2.2.1, C36_start_facts.2.2.2]
    decide
  · decide!

/-! ## Claim C35 -/

theorem bump_room_in_range (d : BlockDevice) (n pid : Nat) (h : bump_room d n) (h1 : 1 ≤ pid)
    (h2 : pid < d.blocks_total) : block_in_range d pid := by
  obtain ⟨_, _, _, h4, h5⟩ := h
  have hm : (pid + 1) * d.block_size ≤ d.blocks_total * d.block_size :=
    Nat.mul_le_mul_right _ (by omega)
  exact ⟨by omega, Nat.le_trans hm h4, Nat.le_trans hm h5⟩

/-- A write into a block of a device with room leaves the room as it is. -/
theorem block_writes_bump_room (d : BlockDevice) (pid off : Nat) (buf : List Nat) (n k : Nat)
    (h : bump_room d k) (h1 : 1 ≤ pid) (h2 : pid < d.blocks_total)
    (hn : off + n ≤ d.block_size) :
    (block_writes d pid off buf n).2 = true ∧ bump_room (block_writes d pid off buf n).1 k ∧
      (block_writes d pid off buf n).1.block_size = d.block_size ∧
      (block_writes d pid off buf n).1.master.last_block = d.master.last_block ∧
      (block_writes d pid off buf n).1.blocks_total = d.blocks_total := by
  obtain ⟨w1, w2, w3, w4, w5, _⟩ :=
    block_writes_in_range d pid off buf n (bump_room_in_range d k pid h h1 h2) hn
  refine ⟨w1, ?_, w3, by rw [w2], w4⟩
  unfold bump_room
  rw [w2, w3, w4, w5]
  exact h

/-- With room for one more block, `alloc_block_pids(device, 0, 0)` returns the
block at the bump pointer and moves the pointer on by one. -/
theorem alloc_block_pids_bump (d : BlockDevice) (n : Nat) (h : bump_room d (n + 1)) :
    (alloc_block_pids d 0 0).2 = d.master.last_block ∧ bump_room (alloc_block_pids d 0 0).1 n ∧
      (alloc_block_pids d 0 0).1.block_size = d.block_size ∧
      (alloc_block_pids d 0 0).1.master.last_block = d.master.last_block + 1 ∧
      (alloc_block_pids d 0 0).1.blocks_total = d.blocks_total := by
  obtain ⟨h0, h1, h2, h3, h4⟩ := h
  have ha := block_alloc_bump d h0 (by omega)
  have hb : bump_room (bumped d 1) n := by
    refine ⟨h0, ?_, ?_, h3, h4⟩
    · show 1 ≤ d.master.last_block + 1
      omega
    · show d.master.last_block + 1 + n ≤ d.blocks_total
      omega
  have hr : block_in_range (bumped d 1) d.master.last_block :=
    bump_room_in_range (bumped d 1) n _ hb h1 (by show d.master.last_block < d.blocks_total; omega)
  obtain ⟨w1, w2, w3, w4, w5, _⟩ := block_write_in_range (bumped d 1) d.master.last_block
    (List.replicate (bumped d 1).block_size 0) hr
  have hne : d.master.last_block ≠ 0 := by omega
  have hv : alloc_block_pids d 0 0 =
      ((block_write (bumped d 1) d.master.last_block
        (List.replicate (bumped d 1).block_size 0)).1, d.master.last_block) := by
    unfold alloc_block_pids
    simp only [ha, if_neg hne, w1, Bool.not_true, Bool.false_eq_true, if_false, ne_eq,
      not_true_eq_false]
  rw [hv]
  refine ⟨rfl, ?_, w3, by rw [w2]; rfl, w4⟩
  unfold bump_room
  simp only [w2, w3, w4, w5]
  exact hb

/-- With room for `n` blocks, the loop of `inode_set_size` that adds `n`
levels succeeds. -/
theorem inode_set_size_promote_room : ∀ (n : Nat) (d : BlockDevice) (bottom_pid : Nat),
    bump_room d n → 8 ≤ d.block_size →
    (inode_set_size_promote n d bottom_pid).2.1 = true ∧
      (inode_set_size_promote n d bottom_pid).1.block_size = d.block_size := by
  intro n
  induction n with
  | zero => intro d b _ _; exact ⟨rfl, rfl⟩
  | succ n ih =>
    intro d b h h8
    obtain ⟨a1, a2, a3, a4, a5⟩ := alloc_block_pids_bump d n h
    have hl1 : 1 ≤ d.master.last_block := h.2.1
    have hl2 : d.master.last_block < d.blocks_total := by have := h.2.2.1; omega
    obtain ⟨w1, w2, w3, _, _⟩ := block_writes_bump_room (alloc_block_pids d 0 0).1
      (alloc_block_pids d 0 0).2 0 (le_encode 8 b) 8 n a2 (by rw [a1]; exact hl1)
      (by rw [a1, a5]; exact hl2) (by rw [a3]; omega)
    have hne : (alloc_block_pids d 0 0).2 ≠ 0 := by rw [a1]; omega
    obtain ⟨i1, i2⟩ := ih _ (alloc_block_pids d 0 0).2 w2 (by rw [w3, a3]; exact h8)
    rw [inode_set_size_promote]
    simp only [if_neg hne, w1, Bool.not_true, Bool.false_eq_true, if_false]
    exact ⟨i1, by rw [i2, w3, a3]⟩

/-- Growing succeeds when the bump allocator has room: for an inode below the
required level `K` on a device with room for `K - level` blocks,
`inode_set_size` returns success, and the inode gets the new size and the
level `K` narrowed to the 16 bits of the field. -/
theorem inode_set_size_grows (d : BlockDevice) (inode : INode) (m K : Nat)
    (hm : inode.mem_size < m) (hK : inode_get_required_level m d.block_size = .ok K)
    (hl : inode.level < K) (hroom : bump_room d (K - inode.level))
    (hbs : BLOCKS_PER_INODE * SIZEOF_BLOCKPID ≤ d.block_size) :
    ∃ d1 blocks, inode_set_size d inode m =
        .ok (d1, { inode with blocks := blocks, level := K % 2 ^ 16, mem_size := m }, true) ∧
      d1.block_size = d.block_size := by
  have hbs1 : 104 ≤ d.block_size := by simpa [BLOCKS_PER_INODE, SIZEOF_BLOCKPID] using hbs
  have hk : K - inode.level = (K - inode.level - 1) + 1 := by omega
  rw [hk] at hroom
  obtain ⟨a1, a2, a3, a4, a5⟩ := alloc_block_pids_bump d _ hroom
  have hl1 : 1 ≤ d.master.last_block := hroom.2.1
  have hl2 : d.master.last_block < d.blocks_total := by have := hroom.2.2.1; omega
  obtain ⟨w1, w2, w3, _, _⟩ := block_writes_bump_room (alloc_block_pids d 0 0).1
    (alloc_block_pids d 0 0).2 0
    ((List.range BLOCKS_PER_INODE).flatMap (fun i => le_encode 8 (inode.blocks.getD i 0)))
    (BLOCKS_PER_INODE * SIZEOF_BLOCKPID) _ a2 (by rw [a1]; exact hl1)
    (by rw [a1, a5]; exact hl2) (by rw [a3]; omega)
  obtain ⟨p1, p2⟩ := inode_set_size_promote_room (K - inode.level - 1) _
    (alloc_block_pids d 0 0).2 w2 (by rw [w3, a3]; omega)
  have hne : (alloc_block_pids d 0 0).2 ≠ 0 := by rw [a1]; omega
  refine ⟨(inode_set_size_promote (K - inode.level - 1)
    (block_writes (alloc_block_pids d 0 0).1 (alloc_block_pids d 0 0).2 0
      ((List.range BLOCKS_PER_INODE).flatMap (fun i => le_encode 8 (inode.blocks.getD i 0)))
      (BLOCKS_PER_INODE * SIZEOF_BLOCKPID)).1 (alloc_block_pids d 0 0).2).1,
    (for_each_in_range 1 (BLOCKS_PER_INODE - 1)).foldl (fun b i => b.set i 0)
      (inode.blocks.set 0 (inode_set_size_promote (K - inode.level - 1)
        (block_writes (alloc_block_pids d 0 0).1 (alloc_block_pids d 0 0).2 0
          ((List.range BLOCKS_PER_INODE).flatMap (fun i => le_encode 8 (inode.blocks.getD i 0)))
          (BLOCKS_PER_INODE * SIZEOF_BLOCKPID)).1 (alloc_block_pids d 0 0).2).2.2), ?_, ?_⟩
  · unfold inode_set_size
    rw [if_pos hm, hK]
    simp only [bind, Except.bind, if_pos hl, if_neg hne, w1, p1, Bool.not_true,
      Bool.false_eq_true, if_false]
    rfl
  · rw [p2, w3, a3]

/-- The device and inode of `C35_start`: the inode is new (size 0, level 0),
the block freelist is empty and the bump pointer stands at block 2 of 65540. -/
theorem C35_start_facts :
    C35_start.2.2 = true ∧ C35_start.2.1.mem_size = 0 ∧ C35_start.2.1.level = 0 ∧
      C35_start.1.block_size = 21004 ∧ C35_start.1.master.first_unused_block = 0 ∧
      C35_start.1.master.last_block = 2 ∧ C35_start.1.blocks_total = 65540 ∧
      C35_start.1.host.size = 65540 * 21004 := by
  decide!

/-- The step from `inode_set_size` to the direct table in `inode_write`: when
the `inode_set_size` that a write makes returns `g`, whatever its flag, and
the direct-slot index that `get_block_path` computes for the inode of `g` is
13 or more, the write indexes the direct table out of bounds. -/
theorem inode_write_past_direct_table (d : BlockDevice) (inode : INode) (off : Nat)
    (mem : List Nat) (n : Nat) (g : BlockDevice × INode × Bool) (hn : n ≠ 0)
    (ho : off + n < 2 ^ 64) (hlt : inode.mem_size < off + n)
    (hg : inode_set_size d inode (off + n) = .ok g) (hbs : g.1.block_size ≠ 0)
    (htop : BLOCKS_PER_INODE ≤ (get_block_path_digits (g.1.block_size / SIZEOF_BLOCKPID)
      g.2.1.level (off / g.1.block_size)).2) :
    inode_write d inode off mem n = .error .undefined := by
  have hp : get_block_path g.1 g.2.1 (off / g.1.block_size) IncrementPathMode.INC_PATH_WRITE =
      .error .undefined := by
    unfold get_block_path
    by_cases hB : 0 < g.2.1.level ∧ g.1.block_size / SIZEOF_BLOCKPID = 0
    · rw [if_pos hB]
    · rw [if_neg hB]
      simp only [if_pos htop]
  unfold inode_write
  rw [Nat.mod_eq_of_lt ho, if_neg (by omega)]
  simp only [if_pos hlt, hg, bind, Except.bind, pure, Except.pure, hn, and_false, if_false, hbs,
    hp]

/-- C35 fails for `inode_write` on a new device of 65540 blocks of 21004
bytes (below `2^31` bytes in all) and a new inode (size 0, level 0, so that
`13 * block_size * B^level >= mem_size`). The write of one byte at offset
`18445823644127521179` calls `inode_set_size(18445823644127521180)`, which
succeeds: the required level is 65537, the 65537 index blocks are there, and
the 16-bit field `level` keeps 1. With level 1 and `B = 2625` the direct-slot
index that `get_block_path` computes from `offset / block_size` is
334554391347, not below 13, and the direct table is indexed out of bounds. -/
theorem C35_write_indexes_past_direct_table :
    device_create HostFile.empty 21004 65540 = some (fresh_device 21004 65540) ∧
      C35_start.2.2 = true ∧
      C35_start.2.1.mem_size ≤ level_capacity C35_start.1.block_size C35_start.2.1.level ∧
      (inode_set_size C35_start.1 C35_start.2.1 18445823644127521180).map
        (fun z => (z.2.2, z.2.1.level, z.2.1.mem_size)) =
          .ok (true, 1, 18445823644127521180) ∧
      (get_block_path_digits (21004 / SIZEOF_BLOCKPID) 1 (18445823644127521179 / 21004)).2 =
        334554391347 ∧
      inode_write C35_start.1 C35_start.2.1 18445823644127521179 [1] 1 = .error .undefined := by
  obtain ⟨f1, f2, f3, f4, f5, f6, f7, f8⟩ := C35_start_facts
  have hroom : bump_room C35_start.1 (65537 - C35_start.2.1.level) := by
    unfold bump_room
    rw [f3, f4, f5, f6, f7, f8]
    decide
  obtain ⟨d1, blocks, hz, hb⟩ := inode_set_size_grows C35_start.1 C35_start.2.1
    18445823644127521180 65537 (by rw [f2]; decide)
    (by rw [f4]; exact C13_required_level_65537) (by rw [f3]; decide) hroom
    (by rw [f4]; decide)
  have hd : d1.block_size = 21004 := by rw [hb, f4]
  refine ⟨rfl, f1, by rw [f2]; exact Nat.zero_le _, by rw [hz]; rfl, by decide, ?_⟩
  refine inode_write_past_direct_table C35_start.1 C35_start.2.1 18445823644127521179 [1] 1 _
    (by decide) (by decide) (by rw [f2]; decide) hz ?_ ?_
  · show d1.block_size ≠ 0
    rw [hd]; decide
  · show BLOCKS_PER_INODE ≤ (get_block_path_digits (d1.block_size / SIZEOF_BLOCKPID)
      (65537 % 2 ^ 16) (18445823644127521179 / d1.block_size)).2
    rw [hd]
    decide

/-! ## Claims C31 and C33 -/

/-- The device and the root of `C31_start`. -/
theorem C31_start_facts :
    C31_start.device.master.first_unused_block = 0 ∧ C31_start.device.master.last_block = 4 ∧
      C31_start.device.blocks_total = 2 ^ 23 + 8 ∧
      C31_start.root.inode.blocks.getD 0 0 = 2 ∧ C31_start.root.inode.mem_size = 162 ∧
      C31_start.root.flags &&& FILE_IS_DIRTY = FILE_IS_DIRTY := by
  decide!

set_option synthInstance.maxSize 16384 in
/-- C31 fails on a device of `2^23 + 8` blocks of 512 bytes whose bump pointer
stands at block `2^23 + 2`. The root directory has four children with names
of 152 bytes (inode ids 768, 259, 258, 257 in `head_child` order) and its
first data block is block 2. `fs_save_dir` returns success, `mem_size` of the
directory inode is `4 * (10 + 152) = 648` and `FILE_IS_DIRTY` is cleared, as
claimed, but the content is not the concatenation of the entries: when the
fourth entry crosses byte 512 the second data block gets the id `2^23 + 2`,
clearing it goes to the `int` byte offset `(2^23 + 2) * 512 mod 2^32 = 1024`,
the offset of block 2, and the rest of the name is stored there. The first 10
bytes of the directory read back as ten bytes `a` of the last name, not as the
inode id 768 and the `name_size` 152 of the first child. -/
theorem C31_saved_content_is_overwritten :
    block_alloc_n (2 ^ 23 - 2) C31_start.device =
        (bumped C31_start.device (2 ^ 23 - 2),
          List.range' C31_start.device.master.last_block (2 ^ 23 - 2)) ∧
      int_off (2 ^ 23 + 2) 512 0 = int_off 2 512 0 ∧
      C31_run = .ok ([(768, 152), (259, 152), (258, 152), (257, 152)],
        (true, 648, 0, [2, 2 ^ 23 + 2, 0, 0, 0, 0, 0, 0, 0, 0, 0, 0, 0]),
        (true, List.replicate 10 97), [0, 3, 0, 0, 0, 0, 0, 0, 152, 0]) := by
  refine ⟨block_alloc_n_bump (2 ^ 23 - 2) C31_start.device C31_start_facts.1 ?_, by decide, ?_⟩
  · rw [C31_start_facts.2.1, C31_start_facts.2.2.1]
    decide
  · decide!

set_option synthInstance.maxSize 16384 in
/-- C33 fails on the same device and directory as C31. `fs_save_dir` of the
root with its four children (names of 152 bytes) returns success;
`fs_restore_dir` on the root node with the same inode and `DIR_IS_CACHED` not
set returns failure and leaves the root without children, not with the four
entries in reversed order. The first data block of the directory was
overwritten during the save (the second data block `2^23 + 2` has the `int`
byte offset of block 2), so the first header read back is made of name bytes,
and `inode_restore` of the inode id in it fails. -/
theorem C33_restore_after_save_fails :
    block_alloc_n (2 ^ 23 - 2) C31_start.device =
        (bumped C31_start.device (2 ^ 23 - 2),
          List.range' C31_start.device.master.last_block (2 ^ 23 - 2)) ∧
      C33_run = .ok ([(768, 152), (259, 152), (258, 152), (257, 152)], true, false, []) := by
  refine ⟨block_alloc_n_bump (2 ^ 23 - 2) C31_start.device C31_start_facts.1 ?_, ?_⟩
  · rw [C31_start_facts.2.1, C31_start_facts.2.2.1]
    decide
  · decide!

/-! ## The cursor of `get_block_path` -/

theorem get_block_path_digits_length (B : Nat) : ∀ (n off : Nat),
    (get_block_path_digits B n off).1.length = n := by
  intro n
  induction n with
  | zero => intro off; rfl
  | succ n ih =>
    intro off
    simp only [get_block_path_digits, List.length_cons, ih]

/-- The digits and the quotient that `get_block_path` computes stand for
`block_offset`. -/
theorem get_block_path_digits_value (B : Nat) : ∀ (n off : Nat),
    path_value B ((get_block_path_digits B n off).1 ++ [(get_block_path_digits B n off).2]) =
      off := by
  intro n
  induction n with
  | zero =>
    intro off
    simp [get_block_path_digits, path_value]
  | succ n ih =>
    intro off
    show off % B + B * path_value B ((get_block_path_digits B n (off / B)).1 ++
      [(get_block_path_digits B n (off / B)).2]) = off
    rw [ih (off / B)]
    exact Nat.mod_add_div off B

theorem get_block_path_digits_lt (B : Nat) (hB : 0 < B) : ∀ (n off i : Nat), i < n →
    (get_block_path_digits B n off).1.getD i 0 < B := by
  intro n
  induction n with
  | zero => intro off i hi; omega
  | succ n ih =>
    intro off i hi
    cases i with
    | zero =>
      simp only [get_block_path_digits, List.getD_cons_zero]
      exact Nat.mod_lt off hB
    | succ i =>
      simp only [get_block_path_digits, List.getD_cons_succ]
      exact ih (off / B) i (by omega)

theorem get_block_path_digits_top (B : Nat) : ∀ (n off : Nat),
    (get_block_path_digits B n off).2 = off / B ^ n := by
  intro n
  induction n with
  | zero => intro off; simp [get_block_path_digits]
  | succ n ih =>
    intro off
    simp only [get_block_path_digits, ih]
    rw [Nat.div_div_eq_div_mul, Nat.pow_succ, Nat.mul_comm]

theorem get_block_path_walk_path (alloc : Bool) : ∀ (i : Nat) (st : PathState) (pid : Nat),
    (get_block_path_walk alloc i st pid).1.block_path = st.block_path := by
  intro i
  induction i with
  | zero => intro st pid; rfl
  | succ i ih =>
    intro st pid
    rw [get_block_path_walk]
    try dsimp only
    split_ifs
    · rfl
    · rw [ih]

theorem get_block_path_walk_pids_length (alloc : Bool) : ∀ (i : Nat) (st : PathState) (pid : Nat),
    (get_block_path_walk alloc i st pid).1.block_path_pids.length =
      st.block_path_pids.length := by
  intro i
  induction i with
  | zero => intro st pid; rfl
  | succ i ih =>
    intro st pid
    rw [get_block_path_walk]
    try dsimp only
    split_ifs
    · rfl
    · rw [ih]
      simp

theorem get_block_path_walk_pids_high (alloc : Bool) : ∀ (i : Nat) (st : PathState)
    (pid j : Nat), i ≤ j →
    (get_block_path_walk alloc i st pid).1.block_path_pids.getD j 0 =
      st.block_path_pids.getD j 0 := by
  intro i
  induction i with
  | zero => intro st pid j _; rfl
  | succ i ih =>
    intro st pid j hj
    rw [get_block_path_walk]
    try dsimp only
    split_ifs
    · rfl
    · rw [ih _ _ j (by omega)]
      simp only [List.getD_eq_getElem?_getD]
      rw [List.getElem?_set_ne (by omega)]

/-- The cursor of `get_block_path`, in every mode: for an inode with its 13
direct slots and `block_offset < 13 * B^level` the call has a result; the path
has `level + 1` digits, the digits below `level` are below `B`, the path
stands for `block_offset`, and `block_path_pids[level]` is the direct-table
entry `inode.blocks[block_path[level]]` of the inode afterwards. -/
theorem get_block_path_cursor (device : BlockDevice) (inode : INode) (block_offset : Nat)
    (mode : IncrementPathMode) (hlen : inode.blocks.length = BLOCKS_PER_INODE)
    (hoff : block_offset <
      BLOCKS_PER_INODE * (device.block_size / SIZEOF_BLOCKPID) ^ inode.level) :
    ∃ st flag, get_block_path device inode block_offset mode = .ok (st, flag) ∧
      st.block_path.length = inode.level + 1 ∧ st.inode.level = inode.level ∧
      (∀ i, i < inode.level → st.block_path.getD i 0 < device.block_size / SIZEOF_BLOCKPID) ∧
      st.block_path.getD inode.level 0 < BLOCKS_PER_INODE ∧
      path_value (device.block_size / SIZEOF_BLOCKPID) st.block_path = block_offset ∧
      st.block_path_pids.length = inode.level + 1 ∧
      st.block_path_pids.getD inode.level 0 =
        st.inode.blocks.getD (st.block_path.getD inode.level 0) 0 := by
  generalize hBdef : device.block_size / SIZEOF_BLOCKPID = B at hoff
  have hB : ¬ (0 < inode.level ∧ B = 0) := by
    rintro ⟨h1, h2⟩
    rw [h2, Nat.zero_pow h1, Nat.mul_zero] at hoff
    omega
  have hBpos : ∀ i, i < inode.level → 0 < B := by
    intro i hi
    rcases Nat.eq_zero_or_pos B with h | h
    · exact absurd ⟨by omega, h⟩ hB
    · exact h
  have htop : (get_block_path_digits B inode.level block_offset).2 < BLOCKS_PER_INODE := by
    rw [get_block_path_digits_top]
    rcases Nat.eq_zero_or_pos (B ^ inode.level) with h | h
    · rw [h, Nat.mul_zero] at hoff; omega
    · exact (Nat.div_lt_iff_lt_mul h).mpr hoff
  have hdl := get_block_path_digits_length B inode.level block_offset
  have hg : ∀ (l : List Nat) (t : Nat), (l ++ [t]).getD l.length 0 = t := by
    intro l t
    simp [List.getD_eq_getElem?_getD]
  have hgl : ∀ (l : List Nat) (t i : Nat), i < l.length → (l ++ [t]).getD i 0 = l.getD i 0 := by
    intro l t i hi
    simp [List.getD_eq_getElem?_getD, List.getElem?_append_left hi]
  unfold get_block_path
  simp only [hBdef, if_neg hB, if_neg (Nat.not_le.mpr htop)]
  refine ⟨_, _, rfl, ?_, ?_, ?_, ?_, ?_, ?_, ?_⟩
  · rw [get_block_path_walk_path]
    simp [hdl]
  · rw [get_block_path_walk_inode]
    split_ifs <;> rfl
  · intro i hi
    rw [get_block_path_walk_path]
    simp only
    rw [hgl _ _ i (by rw [hdl]; exact hi)]
    exact get_block_path_digits_lt B (hBpos i hi) _ _ i hi
  · rw [get_block_path_walk_path]
    simp only
    have := hg (get_block_path_digits B inode.level block_offset).1
      (get_block_path_digits B inode.level block_offset).2
    rw [hdl] at this
    rw [this]
    exact htop
  · rw [get_block_path_walk_path]
    exact get_block_path_digits_value B _ _
  · rw [get_block_path_walk_pids_length]
    simp
  · rw [get_block_path_walk_pids_high _ _ _ _ _ (Nat.le_refl _), get_block_path_walk_path,
      get_block_path_walk_inode]
    simp only
    have h1 := hg (get_block_path_digits B inode.level block_offset).1
      (get_block_path_digits B inode.level block_offset).2
    rw [hdl] at h1
    have h2 := hg (List.replicate inode.level 0)
    simp only [List.length_replicate] at h2
    rw [h1, h2]
    split_ifs with hc
    · simp only [List.getD_eq_getElem?_getD]
      rw [List.getElem?_set_self (by rw [hlen]; exact htop)]
      rfl
    · rcases mode with _ | _ | _
      · have hne : inode.blocks.getD (get_block_path_digits B inode.level block_offset).2 0 ≠ 0 :=
          fun h0 => hc ⟨rfl, h0⟩
        rfl
      · rfl
      · rfl

theorem same_storage_refl (d : BlockDevice) : same_storage d d :=
  ⟨rfl, rfl, rfl, rfl, rfl⟩

theorem same_storage_trans {a b c : BlockDevice} (h1 : same_storage a b)
    (h2 : same_storage b c) : same_storage a c := by
  obtain ⟨a1, a2, a3, a4, a5⟩ := h1
  obtain ⟨b1, b2, b3, b4, b5⟩ := h2
  exact ⟨b1.trans a1, b2.trans a2, b3.trans a3, b4.trans a4, b5.trans a5⟩

theorem index_entry_congr (d d1 : BlockDevice) (pid i : Nat) (h : same_storage d d1) :
    index_entry d1 pid i = index_entry d pid i := by
  unfold index_entry host_bytes
  rw [h.2.1, h.2.2.2.2]

theorem host_lseek_data (h : HostFile) (off : Nat) :
    (host_lseek h off).1.size = h.size ∧ (host_lseek h off).1.data = h.data := by
  unfold host_lseek
  split_ifs <;> exact ⟨rfl, rfl⟩

/-- A read changes nothing but the position of the descriptor, on every
device. -/
theorem block_reads_m_same_storage (d : BlockDevice) (pid off n : Nat) :
    same_storage d (block_reads_m d pid off n).1 := by
  unfold block_reads_m
  split_ifs with h0
  · exact same_storage_refl d
  · dsimp only
    split_ifs
    · exact ⟨rfl, rfl, rfl, (host_lseek_data _ _).1, (host_lseek_data _ _).2⟩
    · exact ⟨rfl, rfl, rfl, (host_lseek_data _ _).1, (host_lseek_data _ _).2⟩

theorem block_reads_same_storage (d : BlockDevice) (pid off n : Nat) :
    same_storage d (block_reads d pid off n).1 := by
  unfold block_reads
  split_ifs
  · exact block_reads_m_same_storage d pid off n
  · exact same_storage_refl d

/-- What `get_block_pid` does without `alloc_if_missing`: it changes nothing
but the position of the descriptor, gives 0 below a parent 0, and below a
parent that lies below byte `2^31` it gives, when it succeeds, the entry of
the parent block. -/
theorem get_block_pid_read (d : BlockDevice) (above idx : Nat) :
    same_storage d (get_block_pid d above idx false).1 ∧
      (above = 0 → (get_block_pid d above idx false).2.2 = 0) ∧
      ((get_block_pid d above idx false).2.1 = true → block_in_range d above →
        (get_block_pid d above idx false).2.2 = index_entry d above idx) := by
  by_cases ha : above = 0
  · subst ha
    refine ⟨same_storage_refl d, fun _ => rfl, fun _ hr => absurd rfl hr.1⟩
  · have hs := block_reads_same_storage d above (idx * SIZEOF_BLOCKPID) 8
    by_cases hr : (block_reads d above (idx * SIZEOF_BLOCKPID) 8).2.1 = true
    · have hv : get_block_pid d above idx false =
          ((block_reads d above (idx * SIZEOF_BLOCKPID) 8).1, true,
            le_decode (block_reads d above (idx * SIZEOF_BLOCKPID) 8).2.2) := by
        unfold get_block_pid
        rw [if_pos ha]
        dsimp only
        simp only [hr, Bool.not_true, Bool.false_eq_true, if_false, false_and]
      rw [hv]
      refine ⟨hs, fun h => absurd h ha, fun _ hin => ?_⟩
      have hfit : idx * SIZEOF_BLOCKPID + 8 ≤ d.block_size := by
        by_contra hc
        have : (block_reads d above (idx * SIZEOF_BLOCKPID) 8).2.1 = false := by
          unfold block_reads
          rw [if_neg (fun h => hc h.2)]
        rw [this] at hr
        cases hr
      have hb := (block_reads_in_range d above (idx * SIZEOF_BLOCKPID) 8 hin hfit).1
      show le_decode (block_reads d above (idx * SIZEOF_BLOCKPID) 8).2.2 = _
      rw [hb]
      rfl
    · have hr1 : (block_reads d above (idx * SIZEOF_BLOCKPID) 8).2.1 = false := by
        cases hq : (block_reads d above (idx * SIZEOF_BLOCKPID) 8).2.1 with
        | false => rfl
        | true => exact absurd hq hr
      have hv : get_block_pid d above idx false =
          ((block_reads d above (idx * SIZEOF_BLOCKPID) 8).1, false, 0) := by
        unfold get_block_pid
        rw [if_pos ha]
        dsimp only
        simp only [hr1, Bool.not_false, if_true]
      rw [hv]
      exact ⟨hs, fun h => absurd h ha, fun h => by cases h⟩

/-- The walk of `get_block_path` without allocation, from height `i` down:
nothing but the position of the descriptor changes, and on success each id
below height `i` is 0 under a parent 0 and the parent's entry under a parent
that lies below byte `2^31`. -/
theorem get_block_path_walk_read : ∀ (i : Nat) (st : PathState) (pid : Nat),
    st.block_path_pids.getD i 0 = pid → i < st.block_path_pids.length →
    same_storage st.device (get_block_path_walk false i st pid).1.device ∧
      ((get_block_path_walk false i st pid).2 = true → ∀ j, j < i →
        ((get_block_path_walk false i st pid).1.block_path_pids.getD (j + 1) 0 = 0 →
          (get_block_path_walk false i st pid).1.block_path_pids.getD j 0 = 0) ∧
        (block_in_range st.device
            ((get_block_path_walk false i st pid).1.block_path_pids.getD (j + 1) 0) →
          (get_block_path_walk false i st pid).1.block_path_pids.getD j 0 =
            index_entry st.device
              ((get_block_path_walk false i st pid).1.block_path_pids.getD (j + 1) 0)
              (st.block_path.getD j 0))) := by
  intro i
  induction i with
  | zero =>
    intro st pid _ _
    exact ⟨same_storage_refl _, fun _ j hj => absurd hj (Nat.not_lt_zero j)⟩
  | succ i ih =>
    intro st pid hp hlen
    obtain ⟨g1, g2, g3⟩ := get_block_pid_read st.device pid (st.block_path.getD i 0)
    generalize hgen : get_block_pid st.device pid (st.block_path.getD i 0) false = g
      at g1 g2 g3
    have hset : (st.block_path_pids.set i g.2.2).getD i 0 = g.2.2 := by
      simp only [List.getD_eq_getElem?_getD]
      rw [List.getElem?_set_self (by omega)]
      rfl
    have hset1 : (st.block_path_pids.set i g.2.2).getD (i + 1) 0 = pid := by
      simp only [List.getD_eq_getElem?_getD]
      rw [List.getElem?_set_ne (by omega)]
      simpa [List.getD_eq_getElem?_getD] using hp
    cases hg : g.2.1 with
    | true =>
      have hv : get_block_path_walk false (i + 1) st pid =
          get_block_path_walk false i
            { st with device := g.1, block_path_pids := st.block_path_pids.set i g.2.2 }
            g.2.2 := by
        rw [get_block_path_walk]
        try dsimp only
        rw [hgen]
        simp only [hg, Bool.not_true, Bool.false_eq_true, if_false]
      rw [hv]
      obtain ⟨s1, s2⟩ := ih
        { st with device := g.1, block_path_pids := st.block_path_pids.set i g.2.2 } g.2.2
        hset (by show i < (st.block_path_pids.set i g.2.2).length
                 rw [List.length_set]; omega)
      refine ⟨same_storage_trans g1 s1, fun hf j hj => ?_⟩
      rcases Nat.lt_or_ge j i with hji | hji
      · obtain ⟨r1, r2⟩ := s2 hf j hji
        refine ⟨r1, fun hin => ?_⟩
        have hin1 := (block_in_range_congr st.device g.1 _ g1.2.1 g1.2.2.2.1).mpr hin
        have r3 := r2 hin1
        rw [index_entry_congr st.device g.1 _ _ g1] at r3
        exact r3
      · have hji2 : j = i := by omega
        subst hji2
        have e1 := get_block_path_walk_pids_high false j
          { st with device := g.1, block_path_pids := st.block_path_pids.set j g.2.2 }
          g.2.2 (j + 1) (by omega)
        have e0 := get_block_path_walk_pids_high false j
          { st with device := g.1, block_path_pids := st.block_path_pids.set j g.2.2 }
          g.2.2 j (Nat.le_refl j)
        simp only at e1 e0
        rw [e1, e0, hset1, hset]
        exact ⟨g2, g3 hg⟩
    | false =>
      have hv : get_block_path_walk false (i + 1) st pid =
          ({ st with device := g.1 }, false) := by
        rw [get_block_path_walk]
        try dsimp only
        rw [hgen]
        simp only [hg, Bool.not_false, if_true]
      rw [hv]
      exact ⟨g1, fun h => by cases h⟩

/-- The cursor of `get_block_path` in Read mode, on every device: the inode
is unchanged and nothing of the device but the position of the descriptor
changes; when the call succeeds, the id at each height below `level` is 0
under a parent 0, and under a parent that lies below byte `2^31` it is the
entry `block_path[i]` of the parent block. -/
theorem get_block_path_read_entries (device : BlockDevice) (inode : INode)
    (block_offset : Nat) (st : PathState) (flag : Bool)
    (h : get_block_path device inode block_offset IncrementPathMode.INC_PATH_READ =
      .ok (st, flag)) :
    st.inode = inode ∧ same_storage device st.device ∧
      (flag = true → ∀ i, i < inode.level →
        (st.block_path_pids.getD (i + 1) 0 = 0 → st.block_path_pids.getD i 0 = 0) ∧
        (block_in_range device (st.block_path_pids.getD (i + 1) 0) →
          st.block_path_pids.getD i 0 =
            index_entry device (st.block_path_pids.getD (i + 1) 0) (st.block_path.getD i 0))) := by
  generalize hB : device.block_size / SIZEOF_BLOCKPID = B at h
  generalize hd : get_block_path_digits B inode.level block_offset = d at h
  have hm : ¬ (IncrementPathMode.INC_PATH_READ = IncrementPathMode.INC_PATH_WRITE ∧
      inode.blocks.getD d.2 0 = 0) := fun hh => by cases hh.1
  have hb : (IncrementPathMode.INC_PATH_READ == IncrementPathMode.INC_PATH_WRITE) = false := rfl
  unfold get_block_path at h
  dsimp only at h
  rw [hB, hd] at h
  simp only [hm, if_false, hb] at h
  split_ifs at h
  simp only [Except.ok.injEq] at h
  have hg : (List.replicate inode.level 0 ++ [inode.blocks.getD d.2 0]).getD inode.level 0 =
      inode.blocks.getD d.2 0 := by
    simp [List.getD_eq_getElem?_getD]
  obtain ⟨w1, w2⟩ := get_block_path_walk_read inode.level
    { device := device, inode := inode, block_path := d.1 ++ [d.2]
      block_path_pids := List.replicate inode.level 0 ++ [inode.blocks.getD d.2 0] }
    (inode.blocks.getD d.2 0) hg (by simp)
  have hi := get_block_path_walk_inode false inode.level
    { device := device, inode := inode, block_path := d.1 ++ [d.2]
      block_path_pids := List.replicate inode.level 0 ++ [inode.blocks.getD d.2 0] }
    (inode.blocks.getD d.2 0)
  have hpth := get_block_path_walk_path false inode.level
    { device := device, inode := inode, block_path := d.1 ++ [d.2]
      block_path_pids := List.replicate inode.level 0 ++ [inode.blocks.getD d.2 0] }
    (inode.blocks.getD d.2 0)
  rw [h] at w1 w2 hi hpth
  simp only at w1 w2 hi hpth
  refine ⟨hi, w1, fun hf i hlt => ?_⟩
  rw [hpth]
  exact w2 hf i hlt

/-! ## The direct-table index on the read and write paths -/

theorem required_level_capacity_eq (block_size : Nat)
    (hint : BLOCKS_PER_INODE * block_size < 2 ^ 31) : ∀ (k : Nat),
    required_level_capacity block_size k =
      BLOCKS_PER_INODE * block_size * (block_size / SIZEOF_BLOCKPID) ^ k % 2 ^ 64 := by
  intro k
  induction k with
  | zero =>
    show required_level_start block_size = _
    rw [required_level_start_eq block_size hint, Nat.pow_zero, Nat.mul_one]
    exact (Nat.mod_eq_of_lt (Nat.lt_trans hint (by decide))).symm
  | succ k ih =>
    show required_level_capacity block_size k * (block_size / SIZEOF_BLOCKPID) % 2 ^ 64 = _
    rw [ih, Nat.mod_mul_mod]
    congr 1
    rw [Nat.pow_succ, Nat.mul_assoc]

/-- Where `13 * block_size` fits an `int`, the 64-bit capacity of a round is
at most the capacity of that level. -/
theorem required_level_capacity_le (block_size k : Nat)
    (hint : BLOCKS_PER_INODE * block_size < 2 ^ 31) :
    required_level_capacity block_size k ≤ level_capacity block_size k := by
  rw [required_level_capacity_eq block_size hint]
  exact Nat.mod_le _ _

/-- When the loop of `inode_get_required_level` returns, it does so in a
round whose capacity has reached `mem_size`. -/
theorem required_level_loop_ok (block_size m : Nat) : ∀ (fuel j l K : Nat),
    inode_get_required_level_loop (block_size / SIZEOF_BLOCKPID) m fuel
      (required_level_capacity block_size j) l = .ok K →
    ∃ k, K = l + k ∧ m ≤ required_level_capacity block_size (j + k) := by
  intro fuel
  induction fuel with
  | zero =>
    intro j l K h
    cases h
  | succ f ih =>
    intro j l K h
    by_cases hc : required_level_capacity block_size j < m
    · rw [required_level_loop_step _ m f _ l hc] at h
      obtain ⟨k, hk1, hk2⟩ := ih (j + 1) (l + 1) K h
      exact ⟨k + 1, by omega, by rw [show j + (k + 1) = j + 1 + k by omega]; exact hk2⟩
    · rw [required_level_loop_stop _ m f _ l hc] at h
      cases h
      exact ⟨0, rfl, by simpa using hc⟩

/-- Where `13 * block_size` fits an `int`, the level that
`inode_get_required_level` returns has a capacity of at least `mem_size`,
also when the 64-bit capacity has wrapped on the way. -/
theorem required_level_covers (m block_size K : Nat)
    (hint : BLOCKS_PER_INODE * block_size < 2 ^ 31)
    (h : inode_get_required_level m block_size = .ok K) : m ≤ level_capacity block_size K := by
  unfold inode_get_required_level at h
  obtain ⟨k, hk1, hk2⟩ := required_level_loop_ok block_size m (2 ^ 64) 0 0 K h
  rw [Nat.zero_add] at hk1 hk2
  rw [hk1]
  exact Nat.le_trans hk2 (required_level_capacity_le block_size k hint)

theorem level_capacity_mono (block_size j k : Nat) (hB : SIZEOF_BLOCKPID ≤ block_size)
    (hjk : j ≤ k) : level_capacity block_size j ≤ level_capacity block_size k := by
  unfold level_capacity
  have h1 : 1 ≤ block_size / SIZEOF_BLOCKPID :=
    (Nat.le_div_iff_mul_le (by decide)).mpr (by simpa using hB)
  exact Nat.mul_le_mul_left _ (Nat.pow_le_pow_right h1 hjk)

/-- Below the capacity of the inode's level the direct-slot index that
`get_block_path` computes from `offset / block_size` is below 13. -/
theorem direct_slot_lt (block_size level off : Nat)
    (h : off < level_capacity block_size level) :
    off / block_size < BLOCKS_PER_INODE * (block_size / SIZEOF_BLOCKPID) ^ level ∧
      (get_block_path_digits (block_size / SIZEOF_BLOCKPID) level (off / block_size)).2 <
        BLOCKS_PER_INODE := by
  unfold level_capacity at h
  have h1 : off / block_size < BLOCKS_PER_INODE * (block_size / SIZEOF_BLOCKPID) ^ level := by
    apply Nat.div_lt_of_lt_mul
    rw [← Nat.mul_assoc, Nat.mul_comm block_size]
    exact h
  refine ⟨h1, ?_⟩
  rw [get_block_path_digits_top]
  rcases Nat.eq_zero_or_pos ((block_size / SIZEOF_BLOCKPID) ^ level) with hz | hz
  · rw [hz, Nat.mul_zero] at h1
    exact absurd h1 (Nat.not_lt_zero _)
  · exact (Nat.div_lt_iff_lt_mul hz).mpr h1

/-- For a `block_offset` below `13 * B^level`, `get_block_path` has a result:
it neither divides by zero nor indexes the direct table out of bounds. -/
theorem get_block_path_has_result (device : BlockDevice) (inode : INode) (block_offset : Nat)
    (mode : IncrementPathMode)
    (hoff : block_offset <
      BLOCKS_PER_INODE * (device.block_size / SIZEOF_BLOCKPID) ^ inode.level) :
    ∃ p, get_block_path device inode block_offset mode = .ok p := by
  have hB : ¬ (0 < inode.level ∧ device.block_size / SIZEOF_BLOCKPID = 0) := by
    rintro ⟨h1, h2⟩
    rw [h2, Nat.zero_pow h1, Nat.mul_zero] at hoff
    omega
  have htop : (get_block_path_digits (device.block_size / SIZEOF_BLOCKPID) inode.level
      block_offset).2 < BLOCKS_PER_INODE := by
    rw [get_block_path_digits_top]
    rcases Nat.eq_zero_or_pos ((device.block_size / SIZEOF_BLOCKPID) ^ inode.level) with h | h
    · rw [h, Nat.mul_zero] at hoff; omega
    · exact (Nat.div_lt_iff_lt_mul h).mpr hoff
  unfold get_block_path
  simp only [if_neg hB, if_neg (Nat.not_le.mpr htop)]
  exact ⟨_, rfl⟩

/-- When `get_block_path` has a result, `inode_read` has one. -/
theorem inode_read_of_path (device : BlockDevice) (inode : INode) (off : Nat)
    (mem : List Nat) (n : Nat) (p : PathState × Bool) (hn : n ≠ 0)
    (hbs : device.block_size ≠ 0)
    (hp : get_block_path device inode (off / device.block_size)
      IncrementPathMode.INC_PATH_READ = .ok p) :
    ∃ r, inode_read device inode off mem n = .ok r := by
  unfold inode_read
  by_cases h1 : (off + n) % 2 ^ 64 < n
  · rw [if_pos h1]; exact ⟨_, rfl⟩
  · rw [if_neg h1]
    by_cases h2 : inode.mem_size < (off + n) % 2 ^ 64
    · rw [if_pos h2]; exact ⟨_, rfl⟩
    · rw [if_neg h2, if_neg hn, if_neg hbs]
      simp only [hp, bind, Except.bind]
      by_cases h3 : (!p.2) = true
      · rw [if_pos h3]; exact ⟨_, rfl⟩
      · rw [if_neg h3]
        by_cases h4 : n ≤ device.block_size - off % device.block_size
        · rw [if_pos h4]; exact ⟨_, rfl⟩
        · rw [if_neg h4]
          split_ifs <;> exact ⟨_, rfl⟩

/-- The read path of C35. For every device and every inode whose level has a
capacity of at least `mem_size`, and every `inode_read` with `n > 0` and
`offset + n <= mem_size`: the direct-slot index computed from
`offset / block_size` is below 13, and `inode_read` has a result. -/
theorem inode_read_slot_in_bounds (device : BlockDevice) (inode : INode) (off : Nat)
    (mem : List Nat) (n : Nat)
    (hcap : inode.mem_size ≤ level_capacity device.block_size inode.level) (hn : 0 < n)
    (hle : off + n ≤ inode.mem_size) :
    (get_block_path_digits (device.block_size / SIZEOF_BLOCKPID) inode.level
        (off / device.block_size)).2 < BLOCKS_PER_INODE ∧
      ∃ r, inode_read device inode off mem n = .ok r := by
  have hoff : off < level_capacity device.block_size inode.level := by omega
  obtain ⟨d1, d2⟩ := direct_slot_lt device.block_size inode.level off hoff
  refine ⟨d2, ?_⟩
  obtain ⟨p, hp⟩ := get_block_path_has_result device inode (off / device.block_size)
    IncrementPathMode.INC_PATH_READ d1
  have hbs : device.block_size ≠ 0 := by
    intro h0
    unfold level_capacity at hoff
    rw [h0] at hoff
    simp at hoff
  exact inode_read_of_path device inode off mem n p (by omega) hbs hp

theorem block_write_block_size (d : BlockDevice) (pid : Nat) (buf : List Nat) :
    (block_write d pid buf).1.block_size = d.block_size := by
  unfold block_write
  split
  · rfl
  · dsimp only
    split <;> rfl

theorem alloc_block_pids_block_size (d : BlockDevice) (above idx : Nat) :
    (alloc_block_pids d above idx).1.block_size = d.block_size := by
  have ha := block_alloc_block_size d
  have hw := block_write_block_size (block_alloc d).1 (block_alloc d).2
    (List.replicate (block_alloc d).1.block_size 0)
  have hw2 := block_writes_block_size
    (block_write (block_alloc d).1 (block_alloc d).2
      (List.replicate (block_alloc d).1.block_size 0)).1 above (idx * SIZEOF_BLOCKPID)
    (le_encode 8 (block_alloc d).2) 8
  unfold alloc_block_pids
  dsimp only
  split_ifs
  · exact ha
  · rw [hw, ha]
  · rw [hw2, hw, ha]
  · rw [hw2, hw, ha]
  · rw [hw, ha]

theorem inode_set_size_promote_block_size : ∀ (n : Nat) (d : BlockDevice) (b : Nat),
    (inode_set_size_promote n d b).1.block_size = d.block_size := by
  intro n
  induction n with
  | zero => intro d b; rfl
  | succ n ih =>
    intro d b
    have ha := alloc_block_pids_block_size d 0 0
    have hw := block_writes_block_size (alloc_block_pids d 0 0).1 (alloc_block_pids d 0 0).2 0
      (le_encode 8 b) 8
    rw [inode_set_size_promote]
    try dsimp only
    split_ifs
    · exact ha
    · rw [hw, ha]
    · rw [ih, hw, ha]

/-- The device that `inode_set_size` leaves has the block size it had. -/
theorem inode_set_size_block_size (d : BlockDevice) (inode : INode) (m : Nat)
    (r : BlockDevice × INode × Bool) (h : inode_set_size d inode m = .ok r) :
    r.1.block_size = d.block_size := by
  have ha := alloc_block_pids_block_size d 0 0
  have hw := block_writes_block_size (alloc_block_pids d 0 0).1 (alloc_block_pids d 0 0).2 0
    ((List.range BLOCKS_PER_INODE).flatMap (fun i => le_encode 8 (inode.blocks.getD i 0)))
    (BLOCKS_PER_INODE * SIZEOF_BLOCKPID)
  unfold inode_set_size at h
  by_cases h1 : inode.mem_size < m
  · rw [if_pos h1] at h
    cases hK : inode_get_required_level m d.block_size with
    | error e => rw [hK] at h; cases h
    | ok K =>
      rw [hK] at h
      by_cases h2 : inode.level < K
      · simp only [bind, Except.bind, if_pos h2] at h
        split_ifs at h
        · cases h; exact ha
        · cases h; rw [hw, ha]
        · cases h; rw [inode_set_size_promote_block_size, hw, ha]
        · cases h; rw [inode_set_size_promote_block_size, hw, ha]
      · simp only [bind, Except.bind, if_neg h2] at h
        cases h
        rfl
  · rw [if_neg h1] at h
    split_ifs at h <;> (cases h; rfl)

/-- When the `inode_set_size` that a write makes (if it makes one) and
`get_block_path` have a result, `inode_write` has one. -/
theorem inode_write_of_path (device : BlockDevice) (inode : INode) (off : Nat)
    (mem : List Nat) (n : Nat) (g : BlockDevice × INode × Bool) (p : PathState × Bool)
    (hn : n ≠ 0) (h64 : off + n < 2 ^ 64)
    (hg : (if inode.mem_size < off + n then inode_set_size device inode (off + n)
      else pure (device, inode, true)) = .ok g)
    (hbs : g.1.block_size ≠ 0)
    (hp : get_block_path g.1 g.2.1 (off / g.1.block_size)
      IncrementPathMode.INC_PATH_WRITE = .ok p) :
    ∃ r, inode_write device inode off mem n = .ok r := by
  unfold inode_write
  rw [Nat.mod_eq_of_lt h64, if_neg (by omega)]
  by_cases hlt : inode.mem_size < off + n
  · rw [if_pos hlt] at hg
    simp only [if_pos hlt, hg, bind, Except.bind, pure, Except.pure, hn, and_false, if_false]
    rw [if_neg hbs, hp]
    show ∃ r, (if (!p.2) = true then _ else _) = Except.ok r
    by_cases h3 : (!p.2) = true
    · rw [if_pos h3]; exact ⟨_, rfl⟩
    · rw [if_neg h3]
      by_cases h4 : n ≤ g.1.block_size - off % g.1.block_size
      · rw [if_pos h4]; exact ⟨_, rfl⟩
      · rw [if_neg h4]
        split_ifs <;> exact ⟨_, rfl⟩
  · rw [if_neg hlt] at hg
    simp only [pure, Except.pure] at hg
    simp only [if_neg hlt, bind, Except.bind, pure, Except.pure, hn, and_false, if_false]
    cases hg
    rw [if_neg hbs, hp]
    show ∃ r, (if (!p.2) = true then _ else _) = Except.ok r
    by_cases h3 : (!p.2) = true
    · rw [if_pos h3]; exact ⟨_, rfl⟩
    · rw [if_neg h3]
      by_cases h4 : n ≤ device.block_size - off % device.block_size
      · rw [if_pos h4]; exact ⟨_, rfl⟩
      · rw [if_neg h4]
        split_ifs <;> exact ⟨_, rfl⟩

/-- The write path of C35 where the write stays inside the file. For every
device and every inode whose level has a capacity of at least `mem_size`, and
every `inode_write` with `n > 0` and `offset + n <= mem_size`: the direct-slot
index is below 13, and `inode_write` has a result. -/
theorem inode_write_slot_within (device : BlockDevice) (inode : INode) (off : Nat)
    (mem : List Nat) (n : Nat)
    (hcap : inode.mem_size ≤ level_capacity device.block_size inode.level) (hn : 0 < n)
    (h64 : inode.mem_size < 2 ^ 64) (hle : off + n ≤ inode.mem_size) :
    (get_block_path_digits (device.block_size / SIZEOF_BLOCKPID) inode.level
        (off / device.block_size)).2 < BLOCKS_PER_INODE ∧
      ∃ r, inode_write device inode off mem n = .ok r := by
  have hoff : off < level_capacity device.block_size inode.level := by omega
  obtain ⟨d1, d2⟩ := direct_slot_lt device.block_size inode.level off hoff
  refine ⟨d2, ?_⟩
  obtain ⟨p, hp⟩ := get_block_path_has_result device inode (off / device.block_size)
    IncrementPathMode.INC_PATH_WRITE d1
  have hbs : device.block_size ≠ 0 := by
    intro h0
    unfold level_capacity at hoff
    rw [h0] at hoff
    simp at hoff
  exact inode_write_of_path device inode off mem n (device, inode, true) p (by omega)
    (by omega) (by rw [if_neg (by omega)]; rfl) hbs hp

/-- The write path of C35 where the write grows the file. For every device
with blocks of at least 8 bytes, every inode, and every `inode_write` with
`n > 0` beyond `mem_size` whose `inode_set_size` succeeds with a required
level below `2^16`: the level of the inode afterwards has a capacity of at
least the new `mem_size`, the direct-slot index is below 13, and
`inode_write` has a result. -/
theorem inode_write_slot_grown (device : BlockDevice) (inode : INode) (off : Nat)
    (mem : List Nat) (n K : Nat) (g : BlockDevice × INode × Bool)
    (h8 : SIZEOF_BLOCKPID ≤ device.block_size)
    (hint : BLOCKS_PER_INODE * device.block_size < 2 ^ 31) (hn : 0 < n)
    (h64 : off + n < 2 ^ 64) (hlt : inode.mem_size < off + n)
    (hK : inode_get_required_level (off + n) device.block_size = .ok K) (hK16 : K < 2 ^ 16)
    (hg : inode_set_size device inode (off + n) = .ok g) (hs : g.2.2 = true) :
    g.2.1.mem_size ≤ level_capacity g.1.block_size g.2.1.level ∧
      (get_block_path_digits (g.1.block_size / SIZEOF_BLOCKPID) g.2.1.level
        (off / g.1.block_size)).2 < BLOCKS_PER_INODE ∧
      ∃ r, inode_write device inode off mem n = .ok r := by
  have hb := inode_set_size_block_size device inode (off + n) g hg
  have hsh := inode_set_size_shape device inode (off + n) K g hK hg hs
  unfold inode_shape at hsh
  have hl : g.2.1.level = if inode.level < K then K else inode.level := by
    have := congrArg Prod.fst hsh
    simp only at this
    rw [this]
    by_cases hc : inode.level < K
    · rw [if_pos ⟨hlt, hc⟩, if_pos hc, Nat.mod_eq_of_lt hK16]
    · rw [if_neg (fun hh => hc hh.2), if_neg hc]
  have hm : g.2.1.mem_size = off + n := congrArg Prod.snd hsh
  have hcov := required_level_covers (off + n) device.block_size K hint hK
  have hcap : off + n ≤ level_capacity device.block_size g.2.1.level := by
    rw [hl]
    by_cases hc : inode.level < K
    · rw [if_pos hc]; exact hcov
    · rw [if_neg hc]
      exact Nat.le_trans hcov (level_capacity_mono device.block_size K inode.level h8 (by omega))
  have hoff : off < level_capacity g.1.block_size g.2.1.level := by rw [hb]; omega
  obtain ⟨d1, d2⟩ := direct_slot_lt g.1.block_size g.2.1.level off hoff
  refine ⟨by rw [hm, hb]; exact hcap, d2, ?_⟩
  obtain ⟨p, hp⟩ := get_block_path_has_result g.1 g.2.1 (off / g.1.block_size)
    IncrementPathMode.INC_PATH_WRITE d1
  have hbs : g.1.block_size ≠ 0 := by
    rw [hb]
    intro h0
    rw [h0] at h8
    simp [SIZEOF_BLOCKPID] at h8
  exact inode_write_of_path device inode off mem n g p (by omega) h64
    (by rw [if_pos hlt]; exact hg) hbs hp

/-! ## The size of a saved directory -/

/-- When the name loop of `fs_save_dir` succeeds, `cur_offset` has moved on by
the length of the name. -/
theorem fs_save_dir_name_offset : ∀ (fuel : Nat) (device : BlockDevice) (inode : INode)
    (cur_offset : Nat) (chain : List (List Nat)) (cur_left : Nat)
    (r : BlockDevice × INode × Bool × Nat),
    fs_save_dir_name fuel device inode cur_offset chain cur_left = .ok r → r.2.2.1 = true →
    r.2.2.2 = cur_offset + cur_left := by
  intro fuel
  induction fuel with
  | zero => intro device inode cur_offset chain cur_left r h; cases h
  | succ fuel ih =>
    intro device inode cur_offset chain cur_left r h hs
    rw [fs_save_dir_name] at h
    by_cases h1 : chain = [] ∧ cur_left ≠ 0
    · rw [if_pos h1] at h; cases h
    · rw [if_neg h1] at h
      by_cases h2 : FILENAME_TEXT_SIZE < cur_left
      · rw [if_pos h2] at h
        cases hw : inode_write device inode cur_offset (chain.headD []) FILENAME_TEXT_SIZE with
        | error e => rw [hw] at h; cases h
        | ok w =>
          rw [hw] at h
          simp only [bind, Except.bind] at h
          by_cases h3 : (!w.2.2) = true
          · rw [if_pos h3] at h
            simp only [pure, Except.pure, Except.ok.injEq] at h
            rw [← h] at hs
            cases hs
          · rw [if_neg h3] at h
            have := ih _ _ _ _ _ r h hs
            rw [this]
            omega
      · rw [if_neg h2] at h
        cases hw : inode_write device inode cur_offset (chain.headD []) cur_left with
        | error e => rw [hw] at h; cases h
        | ok w =>
          rw [hw] at h
          simp only [bind, Except.bind, pure, Except.pure, Except.ok.injEq] at h
          rw [← h]

/-- When the loop of `fs_save_dir` over the children succeeds, `cur_offset`
has moved on by the bytes of their entries. -/
theorem fs_save_dir_loop_offset (fs : FS) : ∀ (fuel : Nat) (device : BlockDevice)
    (inode : INode) (cur_offset : Nat) (cur_child : FilePtr)
    (r : BlockDevice × INode × Bool × Nat),
    fs_save_dir_loop fs fuel device inode cur_offset cur_child = .ok r → r.2.2.1 = true →
    ∃ t, dir_entries_size fs fuel cur_child = .ok t ∧ r.2.2.2 = cur_offset + t := by
  intro fuel
  induction fuel with
  | zero => intro device inode cur_offset cur_child r h; cases h
  | succ fuel ih =>
    intro device inode cur_offset cur_child r h hs
    rw [fs_save_dir_loop] at h
    rw [dir_entries_size]
    by_cases h1 : cur_child = .null
    · rw [if_pos h1] at h
      rw [if_pos h1]
      simp only [pure, Except.pure, Except.ok.injEq] at h
      rw [← h]
      exact ⟨0, rfl, rfl⟩
    · rw [if_neg h1] at h
      rw [if_neg h1]
      cases hc : fs_deref fs cur_child with
      | error e => rw [hc] at h; cases h
      | ok c =>
        rw [hc] at h
        simp only [bind, Except.bind] at h ⊢
        cases hw : inode_write device inode cur_offset
            (le_encode 8 c.inode.pid ++ le_encode 2 c.name_size) SIZEOF_HEADER with
        | error e => rw [hw] at h; cases h
        | ok w =>
          rw [hw] at h
          simp only at h
          by_cases h3 : (!w.2.2) = true
          · rw [if_pos h3] at h
            simp only [pure, Except.pure, Except.ok.injEq] at h
            rw [← h] at hs
            cases hs
          · rw [if_neg h3] at h
            cases hn : fs_save_dir_name (c.name_size + 1) w.1 w.2.1 (cur_offset + SIZEOF_HEADER)
                c.name c.name_size with
            | error e => rw [hn] at h; cases h
            | ok nm =>
              rw [hn] at h
              simp only at h
              by_cases h4 : (!nm.2.2.1) = true
              · rw [if_pos h4] at h
                simp only [pure, Except.pure, Except.ok.injEq] at h
                rw [← h] at hs
                rw [hs] at h4
                cases h4
              · rw [if_neg h4] at h
                have hnt : nm.2.2.1 = true := by
                  cases hq : nm.2.2.1 with
                  | true => rfl
                  | false => rw [hq] at h4; exact absurd rfl h4
                have ho := fs_save_dir_name_offset _ _ _ _ _ _ nm hn hnt
                obtain ⟨t, ht1, ht2⟩ := ih _ _ _ _ r h hs
                rw [ht1]
                refine ⟨SIZEOF_HEADER + c.name_size + t, rfl, ?_⟩
                rw [ht2, ho]
                omega

/-- When `inode_set_size` succeeds, `mem_size` is the size asked for. -/
theorem inode_set_size_mem_size (d : BlockDevice) (inode : INode) (m : Nat)
    (r : BlockDevice × INode × Bool) (h : inode_set_size d inode m = .ok r)
    (hs : r.2.2 = true) : r.2.1.mem_size = m := by
  unfold inode_set_size at h
  by_cases h1 : inode.mem_size < m
  · rw [if_pos h1] at h
    cases hK : inode_get_required_level m d.block_size with
    | error e => rw [hK] at h; cases h
    | ok K =>
      rw [hK] at h
      by_cases h2 : inode.level < K
      · simp only [bind, Except.bind, if_pos h2] at h
        split_ifs at h
        · cases h; cases hs
        · cases h; cases hs
        · cases h; cases hs
        · cases h; rfl
      · simp only [bind, Except.bind, if_neg h2] at h
        cases h
        rfl
  · rw [if_neg h1] at h
    by_cases h3 : m < inode.mem_size
    · rw [if_pos h3] at h
      cases h
      rfl
    · rw [if_neg h3] at h
      cases h
      show inode.mem_size = m
      omega

theorem fs_deref_assign (fs : FS) (p : FilePtr) (f g : File) (h : fs_deref fs p = .ok f)
    (dev : BlockDevice) : fs_deref (fs_assign { fs with device := dev } p g) p = .ok g := by
  rcases fs_deref_eq_ok fs p f h with ⟨hp, _⟩ | ⟨i, hp, hi, _⟩
  · subst hp; rfl
  · subst hp
    simp only [fs_assign, fs_deref]
    rw [List.get?_eq_getElem?, List.getElem?_set_self hi]

/-- The size and flag part of C31, for every directory on every device: after
a successful `fs_save_dir` the directory inode's `mem_size` is the sum of
`10 + name_size` over the children in `head_child` order, and `FILE_IS_DIRTY`
is cleared. -/
theorem fs_save_dir_size_and_flag (fs : FS) (dir : FilePtr) (fs1 : FS)
    (h : fs_save_dir fs dir = .ok (fs1, true)) :
    ∃ d d1 total, fs_deref fs dir = .ok d ∧ fs_deref fs1 dir = .ok d1 ∧
      dir_entries_size fs (fs.dir_cache.length + 2) d.head_child = .ok total ∧
      d1.inode.mem_size = total ∧ d1.flags &&& FILE_IS_DIRTY = 0 := by
  unfold fs_save_dir at h
  cases hd : fs_deref fs dir with
  | error e => rw [hd] at h; cases h
  | ok d =>
    rw [hd] at h
    simp only [bind, Except.bind] at h
    cases hl : fs_save_dir_loop fs (fs.dir_cache.length + 2) fs.device d.inode 0 d.head_child with
    | error e => rw [hl] at h; cases h
    | ok l =>
      rw [hl] at h
      simp only at h
      by_cases h1 : (!l.2.2.1) = true
      · rw [if_pos h1] at h
        simp only [pure, Except.pure, Except.ok.injEq, Prod.mk.injEq] at h
        exact absurd h.2 (by decide)
      · rw [if_neg h1] at h
        have hlt : l.2.2.1 = true := by
          cases hq : l.2.2.1 with
          | true => rfl
          | false => rw [hq] at h1; exact absurd rfl h1
        obtain ⟨t, ht1, ht2⟩ := fs_save_dir_loop_offset fs _ _ _ _ _ l hl hlt
        rw [Nat.zero_add] at ht2
        cases hz : inode_set_size l.1 l.2.1 l.2.2.2 with
        | error e => rw [hz] at h; cases h
        | ok z =>
          rw [hz] at h
          simp only at h
          by_cases h2 : (!z.2.2) = true
          · rw [if_pos h2] at h
            simp only [pure, Except.pure, Except.ok.injEq, Prod.mk.injEq] at h
            exact absurd h.2 (by decide)
          · rw [if_neg h2] at h
            have hzt : z.2.2 = true := by
              cases hq : z.2.2 with
              | true => rfl
              | false => rw [hq] at h2; exact absurd rfl h2
            have hm := inode_set_size_mem_size _ _ _ z hz hzt
            simp only [pure, Except.pure, Except.ok.injEq, Prod.mk.injEq] at h
            refine ⟨d, (⟨d.name, d.next, d.head_child, d.name_size,
              d.flags &&& (2 ^ 16 - 1 - FILE_IS_DIRTY), z.2.1⟩ : File), t, rfl, ?_, ht1, ?_, ?_⟩
            · rw [← h.1]
              exact fs_deref_assign fs dir d _ hd _
            · show z.2.1.mem_size = t
              rw [hm, ht2]
            · show d.flags &&& (2 ^ 16 - 1 - FILE_IS_DIRTY) &&& FILE_IS_DIRTY = 0
              rw [Nat.land_assoc]
              have : (2 ^ 16 - 1 - FILE_IS_DIRTY) &&& FILE_IS_DIRTY = 0 := by decide
              rw [this]
              exact Nat.and_zero _

/-! ## Claim C32: the amended statement -/

/-- C32, amended. For every device, inode and 64-bit offset, with nothing to
write: at an offset that is at most `mem_size`, `inode_write` returns failure
and leaves the device and the inode as they are, and `inode_read` of 0 bytes
there returns success; at an offset above `mem_size`, when the
`inode_set_size(offset)` that the write makes returns success, `inode_write`
returns success with the device and the inode that `inode_set_size` left, and
`mem_size` has grown to the offset. -/
theorem C32_zero_write_not_uniform (device : BlockDevice) (inode : INode) (mem_offset : Nat)
    (mem : List Nat) (h64 : mem_offset < 2 ^ 64) :
    (mem_offset ≤ inode.mem_size →
      inode_write device inode mem_offset mem 0 = .ok (device, inode, false) ∧
        inode_read device inode mem_offset mem 0 = .ok (device, true, mem)) ∧
      (inode.mem_size < mem_offset →
        ∀ g, inode_set_size device inode mem_offset = .ok g → g.2.2 = true →
          inode_write device inode mem_offset mem 0 = .ok (g.1, g.2.1, true) ∧
            g.2.1.mem_size = mem_offset ∧ inode.mem_size < g.2.1.mem_size) := by
  constructor
  · intro hle
    refine ⟨inode_write_zero_within device inode mem_offset mem hle h64, ?_⟩
    unfold inode_read
    have h3 : ¬ inode.mem_size < mem_offset := by omega
    simp only [Nat.add_zero, Nat.mod_eq_of_lt h64, Nat.not_lt_zero, if_false, if_neg h3, if_true]
    rfl
  · intro hlt g hg hs
    have hm := inode_set_size_mem_size device inode mem_offset g hg hs
    refine ⟨inode_write_zero_size device inode mem_offset mem g hlt h64 hg, hm, ?_⟩
    rw [hm]
    exact hlt

/-- The instance of C32 on a device of 2 blocks of 512 bytes and the new
inode (`mem_size = 0`): the write of 0 bytes at offset 5 returns success and
`mem_size` is 5 afterwards; the write of 0 bytes at offset 0 returns failure
and changes nothing, and the read of 0 bytes at offset 0 returns success. -/
theorem C32_zero_write_not_uniform_witness :
    C32_start.2.mem_size = 0 ∧
      (∃ g : BlockDevice × INode × Bool,
        inode_set_size C32_start.1 C32_start.2 5 = .ok g ∧ g.2.2 = true ∧
        inode_write C32_start.1 C32_start.2 5 [] 0 = .ok (g.1, g.2.1, true) ∧
        g.2.1.mem_size = 5) ∧
      inode_write C32_start.1 C32_start.2 0 [] 0 = .ok (C32_start.1, C32_start.2, false) ∧
      inode_read C32_start.1 C32_start.2 0 [] 0 = .ok (C32_start.1, true, []) := by
  have hm : C32_start.2.mem_size = 0 := by decide!
  have hg := eq_ok_result_or (inode_set_size C32_start.1 C32_start.2 5)
    (C32_start.1, C32_start.2, false) (by decide!)
  have hs : (result_or (inode_set_size C32_start.1 C32_start.2 5)
      (C32_start.1, C32_start.2, false)).2.2 = true := by decide!
  have h5 := (C32_zero_write_not_uniform C32_start.1 C32_start.2 5 [] (by decide)).2
    (by decide!) _ hg hs
  have h0 := (C32_zero_write_not_uniform C32_start.1 C32_start.2 0 [] (by decide)).1
    (Nat.zero_le _)
  exact ⟨hm, ⟨_, hg, hs, h5.1, h5.2.1⟩, h0.1, h0.2⟩

end Fs
